import Mathlib

/-!
# ApiExtractor meta-model builder: a shallow embedding

The definitions below follow `sources/shiboken2/ApiExtractor/abstractmetabuilder.cpp`
(class `AbstractMetaBuilderPrivate`).  Objects that the C++ code handles through
pointers (`AbstractMetaClass *`) are kept in an arena: a class is named by a
`ClassId` and its record is read from the builder's `heap`.  Value-like objects
(`TypeEntry`, `AbstractMetaType`, `AbstractMetaFunction`, ...) are records; where
the C++ code compares pointers to such objects the embedding compares the
records, whose `addr` field carries the identity of the object.

Logging (`qCWarning`, `qCDebug`, `ReportHandler`) has no effect on the model and
is left out.
-/

namespace ApiExtractor

/-! ## Dependency graph -/

/-- Modelled from the spec: class `Graph` (graph.h and graph.cpp are not part of
the sources).  A graph has `nodeCount` nodes `0 .. nodeCount - 1` and a collection
of directed edges `(from, to)`. -/
structure Graph where
  nodeCount : Nat
  edges : List (Nat × Nat) := []
deriving DecidableEq, Repr

namespace Graph

/-- Modelled from the spec: `Graph::addEdge(from, to)` (graph.cpp is not part of
the sources): "edges added for ..." -- the edge joins the edge collection. -/
def addEdge (g : Graph) (src dst : Nat) : Graph :=
  { g with edges := g.edges ++ [(src, dst)] }

/-- A node of `rem` none of whose predecessors is still in `rem`. -/
def isSource (g : Graph) (rem : List Nat) (v : Nat) : Bool :=
  rem.all (fun u => !(g.edges.contains (u, v)))

/-- Modelled from the spec: the worker of `Graph::topologicalSort` (graph.cpp is
not part of the sources), "a standard topological sort": repeatedly emit a
remaining node that has no remaining predecessor.  `none` when no such node
exists although nodes remain, that is, when the remaining nodes contain a
cycle. -/
def sortAux (g : Graph) : Nat → List Nat → Option (List Nat)
  | _, [] => some []
  | 0, _ :: _ => none
  | fuel + 1, u :: rem =>
    match (u :: rem).find? (g.isSource (u :: rem)) with
    | none => none
    | some v => (sortAux g fuel ((u :: rem).erase v)).map (fun out => v :: out)

/-- Modelled from the spec: `Graph::topologicalSort` (graph.cpp is not part of
the sources): "Runs a standard topological sort"; "If the graph contains a
cycle, ... the whole result is discarded (treated as empty)". -/
def topologicalSort (g : Graph) : List Nat :=
  (g.sortAux g.nodeCount (List.range g.nodeCount)).getD []

/-- The graph has a cycle: some node reaches itself along at least one edge. -/
def HasCycle (g : Graph) : Prop :=
  ∃ v, Relation.TransGen (fun a b => (a, b) ∈ g.edges) v v

/-- All edge endpoints are nodes of the graph. -/
def EdgesInRange (g : Graph) : Prop :=
  ∀ e ∈ g.edges, e.1 < g.nodeCount ∧ e.2 < g.nodeCount

end Graph

/-! ## Type system entries (typesystem.h) -/

/-- The enumeration `TypeEntry::Type`. -/
inductive TypeEntryType where
  | PrimitiveType | VoidType | VarargsType | FlagsType | EnumType | EnumValue
  | TemplateArgumentType | ThreadType | BasicValueType | StringType | ContainerType
  | InterfaceType | ObjectType | NamespaceType | VariantType | JObjectWrapperType
  | CharType | ArrayType | TypeSystemType | CustomType | TargetLangType | FunctionType
  | SmartPointerType | TypedefType
deriving DecidableEq, Repr

/-- `TypeEntry::GenerateTargetLang`. -/
def GenerateTargetLang : Nat := 0x0001
/-- `TypeEntry::GenerateCpp`. -/
def GenerateCpp : Nat := 0x0002
/-- `TypeEntry::GenerateForSubclass`. -/
def GenerateForSubclass : Nat := 0x0004
/-- `TypeEntry::GenerateNothing`. -/
def GenerateNothing : Nat := 0
/-- `TypeEntry::GenerateAll`. -/
def GenerateAll : Nat := 0xffff

/-- `TypeSystem::ExceptionHandling` and `TypeSystem::AllowThread` share this shape
in the embedding: `Unspecified` or a specified value (the enumerations are
declared in typesystem_enums.h, which is not part of the sources). -/
inductive ModSetting where
  | Unspecified
  | Specified (v : Nat)
deriving DecidableEq, Repr

/-- `struct ArgumentModification`, the members read by the builder. -/
structure ArgumentModification where
  index : Int := -1
  renamed_to : String := ""
  replacedDefaultExpression : String := ""
  removedDefaultExpression : Bool := false
  removed : Bool := false
  array : Bool := false
deriving DecidableEq, Repr

/-- `Modification::Modifiers`, access part: the value of `modifiers & AccessModifierMask`. -/
inductive AccessModifier where
  | InvalidModifier | Private | Protected | Public | Friendly
deriving DecidableEq, Repr

/-- `struct FunctionModification : Modification`.  The bit set `modifiers` is
kept as one field per group of bits that the builder tests. -/
structure FunctionModification where
  /-- `m_signature`, the fixed signature. -/
  signature : String := ""
  /-- The pattern of `m_signaturePattern`. -/
  signaturePattern : String := ""
  renamedToName : String := ""
  /-- `modifiers & Rename`. -/
  isRenameModifier : Bool := false
  /-- `modifiers & AccessModifierMask`. -/
  accessModifier : AccessModifier := .InvalidModifier
  /-- `modifiers & Final`. -/
  isFinal : Bool := false
  /-- `modifiers & NonFinal`. -/
  isNonFinal : Bool := false
  argument_mods : List ArgumentModification := []
  exceptionHandling : ModSetting := .Unspecified
  allowThread : ModSetting := .Unspecified
deriving DecidableEq, Repr

namespace FunctionModification

/-- `Modification::isAccessModifier`. -/
def isAccessModifier (m : FunctionModification) : Bool :=
  m.accessModifier != .InvalidModifier
/-- `Modification::isPublic`. -/
def isPublic (m : FunctionModification) : Bool := m.accessModifier == .Public
/-- `Modification::isProtected`. -/
def isProtected (m : FunctionModification) : Bool := m.accessModifier == .Protected
/-- `Modification::isPrivate`. -/
def isPrivate (m : FunctionModification) : Bool := m.accessModifier == .Private
/-- `Modification::isFriendly`. -/
def isFriendly (m : FunctionModification) : Bool := m.accessModifier == .Friendly
/-- `Modification::renamedTo`. -/
def renamedTo (m : FunctionModification) : String := m.renamedToName

end FunctionModification

/-- `struct AddedFunction::TypeInfo`. -/
structure AddedFunctionTypeInfo where
  name : String := ""
  defaultValue : String := ""
  indirections : Nat := 0
  isConstant : Bool := false
  isReference : Bool := false
deriving DecidableEq, Repr

/-- `AddedFunction::Access`. -/
inductive AddedFunctionAccess where
  | InvalidAccess | Protected | Public
deriving DecidableEq, Repr

/-- `struct AddedFunction`. -/
structure AddedFunction where
  name : String := ""
  arguments : List AddedFunctionTypeInfo := []
  returnType : AddedFunctionTypeInfo := {}
  isConstant : Bool := false
  isStatic : Bool := false
  access : AddedFunctionAccess := .Public
deriving DecidableEq, Repr

/-- `class TypeEntry` and the members of its subclasses that the builder reads.
`addr` is the identity of the entry object; `designatedInterface` holds the
`addr` of the designated `InterfaceTypeEntry` when there is one. -/
structure TypeEntry where
  addr : Nat := 0
  name : String := ""
  type : TypeEntryType := .ObjectType
  codeGeneration : Nat := GenerateAll
  /-- Virtual `qualifiedCppName()`. -/
  qualifiedCppName : String := ""
  /-- Virtual `designatedInterface()`. -/
  designatedInterface : Option Nat := none
  /-- Virtual `isValue()`. -/
  isValue : Bool := false
  /-- Virtual `isComplex()`. -/
  isComplex : Bool := false
  stream : Bool := false
  /-- `TemplateArgumentEntry::ordinal()`. -/
  ordinal : Nat := 0
  /-- `ArrayTypeEntry::nestedTypeEntry()`, as the `addr` of the nested entry. -/
  nestedType : Option Nat := none
  /-- `ComplexTypeEntry::functionModifications()`. -/
  functionMods : List FunctionModification := []
  /-- `ComplexTypeEntry::addedFunctions()`. -/
  addedFunctions : List AddedFunction := []
  /-- `include().isValid()`. -/
  includeIsValid : Bool := false
deriving DecidableEq, Repr

namespace TypeEntry

def isEnum (t : TypeEntry) : Bool := t.type == .EnumType
def isInterface (t : TypeEntry) : Bool := t.type == .InterfaceType
def isObject (t : TypeEntry) : Bool := t.type == .ObjectType
def isContainer (t : TypeEntry) : Bool := t.type == .ContainerType
def isSmartPointer (t : TypeEntry) : Bool := t.type == .SmartPointerType
def isTemplateArgument (t : TypeEntry) : Bool := t.type == .TemplateArgumentType
def isVoid (t : TypeEntry) : Bool := t.type == .VoidType
def isCustom (t : TypeEntry) : Bool := t.type == .CustomType
def isNamespace (t : TypeEntry) : Bool := t.type == .NamespaceType

/-- `TypeEntry::generateCode`. -/
def generateCode (t : TypeEntry) : Bool :=
  t.codeGeneration != GenerateForSubclass && t.codeGeneration != GenerateNothing

/-- `InterfaceTypeEntry::interfaceName`. -/
def interfaceName (name : String) : String := name ++ "Interface"

end TypeEntry

/-! ## Code model items (parser/codemodel.h is not part of the sources; the
records carry the members that the builder reads) -/

/-- `enum ReferenceType` (codemodel_enums.h). -/
inductive ReferenceType where
  | NoReference | LValueReference | RValueReference
deriving DecidableEq, Repr

/-- `enum EnumKind` (codemodel_enums.h). -/
inductive EnumKind where
  | CEnum | AnonymousEnum | EnumClass
deriving DecidableEq, Repr

/-- `CodeModel::AccessPolicy`. -/
inductive AccessPolicy where
  | Public | Protected | Private
deriving DecidableEq, Repr

/-- `CodeModel::FunctionType`. -/
inductive CodeModelFunctionType where
  | Normal | Constructor | CopyConstructor | MoveConstructor | Destructor | Signal | Slot
deriving DecidableEq, Repr

/-- `class TypeInfo`.  `toString` and `isVoid` are results of member functions
defined in codemodel.cpp; they are carried as members. -/
structure TypeInfo where
  qualifiedName : List String := []
  indirections : Nat := 0
  isConstant : Bool := false
  isVolatile : Bool := false
  referenceType : ReferenceType := .NoReference
  isFunctionPointer : Bool := false
  arrayElements : List String := []
  instantiations : List TypeInfo := []
  /-- `arguments().size()`: the number of arguments of a function pointer type. -/
  argumentCount : Nat := 0
  toString : String := ""
  isVoid : Bool := false

/-- `_ArgumentModelItem`. -/
structure ArgumentModelItem where
  name : String := ""
  type : TypeInfo := { instantiations := [] }
  defaultValue : Bool := false
  defaultValueExpression : String := ""

/-- `_FunctionModelItem`. -/
structure FunctionModelItem where
  name : String := ""
  type : TypeInfo := { instantiations := [] }
  arguments : List ArgumentModelItem := []
  functionType : CodeModelFunctionType := .Normal
  accessPolicy : AccessPolicy := .Public
  isDeleted : Bool := false
  templateParameters : List String := []
  isFriend : Bool := false
  isDeprecated : Bool := false
  isConstant : Bool := false
  isAbstract : Bool := false
  isVirtual : Bool := false
  isOverride : Bool := false
  isFinal : Bool := false
  isInvokable : Bool := false
  isStatic : Bool := false
  isExplicit : Bool := false
  exceptionSpecification : Nat := 0

/-- `_EnumeratorModelItem`. -/
structure EnumeratorModelItem where
  name : String := ""
  stringValue : String := ""
  value : Int := 0
deriving DecidableEq, Repr

/-- `_EnumModelItem`. -/
structure EnumModelItem where
  name : String := ""
  qualifiedName : List String := []
  accessPolicy : AccessPolicy := .Public
  enumKind : EnumKind := .CEnum
  isSigned : Bool := true
  enumerators : List EnumeratorModelItem := []
  fileName : String := ""
deriving DecidableEq, Repr

/-- `_ClassModelItem::BaseClass`. -/
structure BaseClass where
  name : String := ""
  accessPolicy : AccessPolicy := .Public
deriving DecidableEq, Repr

/-- `_TypeDefModelItem`. -/
structure TypeDefModelItem where
  name : String := ""
  type : TypeInfo := { instantiations := [] }
  fileName : String := ""

/-- `_ClassModelItem`, the members read by `traverseClass`, apart from
`classes()`. -/
structure ClassModelItem where
  name : String := ""
  isFinal : Bool := false
  baseClasses : List BaseClass := []
  /-- The names of `templateParameters()`. -/
  templateParameters : List String := []
  fileName : String := ""
  propertyDeclarations : List String := []
  enums : List EnumModelItem := []
  enumsDeclarations : List String := []
  typeDefs : List TypeDefModelItem := []

/-- A class of the code model with the classes declared in it: the item and
its `classes()`, each with the classes declared in it. -/
inductive ClassTree where
  | node (item : ClassModelItem) (classes : List ClassTree)

/-- The item of a class of the code model. -/
def ClassTree.item : ClassTree → ClassModelItem
  | .node item _ => item

/-- The classes declared in a class of the code model. -/
def ClassTree.classes : ClassTree → List ClassTree
  | .node _ classes => classes

/-- A code model item that is a key of `m_itemToClass`. -/
inductive CodeModelItem where
  | classItem (item : ClassModelItem)
  | typeDef (item : TypeDefModelItem)

/-- `_ScopeModelItem`, an element of the scope stack `m_scopes`. -/
structure ScopeModelItem where
  name : String := ""
  qualifiedName : List String := []
deriving DecidableEq, Repr

/-! ## Meta model (abstractmetalang.h is not part of the sources; the records carry
the members that the builder reads and writes) -/

/-- Index of a class object in the builder's arena (an `AbstractMetaClass *`). -/
abbrev ClassId := Nat

/-- `class AbstractMetaType`.  `isValue` is the result of the member function
of that name. -/
structure AbstractMetaType where
  typeEntry : TypeEntry := {}
  indirections : Nat := 0
  referenceType : ReferenceType := .NoReference
  constant : Bool := false
  isVolatile : Bool := false
  instantiations : List AbstractMetaType := []
  /-- Set by `setArrayElementType`. -/
  arrayElementType : Option AbstractMetaType := none
  /-- Set by `setArrayElementCount`; no value when it has not been called. -/
  arrayElementCount : Option Int := none
  isValue : Bool := false
  originalTypeDescription : String := ""
  /-- Set by `setOriginalTemplateType`. -/
  hasOriginalTemplateType : Bool := false

/-- `AbstractMetaType::hasInstantiations`. -/
def AbstractMetaType.hasInstantiations (t : AbstractMetaType) : Bool :=
  !t.instantiations.isEmpty

/-- `class QPropertySpec`. -/
structure QPropertySpec where
  name : String := ""
  type : TypeEntry := {}
  read : String := ""
  write : String := ""
  reset : String := ""
  designable : String := ""
  index : Int := -1
deriving DecidableEq, Repr

/-- `AbstractMetaAttributes::Attribute`, the flags that the builder sets or tests. -/
inductive Attribute where
  | Private | Protected | Public | Friendly
  | FinalInTargetLang | Abstract | Static | Invokable | Deprecated
  | VirtualCppMethod | OverriddenCppMethod | FinalCppMethod | FinalCppClass
  | PropertyReader | PropertyWriter | PropertyResetter
  | HasRejectedConstructor | HasRejectedDefaultConstructor
deriving DecidableEq, Repr

/-- `AbstractMetaAttributes::Attributes`, a flag set.  The C++ value is a bit
mask; the embedding keeps the set of flags that are on. -/
abbrev Attributes := List Attribute

namespace Attributes

/-- `operator+=` of `AbstractMetaAttributes`: switch a flag on. -/
def add (a : Attributes) (f : Attribute) : Attributes := if f ∈ a then a else a ++ [f]
/-- `operator-=` of `AbstractMetaAttributes`: switch a flag off. -/
def remove (a : Attributes) (f : Attribute) : Attributes := a.filter (fun g => g != f)
/-- `attributes() & flag`. -/
def has (a : Attributes) (f : Attribute) : Bool := a.contains f
/-- `attributes() | other`. -/
def union (a b : Attributes) : Attributes := b.foldl add a

end Attributes

/-- `class AbstractMetaArgument`. -/
structure AbstractMetaArgument where
  name : String := ""
  originalName : String := ""
  type : AbstractMetaType := { instantiations := [], arrayElementType := none }
  argumentIndex : Nat := 0
  defaultValueExpression : String := ""
  originalDefaultValueExpression : String := ""

/-- `AbstractMetaFunction::FunctionType`. -/
inductive FunctionType where
  | ConstructorFunction | CopyConstructorFunction | MoveConstructorFunction
  | AssignmentOperatorFunction | MoveAssignmentOperatorFunction | DestructorFunction
  | NormalFunction | SignalFunction | EmptyFunction | SlotFunction | GlobalScopeFunction
deriving DecidableEq, Repr

/-- `class AbstractMetaFunction`. -/
structure AbstractMetaFunction where
  name : String := ""
  originalName : String := ""
  functionType : FunctionType := .NormalFunction
  type : Option AbstractMetaType := none
  arguments : List AbstractMetaArgument := []
  attributes : Attributes := []
  originalAttributes : Attributes := []
  constant : Bool := false
  isExplicit : Bool := false
  reverseOperator : Bool := false
  pointerOperator : Bool := false
  exceptionSpecification : Nat := 0
  exceptionHandlingModification : ModSetting := .Unspecified
  allowThreadModification : ModSetting := .Unspecified
  declaringClass : Option ClassId := none
  implementingClass : Option ClassId := none
  ownerClass : Option ClassId := none
  propertySpec : Option QPropertySpec := none
  /-- The function was built from an `AddedFunction`. -/
  isUserAdded : Bool := false

namespace AbstractMetaFunction

/-- `AbstractMetaFunction::isConstructor`: one of the three constructor kinds. -/
def isConstructor (f : AbstractMetaFunction) : Bool :=
  f.functionType == .ConstructorFunction || f.functionType == .CopyConstructorFunction
    || f.functionType == .MoveConstructorFunction
def isDestructor (f : AbstractMetaFunction) : Bool := f.functionType == .DestructorFunction
def isSignal (f : AbstractMetaFunction) : Bool := f.functionType == .SignalFunction
def isPrivate (f : AbstractMetaFunction) : Bool := f.attributes.has .Private
def isProtected (f : AbstractMetaFunction) : Bool := f.attributes.has .Protected
def isPublic (f : AbstractMetaFunction) : Bool := f.attributes.has .Public
def isVirtual (f : AbstractMetaFunction) : Bool := f.attributes.has .VirtualCppMethod

end AbstractMetaFunction

/-- `class AbstractMetaField`. -/
structure AbstractMetaField where
  name : String := ""
  type : AbstractMetaType := { instantiations := [], arrayElementType := none }
  attributes : Attributes := []
  originalAttributes : Attributes := []
  enclosingClass : Option ClassId := none

/-- `class AbstractMetaEnumValue`. -/
structure AbstractMetaEnumValue where
  name : String := ""
  stringValue : String := ""
  value : Int := 0
deriving DecidableEq, Repr

/-- `class AbstractMetaEnum`. -/
structure AbstractMetaEnum where
  typeEntry : TypeEntry := {}
  enumKind : EnumKind := .CEnum
  isSigned : Bool := true
  hasQEnumsDeclaration : Bool := false
  attributes : Attributes := []
  originalAttributes : Attributes := []
  enumValues : List AbstractMetaEnumValue := []
  /-- Set by `setEnclosingClass`. -/
  enclosingClass : Option ClassId := none
deriving DecidableEq, Repr

/-- `class AbstractMetaClass`.  `name`, `qualifiedCppName`, `fullName` and
`isInterface` are results of the member functions of those names. -/
structure AbstractMetaClass where
  typeEntry : TypeEntry := {}
  name : String := ""
  qualifiedCppName : String := ""
  fullName : String := ""
  isInterface : Bool := false
  isNamespace : Bool := false
  isTypeDef : Bool := false
  attributes : Attributes := []
  baseClassNames : List String := []
  baseClass : Option ClassId := none
  interfaces : List ClassId := []
  enclosingClass : Option ClassId := none
  innerClasses : List ClassId := []
  functions : List AbstractMetaFunction := []
  fields : List AbstractMetaField := []
  propertySpecs : List QPropertySpec := []
  templateArguments : List TypeEntry := []
  /-- `typeEntry()->baseContainerType()`. -/
  baseContainerType : Option TypeEntry := none
  templateBaseClass : Option ClassId := none
  templateBaseClassInstantiations : List AbstractMetaType := []
  hasNonPrivateConstructor : Bool := false
  hasPrivateConstructor : Bool := false
  hasPrivateDestructor : Bool := false
  hasProtectedDestructor : Bool := false
  hasVirtualDestructor : Bool := false
  hasEqualsOperator : Bool := false
  hasCloneOperator : Bool := false
  hasHashFunction : Bool := false
  forceShellClass : Bool := false
  /-- Set by `setStream`, read by `isStream`. -/
  stream : Bool := false
  /-- Set by `setOriginalAttributes`. -/
  originalAttributes : Attributes := []
  /-- The enums added by `addEnum`. -/
  enums : List AbstractMetaEnum := []

/-! ## Strings -/

/-- `QString::split(QLatin1String("::"))` on the characters of a string: the
pieces between successive occurrences of the separator, empty pieces kept. -/
def splitColonColonAux : List Char → List Char → List String
  | [], acc => [String.mk acc.reverse]
  | ':' :: ':' :: rest, acc => String.mk acc.reverse :: splitColonColonAux rest []
  | c :: rest, acc => splitColonColonAux rest (c :: acc)

/-- `s.split(colonColon())`. -/
def splitColonColon (s : String) : List String := splitColonColonAux s.data []

/-- `list.join(colonColon())`. -/
def joinColonColon (l : List String) : String := String.intercalate "::" l

/-- `QString::contains(QLatin1Char(c))`. -/
def containsChar (s : String) (c : Char) : Bool := s.data.contains c

/-- `QString::isEmpty`. -/
def isEmptyString (s : String) : Bool := s.data.isEmpty

/-- The UTF-16 code units of a character, as a `QString` holds them: one unit
for a character below U+10000, a high and a low surrogate for any other. -/
def utf16Units (c : Char) : List Nat :=
  if c.toNat < 0x10000 then [c.toNat]
  else [0xD800 + (c.toNat - 0x10000) / 0x400, 0xDC00 + (c.toNat - 0x10000) % 0x400]

/-- The UTF-16 code units of a string. -/
def codeUnits (s : String) : List Nat := s.data.flatMap utf16Units

/-- `operator<` of `QString` on the code units of the two strings: the first
unit that differs decides, and a proper beginning of a string is less than the
string. -/
def stringLessAux : List Nat → List Nat → Bool
  | _, [] => false
  | [], _ :: _ => true
  | a :: as, b :: bs => decide (a < b) || (a == b && stringLessAux as bs)

/-- `operator<` of `QString`, which compares the UTF-16 code units. -/
def stringLess (a b : String) : Bool := stringLessAux (codeUnits a) (codeUnits b)

/-! ## Collaborators that are not part of the sources -/

/-- `class TypeDatabase` (typedatabase.h and typedatabase.cpp are not part of the
sources): the registry queries that the builder makes.  A rejection query
returns the reject reason text when the entity is rejected. -/
structure TypeDatabase where
  findType : String → Option TypeEntry := fun _ => none
  findComplexType : String → Option TypeEntry := fun _ => none
  findContainerType : String → Option TypeEntry := fun _ => none
  findFlagsType : String → Option TypeEntry := fun _ => none
  findPrimitiveType : String → Option TypeEntry := fun _ => none
  isClassRejected : String → Bool := fun _ => false
  isEnumRejected : String → String → Option String := fun _ _ => none
  isFunctionRejected : String → String → Option String := fun _ _ => none
  isReturnTypeRejected : String → String → Option String := fun _ _ => none
  isArgumentTypeRejected : String → String → Option String := fun _ _ => none

/-- `AbstractMetaBuilder::RejectReason`. -/
inductive RejectReason where
  | NotInTypeSystem | GenerationDisabled | RedefinedToNotClass | UnmatchedArgumentType
  | UnmatchedReturnType | ApiIncompatible | Deprecated | NoReason
deriving DecidableEq, Repr

/-- `QMap<QString, RejectReason>::insert`: the value of an existing key is replaced. -/
def rejectInsert (m : List (String × RejectReason)) (key : String) (r : RejectReason) :
    List (String × RejectReason) :=
  if m.any (fun e => e.1 == key) then m.map (fun e => if e.1 == key then (key, r) else e)
  else m ++ [(key, r)]

/-- `Include::IncludeType` (include.h is not part of the sources). -/
inductive IncludeType where
  | IncludePath | LocalPath | TargetLangImport
deriving DecidableEq, Repr

/-- `class Include` (include.h is not part of the sources): the kind and the
name of an include. -/
structure Include where
  type : IncludeType := .IncludePath
  name : String := ""
deriving DecidableEq, Repr

/-- A write of the builder to the type database or to one of its entries. -/
inductive TypeDatabaseWrite where
  /-- `TypeDatabase::addType(entry)`. -/
  | addType (entry : TypeEntry)
  /-- `entry->setCodeGeneration(cg)`. -/
  | setCodeGeneration (entry : TypeEntry) (cg : Nat)
  /-- `enumEntry->setNullValue(valueEntry)`. -/
  | setNullValue (enumEntry valueEntry : TypeEntry)
  /-- `entry->setInclude(inc)`. -/
  | setInclude (entry : TypeEntry) (inc : Include)
  /-- `entry->setReferencedTypeEntry(referenced)`, with nothing for the null pointer. -/
  | setReferencedTypeEntry (entry : TypeEntry) (referenced : Option TypeEntry)
deriving DecidableEq, Repr

/-- `class AbstractMetaBuilderPrivate`: the members used by the functions below,
with the arena `heap` of class objects.  `typeDatabaseWrites` lists, in order,
what the builder has written to the type database; the queries of
`TypeDatabase` are those of the registry as a call finds it. -/
structure AbstractMetaBuilderPrivate where
  heap : ClassId → AbstractMetaClass := fun _ => {}
  m_metaClasses : List ClassId := []
  m_templates : List ClassId := []
  m_smartPointers : List ClassId := []
  m_setupInheritanceDone : List ClassId := []
  m_rejectedClasses : List (String × RejectReason) := []
  m_rejectedEnums : List (String × RejectReason) := []
  m_rejectedFunctions : List (String × RejectReason) := []
  m_rejectedFields : List (String × RejectReason) := []
  m_enums : List (TypeEntry × AbstractMetaEnum) := []
  m_skipDeprecated : Bool := false
  typeDatabaseWrites : List TypeDatabaseWrite := []
  m_scopes : List ScopeModelItem := []
  m_globalEnums : List AbstractMetaEnum := []
  /-- The path of the file of `m_globalHeader`. -/
  m_globalHeader : String := ""
  m_headerPaths : List String := []
  /-- `m_resolveIncludeHash`, as the list of its keys and values. -/
  m_resolveIncludeHash : List (String × Include) := []
  /-- `m_itemToClass`, as the list of its keys and values, the last one inserted
  first. -/
  m_itemToClass : List (CodeModelItem × ClassId) := []

/-- The outcome of `translateType(const AddedFunction::TypeInfo &)`: the call
ends the program through `qFatal` (type not found), returns no type (the type
name is `void`), or returns a type. -/
inductive AddedTypeResult where
  | fatal
  | noType
  | type (t : AbstractMetaType)

/-- Functions of the code model, the type parser and the meta language that the
builder calls and whose definitions are not part of the sources
(abstractmetalang.cpp, typeparser.cpp, codemodel.cpp).  They are parameters of
the embedding. -/
structure Env where
  types : TypeDatabase := {}
  /-- `AbstractMetaClass::findClass(classes, name)`. -/
  findClass : (ClassId → AbstractMetaClass) → List ClassId → String → Option ClassId :=
    fun _ _ _ => none
  /-- `AbstractMetaClass::findClass(classes, typeEntry)`. -/
  findClassByEntry : (ClassId → AbstractMetaClass) → List ClassId → TypeEntry → Option ClassId :=
    fun _ _ _ => none
  /-- `TypeParser::parse`. -/
  parse : String → TypeInfo := fun _ => { instantiations := [] }
  /-- `AbstractMetaBuilderPrivate::translateType(typeInfo, currentClass, true, &errorMessage)`,
  given what the call reads of the builder: the class objects, `m_metaClasses` and
  `m_templates`. -/
  translateType : (ClassId → AbstractMetaClass) → List ClassId → List ClassId → TypeInfo →
      Option ClassId → Option AbstractMetaType := fun _ _ _ _ _ => none
  /-- `AbstractMetaFunction::modifications(implementor)`. -/
  modifications : AbstractMetaFunction → Option AbstractMetaClass → List FunctionModification :=
    fun _ _ => []
  /-- `AbstractMetaFunction::replacedDefaultExpression(cls, idx)`. -/
  replacedDefaultExpression : AbstractMetaFunction → AbstractMetaClass → Nat → String :=
    fun _ _ _ => ""
  /-- `AbstractMetaFunction::removedDefaultExpression(cls, idx)`. -/
  removedDefaultExpression : AbstractMetaFunction → Option AbstractMetaClass → Nat → Bool :=
    fun _ _ _ => false
  /-- `AbstractMetaType::applyArrayModification`: the modified type, or nothing on error. -/
  applyArrayModification : AbstractMetaType → Option AbstractMetaType := fun t => some t
  /-- `AbstractMetaType::decideUsagePattern`. -/
  decideUsagePattern : AbstractMetaType → AbstractMetaType := fun t => t
  /-- `AbstractMetaFunction::isModifiedRemoved(TypeSystem::All)`. -/
  functionIsModifiedRemoved : AbstractMetaFunction → Bool := fun _ => false
  /-- `AbstractMetaField::isModifiedRemoved(TypeSystem::All)`. -/
  fieldIsModifiedRemoved : AbstractMetaField → Bool := fun _ => false
  /-- `AbstractMetaFunction::minimalSignature`. -/
  minimalSignature : AbstractMetaFunction → String := fun f => f.name
  /-- `AbstractMetaFunction::isConversionOperator`. -/
  isConversionOperator : AbstractMetaFunction → Bool := fun _ => false
  /-- `AbstractMetaFunction::isOperatorOverload`. -/
  isOperatorOverload : AbstractMetaFunction → Bool := fun _ => false
  /-- `AbstractMetaFunction::isCallOperator`. -/
  isCallOperator : AbstractMetaFunction → Bool := fun _ => false
  /-- `AbstractMetaClass::propertySpecForRead`. -/
  propertySpecForRead : AbstractMetaClass → String → Option QPropertySpec :=
    fun c name => c.propertySpecs.find? (fun spec => spec.read == name)
  /-- `AbstractMetaClass::propertySpecForWrite`. -/
  propertySpecForWrite : AbstractMetaClass → String → Option QPropertySpec :=
    fun c name => c.propertySpecs.find? (fun spec => spec.write == name)
  /-- `AbstractMetaClass::propertySpecForReset`. -/
  propertySpecForReset : AbstractMetaClass → String → Option QPropertySpec :=
    fun c name => c.propertySpecs.find? (fun spec => spec.reset == name)
  /-- The constructor `AbstractMetaFunction(const AddedFunctionPtr &)`. -/
  newFunctionFromAdded : AddedFunction → AbstractMetaFunction :=
    fun a => { name := a.name, originalName := a.name, constant := a.isConstant,
               isUserAdded := true }
  /-- `AbstractMetaBuilderPrivate::translateType(const AddedFunction::TypeInfo &)`. -/
  translateAddedType : AddedFunctionTypeInfo → AddedTypeResult := fun _ => .noType
  /-- The constructor `EnumTypeEntry(nspace, enumName, version)`. -/
  newEnumTypeEntry : String → String → TypeEntry :=
    fun nspace enumName =>
      { name := if isEmptyString nspace then enumName else nspace ++ "::" ++ enumName,
        type := .EnumType }
  /-- The constructor `EnumValueTypeEntry(name, value, enclosingEnum, version)`. -/
  newEnumValueTypeEntry : String → String → TypeEntry → TypeEntry :=
    fun name _ _ => { name := name, type := .EnumValue }
  /-- `msgUnmatchedParameterType(arg, i, errorMessage)` (messages.cpp), for the
  error message that the failed `translateType` call has left. -/
  msgUnmatchedParameterType : ArgumentModelItem → Nat → String := fun _ _ => ""
  /-- Whether `AbstractMetaClass::functions()` and `fields()` return a reference to
  the list of the class (abstractmetalang.h is not part of the sources): a list
  bound to their result then follows the later additions to the class. -/
  listsByReference : Bool := false
  /-- `TypeInfo::resolveType(type, scope)` (codemodel.cpp). -/
  resolveType : TypeInfo → ScopeModelItem → TypeInfo := fun t _ => t
  /-- The members `toString` and `isVoid` of a `TypeInfo` that the builder has put
  together with the setters of the class (codemodel.cpp): the type with these two
  members filled in. -/
  newTypeInfo : TypeInfo → TypeInfo := fun t => t
  /-- `currentScope()` (abstractmetabuilder_p.h), given `m_scopes`. -/
  currentScope : List ScopeModelItem → ScopeModelItem := fun scopes => scopes.getLast?.getD {}
  /-- `cls->extractInterface()` (abstractmetalang.cpp), given the class objects, the
  class and the address of the next new object: the class objects after the call
  and the interface class that is returned. -/
  extractInterface : (ClassId → AbstractMetaClass) → ClassId → ClassId →
      (ClassId → AbstractMetaClass) × ClassId := fun heap _ next => (heap, next)
  /-- `QString::toLongLong(&ok, base)`: the value when `ok` is set. -/
  toLongLong : String → Nat → Option Int := fun _ _ => none
  /-- `AbstractMetaClass::findEnumValue(classes, string)`. -/
  findEnumValue : (ClassId → AbstractMetaClass) → List ClassId → String →
      Option AbstractMetaEnumValue := fun _ _ _ => none
  /-- `AbstractMetaEnum::findEnumValue(string)`. -/
  enumFindEnumValue : AbstractMetaEnum → String → Option AbstractMetaEnumValue :=
    fun e name => e.enumValues.find? (fun v => v.name == name)
  /-- `QFileInfo(path).fileName()`: the name of the file without the path. -/
  fileName : String → String := fun path =>
    String.mk (path.data.reverse.takeWhile (fun c => c != '/')).reverse
  /-- `QChar::toCaseFolded`, by which `QString::startsWith` compares under
  `Qt::CaseInsensitive`. -/
  toCaseFolded : Char → Char := Char.toLower
  /-- `defined(Q_OS_WIN) || defined(Q_OS_DARWIN)`. -/
  caseInsensitiveFileNames : Bool := false
  /-- `QRegularExpression::isValid` of the expression with the given pattern. -/
  regexIsValid : String → Bool := fun _ => true
  /-- `QRegularExpression::match(subject).hasMatch()` of the expression with the
  given pattern. -/
  regexHasMatch : String → String → Bool := fun _ _ => false
  /-- `QRegularExpression::match(subject)` of the expression with the given
  pattern: nothing when there is no match, otherwise `captured(n)`. -/
  regexCaptured : String → String → Option (Nat → String) := fun _ _ => none
  /-- `QString::toInt(&ok)`: the value when `ok` is set. -/
  toInt : String → Option Int := fun _ => none
  /-- `AbstractMetaType::isPrimitive`. -/
  typeIsPrimitive : AbstractMetaType → Bool := fun t => t.typeEntry.type == .PrimitiveType
  /-- `AbstractMetaType::isFlags`. -/
  typeIsFlags : AbstractMetaType → Bool := fun t => t.typeEntry.type == .FlagsType
  /-- `AbstractMetaType::isEnum`. -/
  typeIsEnum : AbstractMetaType → Bool := fun t => t.typeEntry.type == .EnumType
  /-- `AbstractMetaType::isContainer`. -/
  typeIsContainer : AbstractMetaType → Bool := fun t => t.typeEntry.type == .ContainerType
  /-- `AbstractMetaType::name`. -/
  typeName : AbstractMetaType → String := fun t => t.typeEntry.name
  /-- `AbstractMetaType::minimalSignature`. -/
  typeMinimalSignature : AbstractMetaType → String := fun t => t.typeEntry.qualifiedCppName

/-! ## Function modifications (typesystem.h, typesystem.cpp) -/

/-- `FunctionModification::setSignature`: the modification after the call, and
the result of the call.  (The error message is not embedded.) -/
def FunctionModification.setSignature (env : Env) (m : FunctionModification) (s : String) :
    FunctionModification × Bool :=
  if s.data.head? == some '^' then
    let m1 := { m with signaturePattern := s }
    if !env.regexIsValid s then (m1, false)
    else (m1, true)
  else ({ m with signature := s }, true)

/-- `FunctionModification::matches`. -/
def FunctionModification.matches (env : Env) (m : FunctionModification)
    (functionSignature : String) : Bool :=
  if isEmptyString m.signature then env.regexHasMatch m.signaturePattern functionSignature
  else m.signature == functionSignature

/-! ## Base classes -/

/-- The loop of `findTemplateClass` over the scope depths `i` still to try;
`info` and `baseContainerType` are the current values of the two out
parameters. -/
def findTemplateClassLoop (env : Env) (d : AbstractMetaBuilderPrivate) (name : String)
    (scope : List String) :
    List Nat → TypeInfo → Option TypeEntry → Option ClassId × TypeInfo × Option TypeEntry
  | [], info, baseContainerType => (none, info, baseContainerType)
  | i :: rest, info, baseContainerType =>
    let scopePrefix := if i > 0 then joinColonColon (scope.take i) ++ "::" else ""
    let completeName := scopePrefix ++ name
    let parsed := env.parse completeName
    let qualifiedName := joinColonColon parsed.qualifiedName
    if isEmptyString qualifiedName then
      findTemplateClassLoop env d name scope rest info baseContainerType
    else
      let templ : Option ClassId :=
        match d.m_templates.find? (fun c => (d.heap c).typeEntry.name == qualifiedName) with
        | some c => some c
        | none => env.findClass d.heap d.m_metaClasses qualifiedName
      match templ with
      | some t => (some t, parsed, baseContainerType)
      | none =>
        findTemplateClassLoop env d name scope rest parsed
          (env.types.findContainerType qualifiedName)

/-- `AbstractMetaBuilderPrivate::findTemplateClass(name, context, info,
baseContainerType)`: the class found, and the final values of the two out
parameters (which start out unset). -/
def findTemplateClass (env : Env) (d : AbstractMetaBuilderPrivate) (name : String)
    (context : AbstractMetaClass) : Option ClassId × TypeInfo × Option TypeEntry :=
  let scope := (splitColonColon context.typeEntry.qualifiedCppName).dropLast
  findTemplateClassLoop env d name scope (List.range (scope.length + 1)).reverse
    { instantiations := [] } none

/-- `AbstractMetaBuilderPrivate::getBaseClasses`. -/
def getBaseClasses (env : Env) (d : AbstractMetaBuilderPrivate) (metaClass : AbstractMetaClass) :
    List ClassId :=
  metaClass.baseClassNames.filterMap (fun parent =>
    if containsChar parent '<' then (findTemplateClass env d parent metaClass).1
    else env.findClass d.heap d.m_metaClasses parent)

/-! ## Type translation -/

/-- The loop of `findTypeEntryUsingContext`: the context is `context.take n`, and
its last part is taken away after each failed lookup. -/
def findTypeEntryUsingContextLoop (env : Env) (context : List String) (qualifiedName : String) :
    Nat → Option TypeEntry
  | 0 => none
  | n + 1 =>
    match env.types.findType (joinColonColon (context.take (n + 1)) ++ "::" ++ qualifiedName) with
    | some type => some type
    | none => findTypeEntryUsingContextLoop env context qualifiedName n

/-- `findTypeEntryUsingContext(metaClass, qualifiedName)`. -/
def findTypeEntryUsingContext (env : Env) (metaClass : AbstractMetaClass)
    (qualifiedName : String) : Option TypeEntry :=
  let context := splitColonColon metaClass.qualifiedCppName
  findTypeEntryUsingContextLoop env context qualifiedName context.length

/-- Step 5.1 of `translateTypeStatic`: the lookup in the scope of the current
class and in the scopes of its base classes. -/
def findTypeEntryInScopes (env : Env) (d : Option AbstractMetaBuilderPrivate)
    (currentClass : AbstractMetaClass) (qualifiedName : String) : Option TypeEntry :=
  match findTypeEntryUsingContext env currentClass qualifiedName with
  | some type => some type
  | none =>
    match d with
    | some b =>
      if !currentClass.baseClassNames.isEmpty then
        (getBaseClasses env b currentClass).findSome?
          (fun cls => findTypeEntryUsingContext env (b.heap cls) qualifiedName)
      else none
    | none => none

/-- Step 8 of `translateTypeStatic`: the loop over the template arguments of the
current class has no `break`, so the last argument of that name is taken. -/
def findTemplateArgument (currentClass : AbstractMetaClass) (qualifiedName : String) :
    Option TypeEntry :=
  (currentClass.templateArguments.filter (fun te => te.name == qualifiedName)).getLast?

/-- Steps 5 to 8 of `translateTypeStatic`: the type entry for the qualified name
`qualifiedName` whose last part is `name`. -/
def findTypeEntry (env : Env) (d : Option AbstractMetaBuilderPrivate)
    (currentClass : Option AbstractMetaClass) (qualifiedName name : String) : Option TypeEntry :=
  let inScopes : Option TypeEntry :=
    match currentClass with
    | some cls => findTypeEntryInScopes env d cls qualifiedName
    | none => none
  match inScopes with
  | some type => some type
  | none =>
    match env.types.findType qualifiedName with
    | some type => some type
    | none =>
      match env.types.findFlagsType qualifiedName with
      | some type => some type
      | none =>
        match env.types.findContainerType name with
        | some type => some type
        | none =>
          match currentClass with
          | some cls => findTemplateArgument cls qualifiedName
          | none => none

/-- The pattern `^[a-zA-Z_][a-zA-Z0-9_]*$` of `findOutValueFromString` on the
characters before the end of the subject. -/
def isVariableNameChars : List Char → Bool
  | [] => false
  | c :: rest =>
    (c.isAlpha || c == '_') && rest.all (fun x => x.isAlphanum || x == '_')

/-- `variableNameRegExp.match(stringValue).hasMatch()`: `$` matches at the end of
the subject and before a newline that ends it. -/
def isVariableName (stringValue : String) : Bool :=
  isVariableNameChars stringValue.data
    || (stringValue.data.getLast? == some '\n' && isVariableNameChars stringValue.data.dropLast)

/-- `AbstractMetaBuilderPrivate::findOutValueFromString(stringValue, ok)`: the
value returned and the final value of `ok`. -/
def findOutValueFromString (env : Env) (d : AbstractMetaBuilderPrivate) (stringValue : String) :
    Int × Bool :=
  match env.toLongLong stringValue 10 with
  | some value => (value, true)
  | none =>
    if stringValue == "true" || stringValue == "false" then
      ((if stringValue == "true" then 1 else 0), true)
    else if !isVariableName stringValue then (0, true)
    else
      match env.findEnumValue d.heap d.m_metaClasses stringValue with
      | some enumValue => (enumValue.value, true)
      | none =>
        match d.m_globalEnums.findSome? (fun metaEnum => env.enumFindEnumValue metaEnum stringValue) with
        | some ev => (ev.value, true)
        | none => (0, false)

/-- The conversion `int(elems)` of a `qint64` value. -/
def toInt32 (v : Int) : Int := (v + 2147483648) % 4294967296 - 2147483648

/-- The element count that the array loop of `translateTypeStatic` sets for the
dimension `arrayElement`, if it sets one. -/
def arrayElementCountOf (env : Env) (d : Option AbstractMetaBuilderPrivate)
    (arrayElement : String) : Option Int :=
  if isEmptyString arrayElement then none
  else
    match d with
    | some b =>
      let (elems, ok) := findOutValueFromString env b arrayElement
      if ok then some (toInt32 elems) else none
    | none => (env.toLongLong arrayElement 0).map toInt32

/-- The body of the array loop of `translateTypeStatic` for one dimension:
the array type around `elementType`.  `next` is the address that the new
`ArrayTypeEntry` gets; the result carries the next free address. -/
def wrapArray (env : Env) (d : Option AbstractMetaBuilderPrivate) (arrayElement : String)
    (elementType : AbstractMetaType) (next : Nat) : AbstractMetaType × Nat :=
  let entry : TypeEntry :=
    { addr := next, name := "Array", qualifiedCppName := "Array", type := .ArrayType,
      nestedType := some elementType.typeEntry.addr }
  (env.decideUsagePattern
    { typeEntry := entry, instantiations := [], arrayElementType := some elementType,
      arrayElementCount := arrayElementCountOf env d arrayElement },
   next + 1)

/-- The array loop of `translateTypeStatic`, which walks the dimensions from the
last to the first; `arrayElements` is the list in that order. -/
def wrapArrays (env : Env) (d : Option AbstractMetaBuilderPrivate) :
    List String → AbstractMetaType → Nat → AbstractMetaType × Nat
  | [], elementType, next => (elementType, next)
  | arrayElement :: rest, elementType, next =>
    let (arrayType, next1) := wrapArray env d arrayElement elementType next
    wrapArrays env d rest arrayType next1

/-- The type `t` is an array over the element type `e` whose dimensions, the
outermost first, have the element counts `counts` (nothing standing for an
unknown size). -/
inductive ArrayOf : List (Option Int) → AbstractMetaType → AbstractMetaType → Prop where
  | element (e : AbstractMetaType) : ArrayOf [] e e
  | dimension (count : Option Int) (counts : List (Option Int))
      (t inner e : AbstractMetaType) :
      t.typeEntry.type = .ArrayType → t.arrayElementType = some inner →
      t.arrayElementCount = count → ArrayOf counts inner e → ArrayOf (count :: counts) t e

/-- The loop of `translateTypeStatic` that resolves typedefs through the scope
stack; `scopes` are the scopes still to try, the innermost first, and
`typeInfo` is the current value of the variable of that name. -/
def resolveThroughScopes (env : Env) (typei : TypeInfo) :
    List ScopeModelItem → TypeInfo → TypeInfo
  | [], typeInfo => typeInfo
  | scope :: rest, _ =>
    let typeInfo := env.resolveType typei scope
    if joinColonColon typeInfo.qualifiedName != joinColonColon typei.qualifiedName then typeInfo
    else resolveThroughScopes env typei rest typeInfo

/-- The result of a call of `translateTypeStatic`: nothing when the bound on the
depth of the calls is reached; otherwise the type returned (`none` standing for
the null pointer) and the next free address for a new type entry. -/
abbrev TranslateResult := Option (Option AbstractMetaType × Nat)

/-- The loop of `translateTypeStatic` over the template arguments; `translate`
stands for the call of `translateTypeStatic` on one of them. -/
def translateInstantiations (translate : TypeInfo → Nat → TranslateResult) :
    List TypeInfo → List AbstractMetaType → Nat → Option (Option (List AbstractMetaType) × Nat)
  | [], acc, next => some (some acc, next)
  | ti :: rest, acc, next =>
    match translate ti next with
    | none => none
    | some (none, next1) => some (none, next1)
    | some (some targType, next1) =>
      translateInstantiations translate rest (acc ++ [targType]) next1

/-- The variable `typeInfo` of `translateTypeStatic` after the typedef loop. -/
def resolvedTypeInfo (env : Env) (d : Option AbstractMetaBuilderPrivate) (typei : TypeInfo)
    (resolveType : Bool) : TypeInfo :=
  match resolveType, d with
  | true, some b => resolveThroughScopes env typei b.m_scopes.reverse typei
  | _, _ => typei

/-- The test `isConstCharStarCase` of `translateTypeStatic`. -/
def isConstCharStarCase (typeInfo : TypeInfo) : Bool :=
  (typeInfo.arrayElements.length == 1 && (typeInfo.arrayElements.head?.map isEmptyString).getD false)
    && typeInfo.qualifiedName.length == 1
    && typeInfo.qualifiedName.head? == some "char"
    && typeInfo.indirections == 0
    && typeInfo.isConstant
    && typeInfo.referenceType == .NoReference
    && typeInfo.argumentCount == 0

/-- The type info `newInfo` for the element type of an array. -/
def arrayElementInfo (env : Env) (typeInfo : TypeInfo) : TypeInfo :=
  env.newTypeInfo
    { qualifiedName := typeInfo.qualifiedName, indirections := typeInfo.indirections,
      isConstant := typeInfo.isConstant, isVolatile := typeInfo.isVolatile,
      isFunctionPointer := typeInfo.isFunctionPointer,
      referenceType := typeInfo.referenceType, instantiations := [] }

/-- Steps 4 to 8 and the rest of `translateTypeStatic` for a type that is no
array: `typei` is the argument of the call and `typeInfo` the variable of that
name. -/
def translatePlainType (env : Env) (d : Option AbstractMetaBuilderPrivate)
    (currentClass : Option AbstractMetaClass) (translate : TypeInfo → Nat → TranslateResult)
    (typei typeInfo : TypeInfo) (next : Nat) : TranslateResult :=
  match typeInfo.qualifiedName.getLast? with
  | none => some (none, next)
  | some name =>
    let joined := joinColonColon typeInfo.qualifiedName
    let isQFlags := joined == "QFlags"
    let qualifiedName := if isQFlags then typeInfo.toString else joined
    let templateArguments := if isQFlags then [] else typeInfo.instantiations
    match findTypeEntry env d currentClass qualifiedName name with
    | none => some (none, next)
    | some type =>
      match translateInstantiations translate templateArguments [] next with
      | none => none
      | some (none, next1) => some (none, next1)
      | some (some instantiations, next1) =>
        some (some (env.decideUsagePattern
          { typeEntry := type, indirections := typeInfo.indirections,
            referenceType := typeInfo.referenceType, constant := typeInfo.isConstant,
            isVolatile := typeInfo.isVolatile, originalTypeDescription := typei.toString,
            instantiations := instantiations, arrayElementType := none }), next1)

/-- Step 2.1 of `translateTypeStatic`: in the case `const char[]` the array
dimension is counted as an indirection. -/
def constCharStarAdjusted (typeInfo : TypeInfo) : TypeInfo :=
  if isConstCharStarCase typeInfo then
    { typeInfo with indirections := typeInfo.indirections + typeInfo.arrayElements.length }
  else typeInfo

/-- Step 2.2 and the following steps of `translateTypeStatic`: an array type is
built around the translated element type; any other type goes on to the
lookup of its type entry.  `translate` stands for the calls of
`translateTypeStatic` with `resolveType` on. -/
def translateArrayOrPlain (env : Env) (d : Option AbstractMetaBuilderPrivate)
    (currentClass : Option AbstractMetaClass) (translate : TypeInfo → Nat → TranslateResult)
    (typei typeInfo : TypeInfo) (constCharStar : Bool) (next : Nat) : TranslateResult :=
  if !typeInfo.arrayElements.isEmpty && !constCharStar then
    match translate (arrayElementInfo env typeInfo) next with
    | none => none
    | some (none, next1) => some (none, next1)
    | some (some elementType, next1) =>
      let (arrayType, next2) := wrapArrays env d typeInfo.arrayElements.reverse elementType next1
      some (some arrayType, next2)
  else translatePlainType env d currentClass translate typei typeInfo next

/-- `translateTypeStatic` after its step 1, the attempt without typedef
resolution, has not returned a type.  `translate` stands for the calls of
`translateTypeStatic` with `resolveType` on.  (The error messages are not part of
the embedding.) -/
def translateResolved (env : Env) (d : Option AbstractMetaBuilderPrivate)
    (currentClass : Option AbstractMetaClass) (translate : TypeInfo → Nat → TranslateResult)
    (typei : TypeInfo) (resolveType : Bool) (next : Nat) : TranslateResult :=
  let typeInfo := resolvedTypeInfo env d typei resolveType
  if typeInfo.isFunctionPointer then some (none, next)
  else
    translateArrayOrPlain env d currentClass translate typei (constCharStarAdjusted typeInfo)
      (isConstCharStarCase typeInfo) next

/-- `AbstractMetaBuilderPrivate::translateTypeStatic(_typei, currentClass, d,
resolveType, errorMessageIn)`.  The C++ function calls itself; the first argument
bounds the depth of these calls.  `next` is the next free address for a type
entry that the call creates with `new`. -/
def translateTypeStatic (env : Env) (d : Option AbstractMetaBuilderPrivate)
    (currentClass : Option AbstractMetaClass) :
    Nat → TypeInfo → Bool → Nat → TranslateResult
  | 0, _, _, _ => none
  | fuel + 1, typei, resolveType, next =>
    let first : TranslateResult :=
      if resolveType then translateTypeStatic env d currentClass fuel typei false next
      else some (none, next)
    match first with
    | none => none
    | some (some resolved, next1) => some (some resolved, next1)
    | some (none, next1) =>
      translateResolved env d currentClass
        (fun ti n => translateTypeStatic env d currentClass fuel ti true n) typei resolveType next1

/-- Two type descriptors that agree in the kind and the qualified name of the
type entry, in indirections, reference kind and constness, in their
instantiations and, for arrays, in element type and element count.  The
identity of the type entry objects is left out. -/
inductive SameDescriptor : AbstractMetaType → AbstractMetaType → Prop where
  | mk (a b : AbstractMetaType)
      (hkind : a.typeEntry.type = b.typeEntry.type)
      (hname : a.typeEntry.qualifiedCppName = b.typeEntry.qualifiedCppName)
      (hindirections : a.indirections = b.indirections)
      (hreference : a.referenceType = b.referenceType)
      (hconstant : a.constant = b.constant)
      (hinstantiations : List.Forall₂ SameDescriptor a.instantiations b.instantiations)
      (helement : Option.Rel SameDescriptor a.arrayElementType b.arrayElementType)
      (hcount : a.arrayElementCount = b.arrayElementCount) :
      SameDescriptor a b

/-- Two calls of `translateTypeStatic` with the same outcome: both reach the
bound, both return no type, or both return a type and the two descriptors
agree. -/
def SameOutcome : TranslateResult → TranslateResult → Prop
  | none, none => True
  | some (none, _), some (none, _) => True
  | some (some a, _), some (some b, _) => SameDescriptor a b
  | _, _ => False

/-- The lookups of `findTypeEntryUsingContext` in their order: the name
qualified by the scopes of the class, from the innermost scope (the class
itself) to the outermost. -/
def scopeChainLookups (env : Env) (metaClass : AbstractMetaClass) (qualifiedName : String) :
    List (Option TypeEntry) :=
  let context := splitColonColon metaClass.qualifiedCppName
  (List.range context.length).reverse.map (fun n =>
    env.types.findType (joinColonColon (context.take (n + 1)) ++ "::" ++ qualifiedName))

/-- The base classes of a class that the builder resolves, in the order of
their declaration: for each base class name the class that the builder finds
under it, as a template for a name with template arguments and by its name
otherwise; a name without class is left out.  Without a builder no base class
is resolved. -/
def resolvedBaseClasses (env : Env) (d : Option AbstractMetaBuilderPrivate)
    (cls : AbstractMetaClass) : List AbstractMetaClass :=
  match d with
  | none => []
  | some b =>
    cls.baseClassNames.filterMap (fun parent =>
      (if containsChar parent '<' then (findTemplateClass env b parent cls).1
       else env.findClass b.heap b.m_metaClasses parent).map b.heap)

/-- The lookup order of the specification for a type name, as the list of the
lookups in that order: (a) the scope chain of the current class; (b) the scope
chain of each of the base classes `baseClasses`, in the order of the list; (c)
the global lookup; (d) the flags lookup; (e) the container lookup by the local
name; (f) the template parameters of the current class that have the name, the
last one first. -/
def typeEntryLookups (env : Env) (currentClass : Option AbstractMetaClass)
    (baseClasses : List AbstractMetaClass) (qualifiedName name : String) :
    List (Option TypeEntry) :=
  (match currentClass with
   | some cls =>
     scopeChainLookups env cls qualifiedName
       ++ baseClasses.flatMap (fun c => scopeChainLookups env c qualifiedName)
   | none => [])
  ++ [env.types.findType qualifiedName, env.types.findFlagsType qualifiedName,
      env.types.findContainerType name]
  ++ (match currentClass with
      | some cls =>
        cls.templateArguments.reverse.map
          (fun te => if te.name == qualifiedName then some te else none)
      | none => [])

/-- The base classes that the lookup of a type name goes through: the resolved
base classes of the current class. -/
def lookupBaseClasses (env : Env) (d : Option AbstractMetaBuilderPrivate)
    (currentClass : Option AbstractMetaClass) : List AbstractMetaClass :=
  match currentClass with
  | some cls => resolvedBaseClasses env d cls
  | none => []

/-- The name that `translateTypeStatic` looks up for a type info: the qualified
name, or the whole type string for `QFlags`. -/
def lookupName (typeInfo : TypeInfo) : String :=
  if joinColonColon typeInfo.qualifiedName == "QFlags" then typeInfo.toString
  else joinColonColon typeInfo.qualifiedName

/-! ## Topological class sorter -/

/-- `struct Dependency` of `AbstractMetaBuilder`. -/
structure Dependency where
  parent : ClassId
  child : ClassId
deriving DecidableEq, Repr

/-- The two hashes `map` and `reverseMap` that `classesTopologicalSorted` fills in
its first loop, as the list of distinct classes in order of first occurrence:
the class at position `i` has index `i`. -/
def classIndexMap (classList : List ClassId) : List ClassId :=
  classList.foldl (fun m clazz => if m.contains clazz then m else m ++ [clazz]) []

/-- `map.value(clazz, -1)`, with no value instead of `-1`. -/
def mapValue (map : List ClassId) (clazz : ClassId) : Option Nat :=
  if clazz ∈ map then some (map.indexOf clazz) else none

/-- `findByTypeEntry(map, typeEntry)`: the first key whose type entry is the
given one.  The C++ loop walks the hash in its internal order; the embedding
walks the keys in index order. -/
def findByTypeEntry (d : AbstractMetaBuilderPrivate) (map : List ClassId) (typeEntry : TypeEntry) :
    Option ClassId :=
  map.find? (fun k => (d.heap k).typeEntry == typeEntry)

/-- The loop of `classesTopologicalSorted` over `additionalDependencies`. -/
def addAdditionalDependencies (map : List ClassId) (deps : List Dependency) (graph : Graph) :
    Graph :=
  deps.foldl (fun g dep =>
    match mapValue map dep.parent, mapValue map dep.child with
    | some parentIndex, some childIndex => g.addEdge parentIndex childIndex
    | _, _ => g) graph

/-- The edge for the enclosing class of `clazz`. -/
def addEnclosingEdge (d : AbstractMetaBuilderPrivate) (map : List ClassId) (clazz : ClassId)
    (classIndex : Nat) (graph : Graph) : Graph :=
  match (d.heap clazz).enclosingClass with
  | some enclosing =>
    match mapValue map enclosing with
    | some enclosingIndex => graph.addEdge enclosingIndex classIndex
    | none => graph
  | none => graph

/-- The edges for the base classes of `clazz`.  (`clazz->setBaseClass(baseClass)`
is called only when `baseClass` already is the base class, which leaves the
class as it is.) -/
def addBaseEdges (map : List ClassId) (bases : List ClassId) (classIndex : Nat) (graph : Graph) :
    Graph :=
  bases.foldl (fun g baseClass =>
    match mapValue map baseClass with
    | some baseIndex => g.addEdge baseIndex classIndex
    | none => g) graph

/-- The edge, if any, for one argument of a function of `clazz`. -/
def addArgumentEdge (d : AbstractMetaBuilderPrivate) (map : List ClassId) (clazz : ClassId)
    (classIndex : Nat) (graph : Graph) (arg : AbstractMetaArgument) : Graph :=
  if !isEmptyString arg.originalDefaultValueExpression && arg.type.isValue then
    let typeEntry := arg.type.typeEntry
    if typeEntry.isComplex && typeEntry != (d.heap clazz).typeEntry then
      match findByTypeEntry d map typeEntry with
      | some key =>
        if (d.heap key).enclosingClass != some clazz then
          graph.addEdge (map.indexOf key) classIndex
        else graph
      | none => graph
    else graph
  else graph

/-- The edges for the default arguments of the functions of `clazz`. -/
def addDefaultArgumentEdges (d : AbstractMetaBuilderPrivate) (map : List ClassId)
    (clazz : ClassId) (classIndex : Nat) (graph : Graph) : Graph :=
  (d.heap clazz).functions.foldl (fun g func =>
    func.arguments.foldl (addArgumentEdge d map clazz classIndex) g) graph

/-- The body of the second loop of `classesTopologicalSorted` for one class. -/
def addClassEdges (env : Env) (d : AbstractMetaBuilderPrivate) (map : List ClassId)
    (graph : Graph) (clazz : ClassId) : Graph :=
  let classIndex := (mapValue map clazz).getD 0
  let g1 := addEnclosingEdge d map clazz classIndex graph
  let g2 := addBaseEdges map (getBaseClasses env d (d.heap clazz)) classIndex g1
  addDefaultArgumentEdges d map clazz classIndex g2

/-- The graph that `classesTopologicalSorted` has built when it calls
`graph.topologicalSort()`. -/
def dependencyGraph (env : Env) (d : AbstractMetaBuilderPrivate) (classList : List ClassId)
    (additionalDependencies : List Dependency) : Graph :=
  let map := classIndexMap classList
  classList.foldl (addClassEdges env d map)
    (addAdditionalDependencies map additionalDependencies { nodeCount := map.length })

/-- The body of the last loop of `classesTopologicalSorted`: node `i` contributes
`reverseMap[i]` unless that class is an interface. -/
def sortedClassAt (d : AbstractMetaBuilderPrivate) (map : List ClassId) (i : Nat) :
    Option ClassId :=
  match map[i]? with
  | some clazz => if !(d.heap clazz).isInterface then some clazz else none
  | none => none

/-- `AbstractMetaBuilderPrivate::classesTopologicalSorted`. -/
def classesTopologicalSorted (env : Env) (d : AbstractMetaBuilderPrivate)
    (classList : List ClassId) (additionalDependencies : List Dependency) : List ClassId :=
  let map := classIndexMap classList
  let graph := dependencyGraph env d classList additionalDependencies
  let unmappedResult := graph.topologicalSort
  if unmappedResult.isEmpty && graph.nodeCount != 0 then []
  else unmappedResult.filterMap (sortedClassAt d map)

/-- A graph transformation that keeps the node count `n`, keeps all edges, and
adds only edges between nodes below `n`. -/
def GraphStep (n : Nat) (s : Graph → Graph) : Prop :=
  ∀ g : Graph, g.nodeCount = n → g.EdgesInRange →
    ((s g).nodeCount = n ∧ (s g).EdgesInRange) ∧ g.edges ⊆ (s g).edges

/-! ## Default value expressions -/

/-- `expr.indexOf(colonColon()) >= 0`: the string contains `::`. -/
def containsColonColon (s : String) : Bool := s.data.tails.any (fun t => "::".data.isPrefixOf t)

/-- The last branch of `fixDefaultValue`, for a type that is neither primitive
nor flags, enum or a container with a template default value: the default
value is taken to be a constructor, a class field, or a constructor receiving
a class field. -/
def fixConstructorDefaultValue (env : Env) (expr : String) (type : AbstractMetaType)
    (implementingClass : Option AbstractMetaClass) : String :=
  let defaultMatch := env.regexCaptured "([^\\(]*\\(|)([^\\)]*)(\\)|)" expr
  let defaultValueCtorName : String :=
    match defaultMatch with
    | some captured => captured 1
    | none => ""
  let defaultValueCtorName :=
    if defaultValueCtorName.data.getLast? == some '(' then
      String.mk defaultValueCtorName.data.dropLast
    else defaultValueCtorName
  let typeMatch :=
    env.regexCaptured "^(?:const[\\s]+|)([\\w:]*::|)([A-Za-z_]\\w*)\\s*[&\\*]?$"
      (env.typeMinimalSignature type)
  let typeNamespace : String :=
    match typeMatch with
    | some captured => captured 1
    | none => ""
  let typeCtorName : String :=
    match typeMatch with
    | some captured => captured 2
    | none => ""
  let expr :=
    if !isEmptyString typeNamespace && defaultValueCtorName == typeCtorName then
      typeNamespace ++ expr
    else expr
  match implementingClass, defaultMatch with
  | some cls, some captured =>
    if cls.fields.any (fun field => captured 2 == field.name) then
      captured 1 ++ cls.name ++ "::" ++ captured 2 ++ captured 3
    else expr
  | _, _ => expr

/-- `AbstractMetaBuilderPrivate::fixDefaultValue(item, type, fnc,
implementingClass, argumentIndex)`; `type` is nothing for the null pointer.
(The function reads `fnc` for a warning only, and the argument index not at
all.) -/
def fixDefaultValue (env : Env) (item : ArgumentModelItem) (type : Option AbstractMetaType)
    (_fnc : AbstractMetaFunction) (implementingClass : Option AbstractMetaClass)
    (_argumentIndex : Nat) : String :=
  let expr := item.defaultValueExpression
  match type with
  | none => ""
  | some type =>
    if env.typeIsPrimitive type then
      if env.typeName type == "boolean" then
        if expr != "false" && expr != "true" then
          match env.toInt expr with
          | some number => if number != 0 then "true" else "false"
          | none => "false"
        else expr
      else expr
    else if env.typeIsFlags type || env.typeIsEnum type then
      if !(env.toInt expr).isSome && !containsColonColon expr then
        match env.regexCaptured "[^<]*[<]([^:]*::).*" (env.typeMinimalSignature type) with
        | some captured => captured 1 ++ expr
        | none => expr
      else expr
    else if env.typeIsContainer type && containsChar expr '<' then
      match env.regexCaptured "[^<]*<(.*)>" (env.typeMinimalSignature type),
          env.regexCaptured "([^<]*<).*(>[^>]*)" expr with
      | some typeCaptured, some defaultCaptured =>
        defaultCaptured 1 ++ typeCaptured 1 ++ defaultCaptured 2
      | _, _ => expr
    else fixConstructorDefaultValue env expr type implementingClass

/-! ## Traversal of a function of the code model -/

/-- `m_rejectedFunctions.insert(key, reason)`. -/
def addRejectedFunction (d : AbstractMetaBuilderPrivate) (key : String) (reason : RejectReason) :
    AbstractMetaBuilderPrivate :=
  { d with m_rejectedFunctions := rejectInsert d.m_rejectedFunctions key reason }

/-- `functionSignature(functionItem)`. -/
def functionSignature (functionItem : FunctionModelItem) : String :=
  functionItem.name ++ "(" ++
    String.intercalate "," (functionItem.arguments.map (fun arg => arg.type.toString)) ++ ")"

/-- `qualifiedFunctionSignatureWithType(functionItem, className)`. -/
def qualifiedFunctionSignatureWithType (functionItem : FunctionModelItem) (className : String) :
    String :=
  let result := functionItem.type.toString ++ " "
  let result := if !isEmptyString className then result ++ className ++ "::" else result
  result ++ functionSignature functionItem

/-- `functionTypeFromCodeModel`. -/
def functionTypeFromCodeModel : CodeModelFunctionType → FunctionType
  | .Constructor => .ConstructorFunction
  | .CopyConstructor => .CopyConstructorFunction
  | .MoveConstructor => .MoveConstructorFunction
  | .Destructor => .DestructorFunction
  | .Normal => .NormalFunction
  | .Signal => .SignalFunction
  | .Slot => .SlotFunction

/-- The first loop of `fixArgumentNames`, for one argument modification: the
argument at `argMod.index - 1` takes the new name and keeps the old one as
original name.  (`arguments().at(...)` asserts that the index is in range; out
of range the embedding changes nothing.) -/
def renameArgument (arguments : List AbstractMetaArgument) (argMod : ArgumentModification) :
    List AbstractMetaArgument :=
  if !isEmptyString argMod.renamed_to then
    if 1 ≤ argMod.index then
      arguments.modify (fun arg => { arg with originalName := arg.name, name := argMod.renamed_to })
        (argMod.index - 1).toNat
    else arguments
  else arguments

/-- The second loop of `fixArgumentNames`: an argument without a name is called
`arg__` followed by its position, counted from one. -/
def nameUnnamedArguments : Nat → List AbstractMetaArgument → List AbstractMetaArgument
  | _, [] => []
  | i, arg :: rest =>
    (if isEmptyString arg.name then { arg with name := "arg__" ++ toString (i + 1) } else arg)
      :: nameUnnamedArguments (i + 1) rest

/-- `AbstractMetaBuilderPrivate::fixArgumentNames`. -/
def fixArgumentNames (func : AbstractMetaFunction) (mods : List FunctionModification) :
    AbstractMetaFunction :=
  let renamed := mods.foldl (fun args mod => mod.argument_mods.foldl renameArgument args)
    func.arguments
  { func with arguments := nameUnnamedArguments 0 renamed }

/-- One step of `applyArrayArgumentModifications`: the function after the
argument modification, or nothing when the function returns `false` at it. -/
def applyArrayArgumentModification (env : Env) (func : AbstractMetaFunction)
    (argMod : ArgumentModification) : Option AbstractMetaFunction :=
  if argMod.array then
    let i := argMod.index - 1
    if i < 0 ∨ i ≥ (func.arguments.length : Int) then none
    else
      match func.arguments[i.toNat]? with
      | none => none
      | some arg =>
        match env.applyArrayModification arg.type with
        | none => none
        | some t => some { func with arguments := func.arguments.set i.toNat { arg with type := t } }
  else some func

/-- The argument modifications of `applyArrayArgumentModifications`, in order:
the function as changed so far, and whether all steps succeeded. -/
def applyArrayArgumentModificationsAux (env : Env) :
    List ArgumentModification → AbstractMetaFunction → AbstractMetaFunction × Bool
  | [], func => (func, true)
  | argMod :: rest, func =>
    match applyArrayArgumentModification env func argMod with
    | none => (func, false)
    | some func1 => applyArrayArgumentModificationsAux env rest func1

/-- `applyArrayArgumentModifications(functionMods, func, &errorMessage)`: the
function as changed, and the result of the call. -/
def applyArrayArgumentModifications (env : Env) (functionMods : List FunctionModification)
    (func : AbstractMetaFunction) : AbstractMetaFunction × Bool :=
  applyArrayArgumentModificationsAux env (functionMods.flatMap (fun mod => mod.argument_mods)) func

/-- How the argument loop of `traverseFunction` ends. -/
inductive ArgumentsResult where
  /-- The function is rejected: the key and reason of the rejection record. -/
  | rejected (key : String) (reason : RejectReason)
  /-- The loop has run to its end or left through `break`. -/
  | accepted (metaArguments : List AbstractMetaArgument)

/-- The loop of `traverseFunction` that builds the meta arguments; `i` is the
index of the first argument of `arguments`. -/
def traverseArguments (env : Env) (d : AbstractMetaBuilderPrivate) (currentClass : Option ClassId)
    (className originalQualifiedSignatureWithReturn : String) :
    Nat → List ArgumentModelItem → List AbstractMetaArgument → ArgumentsResult
  | _, [], metaArguments => .accepted metaArguments
  | i, arg :: rest, metaArguments =>
    match env.types.isArgumentTypeRejected className arg.type.toString with
    | some rejectReason =>
      .rejected (originalQualifiedSignatureWithReturn ++ rejectReason) .GenerationDisabled
    | none =>
      match env.translateType d.heap d.m_metaClasses d.m_templates arg.type currentClass with
      | none =>
        if arg.defaultValue then .accepted metaArguments
        else
          .rejected (originalQualifiedSignatureWithReturn ++ ": "
            ++ env.msgUnmatchedParameterType arg i) .UnmatchedArgumentType
      | some metaType =>
        traverseArguments env d currentClass className originalQualifiedSignatureWithReturn
          (i + 1) rest
          (metaArguments ++ [{ type := metaType, name := arg.name, argumentIndex := i }])

/-- The loop of `traverseFunction` over `functionMods` that sets the exception
handling and allow-thread modifications. -/
def applyExceptionAndThreadMods (functionMods : List FunctionModification)
    (metaFunction : AbstractMetaFunction) : AbstractMetaFunction :=
  functionMods.foldl (fun f mod =>
    if mod.exceptionHandling != .Unspecified then
      { f with exceptionHandlingModification := mod.exceptionHandling }
    else if mod.allowThread != .Unspecified then
      { f with allowThreadModification := mod.allowThread }
    else f) metaFunction

/-- The body of the loop of `traverseFunction` that finds the default values,
for the argument at index `i`. -/
def setDefaultValue (env : Env) (d : AbstractMetaBuilderPrivate) (currentClass : Option ClassId)
    (functionMods : List FunctionModification) (arguments : List ArgumentModelItem)
    (metaFunction : AbstractMetaFunction) (i : Nat) : AbstractMetaFunction :=
  match arguments[i]?, metaFunction.arguments[i]? with
  | some arg, some metaArg =>
    let replacedExpression : String :=
      match currentClass with
      | some cls => env.replacedDefaultExpression metaFunction (d.heap cls) (i + 1)
      | none =>
        match functionMods with
        | [] => ""
        | mod :: _ =>
          match mod.argument_mods with
          | [] => ""
          | argMod :: _ => argMod.replacedDefaultExpression
    if arg.defaultValue || !isEmptyString replacedExpression then
      let expr := fixDefaultValue env arg (some metaArg.type) metaFunction
        (currentClass.map d.heap) i
      let expr2 :=
        if env.removedDefaultExpression metaFunction (currentClass.map d.heap) (i + 1) then ""
        else if !isEmptyString replacedExpression then replacedExpression
        else expr
      { metaFunction with
        arguments := metaFunction.arguments.set i
          { metaArg with originalDefaultValueExpression := expr,
                         defaultValueExpression := expr2 } }
    else metaFunction
  | _, _ => metaFunction

/-- The last step of `traverseFunction` ("Determine class special functions"). -/
def determineSpecialFunction (d : AbstractMetaBuilderPrivate) (currentClass : Option ClassId)
    (metaFunction : AbstractMetaFunction) : AbstractMetaFunction :=
  match currentClass, metaFunction.arguments with
  | some cls, [argument] =>
    let argType := argument.type
    if argType.typeEntry == (d.heap cls).typeEntry && argType.indirections == 0 then
      if metaFunction.name == "operator=" then
        match argType.referenceType with
        | .NoReference => { metaFunction with functionType := .AssignmentOperatorFunction }
        | .LValueReference =>
          if argType.constant then
            { metaFunction with functionType := .AssignmentOperatorFunction }
          else metaFunction
        | .RValueReference => { metaFunction with functionType := .MoveAssignmentOperatorFunction }
      else metaFunction
    else metaFunction
  | _, _ => metaFunction

/-- The attributes that `traverseFunction` gives a new function, from the
deprecation test to the access rights. -/
def initialAttributes (functionItem : FunctionModelItem) : Attributes :=
  let a : Attributes := []
  let a := if functionItem.isDeprecated then a.add .Deprecated else a
  let a := if functionItem.isAbstract then a.add .Abstract else a
  let a :=
    if functionItem.isVirtual then
      let a := a.add .VirtualCppMethod
      let a := if functionItem.isOverride then a.add .OverriddenCppMethod else a
      if functionItem.isFinal then a.add .FinalCppMethod else a
    else a.add .FinalInTargetLang
  let a := if functionItem.isInvokable then a.add .Invokable else a
  let a := if functionItem.isStatic then (a.add .Static).add .FinalInTargetLang else a
  match functionItem.accessPolicy with
  | .Public => a.add .Public
  | .Private => a.add .Private
  | .Protected => a.add .Protected

/-- The part of `traverseFunction` from the argument list on, for a function
`metaFunction` that has passed the checks on name and return type. -/
def traverseFunctionArguments (env : Env) (d : AbstractMetaBuilderPrivate)
    (functionItem : FunctionModelItem) (currentClass : Option ClassId)
    (className originalQualifiedSignatureWithReturn : String)
    (metaFunction : AbstractMetaFunction) :
    Option AbstractMetaFunction × AbstractMetaBuilderPrivate :=
  let arguments : List ArgumentModelItem :=
    match functionItem.arguments with
    | [arg] =>
      if arg.type.qualifiedName.head? == some "void" && arg.type.indirections == 0 then []
      else [arg]
    | args => args
  match traverseArguments env d currentClass className originalQualifiedSignatureWithReturn
      0 arguments [] with
  | .rejected key reason =>
    (none, addRejectedFunction d key reason)
  | .accepted metaArguments =>
    let f1 := { metaFunction with arguments := metaArguments }
    let functionMods := env.modifications f1 (currentClass.map d.heap)
    let f2 := applyExceptionAndThreadMods functionMods f1
    let f3 := (List.range metaArguments.length).foldl
      (setDefaultValue env d currentClass functionMods arguments) f2
    let f4 :=
      if !metaArguments.isEmpty then
        (applyArrayArgumentModifications env functionMods (fixArgumentNames f3 functionMods)).1
      else f3
    (some (determineSpecialFunction d currentClass f4), d)

/-- The `switch` of `traverseFunction` on the function type: the function with
its name or return type set, or the rejection record to add. -/
def traverseFunctionReturnType (env : Env) (d : AbstractMetaBuilderPrivate)
    (functionItem : FunctionModelItem) (currentClass : Option ClassId)
    (className originalQualifiedSignatureWithReturn : String)
    (metaFunction : AbstractMetaFunction) : AbstractMetaFunction ⊕ (String × RejectReason) :=
  match metaFunction.functionType with
  | .DestructorFunction => .inl metaFunction
  | .ConstructorFunction =>
    .inl { metaFunction with
      isExplicit := functionItem.isExplicit,
      name := match currentClass with
        | some cls => (d.heap cls).name
        | none => metaFunction.name }
  | _ =>
    let returnType := functionItem.type
    match env.types.isReturnTypeRejected className returnType.toString with
    | some rejectReason =>
      .inr (originalQualifiedSignatureWithReturn ++ rejectReason, .GenerationDisabled)
    | none =>
      if !returnType.isVoid then
        match env.translateType d.heap d.m_metaClasses d.m_templates returnType currentClass with
        | none => .inr (originalQualifiedSignatureWithReturn, .UnmatchedReturnType)
        | some type => .inl { metaFunction with type := some type }
      else .inl { metaFunction with type := none }

/-- `AbstractMetaBuilderPrivate::traverseFunction(const FunctionModelItem &,
AbstractMetaClass *currentClass)`: the new function, or nothing, and the builder
with its rejection records.  (For a constructor the C++ code reads
`currentClass->name()`; without a current class the embedding keeps the name.) -/
def traverseFunction (env : Env) (d : AbstractMetaBuilderPrivate)
    (functionItem : FunctionModelItem) (currentClass : Option ClassId) :
    Option AbstractMetaFunction × AbstractMetaBuilderPrivate :=
  if functionItem.isDeleted || !functionItem.templateParameters.isEmpty then (none, d)
  else
    let functionName := functionItem.name
    let skippedInClass : Bool :=
      match currentClass with
      | some cls =>
        functionName == "qt_check_for_QGADGET_macro"
          || "qt_meta".data.isPrefixOf functionName.data
          || (functionName == "metaObject"
              && (d.heap cls).typeEntry.qualifiedCppName != "QObject")
      | none => false
    if skippedInClass then (none, d)
    else
      let className : String :=
        match currentClass with
        | some cls => (d.heap cls).typeEntry.qualifiedCppName
        | none => ""
      let originalQualifiedSignatureWithReturn :=
        qualifiedFunctionSignatureWithType functionItem className
      match env.types.isFunctionRejected className functionName with
      | some rejectReason =>
        (none, addRejectedFunction d (originalQualifiedSignatureWithReturn ++ rejectReason)
          .GenerationDisabled)
      | none =>
        if (env.types.isFunctionRejected className (functionSignature functionItem)).isSome then
          (none, d)
        else if functionItem.isFriend then (none, d)
        else if functionItem.isDeprecated && d.m_skipDeprecated then
          (none, addRejectedFunction d
            (originalQualifiedSignatureWithReturn ++ " is deprecated.") .GenerationDisabled)
        else
          let metaFunction : AbstractMetaFunction :=
            { functionType := functionTypeFromCodeModel functionItem.functionType,
              constant := functionItem.isConstant,
              exceptionSpecification := functionItem.exceptionSpecification,
              name := functionName,
              originalName := functionItem.name,
              attributes := initialAttributes functionItem }
          match traverseFunctionReturnType env d functionItem currentClass className
              originalQualifiedSignatureWithReturn metaFunction with
          | .inr (key, reason) =>
            (none, addRejectedFunction d key reason)
          | .inl metaFunction1 =>
            traverseFunctionArguments env d functionItem currentClass className
              originalQualifiedSignatureWithReturn metaFunction1

/-- Two builder states that agree on everything `traverseFunction` reads. -/
def SameModel (d d' : AbstractMetaBuilderPrivate) : Prop :=
  d'.heap = d.heap ∧ d'.m_metaClasses = d.m_metaClasses ∧ d'.m_templates = d.m_templates ∧
    d'.m_skipDeprecated = d.m_skipDeprecated

/-- The variable `className` of `traverseFunction`: the qualified C++ name of
the type entry of the current class, empty without a current class. -/
def functionClassName (d : AbstractMetaBuilderPrivate) (currentClass : Option ClassId) : String :=
  match currentClass with
  | some cls => (d.heap cls).typeEntry.qualifiedCppName
  | none => ""

/-- The tests at the start of `traverseFunction` that drop a function before
the type system is asked for rejections: deleted functions, function templates
and, in a class, the Qt meta functions. -/
def isSkippedFunction (d : AbstractMetaBuilderPrivate) (functionItem : FunctionModelItem)
    (currentClass : Option ClassId) : Bool :=
  functionItem.isDeleted || !functionItem.templateParameters.isEmpty
    || (match currentClass with
        | some cls =>
          functionItem.name == "qt_check_for_QGADGET_macro"
            || "qt_meta".data.isPrefixOf functionItem.name.data
            || (functionItem.name == "metaObject"
                && (d.heap cls).typeEntry.qualifiedCppName != "QObject")
        | none => false)

/-! ## Functions of a class -/

/-- `AbstractMetaBuilderPrivate::classFunctionList`, given the function list of
the scope: the meta functions, the constructor attributes, and the builder with
its rejection records. -/
def classFunctionList (env : Env) :
    AbstractMetaBuilderPrivate → List FunctionModelItem → Option ClassId →
      List AbstractMetaFunction × Attributes × AbstractMetaBuilderPrivate
  | d, [], _ => ([], [], d)
  | d, function :: rest, currentClass =>
    match traverseFunction env d function currentClass with
    | (some metaFunction, d1) =>
      let (result, constructorAttributes, d2) := classFunctionList env d1 rest currentClass
      (metaFunction :: result, constructorAttributes, d2)
    | (none, d1) =>
      let (result, constructorAttributes, d2) := classFunctionList env d1 rest currentClass
      let own : Attributes :=
        if function.functionType == .Constructor then
          let a : Attributes := [Attribute.HasRejectedConstructor]
          if function.arguments.isEmpty
              || (function.arguments.head?.map (fun a => a.defaultValue)).getD false then
            a.add .HasRejectedDefaultConstructor
          else a
        else []
      (result, Attributes.union own constructorAttributes, d2)

/-- Write the record of a class into the arena. -/
def setClass (d : AbstractMetaBuilderPrivate) (cls : ClassId) (c : AbstractMetaClass) :
    AbstractMetaBuilderPrivate :=
  { d with heap := Function.update d.heap cls c }

/-- `AbstractMetaClass::addFunction`: the function gets its owner class and
joins the function list of the class. -/
def addFunction (c : AbstractMetaClass) (cls : ClassId) (function : AbstractMetaFunction) :
    AbstractMetaClass :=
  { c with functions := c.functions ++ [{ function with ownerClass := some cls }] }

/-- `AbstractMetaBuilderPrivate::setupFunctionDefaults`: the function and the
class after the call. -/
def setupFunctionDefaults (metaFunction : AbstractMetaFunction) (cls : ClassId)
    (metaClass : AbstractMetaClass) : AbstractMetaFunction × AbstractMetaClass :=
  ({ metaFunction with declaringClass := some cls, implementingClass := some cls },
   if metaFunction.name == "operator_equal" then { metaClass with hasEqualsOperator := true }
   else metaClass)

/-- `QChar::isSpace` (Qt is not part of the sources): the characters U+0009 to
U+000D, U+0020, U+0085 and U+00A0, and the characters of the Unicode categories
Zs, Zl and Zp.  All of them are below U+10000, so that a code unit of a
`QString` is a space exactly when it is such a character. -/
def isSpace (c : Char) : Bool :=
  let ucs4 := c.toNat
  ucs4 == 0x20 || (decide (ucs4 ≤ 0x0D) && decide (0x09 ≤ ucs4))
    || (decide (127 < ucs4)
        && (ucs4 == 0x85 || ucs4 == 0xA0 || ucs4 == 0x1680
            || (decide (0x2000 ≤ ucs4) && decide (ucs4 ≤ 0x200A))
            || ucs4 == 0x2028 || ucs4 == 0x2029 || ucs4 == 0x202F || ucs4 == 0x205F
            || ucs4 == 0x3000))

/-- `QString::trimmed` on the characters of a string: the characters for which
`QChar::isSpace` holds are taken away from both ends. -/
def trimmedChars (cs : List Char) : List Char :=
  ((cs.dropWhile isSpace).reverse.dropWhile isSpace).reverse

/-- `AbstractMetaBuilderPrivate::fixReturnTypeOfConversionOperator`. -/
def fixReturnTypeOfConversionOperator (env : Env) (metaFunction : AbstractMetaFunction) :
    AbstractMetaFunction :=
  if !env.isConversionOperator metaFunction then metaFunction
  else
    let cs := metaFunction.name.data
    let cs := if "operator ".data.isPrefixOf cs then cs.drop 9 else cs
    let cs := trimmedChars cs
    let cs := if cs.getLast? == some '&' then cs.dropLast else cs
    let cs := if "const ".data.isPrefixOf cs then cs.drop 6 else cs
    match env.types.findType (String.mk cs) with
    | none => metaFunction
    | some retType =>
      { metaFunction with type := some { typeEntry := retType, instantiations := [], arrayElementType := none } }

/-- The attributes after an access modifier: the four visibility flags are
cleared and the flag of the modifier is set. -/
def accessModifiedAttributes (a : Attributes) (mod : FunctionModification) : Attributes :=
  let a := (((a.remove .Public).remove .Protected).remove .Private).remove .Friendly
  if mod.isPublic then a.add .Public
  else if mod.isProtected then a.add .Protected
  else if mod.isPrivate then a.add .Private
  else if mod.isFriendly then a.add .Friendly
  else a

/-- The attributes after the final / non-final part of a modification. -/
def finalModifiedAttributes (a : Attributes) (mod : FunctionModification) : Attributes :=
  if mod.isFinal then a.add .FinalInTargetLang
  else if mod.isNonFinal then a.remove .FinalInTargetLang
  else a

/-- The rename / access part of the loop body of `applyFunctionModifications`. -/
def applyRenameOrAccess (func : AbstractMetaFunction) (mod : FunctionModification) :
    AbstractMetaFunction :=
  if mod.isRenameModifier then
    { func with originalName := func.name, name := mod.renamedTo }
  else if mod.isAccessModifier then
    { func with attributes := accessModifiedAttributes func.attributes mod }
  else func

/-- The body of the loop of `applyFunctionModifications` for one modification. -/
def applyFunctionModification (func : AbstractMetaFunction) (mod : FunctionModification) :
    AbstractMetaFunction :=
  let func1 := applyRenameOrAccess func mod
  { func1 with attributes := finalModifiedAttributes func1.attributes mod }

/-- `AbstractMetaBuilderPrivate::applyFunctionModifications`, given the heap in
which `func->implementingClass()` is read. -/
def applyFunctionModifications (env : Env) (heap : ClassId → AbstractMetaClass)
    (func : AbstractMetaFunction) : AbstractMetaFunction :=
  (env.modifications func (func.implementingClass.map heap)).foldl applyFunctionModification func

/-- The four visibility flags that an access modifier clears. -/
def isVisibilityFlag (g : Attribute) : Bool :=
  g == .Public || g == .Protected || g == .Private || g == .Friendly

/-- The visibility flag that an access modifier switches on. -/
def accessFlag : AccessModifier → Option Attribute
  | .Public => some .Public
  | .Protected => some .Protected
  | .Private => some .Private
  | .Friendly => some .Friendly
  | .InvalidModifier => none

/-- The property part of the loop body of `traverseFunctions`: the role of the
function as reader, writer or resetter of a property of the class. -/
def assignPropertyRole (env : Env) (metaClass : AbstractMetaClass)
    (metaFunction : AbstractMetaFunction) : AbstractMetaFunction :=
  match (if !metaFunction.isSignal then env.propertySpecForRead metaClass metaFunction.name
         else none) with
  | some read =>
    match metaFunction.type with
    | some type =>
      if read.type == type.typeEntry && metaFunction.arguments.length == 0 then
        { metaFunction with attributes := metaFunction.attributes.add .PropertyReader,
                            propertySpec := some read }
      else metaFunction
    | none => metaFunction
  | none =>
    match env.propertySpecForWrite metaClass metaFunction.name with
    | some write =>
      match metaFunction.type, metaFunction.arguments with
      | none, [argument] =>
        if write.type == argument.type.typeEntry then
          { metaFunction with attributes := metaFunction.attributes.add .PropertyWriter,
                              propertySpec := some write }
        else metaFunction
      | _, _ => metaFunction
    | none =>
      match env.propertySpecForReset metaClass metaFunction.name with
      | some reset =>
        if metaFunction.type.isNone && metaFunction.arguments.isEmpty then
          { metaFunction with attributes := metaFunction.attributes.add .PropertyResetter,
                              propertySpec := some reset }
        else metaFunction
      | none => metaFunction

/-- The function as the loop body of `traverseFunctions` leaves it before it
looks at constructors and destructors: original attributes kept, static in a
namespace, property role assigned. -/
def prepareFunction (env : Env) (metaClass : AbstractMetaClass)
    (metaFunction : AbstractMetaFunction) : AbstractMetaFunction :=
  let f := { metaFunction with originalAttributes := metaFunction.attributes }
  let f := if metaClass.isNamespace then { f with attributes := f.attributes.add .Static } else f
  assignPropertyRole env metaClass f

/-- The class as the loop body of `traverseFunctions` leaves it after its tests
on constructors and destructors, for the prepared function `f`. -/
def classAfterFunctionChecks (metaClass : AbstractMetaClass) (f : AbstractMetaFunction) :
    AbstractMetaClass :=
  let isInvalidDestructor := f.isDestructor && f.isPrivate
  let isInvalidConstructor := f.functionType == .ConstructorFunction && f.isPrivate
  let c1 := if isInvalidConstructor then { metaClass with hasPrivateConstructor := true }
            else metaClass
  let c2 :=
    if (isInvalidDestructor || isInvalidConstructor) && !c1.hasNonPrivateConstructor then
      { c1 with attributes := c1.attributes.add .FinalInTargetLang }
    else if f.isConstructor && !f.isPrivate then
      { c1 with attributes := c1.attributes.remove .FinalInTargetLang,
                hasNonPrivateConstructor := true }
    else c1
  if f.isDestructor && f.isVirtual && !f.isPrivate then { c2 with forceShellClass := true }
  else c2

/-- The function that the loop body of `traverseFunctions` adds to the class
`cls`, whose record is `c` when `setupFunctionDefaults` is called, for the
prepared function `f`: defaults set up, conversion operator fixed, owner set by
`addFunction`, modifications applied. -/
def memberFunction (env : Env) (d : AbstractMetaBuilderPrivate) (cls : ClassId)
    (c : AbstractMetaClass) (f : AbstractMetaFunction) : AbstractMetaFunction :=
  let (f1, c4) := setupFunctionDefaults f cls c
  let f2 := fixReturnTypeOfConversionOperator env f1
  let c5 := addFunction c4 cls f2
  applyFunctionModifications env (Function.update d.heap cls c5) { f2 with ownerClass := some cls }

/-- The body of the loop of `traverseFunctions` for one meta function. -/
def traverseFunctionsStep (env : Env) (cls : ClassId) (d : AbstractMetaBuilderPrivate)
    (metaFunction : AbstractMetaFunction) : AbstractMetaBuilderPrivate :=
  let metaClass := d.heap cls
  let f := prepareFunction env metaClass metaFunction
  let c3 := classAfterFunctionChecks metaClass f
  if !f.isDestructor && !(f.isPrivate && f.functionType == .ConstructorFunction) then
    let c4 := (setupFunctionDefaults f cls c3).2
    setClass d cls { c4 with functions := c4.functions ++ [memberFunction env d cls c3 f] }
  else if f.isDestructor then
    setClass d cls { c3 with hasPrivateDestructor := f.isPrivate,
                             hasProtectedDestructor := f.isProtected,
                             hasVirtualDestructor := f.isVirtual }
  else setClass d cls c3

/-- The flags that mark the role of a function for a property. -/
def IsRoleFlag (g : Attribute) : Prop :=
  g = .PropertyReader ∨ g = .PropertyWriter ∨ g = .PropertyResetter

/-! ## Parsing of added functions (typesystem.cpp) -/

/-- The regular expression `\w` of `parseType`: a letter, a digit or the
underscore. -/
def isWordChar (c : Char) : Bool := c.isAlphanum || c == '_'

/-- `QString::indexOf(what, startPos)` for a character or a one-character
pattern, on the characters from the position `i` on: the first position not
before `startPos` whose character satisfies `p`; nothing stands for `-1`. -/
def indexOfFrom (p : Char → Bool) : List Char → Nat → Nat → Option Nat
  | [], _, _ => none
  | c :: rest, startPos, i =>
    if decide (startPos ≤ i) && p c then some i else indexOfFrom p rest startPos (i + 1)

/-- The loop of `parseType` over the characters from the position `i` on: the
string `paramString` and the final value of `i`. -/
def scanParameter : List Char → Int → List Char → Nat → List Char × Nat
  | [], _, paramString, i => (paramString, i)
  | c :: rest, cantStop, paramString, i =>
    let cantStop := if c == '<' then cantStop + 1 else cantStop
    let cantStop := if c == '>' then cantStop - 1 else cantStop
    if cantStop < 0 then (paramString, i)
    else if (c == ')' || c == ',') && cantStop == 0 then (paramString, i)
    else scanParameter rest cantStop (paramString ++ [c]) (i + 1)

/-- `QString::split(QLatin1Char(sep))` on the characters of a string, empty
pieces kept. -/
def splitAtChar (sep : Char) : List Char → List Char → List (List Char)
  | [], acc => [acc.reverse]
  | c :: rest, acc =>
    if c == sep then acc.reverse :: splitAtChar sep rest [] else splitAtChar sep rest (c :: acc)

/-- The loop `while (paramString.endsWith('*'))` of `parseType`; the first
argument bounds the number of rounds by the length of the string. -/
def stripIndirections : Nat → List Char → Nat → List Char × Nat
  | 0, paramString, indirections => (paramString, indirections)
  | fuel + 1, paramString, indirections =>
    if paramString.getLast? == some '*' then
      stripIndirections fuel (trimmedChars paramString.dropLast) (indirections + 1)
    else (paramString, indirections)

/-- What a call of `parseType` yields: the result and the two out parameters. -/
structure ParsedType where
  result : AddedFunctionTypeInfo := {}
  endPos : Nat := 0
  argumentName : String := ""
deriving DecidableEq, Repr

/-- `parseType(signature, startPos, &endPos, &argumentName)` of typesystem.cpp. -/
def parseType (signature : String) (startPos : Nat) : ParsedType :=
  let sig := signature.data
  match indexOfFrom isWordChar sig startPos 0 with
  | none =>
    if (sig.drop (startPos + 1)).take 3 == "...".data then
      { result := { name := "..." }, endPos := startPos + 4 }
    else { endPos := sig.length }
  | some start =>
    let (paramString, i) := scanParameter (sig.drop start) 0 [] start
    let (paramString, defaultValue) :=
      if paramString.contains '=' then
        let lst := splitAtChar '=' paramString []
        (trimmedChars (lst.getD 0 []), trimmedChars (lst.getD 1 []))
      else (paramString, [])
    let (paramString, isConstant) :=
      if "const ".data.isPrefixOf paramString then (trimmedChars (paramString.drop 6), true)
      else (paramString, false)
    let (paramString, argumentName) :=
      match indexOfFrom (fun c => c == '@') paramString 0 0 with
      | none => (paramString, [])
      | some nameStartPos =>
        match indexOfFrom (fun c => c == '@') paramString (nameStartPos + 1) 0 with
        | none => (paramString, [])
        | some nameEndPos =>
          (trimmedChars (paramString.take nameStartPos ++ paramString.drop (nameEndPos + 1)),
           (paramString.drop (nameStartPos + 1)).take (nameEndPos - nameStartPos - 1))
    let (paramString, isReference) :=
      if paramString.getLast? == some '&' then (trimmedChars paramString.dropLast, true)
      else (paramString, false)
    let (paramString, indirections) := stripIndirections paramString.length paramString 0
    { result := { name := String.mk paramString, defaultValue := String.mk defaultValue,
                  indirections := indirections, isConstant := isConstant,
                  isReference := isReference },
      endPos := i, argumentName := String.mk argumentName }

/-- The loop `while (endPos < signatureLength)` of the constructor of
`AddedFunction`: the arguments and the final value of `endPos`.  Every round
moves `endPos` forward; the first argument bounds the number of rounds.  (The
constructor appends the argument name together with the type; the embedding
keeps the type, as `AddedFunction::arguments()` declares.) -/
def parseArguments (signature : String) :
    Nat → Nat → List AddedFunctionTypeInfo → List AddedFunctionTypeInfo × Nat
  | 0, endPos, arguments => (arguments, endPos)
  | fuel + 1, endPos, arguments =>
    if endPos < signature.data.length then
      let parsed := parseType signature endPos
      let arguments :=
        if !isEmptyString parsed.result.name then arguments ++ [parsed.result] else arguments
      if decide (parsed.endPos ≥ signature.data.length)
          || signature.data[parsed.endPos]? == some ')' then (arguments, parsed.endPos)
      else parseArguments signature fuel parsed.endPos arguments
    else (arguments, endPos)

/-- `QStringRef::contains(QLatin1String("const"))`. -/
def containsConst (s : List Char) : Bool := s.tails.any (fun t => "const".data.isPrefixOf t)

/-- The constructor `AddedFunction(signature, returnType)`. -/
def newAddedFunction (signature returnType : String) : AddedFunction :=
  let returnTypeInfo := (parseType returnType 0).result
  let sig := trimmedChars signature.data
  let parenStartPos := if "operator()".data.isPrefixOf sig then "operator()".data.length else 0
  match indexOfFrom (fun c => c == '(') sig parenStartPos 0 with
  | none =>
    { name := String.mk sig, returnType := returnTypeInfo, isConstant := false, access := .Public }
  | some endPos =>
    let (arguments, endPos1) := parseArguments (String.mk sig) (sig.length + 1) endPos []
    { name := String.mk (trimmedChars (sig.take endPos)), arguments := arguments,
      returnType := returnTypeInfo, isConstant := containsConst (sig.drop endPos1),
      access := .Public }

/-! ## Parsing of template type names -/

/-- `QString::mid(position, n)` on the characters of a string. -/
def midChars (cs : List Char) (position n : Nat) : List Char := (cs.drop position).take n

/-- The loop of `parseTemplateType` over the characters of `name` from the
position `i` on: the final values of `i`, `n` and `result`.  The final `i` is
the length of the name when the loop ends without `break`. -/
def parseTemplateArguments (name : List Char) :
    List Char → Nat → Nat → Int → List String → Nat × Nat × List String
  | [], i, n, _, result => (i, n, result)
  | c :: rest, i, n, depth, result =>
    if c == '<' then parseTemplateArguments name rest (i + 1) n (depth + 1) result
    else if c == '>' then
      if depth - 1 == 0 then (i, n, result)
      else parseTemplateArguments name rest (i + 1) n (depth - 1) result
    else if c == ',' && depth == 1 then
      parseTemplateArguments name rest (i + 1) i depth
        (result ++ [String.mk (trimmedChars (midChars name (n + 1) (i - n - 1)))])
    else parseTemplateArguments name rest (i + 1) n depth result

/-- `parseTemplateType(name)` of abstractmetabuilder.cpp. -/
def parseTemplateType (name : String) : List String :=
  let cs := name.data
  match indexOfFrom (fun c => c == '<') cs 0 0 with
  | none => if cs.count '>' != 0 then [] else [name]
  | some 0 => []
  | some n =>
    let result := [String.mk (trimmedChars (cs.take n))]
    let (i, n1, result) := parseTemplateArguments cs (cs.drop (n + 1)) (n + 1) n 1 result
    if i ≥ cs.length then []
    else if i + 1 < cs.length then []
    else result ++ [String.mk (trimmedChars (midChars cs (n1 + 1) (i - n1 - 1)))]

/-- The text of one template argument, read with `depth` angle brackets open:
the angle brackets are balanced, and no comma stands outside of them. -/
def isTemplateArgumentText : List Char → Nat → Bool
  | [], depth => depth == 0
  | c :: rest, depth =>
    if c == '<' then isTemplateArgumentText rest (depth + 1)
    else if c == '>' then decide (0 < depth) && isTemplateArgumentText rest (depth - 1)
    else if c == ',' then decide (0 < depth) && isTemplateArgumentText rest depth
    else isTemplateArgumentText rest depth

/-- The texts `a1`, ..., `an` written as `a1,...,an`. -/
def joinWithCommas : List (List Char) → List Char
  | [] => []
  | [a] => a
  | a :: b :: rest => a ++ ',' :: joinWithCommas (b :: rest)

/-- The position, in the text after an opening angle bracket, of the `>` that
closes it; `depth` is the number of angle brackets open at the start of the
text. -/
def closingBracket : List Char → Nat → Option Nat
  | [], _ => none
  | c :: rest, depth =>
    if c == '<' then (closingBracket rest (depth + 1)).map (fun k => k + 1)
    else if c == '>' then
      if depth ≤ 1 then some 0 else (closingBracket rest (depth - 1)).map (fun k => k + 1)
    else (closingBracket rest depth).map (fun k => k + 1)

/-! ## Functions added by the type system -/

/-- The loop of `traverseFunction(addedFunc, metaClass)` over the arguments of
the added function: the meta arguments, nothing when an argument has no type,
or the end of the program. -/
def traverseAddedArguments (env : Env) :
    Nat → List AddedFunctionTypeInfo → List AbstractMetaArgument →
      Option (Option (List AbstractMetaArgument))
  | _, [], metaArguments => some (some metaArguments)
  | i, typeInfo :: rest, metaArguments =>
    match env.translateAddedType typeInfo with
    | .fatal => none
    | .noType => some none
    | .type t =>
      traverseAddedArguments env (i + 1) rest
        (metaArguments ++ [{ type := env.decideUsagePattern t, argumentIndex := i,
                             defaultValueExpression := typeInfo.defaultValue,
                             originalDefaultValueExpression := typeInfo.defaultValue }])

/-- The loop of `traverseFunction(addedFunc, metaClass)` that finds the default
values, for the argument at index `i`. -/
def setAddedDefaultValue (env : Env) (d : AbstractMetaBuilderPrivate) (metaClass : Option ClassId)
    (metaFunction : AbstractMetaFunction) (i : Nat) : AbstractMetaFunction :=
  match metaClass, metaFunction.arguments[i]? with
  | some cls, some metaArg =>
    let replacedExpression := env.replacedDefaultExpression metaFunction (d.heap cls) (i + 1)
    if !isEmptyString replacedExpression
        && !env.removedDefaultExpression metaFunction (some (d.heap cls)) (i + 1) then
      { metaFunction with
        arguments := metaFunction.arguments.set i
          { metaArg with defaultValueExpression := replacedExpression,
                         originalDefaultValueExpression := replacedExpression } }
    else metaFunction
  | _, _ => metaFunction

/-- The reverse-operator test of `traverseFunction(addedFunc, metaClass)`.  (The
C++ code reads `metaClass->typeEntry()`; without a class the embedding leaves
the function as it is.) -/
def detectAddedReverseOperator (env : Env) (d : AbstractMetaBuilderPrivate)
    (metaClass : Option ClassId) (metaFunction : AbstractMetaFunction) : AbstractMetaFunction :=
  if env.isOperatorOverload metaFunction && !env.isCallOperator metaFunction then
    match metaFunction.arguments, metaClass with
    | [first, second], some cls =>
      if second.type.typeEntry == (d.heap cls).typeEntry then
        { metaFunction with reverseOperator := true, arguments := [first] }
      else metaFunction
    | _, _ => metaFunction
  else metaFunction

/-- The last part of `traverseFunction(addedFunc, metaClass)`, for a class: the
function type is decided from the name, and the function is added to the
class. -/
def addAddedFunctionToClass (d : AbstractMetaBuilderPrivate) (cls : ClassId)
    (metaFunction : AbstractMetaFunction) : AbstractMetaFunction × AbstractMetaBuilderPrivate :=
  let metaClass := d.heap cls
  let f := if metaClass.isNamespace then
             { metaFunction with attributes := metaFunction.attributes.add .Static }
           else metaFunction
  let f :=
    if f.name == metaClass.name then
      let f := { f with functionType := .ConstructorFunction }
      match f.arguments with
      | [argument] =>
        let te := argument.type.typeEntry
        let f := if te.isCustom then { f with isExplicit := true } else f
        if te.name == f.name then { f with functionType := .CopyConstructorFunction } else f
      | _ => f
    else { f with functionType := .NormalFunction }
  let f := { f with declaringClass := some cls, implementingClass := some cls,
                    ownerClass := some cls }
  (f, setClass d cls { metaClass with functions := metaClass.functions ++ [f],
                                      hasNonPrivateConstructor := true })

/-- `AbstractMetaBuilderPrivate::traverseFunction(const AddedFunctionPtr &,
AbstractMetaClass *metaClass)`.  The outer `none` is the end of the program
through `qFatal` in a type translation; the inner one is the null result. -/
def traverseAddedFunction (env : Env) (d : AbstractMetaBuilderPrivate) (addedFunc : AddedFunction)
    (metaClass : Option ClassId) :
    Option (Option AbstractMetaFunction × AbstractMetaBuilderPrivate) :=
  let metaFunction := env.newFunctionFromAdded addedFunc
  match env.translateAddedType addedFunc.returnType with
  | .fatal => none
  | returned =>
    let metaFunction : AbstractMetaFunction :=
      { metaFunction with type := match returned with
                                  | .type t => some t
                                  | _ => none }
    match traverseAddedArguments env 0 addedFunc.arguments [] with
    | none => none
    | some none => some (none, d)
    | some (some metaArguments) =>
      let f1 := detectAddedReverseOperator env d metaClass
        { metaFunction with arguments := metaArguments }
      let f2 := (List.range f1.arguments.length).foldl (setAddedDefaultValue env d metaClass) f1
      let f3 := { f2 with originalAttributes := f2.attributes }
      let f4 := if !f3.arguments.isEmpty then
                  fixArgumentNames f3 (env.modifications f3 (metaClass.map d.heap))
                else f3
      match metaClass with
      | some cls =>
        let (f5, d1) := addAddedFunctionToClass d cls f4
        some (some f5, d1)
      | none => some (some f4, d)

/-- `AbstractMetaBuilderPrivate::fillAddedFunctions`: nothing when the program
ends through `qFatal`. -/
def fillAddedFunctionsAux (env : Env) (cls : ClassId) :
    List AddedFunction → AbstractMetaBuilderPrivate → Option AbstractMetaBuilderPrivate
  | [], d => some d
  | addedFunc :: rest, d =>
    match traverseAddedFunction env d addedFunc (some cls) with
    | some (some _, d1) => fillAddedFunctionsAux env cls rest d1
    | _ => none

/-- `AbstractMetaBuilderPrivate::fillAddedFunctions`. -/
def fillAddedFunctions (env : Env) (d : AbstractMetaBuilderPrivate) (cls : ClassId) :
    Option AbstractMetaBuilderPrivate :=
  fillAddedFunctionsAux env cls (d.heap cls).typeEntry.addedFunctions d

/-- The loop of `AbstractMetaBuilderPrivate::traverseFunctions` over the meta
functions of the class, after the attributes of rejected constructors have been
stored in the class. -/
def traverseFunctionsLoop (env : Env) (d : AbstractMetaBuilderPrivate)
    (scopeFunctionList : List FunctionModelItem) (cls : ClassId) : AbstractMetaBuilderPrivate :=
  let (functions, constructorAttributes, d1) := classFunctionList env d scopeFunctionList (some cls)
  let d2 := setClass d1 cls
    { d1.heap cls with attributes := Attributes.union (d1.heap cls).attributes constructorAttributes }
  functions.foldl (traverseFunctionsStep env cls) d2

/-- `AbstractMetaBuilderPrivate::traverseFunctions`, given the function list of
the scope: nothing when `fillAddedFunctions` ends the program. -/
def traverseFunctions (env : Env) (d : AbstractMetaBuilderPrivate)
    (scopeFunctionList : List FunctionModelItem) (cls : ClassId) :
    Option AbstractMetaBuilderPrivate :=
  fillAddedFunctions env (traverseFunctionsLoop env d scopeFunctionList cls) cls

/-! ## Free operator functions -/

/-- `AbstractMetaBuilderPrivate::argumentToClass`. -/
def argumentToClass (env : Env) (d : AbstractMetaBuilderPrivate) (argument : ArgumentModelItem)
    (currentClass : Option ClassId) : Option ClassId :=
  match env.translateType d.heap d.m_metaClasses d.m_templates argument.type currentClass with
  | some type =>
    if type.typeEntry.isComplex then env.findClassByEntry d.heap d.m_metaClasses type.typeEntry
    else none
  | none => none

/-- `codeGeneration() & TypeEntry::GenerateTargetLang`. -/
def generatesTargetLang (t : TypeEntry) : Bool :=
  Nat.land t.codeGeneration GenerateTargetLang != 0

/-- `AbstractMetaAttributes::setVisibility`: the visibility flags are cleared
and the given one is set. -/
def setVisibility (a : Attributes) (visibility : Attribute) : Attributes :=
  ((((a.remove .Private).remove .Protected).remove .Public).remove .Friendly).add visibility

/-- The first part of `traverseOperatorFunction` for a function with the
arguments `first :: rest`: the class that takes the operator, and the flags
`firstArgumentIsSelf` and `unaryOperator`. -/
def operatorHomeClass (env : Env) (d : AbstractMetaBuilderPrivate) (item : FunctionModelItem)
    (currentClass : Option ClassId) (first : ArgumentModelItem) (rest : List ArgumentModelItem) :
    Option ClassId × Bool × Bool :=
  let baseoperandClass := argumentToClass env d first currentClass
  match rest with
  | [] => (baseoperandClass, true, true)
  | second :: _ =>
    let otherArgClass := argumentToClass env d second currentClass
    match baseoperandClass with
    | none => (otherArgClass, false, false)
    | some base =>
      if !generatesTargetLang (d.heap base).typeEntry then (otherArgClass, false, false)
      else
        let type := env.translateType d.heap d.m_metaClasses d.m_templates item.type currentClass
        match otherArgClass, type with
        | some other, some t =>
          let retType := t.typeEntry
          if (retType.isValue || retType.isObject)
              && retType != (d.heap base).typeEntry
              && retType == (d.heap other).typeEntry then
            (env.findClassByEntry d.heap d.m_metaClasses retType, false, false)
          else (baseoperandClass, true, false)
        | _, _ => (baseoperandClass, true, false)

/-- The part of `traverseOperatorFunction` that turns the traversed function
into a member of its class: the self argument is taken away, and the function
is flagged as reverse operator when the self argument was the last one.
(`takeFirst` and `takeLast` assert a non-empty list; on an empty list the
embedding leaves it empty.) -/
def stripSelfArgument (metaFunction : AbstractMetaFunction) (firstArgumentIsSelf unaryOperator : Bool) :
    AbstractMetaFunction :=
  let arguments := metaFunction.arguments
  if firstArgumentIsSelf || unaryOperator then
    match arguments with
    | [] => metaFunction
    | first :: rest =>
      { metaFunction with
        pointerOperator :=
          if !unaryOperator && first.type.indirections != 0 then true
          else metaFunction.pointerOperator,
        arguments := rest }
  else
    match arguments.getLast? with
    | none => { metaFunction with reverseOperator := true }
    | some last =>
      { metaFunction with
        pointerOperator :=
          if last.type.indirections != 0 then true else metaFunction.pointerOperator,
        arguments := arguments.dropLast,
        reverseOperator := true }

/-- The function that `traverseOperatorFunction` adds to the class `cls` for the
traversed function `metaFunction`. -/
def operatorMemberFunction (cls : ClassId) (metaFunction : AbstractMetaFunction)
    (firstArgumentIsSelf unaryOperator : Bool) : AbstractMetaFunction :=
  let f := stripSelfArgument metaFunction firstArgumentIsSelf unaryOperator
  let f := { f with functionType := .NormalFunction }
  let f := { f with attributes := setVisibility f.attributes .Public }
  let f := { f with originalAttributes := f.attributes }
  { f with declaringClass := some cls, implementingClass := some cls, ownerClass := some cls }

/-- `AbstractMetaBuilderPrivate::traverseOperatorFunction`.  (`arguments.at(0)`
asserts a non-empty argument list; for an empty one the embedding does
nothing.) -/
def traverseOperatorFunction (env : Env) (d : AbstractMetaBuilderPrivate)
    (item : FunctionModelItem) (currentClass : Option ClassId) : AbstractMetaBuilderPrivate :=
  if item.accessPolicy != .Public then d
  else
    match item.arguments with
    | [] => d
    | first :: rest =>
      match operatorHomeClass env d item currentClass first rest with
      | (none, _, _) => d
      | (some cls, firstArgumentIsSelf, unaryOperator) =>
        match traverseFunction env d item (some cls) with
        | (none, d1) => d1
        | (some metaFunction, d1) =>
          let f := operatorMemberFunction cls metaFunction firstArgumentIsSelf unaryOperator
          let metaClass := d1.heap cls
          let metaClass :=
            if f.name == "operator_equal" then { metaClass with hasEqualsOperator := true }
            else metaClass
          setClass d1 cls { metaClass with functions := metaClass.functions ++ [f] }

/-! ## Free operators of the global scope -/

/-- The list `binaryOperators` that `traverseDom` collects from the global
scope `dom`.  `findFunctions` is `dom->findFunctions` of codemodel.cpp, which
is not part of the sources. -/
def binaryOperators (findFunctions : String → List FunctionModelItem) : List FunctionModelItem :=
  let binaryOperators := findFunctions "operator=="
  let binaryOperators := binaryOperators ++ findFunctions "operator!="
  let binaryOperators := binaryOperators ++ findFunctions "operator<="
  let binaryOperators := binaryOperators ++ findFunctions "operator>="
  let binaryOperators := binaryOperators ++ findFunctions "operator<"
  let binaryOperators := binaryOperators ++ findFunctions "operator+"
  let binaryOperators := binaryOperators ++ findFunctions "operator/"
  let potentiallyBinaryOperators := findFunctions "operator*" ++ findFunctions "operator&"
  let binaryOperators := potentiallyBinaryOperators.foldl
    (fun binaryOperators item =>
      if !item.arguments.isEmpty then binaryOperators ++ [item] else binaryOperators)
    binaryOperators
  let binaryOperators := binaryOperators ++ findFunctions "operator-"
  let binaryOperators := binaryOperators ++ findFunctions "operator&"
  let binaryOperators := binaryOperators ++ findFunctions "operator|"
  let binaryOperators := binaryOperators ++ findFunctions "operator^"
  let binaryOperators := binaryOperators ++ findFunctions "operator~"
  binaryOperators ++ findFunctions "operator>"

/-- The loop of `traverseDom` over a list of operators: one call of
`traverseOperatorFunction(item, nullptr)` for each element. -/
def traverseOperatorFunctions (env : Env) (d : AbstractMetaBuilderPrivate)
    (items : List FunctionModelItem) : AbstractMetaBuilderPrivate :=
  items.foldl (fun d item => traverseOperatorFunction env d item none) d

/-- The block of `traverseDom` for the free operators of the global scope. -/
def traverseDomOperators (env : Env) (d : AbstractMetaBuilderPrivate)
    (findFunctions : String → List FunctionModelItem) : AbstractMetaBuilderPrivate :=
  traverseOperatorFunctions env d (binaryOperators findFunctions)

/-- The function `x` occurs exactly `k` times in the list `l`. -/
def occursTimes : Nat → FunctionModelItem → List FunctionModelItem → Prop
  | 0, x, l => x ∉ l
  | k + 1, x, l => ∃ l1 l2, l = l1 ++ x :: l2 ∧ x ∉ l1 ∧ occursTimes k x l2

/-- The operator names of `traverseDom` that are looked up once and without a
filter. -/
def plainOperatorNames : List String :=
  ["operator==", "operator!=", "operator<=", "operator>=", "operator<", "operator+",
   "operator/", "operator-", "operator|", "operator^", "operator~", "operator>"]

/-! ## Stream operators -/

/-- The loop of `reverseList`: every argument gets the current index and is
put in front of the result. -/
def reverseListLoop :
    List AbstractMetaArgument → Nat → List AbstractMetaArgument → List AbstractMetaArgument
  | [], _, ret => ret
  | arg :: rest, index, ret =>
    reverseListLoop rest (index - 1) ({ arg with argumentIndex := index } :: ret)

/-- `AbstractMetaBuilderPrivate::reverseList`. -/
def reverseList (list : List AbstractMetaArgument) : List AbstractMetaArgument :=
  reverseListLoop list list.length []

/-- The part of `traverseStreamOperator` that works on the traversed function
before it is given to a class; `streamGenerated` is
`streamClass->typeEntry()->generateCode()`.  (`takeLast` and `takeFirst` assert
a non-empty list; on an empty list the embedding leaves it empty.) -/
def streamMemberFunction (streamFunction : AbstractMetaFunction) (streamGenerated : Bool) :
    AbstractMetaFunction :=
  let f := { streamFunction with functionType := .GlobalScopeFunction }
  let arguments := f.arguments
  let arguments := if !streamGenerated then arguments.dropLast else arguments.drop 1
  let f := { f with arguments := arguments }
  let f := { f with attributes := (f.attributes.add .FinalInTargetLang).add .Public }
  let f := { f with originalAttributes := f.attributes }
  if !streamGenerated then
    { f with arguments := reverseList f.arguments, reverseOperator := true }
  else f

/-- `AbstractMetaBuilderPrivate::traverseStreamOperator`.  (The extra include
that the function adds to the type entry of the class is not embedded: the
embedding has no includes on type entries, and the builder does not read
them.) -/
def traverseStreamOperator (env : Env) (d : AbstractMetaBuilderPrivate)
    (item : FunctionModelItem) (currentClass : Option ClassId) : AbstractMetaBuilderPrivate :=
  match item.arguments with
  | [first, second] =>
    if item.accessPolicy == .Public then
      match argumentToClass env d first currentClass,
          argumentToClass env d second currentClass with
      | some streamClass, some streamedClass =>
        if (d.heap streamClass).stream then
          match traverseFunction env d item (some streamedClass) with
          | (none, d1) => d1
          | (some streamFunction, d1) =>
            let streamGenerated := (d1.heap streamClass).typeEntry.generateCode
            let f := streamMemberFunction streamFunction streamGenerated
            let funcClass := if !streamGenerated then streamedClass else streamClass
            let (f, metaClass) := setupFunctionDefaults f funcClass (d1.heap funcClass)
            setClass d1 funcClass (addFunction metaClass funcClass f)
        else d
      | _, _ => d
    else d
  | _ => d

/-! ## Includes -/

/-- `isFileSystemSlash`. -/
def isFileSystemSlash (c : Char) : Bool := c == '/' || c == '\\'

/-- `QString::startsWith(s, cs)` on the characters of the two strings. -/
def startsWith (env : Env) (string s : String) (caseInsensitive : Bool) : Bool :=
  if caseInsensitive then
    (s.data.map env.toCaseFolded).isPrefixOf (string.data.map env.toCaseFolded)
  else s.data.isPrefixOf string.data

/-- `matchHeader(headerPath, fileName)`. -/
def matchHeader (env : Env) (headerPath fileName : String) : Bool :=
  let pathSize := headerPath.data.length
  decide (fileName.data.length > pathSize)
    && (match fileName.data[pathSize]? with
        | some c => isFileSystemSlash c
        | none => false)
    && startsWith env fileName headerPath env.caseInsensitiveFileNames

/-- The loop of `setInclude` over the header paths: the final value of
`bestMatchLength`. -/
def bestMatchLength (env : Env) (fileName : String) : List String → Nat → Nat
  | [], best => best
  | headerPath :: rest, best =>
    if decide (headerPath.data.length > best) && matchHeader env headerPath fileName then
      bestMatchLength env fileName rest headerPath.data.length
    else bestMatchLength env fileName rest best

/-- `AbstractMetaBuilderPrivate::setInclude(te, fileName)`: the include that the
type entry is given (nothing when the function returns without calling
`te->setInclude`), and the builder with its cache of resolved includes. -/
def setInclude (env : Env) (d : AbstractMetaBuilderPrivate) (fileName : String) :
    Option Include × AbstractMetaBuilderPrivate :=
  match d.m_resolveIncludeHash.lookup fileName with
  | some value => (some value, d)
  | none =>
    if env.fileName d.m_globalHeader == env.fileName fileName then (none, d)
    else
      let best := bestMatchLength env fileName d.m_headerPaths 0
      let includeName : String :=
        if best > 0 then String.mk (fileName.data.drop (best + 1))
        else env.fileName fileName
      let value : Include := { type := .IncludePath, name := includeName }
      (some value,
       { d with m_resolveIncludeHash := (fileName, value) :: d.m_resolveIncludeHash })

/-- The call `setInclude(te, fileName)` for the type entry `te`: the include is
resolved by `setInclude`, and `te->setInclude` is a write to the entry. -/
def setIncludeOfEntry (env : Env) (d : AbstractMetaBuilderPrivate) (te : TypeEntry)
    (fileName : String) : AbstractMetaBuilderPrivate :=
  match setInclude env d fileName with
  | (some value, d1) =>
    { d1 with typeDatabaseWrites := d1.typeDatabaseWrites ++ [.setInclude te value] }
  | (none, d1) => d1

/-! ## Enums -/

/-- The loop of `traverseEnum` for an anonymous enum: each enumerator name in
turn replaces the last part of `tmpQualifiedName`, until the type database has
an entry of the resulting name.  The result is the entry found, if any, and the
last name tried (`qualifiedName`).  (`removeLast` asserts a non-empty list; the
embedding drops nothing from an empty one.) -/
def anonymousEnumLookup (types : TypeDatabase) :
    List String → List EnumeratorModelItem → String → Option TypeEntry × String
  | _, [], qualifiedName => (none, qualifiedName)
  | tmpQualifiedName, enumValue :: rest, _ =>
    let tmp1 := tmpQualifiedName.dropLast ++ [enumValue.name]
    let qualifiedName := joinColonColon tmp1
    match types.findType qualifiedName with
    | some typeEntry => (some typeEntry, qualifiedName)
    | none => anonymousEnumLookup types tmp1 rest qualifiedName

/-- The first part of `traverseEnum`: the type entry of the enum, the qualified
name used for it, and the builder (a private enum adds its entry to the type
database). -/
def enumTypeEntry (env : Env) (d : AbstractMetaBuilderPrivate) (enumItem : EnumModelItem) :
    Option TypeEntry × String × AbstractMetaBuilderPrivate :=
  let qualifiedName := joinColonColon enumItem.qualifiedName
  if enumItem.accessPolicy == .Private then
    let names := enumItem.qualifiedName
    let enumName := names.getLast?.getD ""
    let nspace := if names.length > 1 then joinColonColon names.dropLast else ""
    let typeEntry := env.newEnumTypeEntry nspace enumName
    (some typeEntry, qualifiedName,
      { d with typeDatabaseWrites := d.typeDatabaseWrites ++ [.addType typeEntry] })
  else if enumItem.enumKind != .AnonymousEnum then
    (env.types.findType qualifiedName, qualifiedName, d)
  else
    let found := anonymousEnumLookup env.types enumItem.qualifiedName enumItem.enumerators
      qualifiedName
    (found.1, found.2, d)

/-- The last loop of `traverseEnum`: every enumerator gets an enum value entry
in the type database, and a null value becomes the null value of the enum. -/
def registerEnumValues (env : Env) (namePrefix : String) (enumEntry : TypeEntry) :
    List EnumeratorModelItem → List TypeDatabaseWrite
  | [] => []
  | e :: rest =>
    let enumValue := env.newEnumValueTypeEntry (namePrefix ++ e.name) e.stringValue enumEntry
    (TypeDatabaseWrite.addType enumValue ::
      (if e.value == 0 then [TypeDatabaseWrite.setNullValue enumEntry enumValue] else []))
      ++ registerEnumValues env namePrefix enumEntry rest

/-- `className` in `traverseEnum`: the qualified name of the enclosing class, or
the empty string. -/
def enumClassName (d : AbstractMetaBuilderPrivate) (enclosing : Option ClassId) : String :=
  match enclosing with
  | some cls => (d.heap cls).typeEntry.qualifiedCppName
  | none => ""

/-- `AbstractMetaBuilderPrivate::traverseEnum`: the meta enum, or nothing, and
the builder after the call. -/
def traverseEnum (env : Env) (d : AbstractMetaBuilderPrivate) (enumItem : EnumModelItem)
    (enclosing : Option ClassId) (enumsDeclarations : List String) :
    Option AbstractMetaEnum × AbstractMetaBuilderPrivate :=
  match enumTypeEntry env d enumItem with
  | (typeEntry, qualifiedName, d1) =>
    let enumName := enumItem.name
    let className := enumClassName d1 enclosing
    match env.types.isEnumRejected className enumName with
    | some rejectReason =>
      let writes : List TypeDatabaseWrite :=
        match typeEntry with
        | some te => [.setCodeGeneration te GenerateNothing]
        | none => []
      let rejects := rejectInsert d1.m_rejectedEnums (qualifiedName ++ rejectReason)
        .GenerationDisabled
      (none, { d1 with typeDatabaseWrites := d1.typeDatabaseWrites ++ writes,
                       m_rejectedEnums := rejects })
    | none =>
      match typeEntry with
      | none =>
        let rejects := rejectInsert d1.m_rejectedEnums qualifiedName .NotInTypeSystem
        (none, { d1 with m_rejectedEnums := rejects })
      | some te =>
        if !te.isEnum then
          let rejects := rejectInsert d1.m_rejectedEnums qualifiedName .NotInTypeSystem
          (none, { d1 with m_rejectedEnums := rejects })
        else
          let isPrivate := enumItem.accessPolicy == .Private
          let te1 := if isPrivate then { te with codeGeneration := GenerateNothing } else te
          let attributes : Attributes :=
            match enumItem.accessPolicy with
            | .Public => [Attribute.Public]
            | .Protected => [Attribute.Protected]
            | .Private => [Attribute.Private]
          let metaEnum : AbstractMetaEnum :=
            { typeEntry := te1,
              enumKind := enumItem.enumKind,
              isSigned := enumItem.isSigned,
              hasQEnumsDeclaration :=
                enumsDeclarations.contains qualifiedName || enumsDeclarations.contains enumName,
              attributes := attributes,
              originalAttributes := attributes,
              enumValues := enumItem.enumerators.map (fun value =>
                { name := value.name, stringValue := value.stringValue, value := value.value }) }
          let namePrefix : String :=
            (match enclosing with
             | some cls => (d1.heap cls).typeEntry.qualifiedCppName ++ "::"
             | none => "")
            ++ (if enumItem.enumKind == .EnumClass then enumItem.name ++ "::" else "")
          let d2 : AbstractMetaBuilderPrivate :=
            { d1 with
              m_enums := d1.m_enums ++ [(te1, metaEnum)],
              typeDatabaseWrites := d1.typeDatabaseWrites ++
                (if isPrivate then [TypeDatabaseWrite.setCodeGeneration te GenerateNothing]
                 else []) }
          let d3 := if !te1.includeIsValid then setIncludeOfEntry env d2 te1 enumItem.fileName
                    else d2
          (some metaEnum,
            { d3 with typeDatabaseWrites := d3.typeDatabaseWrites ++
                registerEnumValues env namePrefix te1 enumItem.enumerators })

/-! ## Template inheritance -/

/-- The results of a sequence of `inheritTemplateType` calls, taken in order
until one of them has run out of fuel (the result is nothing) or has returned
no type (the result is `some none`). -/
def collectInheritedTypes :
    List (Option (Option AbstractMetaType)) → Option (Option (List AbstractMetaType))
  | [] => some (some [])
  | none :: _ => none
  | some none :: _ => some none
  | some (some t) :: rest =>
    match collectInheritedTypes rest with
    | none => none
    | some none => some none
    | some (some ts) => some (some (t :: ts))

/-- `AbstractMetaBuilderPrivate::inheritTemplateType(templateTypes, metaType)`.
The C++ function calls itself on the substituted type and on the
instantiations; the first argument bounds the depth of these calls, and the
result is nothing when the bound is reached.  Otherwise the result is the type
returned, `none` standing for the null pointer.  (`copy()` yields an object with
the same members.) -/
def inheritTemplateType (env : Env) (templateTypes : List AbstractMetaType) :
    Nat → AbstractMetaType → Option (Option AbstractMetaType)
  | 0, _ => none
  | fuel + 1, metaType =>
    if !metaType.typeEntry.isTemplateArgument && !metaType.hasInstantiations then
      some (some metaType)
    else
      let returned := { metaType with hasOriginalTemplateType := true }
      if returned.typeEntry.isTemplateArgument then
        match templateTypes[returned.typeEntry.ordinal]? with
        | none => some none
        | some templateType =>
          if templateType.typeEntry.isVoid then some none
          else
            let t := env.decideUsagePattern
              { returned with
                typeEntry := templateType.typeEntry,
                indirections :=
                  if templateType.indirections + returned.indirections != 0 then 1 else 0 }
            inheritTemplateType env templateTypes fuel t
      else
        match collectInheritedTypes
            (returned.instantiations.map (inheritTemplateType env templateTypes fuel)) with
        | none => none
        | some none => some none
        | some (some instantiations) => some (some { returned with instantiations := instantiations })

/-- `std::all_of(typeName.cbegin(), typeName.cend(), isDigit)`. -/
def isNumberName (typeName : String) : Bool := typeName.data.all Char.isDigit

/-- The body of the first loop of `inheritTemplate` for the template argument
`i`: the type entry found for it, if any, and what is written to the type
database. -/
def templateArgumentEntry (env : Env) (d : AbstractMetaBuilderPrivate)
    (subclass templateClass : AbstractMetaClass) (i : TypeInfo) :
    Option TypeEntry × List TypeDatabaseWrite :=
  let typeName := joinColonColon i.qualifiedName
  if isNumberName typeName then
    match env.types.findType typeName with
    | some t => (some t, [])
    | none =>
      let t := { env.newEnumValueTypeEntry typeName typeName {} with codeGeneration := 0 }
      (some t, [.addType t])
  else
    let possibleNames : List String :=
      [subclass.qualifiedCppName ++ "::" ++ typeName,
       templateClass.qualifiedCppName ++ "::" ++ typeName]
      ++ (match subclass.enclosingClass with
          | some e => [(d.heap e).qualifiedCppName ++ "::" ++ typeName]
          | none => [])
      ++ [typeName]
    (possibleNames.findSome? env.types.findType, [])

/-- The first loop of `inheritTemplate`: the list `templateTypes`, and what is
written to the type database.  A template argument without type entry leaves no
element in the list. -/
def templateTypeList (env : Env) (d : AbstractMetaBuilderPrivate)
    (subclass templateClass : AbstractMetaClass) :
    List TypeInfo → List AbstractMetaType × List TypeDatabaseWrite
  | [] => ([], [])
  | i :: rest =>
    let (entry, writes) := templateArgumentEntry env d subclass templateClass i
    let (types, writes1) := templateTypeList env d subclass templateClass rest
    match entry with
    | some t =>
      (env.decideUsagePattern
        { typeEntry := t, constant := i.isConstant, referenceType := i.referenceType,
          indirections := i.indirections, instantiations := [], arrayElementType := none } :: types,
       writes ++ writes1)
    | none => (types, writes ++ writes1)

/-- The loop of `inheritTemplate` over the arguments of a template function:
the arguments built until the loop ends or leaves through `break`; nothing when
a call of `inheritTemplateType` has run out of fuel. -/
def inheritTemplateArguments (env : Env) (templateTypes : List AbstractMetaType) (fuel : Nat) :
    List AbstractMetaArgument → List AbstractMetaArgument → Option (List AbstractMetaArgument)
  | [], acc => some acc
  | argument :: rest, acc =>
    match inheritTemplateType env templateTypes fuel argument.type with
    | none => none
    | some none => some acc
    | some (some argType) =>
      inheritTemplateArguments env templateTypes fuel rest (acc ++ [{ argument with type := argType }])

/-- `AbstractMetaFunction::find(haystack, needle)`: a function of that name. -/
def findFunction (haystack : List AbstractMetaFunction) (needle : String) :
    Option AbstractMetaFunction :=
  haystack.find? (fun f => f.name == needle)

/-- `AbstractMetaField::find(haystack, needle)`: a field of that name. -/
def findField (haystack : List AbstractMetaField) (needle : String) : Option AbstractMetaField :=
  haystack.find? (fun f => f.name == needle)

/-- How the body of a loop of `inheritTemplate` ends for one member of the
template class. -/
inductive InheritResult (α : Type) where
  /-- A call of `inheritTemplateType` has run out of fuel. -/
  | outOfFuel
  /-- The member is skipped (`continue`). -/
  | skipped
  /-- The member is specialised; the value is added to the subclass. -/
  | inherited (member : α)

/-- The body of the function loop of `inheritTemplate` up to the constructor
test: the copy `f` of `function` with substituted types.  `subclassFuncs` is
the list that the loop has bound to `subclass->functions()`. -/
def inheritTemplateFunction (env : Env) (templateTypes : List AbstractMetaType) (fuel : Nat)
    (subclassFuncs : List AbstractMetaFunction) (cls : ClassId) (subclass : AbstractMetaClass)
    (function : AbstractMetaFunction) : InheritResult AbstractMetaFunction :=
  if env.functionIsModifiedRemoved function
      || (findFunction subclassFuncs function.name).isSome then .skipped
  else
    let f := { function with arguments := [] }
    let returned : Option (Option AbstractMetaFunction) :=
      match function.type with
      | some type =>
        match inheritTemplateType env templateTypes fuel type with
        | none => none
        | some none => some none
        | some (some returnType) => some (some { f with type := some returnType })
      | none => some (some f)
    match returned with
    | none => .outOfFuel
    | some none => .skipped
    | some (some f1) =>
      match inheritTemplateArguments env templateTypes fuel function.arguments [] with
      | none => .outOfFuel
      | some arguments =>
        if arguments.length < function.arguments.length then .skipped
        else
          let f2 := { f1 with arguments := arguments, implementingClass := some cls,
                              declaringClass := some cls }
          if f2.isConstructor then
            if !subclass.isTypeDef then .skipped
            else .inherited { f2 with name := subclass.name, originalName := subclass.name }
          else .inherited f2

/-- The rest of the body of the function loop of `inheritTemplate` for the
specialised function `f` of `function`: the modifications of `function` are
added to the type entry of the subclass under the signature of `f`, the array
modifications are applied to `f`, and `f` is added to the subclass. -/
def addInheritedFunction (env : Env) (templateClass : AbstractMetaClass) (cls : ClassId)
    (subclass : AbstractMetaClass) (function f : AbstractMetaFunction) : AbstractMetaClass :=
  let mods := (env.modifications function (some templateClass)).map
    (fun mod => (mod.setSignature env (env.minimalSignature f)).1)
  let subclass1 :=
    { subclass with
      typeEntry := { subclass.typeEntry with
        functionMods := subclass.typeEntry.functionMods ++ mods } }
  let f1 := (applyArrayArgumentModifications env (env.modifications f (some subclass1)) f).1
  addFunction subclass1 cls f1

/-- The function loop of `inheritTemplate`: the subclass after the loop, or
nothing when a call of `inheritTemplateType` has run out of fuel.  The list
`subclassFuncs` is bound before the loop; when it is a reference, it holds the
functions that the loop has added so far as well. -/
def inheritTemplateFunctions (env : Env) (templateTypes : List AbstractMetaType) (fuel : Nat)
    (subclassFuncs : List AbstractMetaFunction) (templateClass : AbstractMetaClass)
    (cls : ClassId) :
    List AbstractMetaFunction → AbstractMetaClass → Option AbstractMetaClass
  | [], subclass => some subclass
  | function :: rest, subclass =>
    match inheritTemplateFunction env templateTypes fuel subclassFuncs cls subclass function with
    | .outOfFuel => none
    | .skipped =>
      inheritTemplateFunctions env templateTypes fuel subclassFuncs templateClass cls rest subclass
    | .inherited f =>
      let subclass1 := addInheritedFunction env templateClass cls subclass function f
      inheritTemplateFunctions env templateTypes fuel
        (if env.listsByReference then subclass1.functions else subclassFuncs) templateClass cls
        rest subclass1

/-- The body of the field loop of `inheritTemplate`.  `subClassFields` is the
list that the loop has bound to `subclass->fields()`. -/
def inheritTemplateField (env : Env) (templateTypes : List AbstractMetaType) (fuel : Nat)
    (subClassFields : List AbstractMetaField) (cls : ClassId) (field : AbstractMetaField) :
    InheritResult AbstractMetaField :=
  if env.fieldIsModifiedRemoved field || field.attributes.has .Static
      || (findField subClassFields field.name).isSome then .skipped
  else
    match inheritTemplateType env templateTypes fuel field.type with
    | none => .outOfFuel
    | some none => .skipped
    | some (some fieldType) =>
      .inherited { field with enclosingClass := some cls, type := fieldType }

/-- The field loop of `inheritTemplate`: the subclass after the loop, or nothing
when a call of `inheritTemplateType` has run out of fuel.  The list
`subClassFields` is bound before the loop; when it is a reference, it holds the
fields that the loop has added so far as well. -/
def inheritTemplateFields (env : Env) (templateTypes : List AbstractMetaType) (fuel : Nat)
    (subClassFields : List AbstractMetaField) (cls : ClassId) :
    List AbstractMetaField → AbstractMetaClass → Option AbstractMetaClass
  | [], subclass => some subclass
  | field :: rest, subclass =>
    match inheritTemplateField env templateTypes fuel subClassFields cls field with
    | .outOfFuel => none
    | .skipped => inheritTemplateFields env templateTypes fuel subClassFields cls rest subclass
    | .inherited f =>
      let subclass1 := { subclass with fields := subclass.fields ++ [f] }
      inheritTemplateFields env templateTypes fuel
        (if env.listsByReference then subclass1.fields else subClassFields) cls rest subclass1

/-- The start of `inheritTemplate`: a typedef subclass takes the flags of the
template class. -/
def inheritTypedefFlags (subclass templateClass : AbstractMetaClass) : AbstractMetaClass :=
  if subclass.isTypeDef then
    { subclass with
      hasCloneOperator := templateClass.hasCloneOperator,
      hasEqualsOperator := templateClass.hasEqualsOperator,
      hasHashFunction := templateClass.hasHashFunction,
      hasNonPrivateConstructor := templateClass.hasNonPrivateConstructor,
      hasPrivateDestructor := templateClass.hasPrivateDestructor,
      hasProtectedDestructor := templateClass.hasProtectedDestructor,
      hasVirtualDestructor := templateClass.hasVirtualDestructor }
  else subclass

/-- The list `templateTypes` that `inheritTemplate(subclass, templateClass, info)`
builds from the instantiations of `info`. -/
def inheritedTemplateTypes (env : Env) (d : AbstractMetaBuilderPrivate) (cls templ : ClassId)
    (info : TypeInfo) : List AbstractMetaType :=
  (templateTypeList env d (inheritTypedefFlags (d.heap cls) (d.heap templ)) (d.heap templ)
    info.instantiations).1

/-- `AbstractMetaBuilderPrivate::inheritTemplate(subclass, templateClass, info)`,
with the bound `fuel` on the depth of the calls of `inheritTemplateType`: the
builder after the call (the C++ function returns `true`), or nothing when the
bound is reached. -/
def inheritTemplate (env : Env) (fuel : Nat) (d : AbstractMetaBuilderPrivate) (cls : ClassId)
    (templ : ClassId) (info : TypeInfo) : Option AbstractMetaBuilderPrivate :=
  let templateClass := d.heap templ
  let subclass1 := inheritTypedefFlags (d.heap cls) templateClass
  let templateTypes := inheritedTemplateTypes env d cls templ info
  let writes := (templateTypeList env d subclass1 templateClass info.instantiations).2
  match inheritTemplateFunctions env templateTypes fuel subclass1.functions templateClass cls
      templateClass.functions subclass1 with
  | none => none
  | some subclass2 =>
    match inheritTemplateFields env templateTypes fuel subclass2.fields cls
        templateClass.fields subclass2 with
    | none => none
    | some subclass3 =>
      let subclass4 :=
        { subclass3 with
          templateBaseClass := some templ,
          templateBaseClassInstantiations := templateTypes,
          interfaces := templateClass.interfaces,
          baseClass := templateClass.baseClass }
      some { setClass d cls subclass4 with
             typeDatabaseWrites := d.typeDatabaseWrites ++ writes }

/-- The type is a template parameter that the list `templateTypes` binds to
`void`. -/
def boundToVoid (templateTypes : List AbstractMetaType) (type : AbstractMetaType) : Bool :=
  type.typeEntry.isTemplateArgument &&
    match templateTypes[type.typeEntry.ordinal]? with
    | some t => t.typeEntry.isVoid
    | none => false

/-- The return type or the type of an argument of the function is a template
parameter bound to `void`. -/
def usesVoidParameter (templateTypes : List AbstractMetaType) (f : AbstractMetaFunction) : Bool :=
  (match f.type with
   | some t => boundToVoid templateTypes t
   | none => false)
  || f.arguments.any (fun a => boundToVoid templateTypes a.type)

/-- The type that the first loop of `inheritTemplate` builds for the template
argument `i` with the type entry `t`. -/
def templateArgumentType (env : Env) (t : TypeEntry) (i : TypeInfo) : AbstractMetaType :=
  env.decideUsagePattern
    { typeEntry := t, constant := i.isConstant, referenceType := i.referenceType,
      indirections := i.indirections, instantiations := [], arrayElementType := none }

/-- The type is a template parameter whose ordinal is not below the length of
the list `templateTypes`. -/
def unboundParameter (templateTypes : List AbstractMetaType) (type : AbstractMetaType) : Bool :=
  type.typeEntry.isTemplateArgument && decide (templateTypes.length ≤ type.typeEntry.ordinal)

/-- The return type or the type of an argument of the function is a template
parameter whose ordinal is not below the length of the list `templateTypes`. -/
def usesUnboundParameter (templateTypes : List AbstractMetaType) (f : AbstractMetaFunction) :
    Bool :=
  (match f.type with
   | some t => unboundParameter templateTypes t
   | none => false)
  || f.arguments.any (fun a => unboundParameter templateTypes a.type)

/-! ## Inheritance setup -/

/-- `AbstractMetaClass::addInterface` (abstractmetalang.cpp is not part of the
sources): the interface joins the interface list of the class. -/
def addInterface (c : AbstractMetaClass) (iface : ClassId) : AbstractMetaClass :=
  { c with interfaces := c.interfaces ++ [iface] }

/-- The base class name of the template case of `setupInheritance`: the only
base class name, when it contains the character `<`. -/
def templateBaseName : List String → Option String
  | [first] => if containsChar first '<' then some first else none
  | _ => none

/-- The first loop of `setupInheritance` over the base class names from the
index `i` on: the final value of `primary`, nothing standing for `-1`.  (The
counter `primaries` is written and never read.) -/
def primaryBaseIndex (env : Env) : List String → Nat → Option Nat → Option Nat
  | [], _, primary => primary
  | baseClass :: rest, i, primary =>
    if env.types.isClassRejected baseClass then primaryBaseIndex env rest (i + 1) primary
    else
      match env.types.findType baseClass with
      | none => primaryBaseIndex env rest (i + 1) primary
      | some baseClassEntry =>
        if baseClassEntry.designatedInterface.isNone then
          primaryBaseIndex env rest (i + 1) (some i)
        else primaryBaseIndex env rest (i + 1) primary

/-- The name under which `setupInheritance` looks up the interface class of a
base class. -/
def interfaceClassName (baseClass : AbstractMetaClass) : String :=
  if baseClass.isInterface then TypeEntry.interfaceName baseClass.name else baseClass.name

/-- The second loop of `setupInheritance(metaClass)` over the base class names
from the index `i` on.  `setup` stands for the call of `setupInheritance` on a
base class; the result is nothing when that call does not return, otherwise the
value returned and the builder at that point. -/
def setupInterfaces (env : Env)
    (setup : AbstractMetaBuilderPrivate → ClassId → Option (Bool × AbstractMetaBuilderPrivate))
    (cls : ClassId) (primary : Option Nat) :
    List String → Nat → AbstractMetaBuilderPrivate → Option (Bool × AbstractMetaBuilderPrivate)
  | [], _, d => some (true, d)
  | name :: rest, i, d =>
    if env.types.isClassRejected name then setupInterfaces env setup cls primary rest (i + 1) d
    else if primary = some i then setupInterfaces env setup cls primary rest (i + 1) d
    else
      match env.findClass d.heap d.m_metaClasses name with
      | none => some (false, d)
      | some baseClass =>
        match setup d baseClass with
        | none => none
        | some (_, d1) =>
          let interfaceName := interfaceClassName (d1.heap baseClass)
          match env.findClass d1.heap d1.m_metaClasses interfaceName with
          | none => some (false, d1)
          | some iface =>
            let d2 := setClass d1 cls (addInterface (d1.heap cls) iface)
            let d3 := setClass d2 cls ((d2.heap iface).interfaces.foldl addInterface (d2.heap cls))
            setupInterfaces env setup cls primary rest (i + 1) d3

/-- `AbstractMetaBuilderPrivate::setupInheritance(metaClass)`.  The C++ function
calls itself on the template class and on the base classes; the first argument
bounds the depth of these calls and of the calls of `inheritTemplateType`, and
the result is nothing when the bound is reached.  Otherwise the result is the
value returned and the builder after the call.  (`Q_ASSERT` is taken as
compiled out.) -/
def setupInheritance (env : Env) :
    Nat → AbstractMetaBuilderPrivate → ClassId → Option (Bool × AbstractMetaBuilderPrivate)
  | 0, _, _ => none
  | fuel + 1, d, cls =>
    if cls ∈ d.m_setupInheritanceDone then some (true, d)
    else
      let d1 := { d with m_setupInheritanceDone := cls :: d.m_setupInheritanceDone }
      let metaClass := d1.heap cls
      let baseClasses := metaClass.baseClassNames
      match templateBaseName baseClasses with
      | some first =>
        match findTemplateClass env d1 first metaClass with
        | (some templ, info, _) =>
          match setupInheritance env fuel d1 templ with
          | none => none
          | some (_, d2) =>
            match inheritTemplate env fuel d2 cls templ info with
            | none => none
            | some d3 =>
              some (true, setClass d3 cls
                { d3.heap cls with baseContainerType := some (d3.heap templ).typeEntry })
        | (none, _, some baseContainerType) =>
          some (true, setClass d1 cls { metaClass with baseContainerType := some baseContainerType })
        | (none, _, none) => some (false, d1)
      | none =>
        let primary := primaryBaseIndex env baseClasses 0 none
        let based : Option AbstractMetaBuilderPrivate :=
          match primary with
          | some p =>
            match env.findClass d1.heap d1.m_metaClasses (baseClasses.getD p "") with
            | none => none
            | some baseClass => some (setClass d1 cls { metaClass with baseClass := some baseClass })
          | none => some d1
        match based with
        | none => some (false, d1)
        | some d2 => setupInterfaces env (setupInheritance env fuel) cls primary baseClasses 0 d2

/-- The builder inside `setupInheritance(metaClass)` after the class has been
entered into `m_setupInheritanceDone` and `setBaseClass(baseClass)` has been
called on it. -/
def withBaseClass (d : AbstractMetaBuilderPrivate) (cls baseClass : ClassId) :
    AbstractMetaBuilderPrivate :=
  setClass { d with m_setupInheritanceDone := cls :: d.m_setupInheritanceDone } cls
    { d.heap cls with baseClass := some baseClass }

/-- A call that leaves alone every class on which `setupInheritance` has been
called before, and keeps the set of these classes. -/
def KeepsDone
    (setup : AbstractMetaBuilderPrivate → ClassId → Option (Bool × AbstractMetaBuilderPrivate)) :
    Prop :=
  ∀ (d r : AbstractMetaBuilderPrivate) (x : ClassId) (b : Bool), setup d x = some (b, r) →
    (∀ c ∈ d.m_setupInheritanceDone, r.heap c = d.heap c) ∧
    (∀ c ∈ d.m_setupInheritanceDone, c ∈ r.m_setupInheritanceDone)

/-- The body of `setupInheritance(metaClass)`, with `setup` standing for the
calls of `setupInheritance` that the body makes and `fuel` for the bound on the
calls of `inheritTemplateType`. -/
def setupInheritanceStep (env : Env) (fuel : Nat)
    (setup : AbstractMetaBuilderPrivate → ClassId → Option (Bool × AbstractMetaBuilderPrivate))
    (d : AbstractMetaBuilderPrivate) (cls : ClassId) :
    Option (Bool × AbstractMetaBuilderPrivate) :=
  if cls ∈ d.m_setupInheritanceDone then some (true, d)
  else
    let d1 := { d with m_setupInheritanceDone := cls :: d.m_setupInheritanceDone }
    let metaClass := d1.heap cls
    let baseClasses := metaClass.baseClassNames
    match templateBaseName baseClasses with
    | some first =>
      match findTemplateClass env d1 first metaClass with
      | (some templ, info, _) =>
        match setup d1 templ with
        | none => none
        | some (_, d2) =>
          match inheritTemplate env fuel d2 cls templ info with
          | none => none
          | some d3 =>
            some (true, setClass d3 cls
              { d3.heap cls with baseContainerType := some (d3.heap templ).typeEntry })
      | (none, _, some baseContainerType) =>
        some (true, setClass d1 cls { metaClass with baseContainerType := some baseContainerType })
      | (none, _, none) => some (false, d1)
    | none =>
      let primary := primaryBaseIndex env baseClasses 0 none
      let based : Option AbstractMetaBuilderPrivate :=
        match primary with
        | some p =>
          match env.findClass d1.heap d1.m_metaClasses (baseClasses.getD p "") with
          | none => none
          | some baseClass => some (setClass d1 cls { metaClass with baseClass := some baseClass })
        | none => some d1
      match based with
      | none => some (false, d1)
      | some d2 => setupInterfaces env setup cls primary baseClasses 0 d2

/-- The calls of `setupInheritance` restricted to the states in which the class
`cls` is in `m_setupInheritanceDone`: in any other state the call is cut off. -/
def onlyWhenDone (cls : ClassId)
    (setup : AbstractMetaBuilderPrivate → ClassId → Option (Bool × AbstractMetaBuilderPrivate))
    (d : AbstractMetaBuilderPrivate) (x : ClassId) : Option (Bool × AbstractMetaBuilderPrivate) :=
  if cls ∈ d.m_setupInheritanceDone then setup d x else none

/-- The test of the first loop of `setupInheritance` that makes a base class
name the primary one: the registry does not reject the name, and has an entry
for it that has no designated interface. -/
def isPrimaryCandidate (env : Env) (baseClass : String) : Bool :=
  !env.types.isClassRejected baseClass &&
    match env.types.findType baseClass with
    | some baseClassEntry => baseClassEntry.designatedInterface.isNone
    | none => false

/-- How a call of `setupInheritance` ends in a build that has its assertions
(`Q_ASSERT`) compiled in. -/
inductive SetupOutcome where
  /-- The bound on the depth of the calls is reached. -/
  | outOfFuel
  /-- `Q_ASSERT(!metaClass->isInterface())` fails, which ends the process. -/
  | assertionFailed
  /-- The call returns `result` and leaves the builder `d`. -/
  | returned (result : Bool) (d : AbstractMetaBuilderPrivate)

/-- The value that the call has returned, if it has returned. -/
def SetupOutcome.result : SetupOutcome → Option Bool
  | .returned result _ => some result
  | _ => none

/-- The three names under which `AbstractMetaClass::findClass` finds a class,
and the flag `isInterface()` that the assertion of `setupInheritance` reads. -/
def classNames (c : AbstractMetaClass) : String × String × String × Bool :=
  (c.qualifiedCppName, c.fullName, c.name, c.isInterface)

/-- The second builder has the class lists of the first, and its classes have
the names and the interface flag they have in the first. -/
def SameClassNames (d d' : AbstractMetaBuilderPrivate) : Prop :=
  d'.m_metaClasses = d.m_metaClasses ∧ d'.m_templates = d.m_templates ∧
    ∀ c, classNames (d'.heap c) = classNames (d.heap c)

/-! ## Classes -/

/-- `stripTemplateArgs(name)`: the name up to the first `<`. -/
def stripTemplateArgs (name : String) : String :=
  String.mk (name.data.takeWhile (fun c => c != '<'))

/-- `fullClassName` in `traverseClass`. -/
def fullClassName (d : AbstractMetaBuilderPrivate) (classItem : ClassModelItem)
    (currentClass : Option ClassId) : String :=
  let className := stripTemplateArgs classItem.name
  match currentClass with
  | some cls =>
    stripTemplateArgs (d.heap cls).typeEntry.qualifiedCppName ++ "::" ++ className
  | none => className

/-- The variable `reason` of `traverseClass` after the chain of tests on the
type database. -/
def classRejectReason (env : Env) (fullClassName : String) : RejectReason :=
  if env.types.isClassRejected fullClassName then .GenerationDisabled
  else
    match env.types.findComplexType fullClassName with
    | none =>
      match env.types.findType fullClassName with
      | some te => if !te.isComplex then .RedefinedToNotClass else .NotInTypeSystem
      | none => .NotInTypeSystem
    | some type =>
      if type.codeGeneration == GenerateNothing then .GenerationDisabled else .NoReason

/-- The class object that `traverseClass` creates for the type entry `type`, as
it stands after `setTemplateArguments`. -/
def newMetaClass (classItem : ClassModelItem) (type : TypeEntry) : AbstractMetaClass :=
  let attributes : Attributes := if classItem.isFinal then [Attribute.FinalCppClass] else []
  let baseClassNames :=
    (classItem.baseClasses.filter (fun b => b.accessPolicy == .Public)).map (fun b => b.name)
  { typeEntry := type,
    attributes := attributes.add .Public,
    baseClassNames := baseClassNames,
    stream := type.stream,
    templateArguments := classItem.templateParameters.enum.map
      (fun p => { name := p.2, type := .TemplateArgumentType, ordinal := p.1 }) }

/-- The conditions under which a class is rejected, each with its reason: the
registry rejects the class; or it does not, there is no complex type entry of
that name, and there is an entry that is not complex; or there is none such; or
the complex type entry generates nothing. -/
def StatedRejection (env : Env) (fullClassName : String) (reason : RejectReason) : Prop :=
  (env.types.isClassRejected fullClassName = true ∧ reason = .GenerationDisabled) ∨
  (env.types.isClassRejected fullClassName = false ∧
    env.types.findComplexType fullClassName = none ∧
    (∃ te, env.types.findType fullClassName = some te ∧ te.isComplex = false) ∧
    reason = .RedefinedToNotClass) ∨
  (env.types.isClassRejected fullClassName = false ∧
    env.types.findComplexType fullClassName = none ∧
    (¬ ∃ te, env.types.findType fullClassName = some te ∧ te.isComplex = false) ∧
    reason = .NotInTypeSystem) ∨
  (env.types.isClassRejected fullClassName = false ∧
    (∃ type, env.types.findComplexType fullClassName = some type ∧
      type.codeGeneration = GenerateNothing) ∧
    reason = .GenerationDisabled)

/-! ## Header paths -/

/-- The characters `start` of a file name are the header path `headerPath`: as
they are, or, on Windows and macOS, after case folding. -/
def IsHeaderPath (env : Env) (start : List Char) (headerPath : String) : Prop :=
  if env.caseInsensitiveFileNames then
    start.map env.toCaseFolded = headerPath.data.map env.toCaseFolded
  else start = headerPath.data

/-- The header path stands at the start of the file name and is followed there
by a slash or a backslash; `rest` is what follows that separator. -/
def QualifiesWithRest (env : Env) (headerPath fileName : String) (rest : List Char) : Prop :=
  ∃ start c, fileName.data = start ++ c :: rest ∧ isFileSystemSlash c = true ∧
    IsHeaderPath env start headerPath

/-! ## The members of a class -/

/-- `QString::splitRef(QLatin1Char(' '))` on the characters of a string: the
pieces between successive spaces, empty pieces kept. -/
def splitSpacesAux : List Char → List Char → List String
  | [], acc => [String.mk acc.reverse]
  | c :: rest, acc =>
    if c == ' ' then String.mk acc.reverse :: splitSpacesAux rest []
    else splitSpacesAux rest (c :: acc)

/-- `s.splitRef(QLatin1Char(' '))`. -/
def splitSpaces (s : String) : List String := splitSpacesAux s.data []

/-- The loop of `parseQ_Property` over the scopes, from the whole scope down
to no scope: the first type that `translateType` finds for the type name of
the property. -/
def propertyType (env : Env) (d : AbstractMetaBuilderPrivate) (metaClass : ClassId)
    (scopes : List String) (typeName : String) : Option AbstractMetaType :=
  (List.range (scopes.length + 1)).reverse.findSome? (fun j =>
    env.translateType d.heap d.m_metaClasses d.m_templates
      (env.newTypeInfo { qualifiedName := scopes.take j ++ [typeName], instantiations := [] })
      (some metaClass))

/-- The loop of `parseQ_Property` over the tokens from position 2 on, two at a
time. -/
def propertyAccessors : List String → QPropertySpec → QPropertySpec
  | key :: value :: rest, spec =>
    propertyAccessors rest
      (if key == "READ" then { spec with read := value }
       else if key == "WRITE" then { spec with write := value }
       else if key == "DESIGNABLE" then { spec with designable := value }
       else if key == "RESET" then { spec with reset := value }
       else spec)
  | _, spec => spec

/-- The loop of `parseQ_Property` over the declarations, from the declaration
of index `i` on.  The result is nothing where a declaration whose type is
found has a single token: `propertyTokens.at(1)` is then out of range. -/
def parseQ_PropertyLoop (env : Env) (metaClass : ClassId) (scopes : List String) :
    List String → Nat → AbstractMetaBuilderPrivate → Option AbstractMetaBuilderPrivate
  | [], _, d => some d
  | declaration :: rest, i, d =>
    let propertyTokens := splitSpaces declaration
    match propertyType env d metaClass scopes (propertyTokens.headD "") with
    | none => parseQ_PropertyLoop env metaClass scopes rest (i + 1) d
    | some type =>
      match propertyTokens[1]? with
      | none => none
      | some name =>
        let spec := propertyAccessors (propertyTokens.drop 2)
          { type := type.typeEntry, name := name, index := i }
        parseQ_PropertyLoop env metaClass scopes rest (i + 1)
          (setClass d metaClass
            { d.heap metaClass with
              propertySpecs := (d.heap metaClass).propertySpecs ++ [spec] })

/-- `AbstractMetaBuilderPrivate::parseQ_Property(metaClass, declarations)`. -/
def parseQ_Property (env : Env) (d : AbstractMetaBuilderPrivate) (metaClass : ClassId)
    (declarations : List String) : Option AbstractMetaBuilderPrivate :=
  parseQ_PropertyLoop env metaClass (env.currentScope d.m_scopes).qualifiedName declarations 0 d

/-- `AbstractMetaBuilderPrivate::traverseEnums(scopeItem, metaClass,
enumsDeclarations)`, given the enums of the scope.  The enum object that
`traverseEnum` has entered into `m_enums` is the one that the class is given
and whose enclosing class is set. -/
def traverseEnums (env : Env) (metaClass : ClassId) (enumsDeclarations : List String) :
    List EnumModelItem → AbstractMetaBuilderPrivate → AbstractMetaBuilderPrivate
  | [], d => d
  | enumItem :: rest, d =>
    match traverseEnum env d enumItem (some metaClass) enumsDeclarations with
    | (none, d1) => traverseEnums env metaClass enumsDeclarations rest d1
    | (some metaEnum, d1) =>
      let metaEnum1 := { metaEnum with enclosingClass := some metaClass }
      let d2 := setClass d1 metaClass
        { d1.heap metaClass with enums := (d1.heap metaClass).enums ++ [metaEnum1] }
      traverseEnums env metaClass enumsDeclarations rest
        { d2 with m_enums := d2.m_enums.dropLast ++ [(metaEnum1.typeEntry, metaEnum1)] }

/-- `AbstractMetaBuilderPrivate::addAbstractMetaClass(cls, item)`, with the
address `next` of the next new object: the address of the next new object and
the builder after the call. -/
def addAbstractMetaClass (env : Env) (next : ClassId) (d : AbstractMetaBuilderPrivate)
    (cls : ClassId) (item : CodeModelItem) : ClassId × AbstractMetaBuilderPrivate :=
  let d1 := setClass d cls { d.heap cls with originalAttributes := (d.heap cls).attributes }
  let d2 := { d1 with m_itemToClass := (item, cls) :: d1.m_itemToClass }
  if (d2.heap cls).typeEntry.isContainer then
    (next, { d2 with m_templates := d2.m_templates ++ [cls] })
  else if (d2.heap cls).typeEntry.isSmartPointer then
    (next, { d2 with m_smartPointers := d2.m_smartPointers ++ [cls] })
  else
    let d3 := { d2 with m_metaClasses := d2.m_metaClasses ++ [cls] }
    if (d3.heap cls).typeEntry.designatedInterface.isSome then
      let extracted := env.extractInterface d3.heap cls next
      (next + 1, { d3 with heap := extracted.1,
                           m_metaClasses := d3.m_metaClasses ++ [extracted.2] })
    else (next, d3)

/-- `AbstractMetaBuilderPrivate::traverseTypeDef(dom, typeDef, currentClass)`,
with the address `next` of the next new object.  The result is nothing where
the call does not return: the type of an alias of a primitive type has no
name (`qualifiedName()[0]` is out of range), or `fillAddedFunctions` ends the
program.  Otherwise it is the class returned, the address of the next new
object and the builder after the call. -/
def traverseTypeDef (env : Env) (next : ClassId) (d : AbstractMetaBuilderPrivate)
    (typeDef : TypeDefModelItem) (currentClass : Option ClassId) :
    Option (Option ClassId × ClassId × AbstractMetaBuilderPrivate) :=
  let className := stripTemplateArgs typeDef.name
  let fullClassName :=
    match currentClass with
    | some cls =>
      stripTemplateArgs (d.heap cls).typeEntry.qualifiedCppName ++ "::" ++ className
    | none => className
  match env.types.findPrimitiveType className with
  | some ptype =>
    match typeDef.type.qualifiedName with
    | [] => none
    | typeDefName :: _ =>
      some (none, next,
        { d with typeDatabaseWrites := d.typeDatabaseWrites ++
            [.setReferencedTypeEntry ptype (env.types.findPrimitiveType typeDefName)] })
  | none =>
    match env.types.findComplexType fullClassName with
    | none => some (none, next, d)
    | some type =>
      let metaClass : AbstractMetaClass :=
        { isTypeDef := true, typeEntry := type, baseClassNames := [typeDef.type.toString],
          attributes := Attributes.add [] .Public }
      let d1 := setClass d next metaClass
      let d2 := if !type.includeIsValid then setIncludeOfEntry env d1 type typeDef.fileName
                else d1
      match fillAddedFunctions env d2 next with
      | none => none
      | some d3 => some (some next, next + 1, d3)

/-- The loop of `traverseClass` over the typedefs of the class. -/
def traverseClassTypeDefs (env : Env) (metaClass : ClassId) :
    List TypeDefModelItem → ClassId → AbstractMetaBuilderPrivate →
      Option (ClassId × AbstractMetaBuilderPrivate)
  | [], next, d => some (next, d)
  | typeDef :: rest, next, d =>
    match traverseTypeDef env next d typeDef (some metaClass) with
    | none => none
    | some (none, next1, d1) => traverseClassTypeDefs env metaClass rest next1 d1
    | some (some cls, next1, d1) =>
      let d2 := setClass d1 cls { d1.heap cls with enclosingClass := some metaClass }
      let added := addAbstractMetaClass env next1 d2 cls (.typeDef typeDef)
      traverseClassTypeDefs env metaClass rest added.1 added.2

mutual
/-- `AbstractMetaBuilderPrivate::traverseClass(dom, classItem, currentClass)`,
for a class item with the classes declared in it, and with the address `next`
of the next new object (`dom` is only passed on to the calls for the inner
classes and the typedefs).  The result is nothing where the call does not
return (see `parseQ_PropertyLoop` and `traverseTypeDef`).  Otherwise it is the
class returned, `none` standing for the null pointer, the address of the next
new object and the builder after the call.  The type entry that a class object
holds is the entry as the registry has returned it. -/
def traverseClass (env : Env) :
    ClassTree → Option ClassId → ClassId → AbstractMetaBuilderPrivate →
      Option (Option ClassId × ClassId × AbstractMetaBuilderPrivate)
  | .node classItem classes, currentClass, next, d =>
    let fullName := fullClassName d classItem currentClass
    let reason := classRejectReason env fullName
    if reason != .NoReason then
      some (none, next,
        { d with m_rejectedClasses := rejectInsert d.m_rejectedClasses fullName reason })
    else
      match env.types.findComplexType fullName with
      | none => some (none, next, d)
      | some type =>
        let metaClass := next
        let d1 := setClass d metaClass (newMetaClass classItem type)
        match parseQ_Property env d1 metaClass classItem.propertyDeclarations with
        | none => none
        | some d2 =>
          let d3 := traverseEnums env metaClass classItem.enumsDeclarations classItem.enums d2
          match traverseInnerClasses env metaClass classes (next + 1) d3 with
          | none => none
          | some (next4, d4) =>
            match traverseClassTypeDefs env metaClass classItem.typeDefs next4 d4 with
            | none => none
            | some (next5, d5) =>
              some (some metaClass, next5,
                if !type.includeIsValid then setIncludeOfEntry env d5 type classItem.fileName
                else d5)
/-- The loop of `traverseClass` over the inner classes of the class. -/
def traverseInnerClasses (env : Env) (metaClass : ClassId) :
    List ClassTree → ClassId → AbstractMetaBuilderPrivate →
      Option (ClassId × AbstractMetaBuilderPrivate)
  | [], next, d => some (next, d)
  | ci :: rest, next, d =>
    match traverseClass env ci (some metaClass) next d with
    | none => none
    | some (none, next1, d1) => traverseInnerClasses env metaClass rest next1 d1
    | some (some cl, next1, d1) =>
      let d2 := setClass d1 cl { d1.heap cl with enclosingClass := some metaClass }
      let d3 := setClass d2 metaClass
        { d2.heap metaClass with innerClasses := (d2.heap metaClass).innerClasses ++ [cl] }
      let added := addAbstractMetaClass env next1 d3 cl (.classItem ci.item)
      traverseInnerClasses env metaClass rest added.1 added.2
end

mutual
/-- Every class of the tree passes the test `p`. -/
def ClassTree.all (p : ClassModelItem → Bool) : ClassTree → Bool
  | .node item classes => p item && ClassTree.allOfList p classes
/-- Every class of the trees passes the test `p`. -/
def ClassTree.allOfList (p : ClassModelItem → Bool) : List ClassTree → Bool
  | [] => true
  | c :: rest => ClassTree.all p c && ClassTree.allOfList p rest
end

/-- The class declares no properties and no typedefs. -/
def hasPlainMembers (item : ClassModelItem) : Bool :=
  item.propertyDeclarations.isEmpty && item.typeDefs.isEmpty

/-- `metaClassLessThan`. -/
def metaClassLessThan (d : AbstractMetaBuilderPrivate) (c1 c2 : ClassId) : Bool :=
  stringLess (d.heap c1).fullName (d.heap c2).fullName

/-- `std::sort(first, last, lessThan)`: the elements in an order in which no
element is less than an earlier one.  (`std::sort` leaves the relative order of
equivalent elements open; the embedding keeps their input order.) -/
def stdSort {α : Type} (lessThan : α → α → Bool) (l : List α) : List α :=
  l.insertionSort (fun a b => lessThan b a = false)

/-- The statement `m_metaClasses = classesTopologicalSorted(m_metaClasses);` of
`AbstractMetaBuilderPrivate::traverseDom` ("sort all classes topologically").
The statements of `traverseDom` that follow it do not assign `m_metaClasses`,
base class names or enclosing classes. -/
def traverseDomSortClasses (env : Env) (d : AbstractMetaBuilderPrivate) :
    AbstractMetaBuilderPrivate :=
  { d with m_metaClasses := classesTopologicalSorted env d d.m_metaClasses [] }

/-- The statement `std::sort(d->m_metaClasses.begin(), d->m_metaClasses.end(),
metaClassLessThan);` of `AbstractMetaBuilder::build`, which runs after
`traverseDom` ("Ensure that indexes are in alphabetical order, roughly"). -/
def buildSortClasses (d : AbstractMetaBuilderPrivate) : AbstractMetaBuilderPrivate :=
  { d with m_metaClasses := stdSort (metaClassLessThan d) d.m_metaClasses }

/-- `AbstractMetaBuilder::classes`. -/
def classes (d : AbstractMetaBuilderPrivate) : List ClassId := d.m_metaClasses

/-- In the list `l`, every class comes after its enclosing class and after each
of its base classes (as `getBaseClasses` finds them in the state `d`) that is
also in `l`. -/
def ClassesFollowDependencies (env : Env) (d : AbstractMetaBuilderPrivate) (l : List ClassId) :
    Prop :=
  ∀ c ∈ l,
    (∀ e, (d.heap c).enclosingClass = some e → e ∈ l → l.indexOf e < l.indexOf c) ∧
    (∀ b ∈ getBaseClasses env d (d.heap c), b ∈ l → l.indexOf b < l.indexOf c)

/-! ## Example inputs -/

/-- A value for the parameter `Env.findClass` in the examples: the first class of
the list whose `name()` is the given name. -/
def findClassByName (heap : ClassId → AbstractMetaClass) (classes : List ClassId)
    (name : String) : Option ClassId :=
  classes.find? (fun c => (heap c).name == name)

/-- Collaborators for the examples: classes are found by name. -/
def exampleEnv : Env := { findClass := findClassByName }

/-- Two classes: class 0 is `A : public B`, class 1 is `B`. -/
def derivedAndBase : AbstractMetaBuilderPrivate :=
  { heap := fun c =>
      if c = 0 then { name := "A", fullName := "A", qualifiedCppName := "A", baseClassNames := ["B"] }
      else if c = 1 then { name := "B", fullName := "B", qualifiedCppName := "B" }
      else {},
    m_metaClasses := [0, 1] }

/-- Two classes each naming the other as its only base: class 0 is `A : public B`,
class 1 is `B : public A`. -/
def mutualInheritance : AbstractMetaBuilderPrivate :=
  { heap := fun c =>
      if c = 0 then { name := "A", fullName := "A", qualifiedCppName := "A", baseClassNames := ["B"] }
      else if c = 1 then { name := "B", fullName := "B", qualifiedCppName := "B", baseClassNames := ["A"] }
      else {},
    m_metaClasses := [0, 1] }

/-- The type `void` as the code model gives it. -/
def voidTypeInfo : TypeInfo :=
  { qualifiedName := ["void"], toString := "void", isVoid := true, instantiations := [] }

/-- A public member function `void name()`. -/
def plainFunction (name : String) : FunctionModelItem :=
  { name := name, type := voidTypeInfo }

/-- A public member function `void bad(Unknown x)` whose argument type is not
known to the type system. -/
def unmatchedFunction : FunctionModelItem :=
  { name := "bad", type := voidTypeInfo,
    arguments := [{ name := "x",
                    type := { qualifiedName := ["Unknown"], toString := "Unknown",
                              instantiations := [] } }] }

/-- One class `C` (class 0) without functions. -/
def oneClass : AbstractMetaBuilderPrivate :=
  { heap := fun c =>
      if c = 0 then { name := "C", fullName := "C", qualifiedCppName := "C",
                      typeEntry := { addr := 1, name := "C", qualifiedCppName := "C",
                                     isComplex := true } }
      else {},
    m_metaClasses := [0] }

/-- The value type entry of the class `Matrix`. -/
def matrixEntry : TypeEntry :=
  { addr := 1, name := "Matrix", qualifiedCppName := "Matrix", type := .BasicValueType,
    isComplex := true, isValue := true }

/-- The primitive type entry `int`. -/
def intEntry : TypeEntry :=
  { addr := 2, name := "int", qualifiedCppName := "int", type := .PrimitiveType }

/-- The type `Matrix` as the code model gives it. -/
def matrixTypeInfo : TypeInfo :=
  { qualifiedName := ["Matrix"], toString := "Matrix", instantiations := [] }

/-- The type `int` as the code model gives it. -/
def intTypeInfo : TypeInfo :=
  { qualifiedName := ["int"], toString := "int", instantiations := [] }

/-- Collaborators for the examples with types: `Matrix` and `int` resolve to
their entries, a class is found by its type entry or by its name. -/
def typedEnv : Env :=
  { findClass := findClassByName,
    findClassByEntry := fun heap classes entry =>
      classes.find? (fun c => (heap c).typeEntry == entry),
    translateType := fun _ _ _ typeInfo _ =>
      if typeInfo.qualifiedName == ["Matrix"] then
        some { typeEntry := matrixEntry, isValue := true, instantiations := [], arrayElementType := none }
      else if typeInfo.qualifiedName == ["int"] then
        some { typeEntry := intEntry, instantiations := [], arrayElementType := none }
      else none }

/-- One class `Matrix` (class 0) without functions. -/
def matrixModel : AbstractMetaBuilderPrivate :=
  { heap := fun c =>
      if c = 0 then { name := "Matrix", fullName := "Matrix", qualifiedCppName := "Matrix",
                      typeEntry := matrixEntry }
      else {},
    m_metaClasses := [0] }

/-- The free function `Matrix operator+(int s, Matrix m)`. -/
def scalarPlusMatrix : FunctionModelItem :=
  { name := "operator+", type := matrixTypeInfo,
    arguments := [{ name := "s", type := intTypeInfo }, { name := "m", type := matrixTypeInfo }] }

/-- The enum type entry registered as `NS::GREEN`. -/
def greenEntry : TypeEntry :=
  { addr := 3, name := "NS::GREEN", qualifiedCppName := "NS::GREEN", type := .EnumType }

/-- A type database that has the entry `NS::GREEN` and nothing else. -/
def greenTypes : TypeDatabase :=
  { findType := fun name => if name == "NS::GREEN" then some greenEntry else none }

/-- Collaborators with the type database `greenTypes`. -/
def greenEnv : Env := { types := greenTypes }

/-- Collaborators with the type database `greenTypes` and a rejection rule that
matches every enum. -/
def rejectingEnv : Env :=
  { types := { greenTypes with isEnumRejected := fun _ _ => some " matches rule" } }

/-- The anonymous enum `enum { RED, GREEN }` of the namespace `NS`. -/
def colorEnum : EnumModelItem :=
  { name := "enum_1", qualifiedName := ["NS", "enum_1"], enumKind := .AnonymousEnum,
    enumerators := [{ name := "RED", value := 0 }, { name := "GREEN", value := 1 }] }

/-- The property `int value READ value WRITE setValue`. -/
def valueProperty : QPropertySpec :=
  { name := "value", type := intEntry, read := "value", write := "setValue", index := 0 }

/-- The property `int x READ x WRITE x`, whose getter and setter share a name. -/
def xProperty : QPropertySpec :=
  { name := "x", type := intEntry, read := "x", write := "x", index := 0 }

/-- One class `C` (class 0) with the given property specs and no functions. -/
def classWithProperties (specs : List QPropertySpec) : AbstractMetaBuilderPrivate :=
  { heap := fun c =>
      if c = 0 then { name := "C", fullName := "C", qualifiedCppName := "C",
                      typeEntry := { addr := 1, name := "C", qualifiedCppName := "C",
                                     isComplex := true },
                      propertySpecs := specs }
      else {},
    m_metaClasses := [0] }

/-- The member function `int name()`. -/
def intGetter (name : String) : FunctionModelItem :=
  { name := name, type := intTypeInfo }

/-- The member function `void name(int v)`. -/
def intSetter (name : String) : FunctionModelItem :=
  { name := name, type := voidTypeInfo, arguments := [{ name := "v", type := intTypeInfo }] }

/-- The type entry `void`. -/
def voidEntry : TypeEntry :=
  { addr := 4, name := "void", qualifiedCppName := "void", type := .VoidType }

/-- The entry of the first template parameter `T` of a class template. -/
def parameterEntry : TypeEntry :=
  { addr := 5, name := "T", qualifiedCppName := "T", type := .TemplateArgumentType, ordinal := 0 }

/-- Collaborators with a type database that has `void` and `int`. -/
def templateEnv : Env :=
  { types := { findType := fun name =>
                 if name == "void" then some voidEntry
                 else if name == "int" then some intEntry
                 else none } }

/-- The type `T`. -/
def parameterType : AbstractMetaType := { typeEntry := parameterEntry, instantiations := [], arrayElementType := none }

/-- The type `int`. -/
def intType : AbstractMetaType := { typeEntry := intEntry, instantiations := [], arrayElementType := none }

/-- The class template `Box<T>` (class 1) with the given functions and fields,
and the class `VoidBox` (class 0), a subclass of `Box<void>`. -/
def boxModel (functions : List AbstractMetaFunction) (fields : List AbstractMetaField) :
    AbstractMetaBuilderPrivate :=
  { heap := fun c =>
      if c = 0 then { name := "VoidBox", fullName := "VoidBox", qualifiedCppName := "VoidBox",
                      typeEntry := { addr := 6, name := "VoidBox", qualifiedCppName := "VoidBox",
                                     isComplex := true },
                      baseClassNames := ["Box<void>"] }
      else if c = 1 then { name := "Box", fullName := "Box", qualifiedCppName := "Box",
                           typeEntry := { addr := 7, name := "Box", qualifiedCppName := "Box",
                                          isComplex := true },
                           templateArguments := [parameterEntry],
                           functions := functions, fields := fields }
      else {},
    m_metaClasses := [0],
    m_templates := [1] }

/-- The base class type `Box<void>` as the code model gives it. -/
def boxOfVoid : TypeInfo :=
  { qualifiedName := ["Box"], toString := "Box<void>", instantiations := [voidTypeInfo] }

/-- The member `T foo()` of `Box<T>`. -/
def fooReturningT : AbstractMetaFunction :=
  { name := "foo", originalName := "foo", type := some parameterType, attributes := [.Public],
    declaringClass := some 1, implementingClass := some 1, ownerClass := some 1 }

/-- The member `int foo(int n)` of `Box<T>`. -/
def fooOfInt : AbstractMetaFunction :=
  { name := "foo", originalName := "foo", type := some intType, attributes := [.Public],
    arguments := [{ name := "n", originalName := "n", type := intType }],
    declaringClass := some 1, implementingClass := some 1, ownerClass := some 1 }

/-- The member `int size()` of `Box<T>`. -/
def sizeFunction : AbstractMetaFunction :=
  { name := "size", originalName := "size", type := some intType, attributes := [.Public],
    declaringClass := some 1, implementingClass := some 1, ownerClass := some 1 }

/-- The member `void put(int n, T value)` of `Box<T>`. -/
def putFunction : AbstractMetaFunction :=
  { name := "put", originalName := "put", attributes := [.Public],
    arguments := [{ name := "n", originalName := "n", type := intType },
                  { name := "value", originalName := "value", type := parameterType,
                    argumentIndex := 1 }],
    declaringClass := some 1, implementingClass := some 1, ownerClass := some 1 }

/-- The field `T content` of `Box<T>`. -/
def contentField : AbstractMetaField :=
  { name := "content", type := parameterType, attributes := [.Public], enclosingClass := some 1 }

/-- The field `int count` of `Box<T>`. -/
def countField : AbstractMetaField :=
  { name := "count", type := intType, attributes := [.Public], enclosingClass := some 1 }

/-- The object type entry of the class `A`. -/
def entryA : TypeEntry :=
  { addr := 10, name := "A", qualifiedCppName := "A", type := .ObjectType, isComplex := true }

/-- The object type entry of the class `I`, which the type system declares as an
interface: the entry has a designated interface entry. -/
def entryI : TypeEntry :=
  { addr := 11, name := "I", qualifiedCppName := "I", type := .ObjectType, isComplex := true,
    designatedInterface := some 12 }

/-- Three classes: class 0 is `D : public A, public I`, class 1 is `A`, class 2
is `I`. -/
def primaryAndInterface : AbstractMetaBuilderPrivate :=
  { heap := fun c =>
      if c = 0 then { name := "D", fullName := "D", qualifiedCppName := "D",
                      baseClassNames := ["A", "I"] }
      else if c = 1 then { name := "A", fullName := "A", qualifiedCppName := "A",
                           typeEntry := entryA }
      else if c = 2 then { name := "I", fullName := "I", qualifiedCppName := "I",
                           typeEntry := entryI }
      else {},
    m_metaClasses := [0, 1, 2] }

/-- A type database that has the entries of `A` and `I`. -/
def interfaceTypes : TypeDatabase :=
  { findType := fun name =>
      if name == "A" then some entryA else if name == "I" then some entryI else none }

/-- Collaborators with the type database `interfaceTypes`; classes are found by
name. -/
def interfaceEnv : Env := { types := interfaceTypes, findClass := findClassByName }

/-- Collaborators with the type database `interfaceTypes` and a rejection rule
for the class name `A`; classes are found by name. -/
def rejectedBaseEnv : Env :=
  { types := { interfaceTypes with isClassRejected := fun name => name == "A" },
    findClass := findClassByName }

/-- The constructor `C()` of the class `C` as the code model gives it. -/
def constructorOfC : FunctionModelItem :=
  { name := "C", type := voidTypeInfo, functionType := .Constructor }

/-- Collaborators whose type system renames the constructors to `create`
(`<modify-function signature="C()" rename="create"/>`). -/
def renamingEnv : Env :=
  { modifications := fun f _ =>
      if f.functionType == .ConstructorFunction then
        [{ signature := "C()", isRenameModifier := true, renamedToName := "create" }]
      else [] }

/-- One class (class 0) whose type entry `Foo` has the target language name
`Bar`: `name()` is `Bar`. -/
def renamedClass : AbstractMetaBuilderPrivate :=
  { heap := fun c =>
      if c = 0 then { name := "Bar", fullName := "Bar", qualifiedCppName := "Foo",
                      typeEntry := { addr := 1, name := "Foo", qualifiedCppName := "Foo",
                                     isComplex := true } }
      else {},
    m_metaClasses := [0] }

/-- The copy constructor `Foo(const Foo &)` as the code model gives it. -/
def copyConstructorOfFoo : FunctionModelItem :=
  { name := "Foo", type := voidTypeInfo, functionType := .CopyConstructor,
    arguments := [{ name := "other",
                    type := { qualifiedName := ["Foo"], toString := "const Foo &",
                              isConstant := true, referenceType := .LValueReference,
                              instantiations := [] } }] }

/-- Collaborators that resolve the type `Foo` to the entry of the class of
`renamedClass`. -/
def fooEnv : Env :=
  { translateType := fun heap _ _ typeInfo _ =>
      if typeInfo.qualifiedName == ["Foo"] then
        some { typeEntry := (heap 0).typeEntry, constant := typeInfo.isConstant,
               referenceType := typeInfo.referenceType, instantiations := [], arrayElementType := none }
      else none }

/-- The array type `int[2]` as the code model gives it. -/
def intArrayInfo : TypeInfo :=
  { qualifiedName := ["int"], toString := "int[2]", arrayElements := ["2"], instantiations := [] }

/-- Collaborators with a type database that has `int`, and a number conversion
that knows the string `2`. -/
def arrayEnv : Env :=
  { types := { findType := fun name => if name == "int" then some intEntry else none },
    toLongLong := fun s _ => if s == "2" then some 2 else none }

/-- The member function `void resize(int n, Unknown mode = 0)`, whose second
argument has a default value and a type that is not known to the type
system. -/
def functionWithDefault : FunctionModelItem :=
  { name := "resize", type := voidTypeInfo,
    arguments := [{ name := "n", type := intTypeInfo },
                  { name := "mode", defaultValue := true, defaultValueExpression := "0",
                    type := { qualifiedName := ["Unknown"], toString := "Unknown",
                              instantiations := [] } }] }

/-- The member function `void resize(int n, Unknown mode)`: the argument of
unknown type has no default value. -/
def functionWithUnknown : FunctionModelItem :=
  { name := "resize", type := voidTypeInfo,
    arguments := [{ name := "n", type := intTypeInfo },
                  { name := "mode",
                    type := { qualifiedName := ["Unknown"], toString := "Unknown",
                              instantiations := [] } }] }

/-- The type entry of the stream class `Stream`, with the given code
generation flags. -/
def streamEntry (codeGeneration : Nat) : TypeEntry :=
  { addr := 20, name := "Stream", qualifiedCppName := "Stream", isComplex := true,
    stream := true, codeGeneration := codeGeneration }

/-- The type entry of the value class `Point`. -/
def pointEntry : TypeEntry :=
  { addr := 21, name := "Point", qualifiedCppName := "Point", isComplex := true,
    isValue := true }

/-- The stream class `Stream` (class 0) and the class `Point` (class 1), both
without functions. -/
def streamModel (codeGeneration : Nat) : AbstractMetaBuilderPrivate :=
  { heap := fun c =>
      if c = 0 then { name := "Stream", fullName := "Stream", qualifiedCppName := "Stream",
                      typeEntry := streamEntry codeGeneration, stream := true }
      else if c = 1 then { name := "Point", fullName := "Point", qualifiedCppName := "Point",
                           typeEntry := pointEntry }
      else {},
    m_metaClasses := [0, 1] }

/-- Collaborators that resolve the type names `Stream` and `Point`. -/
def streamEnv (codeGeneration : Nat) : Env :=
  { findClass := findClassByName,
    findClassByEntry := fun heap classes entry =>
      classes.find? (fun c => (heap c).typeEntry == entry),
    translateType := fun _ _ _ typeInfo _ =>
      if typeInfo.qualifiedName == ["Stream"] then
        some { typeEntry := streamEntry codeGeneration, instantiations := [],
               arrayElementType := none }
      else if typeInfo.qualifiedName == ["Point"] then
        some { typeEntry := pointEntry, isValue := true, instantiations := [],
               arrayElementType := none }
      else none }

/-- The free function `Stream &operator<<(Stream &s, Point p)`. -/
def writePoint : FunctionModelItem :=
  { name := "operator<<",
    type := { qualifiedName := ["Stream"], toString := "Stream&", referenceType := .LValueReference,
              instantiations := [] },
    arguments := [{ name := "s",
                    type := { qualifiedName := ["Stream"], toString := "Stream&",
                              referenceType := .LValueReference, instantiations := [] } },
                  { name := "p",
                    type := { qualifiedName := ["Point"], toString := "Point",
                              instantiations := [] } }] }

/-- The global function `void scale(int a = 0, int b = 1)`. -/
def scaleFunction : FunctionModelItem :=
  { name := "scale", type := voidTypeInfo,
    arguments := [{ name := "a", type := intTypeInfo, defaultValue := true,
                    defaultValueExpression := "0" },
                  { name := "b", type := intTypeInfo, defaultValue := true,
                    defaultValueExpression := "1" }] }

/-- The rule `modify-function signature='scale(int,int)'` with one
`modify-argument index='2'` that holds `replace-default-expression with='B()'`. -/
def scaleModification : FunctionModification :=
  { signature := "scale(int,int)",
    argument_mods := [{ index := 2, replacedDefaultExpression := "B()" }] }

/-- Collaborators that resolve `int` and `Matrix` and give the function `scale`
the modification `scaleModification`. -/
def scaleEnv : Env :=
  { typedEnv with
    modifications := fun f _ => if f.name == "scale" then [scaleModification] else [] }

/-- The meta function of `void method(int = 0)`, whose argument has no name,
before `fixArgumentNames`. -/
def methodFunction : AbstractMetaFunction :=
  { name := "method",
    arguments := [{ type := { typeEntry := intEntry, instantiations := [],
                              arrayElementType := none } }] }

/-- Two rules that match `method(int)`, one by a fixed signature and one by a
pattern; both rename argument 1. -/
def renameTwice : List FunctionModification :=
  [{ signature := "method(int)", argument_mods := [{ index := 1, renamed_to := "otherArg" }] },
   { signaturePattern := "^method.*", argument_mods := [{ index := 1, renamed_to := "value" }] }]

/-- The rule of the test `testRenameArgument`: argument 1 is renamed to
`otherArg`. -/
def renameOnce : List FunctionModification :=
  [{ signature := "method(int)", argument_mods := [{ index := 1, renamed_to := "otherArg" }] }]

/-- A regular expression engine for the examples, on the patterns they use: the
empty pattern matches every subject (with the empty string at offset 0), and
`^method.*` matches the subjects that start with `method`. -/
def exampleHasMatch (pattern subject : String) : Bool :=
  if pattern == "" then true
  else if pattern == "^method.*" then "method".data.isPrefixOf subject.data
  else false

/-- Collaborators with the regular expressions of the examples; the pattern
`^(` is not valid. -/
def patternEnv : Env :=
  { regexIsValid := fun pattern => pattern != "^(", regexHasMatch := exampleHasMatch }

/-- The class `A : public I` (class 0) and the interface class `I` (class 1). -/
def classWithInterfaceBase : AbstractMetaBuilderPrivate :=
  { heap := fun c =>
      if c = 0 then { name := "A", fullName := "A", qualifiedCppName := "A", baseClassNames := ["I"] }
      else if c = 1 then { name := "I", fullName := "I", qualifiedCppName := "I",
                           isInterface := true }
      else {},
    m_metaClasses := [0, 1] }

/-- A builder with the header search paths `/usr/include` and
`/usr/include/qt`, and the global header `/home/me/global.h`. -/
def includeBuilder : AbstractMetaBuilderPrivate :=
  { m_headerPaths := ["/usr/include", "/usr/include/qt"], m_globalHeader := "/home/me/global.h" }

/-- A builder whose only header search path is the empty path. -/
def emptyPathBuilder : AbstractMetaBuilderPrivate :=
  { m_headerPaths := [""], m_globalHeader := "/home/me/global.h" }

/-- A builder with the header search path `/Library/Qt`. -/
def libraryBuilder : AbstractMetaBuilderPrivate :=
  { m_headerPaths := ["/Library/Qt"], m_globalHeader := "/home/me/global.h" }

/-- Collaborators of a build for Windows or macOS. -/
def darwinEnv : Env := { caseInsensitiveFileNames := true }

/-- The base class type `Box<int>` as the code model gives it. -/
def boxOfInt : TypeInfo :=
  { qualifiedName := ["Box"], toString := "Box<int>", instantiations := [intTypeInfo] }

/-- The class template `Box<T>` (class 1) with the members `T foo()`,
`int size()`, `T content` and `int count`, and its subclass `IntBox` (class 0,
a subclass of `Box<int>`), which declares `int size()` and `int count`
itself. -/
def shadowingModel : AbstractMetaBuilderPrivate :=
  setClass (boxModel [fooReturningT, sizeFunction] [contentField, countField]) 0
    { name := "IntBox", fullName := "IntBox", qualifiedCppName := "IntBox",
      typeEntry := { addr := 6, name := "IntBox", qualifiedCppName := "IntBox",
                     isComplex := true },
      baseClassNames := ["Box<int>"],
      functions := [{ sizeFunction with declaringClass := some 0, implementingClass := some 0,
                                        ownerClass := some 0 }],
      fields := [{ countField with enclosingClass := some 0 }] }

/-- A type system that rejects the function name `hidden`, the signature
`draw(int)`, the return type `Bad` and the argument type `Bad`. -/
def functionRejectingEnv : Env :=
  { typedEnv with
    types :=
      { isFunctionRejected := fun _ name =>
          if name == "hidden" then some " matches function name rejection"
          else if name == "draw(int)" then some " matches function signature rejection"
          else none,
        isReturnTypeRejected := fun _ type =>
          if type == "Bad" then some " matches return type rejection" else none,
        isArgumentTypeRejected := fun _ type =>
          if type == "Bad" then some " matches argument type rejection" else none } }

/-- The type `Bad`. -/
def badTypeInfo : TypeInfo :=
  { qualifiedName := ["Bad"], toString := "Bad", instantiations := [] }

/-- The deprecated member function `Bad old(Bad b)`. -/
def deprecatedFunction : FunctionModelItem :=
  { name := "old", type := badTypeInfo, isDeprecated := true,
    arguments := [{ name := "b", type := badTypeInfo }] }

/-- The member function `void draw(int n)`. -/
def drawFunction : FunctionModelItem :=
  { name := "draw", type := voidTypeInfo, arguments := [{ name := "n", type := intTypeInfo }] }

/-- The member function `void hidden(int n)`. -/
def hiddenFunction : FunctionModelItem :=
  { name := "hidden", type := voidTypeInfo, arguments := [{ name := "n", type := intTypeInfo }] }

/-- The class `C` (class 0) in a build that skips deprecated functions. -/
def skippingModel : AbstractMetaBuilderPrivate := { oneClass with m_skipDeprecated := true }

/-- The value type entry of the class `Vector`. -/
def vectorEntry : TypeEntry :=
  { addr := 30, name := "Vector", qualifiedCppName := "Vector", type := .BasicValueType,
    isComplex := true, isValue := true }

/-- The type `Vector` as the code model gives it. -/
def vectorTypeInfo : TypeInfo :=
  { qualifiedName := ["Vector"], toString := "Vector", instantiations := [] }

/-- Collaborators for the examples with operators: `Vector`, `Matrix` and `int`
resolve to their entries, a class is found by its type entry. -/
def operatorEnv : Env :=
  { typedEnv with
    translateType := fun heap classes templates typeInfo currentClass =>
      if typeInfo.qualifiedName == ["Vector"] then
        some { typeEntry := vectorEntry, isValue := true, instantiations := [],
               arrayElementType := none }
      else typedEnv.translateType heap classes templates typeInfo currentClass }

/-- Two classes without functions: `Vector` (class 0) and `Matrix` (class 1). -/
def vectorMatrixModel : AbstractMetaBuilderPrivate :=
  { heap := fun c =>
      if c = 0 then { name := "Vector", fullName := "Vector", qualifiedCppName := "Vector",
                      typeEntry := vectorEntry }
      else if c = 1 then { name := "Matrix", fullName := "Matrix", qualifiedCppName := "Matrix",
                           typeEntry := matrixEntry }
      else {},
    m_metaClasses := [0, 1] }

/-- The free function `Matrix operator*(Vector v, int n)`. -/
def vectorTimesInt : FunctionModelItem :=
  { name := "operator*", type := matrixTypeInfo,
    arguments := [{ name := "v", type := vectorTypeInfo }, { name := "n", type := intTypeInfo }] }

/-- The free function `Matrix operator*(Vector v, Matrix m)`. -/
def vectorTimesMatrix : FunctionModelItem :=
  { name := "operator*", type := matrixTypeInfo,
    arguments := [{ name := "v", type := vectorTypeInfo },
                  { name := "m", type := matrixTypeInfo }] }

/-- The public function `foo` of class 0. -/
def fooFunction : AbstractMetaFunction :=
  { name := "foo", originalName := "foo", attributes := [.Public],
    declaringClass := some 0, implementingClass := some 0, ownerClass := some 0 }

/-- The modification `<modify-function signature="foo()" rename="bar"
access="private"/>`: a rename and an access modifier in one rule. -/
def renameAndPrivate : FunctionModification :=
  { signature := "foo()", isRenameModifier := true, renamedToName := "bar",
    accessModifier := .Private }

/-- The modification `<modify-function signature="foo()" access="protected"
final="yes"/>`. -/
def protectedAndFinal : FunctionModification :=
  { signature := "foo()", accessModifier := .Protected, isFinal := true }

/-- Collaborators under which the given modifications match every function. -/
def modifyingEnv (mods : List FunctionModification) : Env :=
  { modifications := fun _ _ => mods }

/-- The array type `int[N+1]` as the code model gives it. -/
def intArrayOfExpression : TypeInfo :=
  { qualifiedName := ["int"], toString := "int[N+1]", arrayElements := ["N+1"],
    instantiations := [] }

/-- The array type `int[N]` as the code model gives it. -/
def intArrayOfName : TypeInfo :=
  { qualifiedName := ["int"], toString := "int[N]", arrayElements := ["N"],
    instantiations := [] }

/-- The enum type entry registered as `Color`. -/
def globalColorEntry : TypeEntry :=
  { addr := 40, name := "Color", qualifiedCppName := "Color", type := .EnumType }

/-- The enum type entry registered as `NS::Color`. -/
def outerColorEntry : TypeEntry :=
  { addr := 41, name := "Color", qualifiedCppName := "NS::Color", type := .EnumType }

/-- The enum type entry registered as `NS::Widget::Color`. -/
def innerColorEntry : TypeEntry :=
  { addr := 42, name := "Color", qualifiedCppName := "NS::Widget::Color", type := .EnumType }

/-- Collaborators with a type database that has the three entries `Color`,
`NS::Color` and `NS::Widget::Color`. -/
def scopedEnv : Env :=
  { types := { findType := fun name =>
                 if name == "Color" then some globalColorEntry
                 else if name == "NS::Color" then some outerColorEntry
                 else if name == "NS::Widget::Color" then some innerColorEntry
                 else none } }

/-- The class `NS::Widget`. -/
def scopedWidget : AbstractMetaClass :=
  { name := "Widget", fullName := "NS::Widget", qualifiedCppName := "NS::Widget",
    typeEntry := { addr := 43, name := "Widget", qualifiedCppName := "NS::Widget",
                   isComplex := true } }

/-- The class `NS::Button`. -/
def scopedButton : AbstractMetaClass :=
  { name := "Button", fullName := "NS::Button", qualifiedCppName := "NS::Button",
    typeEntry := { addr := 44, name := "Button", qualifiedCppName := "NS::Button",
                   isComplex := true } }

/-- The type `Color` as the code model gives it. -/
def colorTypeInfo : TypeInfo :=
  { qualifiedName := ["Color"], toString := "Color", instantiations := [] }

/-- Two classes that name each other as base class: class 0 is `A : public B`,
class 1 is `B : public A`; the type system has an entry for neither name. -/
def cyclicModel : AbstractMetaBuilderPrivate :=
  { heap := fun c =>
      if c = 0 then { name := "A", fullName := "A", qualifiedCppName := "A",
                      baseClassNames := ["B"] }
      else if c = 1 then { name := "B", fullName := "B", qualifiedCppName := "B",
                           baseClassNames := ["A"] }
      else {},
    m_metaClasses := [0, 1] }

/-- A modification that specifies exception handling and allow-thread. -/
def exceptionAndThread : FunctionModification :=
  { signature := "foo()", exceptionHandling := .Specified 1, allowThread := .Specified 2 }

/-- A modification that specifies allow-thread only. -/
def threadOnly : FunctionModification :=
  { signature := "foo()", allowThread := .Specified 3 }

/-- The entry of the class `Item`. -/
def itemEntry : TypeEntry :=
  { addr := 50, name := "Item", qualifiedCppName := "Item", type := .ObjectType,
    isComplex := true }

/-- The type `Item *`, to which the template parameter `T` is bound. -/
def itemPointerType : AbstractMetaType :=
  { typeEntry := itemEntry, indirections := 1, instantiations := [], arrayElementType := none }

/-- The use `T *` of the template parameter `T`. -/
def parameterPointerType : AbstractMetaType :=
  { typeEntry := parameterEntry, indirections := 1, instantiations := [],
    arrayElementType := none }

/-- The meta function of `void scale(int a, int b)` before the default value
loop of `traverseFunction`. -/
def scaleMetaFunction : AbstractMetaFunction :=
  { name := "scale", originalName := "scale",
    arguments := [{ name := "a", type := intType }, { name := "b", type := intType,
                                                      argumentIndex := 1 }] }

/-- The primitive type entry of `bool`, whose target language name is
`boolean`. -/
def booleanEntry : TypeEntry :=
  { addr := 60, name := "boolean", qualifiedCppName := "bool", type := .PrimitiveType }

/-- The type `bool`. -/
def booleanType : AbstractMetaType :=
  { typeEntry := booleanEntry, instantiations := [], arrayElementType := none }

/-- Collaborators with a number conversion that knows the strings `0`, `1` and
`2`. -/
def booleanEnv : Env :=
  { toInt := fun s =>
      if s == "0" then some 0 else if s == "1" then some 1 else if s == "2" then some 2
      else none }

/-- The argument `bool flag` with the given default value expression. -/
def flagArgument (expr : String) : ArgumentModelItem :=
  { name := "flag", type := { qualifiedName := ["bool"], toString := "bool", instantiations := [] },
    defaultValue := true, defaultValueExpression := expr }

/-- A free `operator&` with two arguments. -/
def andOperator : FunctionModelItem :=
  { name := "operator&", arguments := [{ name := "a" }, { name := "b" }] }

/-- An `operator*` without arguments, as of `Value *Iterator::operator*()`. -/
def derefOperator : FunctionModelItem := { name := "operator*" }

/-- A global scope with the one function `andOperator`. -/
def andFunctions (name : String) : List FunctionModelItem :=
  if name == "operator&" then [andOperator] else []

/-- A global scope with the one function `derefOperator`. -/
def derefFunctions (name : String) : List FunctionModelItem :=
  if name == "operator*" then [derefOperator] else []

/-- The entry of the second template parameter `V` of a class template. -/
def secondParameterEntry : TypeEntry :=
  { addr := 8, name := "V", qualifiedCppName := "V", type := .TemplateArgumentType, ordinal := 1 }

/-- The type `V`. -/
def secondParameterType : AbstractMetaType :=
  { typeEntry := secondParameterEntry, instantiations := [], arrayElementType := none }

/-- The type `Unknown`, which has no type entry, as the code model gives it. -/
def unknownTypeInfo : TypeInfo :=
  { qualifiedName := ["Unknown"], toString := "Unknown", instantiations := [] }

/-- The class template `Pair<T, V>` (class 1) with the given functions and
fields, and the class `Entry` (class 0), a subclass of `Pair<Unknown, int>`. -/
def pairModel (functions : List AbstractMetaFunction) (fields : List AbstractMetaField) :
    AbstractMetaBuilderPrivate :=
  { heap := fun c =>
      if c = 0 then { name := "Entry", fullName := "Entry", qualifiedCppName := "Entry",
                      typeEntry := { addr := 6, name := "Entry", qualifiedCppName := "Entry",
                                     isComplex := true },
                      baseClassNames := ["Pair<Unknown, int>"] }
      else if c = 1 then { name := "Pair", fullName := "Pair", qualifiedCppName := "Pair",
                           typeEntry := { addr := 7, name := "Pair", qualifiedCppName := "Pair",
                                          isComplex := true },
                           templateArguments := [parameterEntry, secondParameterEntry],
                           functions := functions, fields := fields }
      else {},
    m_metaClasses := [0],
    m_templates := [1] }

/-- The base class type `Pair<Unknown, int>` as the code model gives it. -/
def pairOfUnknownInt : TypeInfo :=
  { qualifiedName := ["Pair"], toString := "Pair<Unknown, int>",
    instantiations := [unknownTypeInfo, intTypeInfo] }

/-- The member `T first()` of `Pair<T, V>`. -/
def firstFunction : AbstractMetaFunction :=
  { name := "first", originalName := "first", type := some parameterType, attributes := [.Public],
    declaringClass := some 1, implementingClass := some 1, ownerClass := some 1 }

/-- The member `V second()` of `Pair<T, V>`. -/
def secondFunction : AbstractMetaFunction :=
  { name := "second", originalName := "second", type := some secondParameterType,
    attributes := [.Public],
    declaringClass := some 1, implementingClass := some 1, ownerClass := some 1 }

/-- The field `V value` of `Pair<T, V>`. -/
def valueField : AbstractMetaField :=
  { name := "value", type := secondParameterType, attributes := [.Public],
    enclosingClass := some 1 }

/-- The object type entry of the class `B`. -/
def entryB : TypeEntry :=
  { addr := 13, name := "B", qualifiedCppName := "B", type := .ObjectType, isComplex := true }

/-- Collaborators with a type database that has the entries of `A` and `B`,
neither with a designated interface; classes are found by name. -/
def twoPrimariesEnv : Env :=
  { types := { findType := fun name =>
                 if name == "A" then some entryA else if name == "B" then some entryB
                 else none },
    findClass := findClassByName }

/-- Three classes, of which class 0 has the given base class names, class 1 is
`A` and class 2 is `B`. -/
def basesModel (baseClassNames : List String) : AbstractMetaBuilderPrivate :=
  { heap := fun c =>
      if c = 0 then { name := "D", fullName := "D", qualifiedCppName := "D",
                      baseClassNames := baseClassNames }
      else if c = 1 then { name := "A", fullName := "A", qualifiedCppName := "A",
                           typeEntry := entryA }
      else if c = 2 then { name := "B", fullName := "B", qualifiedCppName := "B",
                           typeEntry := entryB }
      else {},
    m_metaClasses := [0, 1, 2] }

/-- Collaborators with a type database that has `int`, and a number conversion
that reads `0x10` as 16 when the base is 0, as `QString::toLongLong` does. -/
def hexEnv : Env :=
  { types := { findType := fun name => if name == "int" then some intEntry else none },
    toLongLong := fun s base => if s == "0x10" && base == 0 then some 16 else none }

/-- The array type `int[0x10][N]` as the code model gives it. -/
def intArrayOfHex : TypeInfo :=
  { qualifiedName := ["int"], toString := "int[0x10][N]", arrayElements := ["0x10", "N"],
    instantiations := [] }

/-- The value type entry registered as `Other::Size`. -/
def sizeEntry : TypeEntry :=
  { addr := 45, name := "Size", qualifiedCppName := "Other::Size", type := .BasicValueType,
    isValue := true }

/-- Collaborators with a type database that has the one entry `Other::Size`;
classes are found by name. -/
def baseScopeEnv : Env :=
  { types := { findType := fun name => if name == "Other::Size" then some sizeEntry else none },
    findClass := findClassByName }

/-- Two classes: class 0 is the template `NS::Derived<T> : public Base`, class 1
is `Other::Base`. -/
def baseScopeModel : AbstractMetaBuilderPrivate :=
  { heap := fun c =>
      if c = 0 then { name := "Derived", fullName := "NS::Derived",
                      qualifiedCppName := "NS::Derived",
                      typeEntry := { addr := 46, name := "Derived",
                                     qualifiedCppName := "NS::Derived", isComplex := true },
                      baseClassNames := ["Base"], templateArguments := [parameterEntry] }
      else if c = 1 then { name := "Base", fullName := "Other::Base",
                           qualifiedCppName := "Other::Base",
                           typeEntry := { addr := 47, name := "Base",
                                          qualifiedCppName := "Other::Base", isComplex := true } }
      else {},
    m_metaClasses := [0, 1] }

/-- The type `Size` as the code model gives it. -/
def sizeTypeInfo : TypeInfo :=
  { qualifiedName := ["Size"], toString := "Size", instantiations := [] }

/-- The type `T` as the code model gives it. -/
def parameterTypeInfo : TypeInfo :=
  { qualifiedName := ["T"], toString := "T", instantiations := [] }

namespace Graph

theorem isSource_no_pred (g : Graph) (rem : List Nat) (v a : Nat)
    (hs : g.isSource rem v = true) (ha : a ∈ rem) : (a, v) ∉ g.edges := by
  unfold isSource at hs
  rw [List.all_eq_true] at hs
  have := hs a ha
  simpa using this

theorem sortAux_sound (g : Graph) :
    ∀ (fuel : Nat) (rem out : List Nat), rem.Nodup → g.sortAux fuel rem = some out →
      out.Perm rem ∧
      ∀ a b, (a, b) ∈ g.edges → a ∈ rem → b ∈ rem → [a, b].Sublist out := by
  intro fuel
  induction fuel with
  | zero =>
    intro rem out _ h
    cases rem with
    | nil =>
      simp [sortAux] at h
      subst h
      exact ⟨List.Perm.refl _, fun a b _ ha => by simp at ha⟩
    | cons u rem => simp [sortAux] at h
  | succ fuel ih =>
    intro rem out hnd h
    cases rem with
    | nil =>
      simp [sortAux] at h
      subst h
      exact ⟨List.Perm.refl _, fun a b _ ha => by simp at ha⟩
    | cons u rem =>
      simp only [sortAux] at h
      cases hf : (u :: rem).find? (g.isSource (u :: rem)) with
      | none => rw [hf] at h; simp at h
      | some v =>
        rw [hf] at h
        dsimp only at h
        cases hr : g.sortAux fuel ((u :: rem).erase v) with
        | none => rw [hr] at h; simp at h
        | some out' =>
          rw [hr] at h
          simp at h
          subst h
          have hv_mem : v ∈ u :: rem := List.mem_of_find?_eq_some hf
          have hv_src : g.isSource (u :: rem) v = true := List.find?_some hf
          obtain ⟨hperm, hord⟩ := ih _ _ (hnd.erase v) hr
          refine ⟨?_, ?_⟩
          · exact (List.Perm.cons v hperm).trans (List.perm_cons_erase hv_mem).symm
          · intro a b hab ha hb
            have hbv : b ≠ v := by
              intro hbv
              subst hbv
              exact g.isSource_no_pred _ _ _ hv_src ha hab
            have hb' : b ∈ (u :: rem).erase v := (List.mem_erase_of_ne hbv).2 hb
            by_cases hav : a = v
            · subst hav
              have hb'' : b ∈ out' := hperm.symm.subset hb'
              exact List.Sublist.cons₂ _ (List.singleton_sublist.2 hb'')
            · have ha' : a ∈ (u :: rem).erase v := (List.mem_erase_of_ne hav).2 ha
              exact List.Sublist.cons _ (hord a b hab ha' hb')


theorem sublist_pair_indexOf_lt {l : List Nat} (hnd : l.Nodup) {a b : Nat}
    (h : [a, b].Sublist l) : l.indexOf a < l.indexOf b := by
  induction l with
  | nil => cases h
  | cons x l ih =>
    have hx : x ∉ l := (List.nodup_cons.1 hnd).1
    have hl : l.Nodup := (List.nodup_cons.1 hnd).2
    cases h with
    | cons _ h' =>
      have ha : a ∈ l := h'.subset (by simp)
      have hb : b ∈ l := h'.subset (by simp)
      have hxa : x ≠ a := fun e => hx (e ▸ ha)
      have hxb : x ≠ b := fun e => hx (e ▸ hb)
      rw [List.indexOf_cons_ne _ hxa, List.indexOf_cons_ne _ hxb]
      exact Nat.succ_lt_succ (ih hl h')
    | cons₂ _ h' =>
      have hb : b ∈ l := h'.subset (by simp)
      have hxb : a ≠ b := fun e => hx (e ▸ hb)
      rw [List.indexOf_cons_self, List.indexOf_cons_ne _ hxb]
      exact Nat.succ_pos _

theorem topologicalSort_cases (g : Graph) :
    g.topologicalSort = [] ∨ g.sortAux g.nodeCount (List.range g.nodeCount) = some g.topologicalSort := by
  unfold topologicalSort
  cases h : g.sortAux g.nodeCount (List.range g.nodeCount) with
  | none => left; rfl
  | some out => right; rfl

theorem topologicalSort_nodup (g : Graph) : g.topologicalSort.Nodup := by
  rcases g.topologicalSort_cases with h | h
  · rw [h]; exact List.nodup_nil
  · exact (g.sortAux_sound _ _ _ (List.nodup_range _) h).1.nodup_iff.2 (List.nodup_range _)

theorem topologicalSort_mem_lt (g : Graph) {v : Nat} (hv : v ∈ g.topologicalSort) :
    v < g.nodeCount := by
  rcases g.topologicalSort_cases with h | h
  · rw [h] at hv; cases hv
  · exact List.mem_range.1 ((g.sortAux_sound _ _ _ (List.nodup_range _) h).1.subset hv)

theorem topologicalSort_sublist (g : Graph) {a b : Nat} (hab : (a, b) ∈ g.edges)
    (ha : a ∈ g.topologicalSort) (hb : b ∈ g.topologicalSort) :
    [a, b].Sublist g.topologicalSort := by
  rcases g.topologicalSort_cases with h | h
  · rw [h] at ha; cases ha
  · have hs := g.sortAux_sound _ _ _ (List.nodup_range _) h
    exact hs.2 a b hab (hs.1.subset ha) (hs.1.subset hb)

theorem topologicalSort_eq_nil_of_hasCycle (g : Graph) (hc : g.HasCycle)
    (hr : g.EdgesInRange) : g.topologicalSort = [] := by
  rcases g.topologicalSort_cases with h | h
  · exact h
  · exfalso
    have hs := g.sortAux_sound _ _ _ (List.nodup_range _) h
    have hnd := g.topologicalSort_nodup
    have key : ∀ a b, Relation.TransGen (fun a b => (a, b) ∈ g.edges) a b →
        g.topologicalSort.indexOf a < g.topologicalSort.indexOf b := by
      intro a b hab
      induction hab with
      | single e =>
        have := hr _ e
        exact sublist_pair_indexOf_lt hnd
          (hs.2 _ _ e (List.mem_range.2 this.1) (List.mem_range.2 this.2))
      | tail _ e ih =>
        have := hr _ e
        exact lt_trans ih (sublist_pair_indexOf_lt hnd
          (hs.2 _ _ e (List.mem_range.2 this.1) (List.mem_range.2 this.2)))
    obtain ⟨v, hv⟩ := hc
    exact lt_irrefl _ (key v v hv)

end Graph

/-! ## Lemmas on the class sorter -/

theorem classIndexMap_step_nodup (m : List ClassId) (c : ClassId) (h : m.Nodup) :
    (if m.contains c then m else m ++ [c]).Nodup := by
  by_cases hc : m.contains c = true
  · rw [if_pos hc]; exact h
  · rw [if_neg hc]
    have : c ∉ m := by simpa using hc
    exact List.Nodup.append h (List.nodup_singleton c) (by simpa using this)

theorem classIndexMap_foldl_nodup (l : List ClassId) : ∀ (m : List ClassId), m.Nodup →
    (l.foldl (fun m clazz => if m.contains clazz then m else m ++ [clazz]) m).Nodup := by
  induction l with
  | nil => intro m h; exact h
  | cons c l ih => intro m h; exact ih _ (classIndexMap_step_nodup m c h)

theorem classIndexMap_nodup (classList : List ClassId) : (classIndexMap classList).Nodup :=
  classIndexMap_foldl_nodup classList [] List.nodup_nil

theorem classIndexMap_foldl_mem (l : List ClassId) : ∀ (m : List ClassId) (x : ClassId),
    x ∈ l.foldl (fun m clazz => if m.contains clazz then m else m ++ [clazz]) m ↔
      x ∈ m ∨ x ∈ l := by
  induction l with
  | nil => intro m x; simp
  | cons c l ih =>
    intro m x
    rw [List.foldl_cons, ih]
    by_cases hc : m.contains c = true
    · have hcm : c ∈ m := by simpa using hc
      rw [if_pos hc]
      simp only [List.mem_cons]
      constructor
      · rintro (h | h)
        · exact Or.inl h
        · exact Or.inr (Or.inr h)
      · rintro (h | h | h)
        · exact Or.inl h
        · exact Or.inl (h ▸ hcm)
        · exact Or.inr h
    · rw [if_neg hc]
      simp only [List.mem_append, List.mem_singleton, List.mem_cons]
      tauto

theorem mem_classIndexMap (classList : List ClassId) (x : ClassId) :
    x ∈ classIndexMap classList ↔ x ∈ classList := by
  unfold classIndexMap
  rw [classIndexMap_foldl_mem]
  simp

theorem mapValue_some {map : List ClassId} {c : ClassId} {i : Nat}
    (h : mapValue map c = some i) : i < map.length ∧ map[i]? = some c := by
  unfold mapValue at h
  by_cases hc : c ∈ map
  · simp only [hc, if_true, Option.some.injEq] at h
    subst h
    have hlt : map.indexOf c < map.length := List.indexOf_lt_length.2 hc
    refine ⟨hlt, ?_⟩
    rw [List.getElem?_eq_getElem hlt]
    simp
  · simp [hc] at h

theorem mapValue_of_mem {map : List ClassId} {c : ClassId} (hc : c ∈ map) :
    mapValue map c = some (map.indexOf c) := by
  simp [mapValue, hc]

theorem getElem?_inj_of_nodup {map : List ClassId} (hnd : map.Nodup) {i j : Nat} {c : ClassId}
    (hi : map[i]? = some c) (hj : map[j]? = some c) : i = j := by
  obtain ⟨hi1, hi2⟩ := List.getElem?_eq_some.1 hi
  obtain ⟨hj1, hj2⟩ := List.getElem?_eq_some.1 hj
  exact (List.Nodup.getElem_inj_iff hnd).1 (hi2.trans hj2.symm)

theorem graphStep_id (n : Nat) : GraphStep n (fun g => g) :=
  fun _ hn hr => ⟨⟨hn, hr⟩, fun _ h => h⟩

theorem graphStep_addEdge {n a b : Nat} (ha : a < n) (hb : b < n) :
    GraphStep n (fun g => g.addEdge a b) := by
  intro g hn hr
  refine ⟨⟨hn, ?_⟩, ?_⟩
  · intro e he
    simp only [Graph.addEdge, List.mem_append, List.mem_singleton] at he
    rcases he with he | he
    · exact hr e he
    · subst he
      simp only [Graph.addEdge]
      rw [hn]
      exact ⟨ha, hb⟩
  · intro e he
    simp only [Graph.addEdge, List.mem_append]
    exact Or.inl he

theorem graphStep_foldl {α : Type} {n : Nat} (f : Graph → α → Graph) (l : List α)
    (h : ∀ x ∈ l, GraphStep n (fun g => f g x)) : GraphStep n (fun g => l.foldl f g) := by
  induction l with
  | nil => exact graphStep_id n
  | cons x l ih =>
    intro g hn hr
    have h1 := h x (List.mem_cons_self _ _) g hn hr
    have h2 := ih (fun y hy => h y (List.mem_cons_of_mem _ hy)) (f g x) h1.1.1 h1.1.2
    exact ⟨h2.1, fun e he => h2.2 (h1.2 he)⟩

theorem foldl_edge_mem {α : Type} (f : Graph → α → Graph) (e : Nat × Nat)
    (hmono : ∀ (y : α) (g : Graph), e ∈ g.edges → e ∈ (f g y).edges) (x : α)
    (hadd : ∀ g : Graph, e ∈ (f g x).edges) :
    ∀ (l : List α), x ∈ l → ∀ g : Graph, e ∈ (l.foldl f g).edges := by
  have keep : ∀ (l : List α) (g : Graph), e ∈ g.edges → e ∈ (l.foldl f g).edges := by
    intro l
    induction l with
    | nil => intro g h; exact h
    | cons y l ih => intro g h; exact ih _ (hmono y g h)
  intro l
  induction l with
  | nil => intro hx; cases hx
  | cons y l ih =>
    intro hx g
    rcases List.mem_cons.1 hx with hxy | hxl
    · subst hxy
      exact keep l _ (hadd g)
    · exact ih hxl _

theorem graphStep_addAdditionalDependencies (map : List ClassId) (deps : List Dependency) :
    GraphStep map.length (addAdditionalDependencies map deps) := by
  unfold addAdditionalDependencies
  apply graphStep_foldl
  intro dep _
  cases hp : mapValue map dep.parent with
  | none => simpa [hp] using graphStep_id map.length
  | some p =>
    cases hc : mapValue map dep.child with
    | none => simpa [hp, hc] using graphStep_id map.length
    | some c =>
      simpa [hp, hc] using graphStep_addEdge (mapValue_some hp).1 (mapValue_some hc).1

theorem graphStep_addEnclosingEdge (d : AbstractMetaBuilderPrivate) (map : List ClassId)
    (clazz : ClassId) {classIndex : Nat} (hi : classIndex < map.length) :
    GraphStep map.length (addEnclosingEdge d map clazz classIndex) := by
  unfold addEnclosingEdge
  cases he : (d.heap clazz).enclosingClass with
  | none => simpa [he] using graphStep_id map.length
  | some e =>
    cases hm : mapValue map e with
    | none => simpa [he, hm] using graphStep_id map.length
    | some ei => simpa [he, hm] using graphStep_addEdge (mapValue_some hm).1 hi

theorem graphStep_addBaseEdges (map : List ClassId) (bases : List ClassId) {classIndex : Nat}
    (hi : classIndex < map.length) :
    GraphStep map.length (addBaseEdges map bases classIndex) := by
  unfold addBaseEdges
  apply graphStep_foldl
  intro b _
  cases hm : mapValue map b with
  | none => simpa [hm] using graphStep_id map.length
  | some bi => simpa [hm] using graphStep_addEdge (mapValue_some hm).1 hi

theorem graphStep_addArgumentEdge (d : AbstractMetaBuilderPrivate) (map : List ClassId)
    (clazz : ClassId) {classIndex : Nat} (hi : classIndex < map.length)
    (arg : AbstractMetaArgument) :
    GraphStep map.length (fun g => addArgumentEdge d map clazz classIndex g arg) := by
  unfold addArgumentEdge
  by_cases h1 : (!isEmptyString arg.originalDefaultValueExpression && arg.type.isValue) = true
  · by_cases h2 : (arg.type.typeEntry.isComplex
        && arg.type.typeEntry != (d.heap clazz).typeEntry) = true
    · cases hf : findByTypeEntry d map arg.type.typeEntry with
      | none =>
        simp only [h1, h2, hf, if_true]
        exact graphStep_id _
      | some key =>
        have hk : key ∈ map := List.mem_of_find?_eq_some hf
        by_cases h3 : ((d.heap key).enclosingClass != some clazz) = true
        · simp only [h1, h2, hf, h3, if_true]
          exact graphStep_addEdge (List.indexOf_lt_length.2 hk) hi
        · simp only [h1, h2, hf, h3, if_true, if_false]
          exact graphStep_id _
    · simp only [h1, h2, if_true, if_false]
      exact graphStep_id _
  · simp only [h1, if_false]
    exact graphStep_id _

theorem graphStep_addDefaultArgumentEdges (d : AbstractMetaBuilderPrivate) (map : List ClassId)
    (clazz : ClassId) {classIndex : Nat} (hi : classIndex < map.length) :
    GraphStep map.length (addDefaultArgumentEdges d map clazz classIndex) := by
  unfold addDefaultArgumentEdges
  apply graphStep_foldl
  intro func _
  apply graphStep_foldl
  intro arg _
  exact graphStep_addArgumentEdge d map clazz hi arg

theorem classIndex_lt {map : List ClassId} {clazz : ClassId} (hc : clazz ∈ map) :
    (mapValue map clazz).getD 0 < map.length := by
  rw [mapValue_of_mem hc]
  exact List.indexOf_lt_length.2 hc

theorem graphStep_addClassEdges (env : Env) (d : AbstractMetaBuilderPrivate)
    (map : List ClassId) {clazz : ClassId} (hc : clazz ∈ map) :
    GraphStep map.length (fun g => addClassEdges env d map g clazz) := by
  intro g hn hr
  unfold addClassEdges
  have hi := classIndex_lt hc
  have h1 := graphStep_addEnclosingEdge d map clazz hi g hn hr
  have h2 := graphStep_addBaseEdges map (getBaseClasses env d (d.heap clazz)) hi _ h1.1.1 h1.1.2
  have h3 := graphStep_addDefaultArgumentEdges d map clazz hi _ h2.1.1 h2.1.2
  exact ⟨h3.1, fun e he => h3.2 (h2.2 (h1.2 he))⟩

theorem dependencyGraph_inv (env : Env) (d : AbstractMetaBuilderPrivate)
    (classList : List ClassId) (deps : List Dependency) :
    (dependencyGraph env d classList deps).nodeCount = (classIndexMap classList).length ∧
      (dependencyGraph env d classList deps).EdgesInRange := by
  unfold dependencyGraph
  have h0 := graphStep_addAdditionalDependencies (classIndexMap classList) deps
    { nodeCount := (classIndexMap classList).length } rfl (by intro e he; cases he)
  have h1 := graphStep_foldl (addClassEdges env d (classIndexMap classList)) classList
    (fun x hx => graphStep_addClassEdges env d _ ((mem_classIndexMap classList x).2 hx))
    _ h0.1.1 h0.1.2
  exact h1.1

theorem classesTopologicalSorted_eq (env : Env) (d : AbstractMetaBuilderPrivate)
    (classList : List ClassId) (deps : List Dependency) :
    classesTopologicalSorted env d classList deps = [] ∨
    classesTopologicalSorted env d classList deps =
      (dependencyGraph env d classList deps).topologicalSort.filterMap
        (sortedClassAt d (classIndexMap classList)) := by
  unfold classesTopologicalSorted
  dsimp only
  split
  · exact Or.inl rfl
  · exact Or.inr rfl

theorem sortedClassAt_some {d : AbstractMetaBuilderPrivate} {map : List ClassId} {i : Nat}
    {c : ClassId} (h : sortedClassAt d map i = some c) :
    map[i]? = some c ∧ (d.heap c).isInterface = false := by
  unfold sortedClassAt at h
  cases hm : map[i]? with
  | none => rw [hm] at h; cases h
  | some k =>
    rw [hm] at h
    dsimp only at h
    by_cases hk : (!(d.heap k).isInterface) = true
    · rw [if_pos hk] at h
      cases h
      exact ⟨rfl, by simpa using hk⟩
    · rw [if_neg hk] at h
      cases h

theorem sortedClassAt_of {d : AbstractMetaBuilderPrivate} {map : List ClassId} {i : Nat}
    {c : ClassId} (hm : map[i]? = some c) (hi : (d.heap c).isInterface = false) :
    sortedClassAt d map i = some c := by
  unfold sortedClassAt
  rw [hm]
  simp [hi]

theorem classesTopologicalSorted_nodup (env : Env) (d : AbstractMetaBuilderPrivate)
    (classList : List ClassId) (deps : List Dependency) :
    (classesTopologicalSorted env d classList deps).Nodup := by
  rcases classesTopologicalSorted_eq env d classList deps with h | h
  · rw [h]; exact List.nodup_nil
  · rw [h]
    refine List.Nodup.filterMap ?_ (Graph.topologicalSort_nodup _)
    intro a a' b hb hb'
    have h1 := sortedClassAt_some (Option.mem_def.1 hb)
    have h2 := sortedClassAt_some (Option.mem_def.1 hb')
    exact getElem?_inj_of_nodup (classIndexMap_nodup classList) h1.1 h2.1

theorem mem_classesTopologicalSorted {env : Env} {d : AbstractMetaBuilderPrivate}
    {classList : List ClassId} {deps : List Dependency} {c : ClassId}
    (hc : c ∈ classesTopologicalSorted env d classList deps) :
    (d.heap c).isInterface = false ∧
    ∃ i, i ∈ (dependencyGraph env d classList deps).topologicalSort ∧
      (classIndexMap classList)[i]? = some c := by
  rcases classesTopologicalSorted_eq env d classList deps with h | h
  · rw [h] at hc; cases hc
  · rw [h] at hc
    obtain ⟨i, hi, hsel⟩ := List.mem_filterMap.1 hc
    have := sortedClassAt_some hsel
    exact ⟨this.2, i, hi, this.1⟩

theorem classesTopologicalSorted_sublist (env : Env) (d : AbstractMetaBuilderPrivate)
    (classList : List ClassId) (deps : List Dependency) (i j : Nat) (A B : ClassId)
    (hedge : (i, j) ∈ (dependencyGraph env d classList deps).edges)
    (hA : (classIndexMap classList)[i]? = some A)
    (hB : (classIndexMap classList)[j]? = some B)
    (hAin : A ∈ classesTopologicalSorted env d classList deps)
    (hBin : B ∈ classesTopologicalSorted env d classList deps) :
    [A, B].Sublist (classesTopologicalSorted env d classList deps) := by
  have hnd := classIndexMap_nodup classList
  obtain ⟨hAi, i', hi', hAi'⟩ := mem_classesTopologicalSorted hAin
  obtain ⟨hBi, j', hj', hBj'⟩ := mem_classesTopologicalSorted hBin
  have e1 : i' = i := getElem?_inj_of_nodup hnd hAi' hA
  have e2 : j' = j := getElem?_inj_of_nodup hnd hBj' hB
  subst e1 e2
  rcases classesTopologicalSorted_eq env d classList deps with h | h
  · rw [h] at hAin; cases hAin
  · rw [h]
    have hs := Graph.topologicalSort_sublist _ hedge hi' hj'
    have := hs.filterMap (sortedClassAt d (classIndexMap classList))
    simpa [List.filterMap_cons, sortedClassAt_of hA hAi, sortedClassAt_of hB hBi] using this

/-- C1 (topological validity): for every edge `(i, j)` that
`classesTopologicalSorted` has added to its graph, `A` being the class with index
`i` and `B` the class with index `j` (the enclosing class of `B`, a base class
of `B` found by `getBaseClasses`, the class of a by-value complex-typed
argument with a default expression in a function of `B`, or the parent of an
additional dependency): if both `A` and `B` occur in the returned list, `A`
occurs at a smaller index than `B`. -/
theorem classesTopologicalSorted_edge_order (env : Env) (d : AbstractMetaBuilderPrivate)
    (classList : List ClassId) (deps : List Dependency) (i j : Nat) (A B : ClassId)
    (hedge : (i, j) ∈ (dependencyGraph env d classList deps).edges)
    (hA : (classIndexMap classList)[i]? = some A)
    (hB : (classIndexMap classList)[j]? = some B)
    (hAin : A ∈ classesTopologicalSorted env d classList deps)
    (hBin : B ∈ classesTopologicalSorted env d classList deps) :
    (classesTopologicalSorted env d classList deps).indexOf A <
      (classesTopologicalSorted env d classList deps).indexOf B :=
  Graph.sublist_pair_indexOf_lt (classesTopologicalSorted_nodup env d classList deps)
    (classesTopologicalSorted_sublist env d classList deps i j A B hedge hA hB hAin hBin)

/-- Witness of C1: for `A : public B` the edge from `B` (index 1) to `A`
(index 0) is in the graph, both classes are returned, and `B` comes first. -/
theorem classesTopologicalSorted_edge_order_witness :
    (1, 0) ∈ (dependencyGraph exampleEnv derivedAndBase [0, 1] []).edges ∧
    (classIndexMap [0, 1])[1]? = some 1 ∧ (classIndexMap [0, 1])[0]? = some 0 ∧
    classesTopologicalSorted exampleEnv derivedAndBase [0, 1] [] = [1, 0] ∧
    (classesTopologicalSorted exampleEnv derivedAndBase [0, 1] []).indexOf 1 <
      (classesTopologicalSorted exampleEnv derivedAndBase [0, 1] []).indexOf 0 :=
  ⟨by decide, by decide, by decide, by decide,
    classesTopologicalSorted_edge_order exampleEnv derivedAndBase [0, 1] [] 1 0 1 0
      (by decide) (by decide) (by decide) (by decide) (by decide)⟩

/-- C2 (cycle safety): when the dependency graph that `classesTopologicalSorted`
builds from a class list contains a cycle, the function returns the empty list,
so no class of the input is returned in any order. -/
theorem classesTopologicalSorted_cycle_empty (env : Env) (d : AbstractMetaBuilderPrivate)
    (classList : List ClassId) (deps : List Dependency)
    (hc : (dependencyGraph env d classList deps).HasCycle) :
    classesTopologicalSorted env d classList deps = [] := by
  have hnil := Graph.topologicalSort_eq_nil_of_hasCycle _ hc
    (dependencyGraph_inv env d classList deps).2
  rcases classesTopologicalSorted_eq env d classList deps with h | h
  · exact h
  · rw [h, hnil]
    rfl

/-- Witness of C2: two classes each naming the other as its only base. -/
theorem classesTopologicalSorted_cycle_empty_witness :
    (dependencyGraph exampleEnv mutualInheritance [0, 1] []).HasCycle ∧
    classesTopologicalSorted exampleEnv mutualInheritance [0, 1] [] = [] := by
  have h01 : (0, 1) ∈ (dependencyGraph exampleEnv mutualInheritance [0, 1] []).edges := by
    decide
  have h10 : (1, 0) ∈ (dependencyGraph exampleEnv mutualInheritance [0, 1] []).edges := by
    decide
  have hc : (dependencyGraph exampleEnv mutualInheritance [0, 1] []).HasCycle :=
    ⟨0, Relation.TransGen.tail (Relation.TransGen.single h01) h10⟩
  exact ⟨hc, classesTopologicalSorted_cycle_empty exampleEnv mutualInheritance [0, 1] [] hc⟩

/-! ## Which edges the sorter adds -/

theorem addEdge_mono (g : Graph) (a b : Nat) : g.edges ⊆ (g.addEdge a b).edges := by
  intro e he
  simp only [Graph.addEdge, List.mem_append]
  exact Or.inl he

theorem addEdge_mem (g : Graph) (a b : Nat) : (a, b) ∈ (g.addEdge a b).edges := by
  simp [Graph.addEdge]

theorem foldl_edges_mono {α : Type} (f : Graph → α → Graph)
    (hmono : ∀ (y : α) (g : Graph), g.edges ⊆ (f g y).edges) :
    ∀ (l : List α) (g : Graph), g.edges ⊆ (l.foldl f g).edges := by
  intro l
  induction l with
  | nil => intro g e he; exact he
  | cons y l ih => intro g e he; exact ih _ (hmono y g he)

theorem addEnclosingEdge_mono (d : AbstractMetaBuilderPrivate) (map : List ClassId)
    (clazz : ClassId) (classIndex : Nat) (g : Graph) :
    g.edges ⊆ (addEnclosingEdge d map clazz classIndex g).edges := by
  unfold addEnclosingEdge
  cases (d.heap clazz).enclosingClass with
  | none => exact fun _ h => h
  | some e =>
    dsimp only
    cases mapValue map e with
    | none => exact fun _ h => h
    | some ei => exact addEdge_mono g ei classIndex

theorem addBaseEdges_step_mono (map : List ClassId) (classIndex : Nat) (b : ClassId) (g : Graph) :
    g.edges ⊆ ((fun (g : Graph) (baseClass : ClassId) =>
      match mapValue map baseClass with
      | some baseIndex => g.addEdge baseIndex classIndex
      | none => g) g b).edges := by
  dsimp only
  cases mapValue map b with
  | none => exact fun _ h => h
  | some bi => exact addEdge_mono g bi classIndex

theorem addBaseEdges_mono (map : List ClassId) (bases : List ClassId) (classIndex : Nat)
    (g : Graph) : g.edges ⊆ (addBaseEdges map bases classIndex g).edges := by
  unfold addBaseEdges
  exact foldl_edges_mono _ (fun b g => addBaseEdges_step_mono map classIndex b g) bases g

theorem addArgumentEdge_mono (d : AbstractMetaBuilderPrivate) (map : List ClassId)
    (clazz : ClassId) (classIndex : Nat) (arg : AbstractMetaArgument) (g : Graph) :
    g.edges ⊆ (addArgumentEdge d map clazz classIndex g arg).edges := by
  unfold addArgumentEdge
  dsimp only
  split
  · split
    · split
      · split
        · exact addEdge_mono _ _ _
        · exact fun _ h => h
      · exact fun _ h => h
    · exact fun _ h => h
  · exact fun _ h => h

theorem addDefaultArgumentEdges_mono (d : AbstractMetaBuilderPrivate) (map : List ClassId)
    (clazz : ClassId) (classIndex : Nat) (g : Graph) :
    g.edges ⊆ (addDefaultArgumentEdges d map clazz classIndex g).edges := by
  unfold addDefaultArgumentEdges
  refine foldl_edges_mono _ ?_ _ g
  intro func g'
  exact foldl_edges_mono _ (fun arg g'' => addArgumentEdge_mono d map clazz classIndex arg g'') _ g'

theorem addClassEdges_mono (env : Env) (d : AbstractMetaBuilderPrivate) (map : List ClassId)
    (clazz : ClassId) (g : Graph) : g.edges ⊆ (addClassEdges env d map g clazz).edges := by
  unfold addClassEdges
  intro e he
  exact addDefaultArgumentEdges_mono d map clazz _ _
    (addBaseEdges_mono map _ _ _ (addEnclosingEdge_mono d map clazz _ g he))

theorem enclosing_edge_mem (env : Env) (d : AbstractMetaBuilderPrivate)
    (classList : List ClassId) (deps : List Dependency) {clazz enclosing : ClassId}
    (hc : clazz ∈ classList) (he : (d.heap clazz).enclosingClass = some enclosing)
    (hin : enclosing ∈ classList) :
    ((classIndexMap classList).indexOf enclosing, (classIndexMap classList).indexOf clazz) ∈
      (dependencyGraph env d classList deps).edges := by
  unfold dependencyGraph
  refine foldl_edge_mem _ _ (fun y g h => addClassEdges_mono env d _ y g h) clazz ?_
    classList hc _
  intro g
  unfold addClassEdges
  refine addDefaultArgumentEdges_mono d _ clazz _ _ (addBaseEdges_mono _ _ _ _ ?_)
  unfold addEnclosingEdge
  rw [he]
  dsimp only
  rw [mapValue_of_mem ((mem_classIndexMap classList enclosing).2 hin),
    mapValue_of_mem ((mem_classIndexMap classList clazz).2 hc)]
  exact addEdge_mem _ _ _

theorem base_edge_mem (env : Env) (d : AbstractMetaBuilderPrivate)
    (classList : List ClassId) (deps : List Dependency) {clazz base : ClassId}
    (hc : clazz ∈ classList) (hb : base ∈ getBaseClasses env d (d.heap clazz))
    (hin : base ∈ classList) :
    ((classIndexMap classList).indexOf base, (classIndexMap classList).indexOf clazz) ∈
      (dependencyGraph env d classList deps).edges := by
  unfold dependencyGraph
  refine foldl_edge_mem _ _ (fun y g h => addClassEdges_mono env d _ y g h) clazz ?_
    classList hc _
  intro g
  unfold addClassEdges
  refine addDefaultArgumentEdges_mono d _ clazz _ _ ?_
  unfold addBaseEdges
  refine foldl_edge_mem _ _ (fun y g h => addBaseEdges_step_mono _ _ y g h) base ?_ _ hb _
  intro g'
  dsimp only
  rw [mapValue_of_mem ((mem_classIndexMap classList base).2 hin),
    mapValue_of_mem ((mem_classIndexMap classList clazz).2 hc)]
  exact addEdge_mem _ _ _

theorem getElem?_indexOf {map : List ClassId} {c : ClassId} (hc : c ∈ map) :
    map[map.indexOf c]? = some c :=
  (mapValue_some (mapValue_of_mem hc)).2

/-! ## The order of characters and strings -/

theorem stringLessAux_asymm : ∀ (a b : List Nat), stringLessAux a b = true →
    stringLessAux b a = false := by
  intro a
  induction a with
  | nil =>
    intro b _
    cases b <;> simp [stringLessAux]
  | cons x xs ih =>
    intro b h
    cases b with
    | nil => simp [stringLessAux] at h
    | cons y ys =>
      simp only [stringLessAux, Bool.or_eq_true, decide_eq_true_eq, Bool.and_eq_true,
        beq_iff_eq] at h
      simp only [stringLessAux, Bool.or_eq_false_iff, decide_eq_false_iff_not,
        Bool.and_eq_false_iff, beq_eq_false_iff_ne]
      rcases h with h | ⟨h1, h2⟩
      · exact ⟨by omega, Or.inl (by omega)⟩
      · exact ⟨by omega, Or.inr (ih ys h2)⟩

theorem stringLessAux_trans : ∀ (c b a : List Nat), stringLessAux b a = false →
    stringLessAux c b = false → stringLessAux c a = false := by
  intro c
  induction c with
  | nil =>
    intro b a h1 h2
    cases b with
    | nil =>
      cases a with
      | nil => rfl
      | cons a0 as => simp [stringLessAux] at h1
    | cons b0 bs => simp [stringLessAux] at h2
  | cons c0 cs ih =>
    intro b a h1 h2
    cases a with
    | nil => rfl
    | cons a0 as =>
      cases b with
      | nil => simp [stringLessAux] at h1
      | cons b0 bs =>
        simp only [stringLessAux, Bool.or_eq_false_iff, decide_eq_false_iff_not,
          Bool.and_eq_false_iff, beq_eq_false_iff_ne] at h1 h2 ⊢
        refine ⟨by omega, ?_⟩
        by_cases hca : c0 = a0
        · right
          have hcb : c0 = b0 := by omega
          have hba : b0 = a0 := by omega
          rcases h1.2 with h | h
          · exact absurd hba h
          · rcases h2.2 with h' | h'
            · exact absurd hcb h'
            · exact ih bs as h h'
        · left
          exact hca

theorem stdSort_perm {α : Type} (lessThan : α → α → Bool) (l : List α) :
    (stdSort lessThan l).Perm l :=
  List.perm_insertionSort _ l

theorem stdSort_metaClassLessThan_sorted (d : AbstractMetaBuilderPrivate) (l : List ClassId) :
    (stdSort (metaClassLessThan d) l).Pairwise (fun a b => metaClassLessThan d b a = false) := by
  haveI : IsTotal ClassId (fun a b => metaClassLessThan d b a = false) :=
    ⟨fun a b => by
      unfold metaClassLessThan stringLess
      cases h : stringLessAux (codeUnits (d.heap b).fullName) (codeUnits (d.heap a).fullName) with
      | false => exact Or.inl rfl
      | true => exact Or.inr (stringLessAux_asymm _ _ h)⟩
  haveI : IsTrans ClassId (fun a b => metaClassLessThan d b a = false) :=
    ⟨fun a b c h1 h2 => by
      unfold metaClassLessThan stringLess at *
      exact stringLessAux_trans _ _ _ h1 h2⟩
  exact List.sorted_insertionSort (fun a b => metaClassLessThan d b a = false) l

/-! ## The class list after `traverseDom` and after `build` -/

theorem mem_of_mem_classesTopologicalSorted {env : Env} {d : AbstractMetaBuilderPrivate}
    {classList : List ClassId} {deps : List Dependency} {c : ClassId}
    (hc : c ∈ classesTopologicalSorted env d classList deps) : c ∈ classList := by
  obtain ⟨_, i, _, hi⟩ := mem_classesTopologicalSorted hc
  exact (mem_classIndexMap classList c).1 (List.getElem?_mem hi)

theorem not_hasCycle_of_sorted_ne_nil (env : Env) (d : AbstractMetaBuilderPrivate)
    (classList : List ClassId) (deps : List Dependency)
    (h : classesTopologicalSorted env d classList deps ≠ []) :
    ¬ (dependencyGraph env d classList deps).HasCycle := by
  intro hc
  apply h
  have hnil := Graph.topologicalSort_eq_nil_of_hasCycle _ hc
    (dependencyGraph_inv env d classList deps).2
  rcases classesTopologicalSorted_eq env d classList deps with h' | h'
  · exact h'
  · rw [h', hnil]
    rfl

/-- C3, as amended: the class list that `traverseDom` stores after its
topological pass is ordered so that every class comes after its enclosing class
and after each of its base classes that is also in the list; the list that
`classes()` returns after `build()` holds the same classes, reordered by
`std::sort` so that no class has a smaller full name than an earlier one. -/
theorem traverseDom_classes_follow_dependencies (env : Env) (d : AbstractMetaBuilderPrivate) :
    ClassesFollowDependencies env d (classes (traverseDomSortClasses env d)) ∧
    (classes (buildSortClasses (traverseDomSortClasses env d))).Perm
      (classes (traverseDomSortClasses env d)) ∧
    (classes (buildSortClasses (traverseDomSortClasses env d))).Pairwise
      (fun a b => metaClassLessThan d b a = false) := by
  refine ⟨?_, ?_, ?_⟩
  · intro c hc
    have hnd := classesTopologicalSorted_nodup env d d.m_metaClasses []
    have hcl : c ∈ d.m_metaClasses := mem_of_mem_classesTopologicalSorted hc
    have hcm := (mem_classIndexMap d.m_metaClasses c).2 hcl
    refine ⟨?_, ?_⟩
    · intro e he hein
      have hel : e ∈ d.m_metaClasses := mem_of_mem_classesTopologicalSorted hein
      have hem := (mem_classIndexMap d.m_metaClasses e).2 hel
      exact Graph.sublist_pair_indexOf_lt hnd
        (classesTopologicalSorted_sublist env d d.m_metaClasses [] _ _ e c
          (enclosing_edge_mem env d d.m_metaClasses [] hcl he hel)
          (getElem?_indexOf hem) (getElem?_indexOf hcm) hein hc)
    · intro b hb hbin
      have hbl : b ∈ d.m_metaClasses := mem_of_mem_classesTopologicalSorted hbin
      have hbm := (mem_classIndexMap d.m_metaClasses b).2 hbl
      exact Graph.sublist_pair_indexOf_lt hnd
        (classesTopologicalSorted_sublist env d d.m_metaClasses [] _ _ b c
          (base_edge_mem env d d.m_metaClasses [] hcl hb hbl)
          (getElem?_indexOf hbm) (getElem?_indexOf hcm) hbin hc)
  · exact stdSort_perm _ _
  · exact stdSort_metaClassLessThan_sorted d _

/-- Counterexample to C3 as stated: for the two classes `A : public B` and `B`
the dependency graph has no cycle, `build()` leaves the class list `[A, B]`, and
in it the class `A` comes before its base class `B`. -/
theorem build_classes_not_in_dependency_order :
    ¬ (dependencyGraph exampleEnv derivedAndBase derivedAndBase.m_metaClasses []).HasCycle ∧
    classes (buildSortClasses (traverseDomSortClasses exampleEnv derivedAndBase)) = [0, 1] ∧
    ¬ ClassesFollowDependencies exampleEnv
        (buildSortClasses (traverseDomSortClasses exampleEnv derivedAndBase))
        (classes (buildSortClasses (traverseDomSortClasses exampleEnv derivedAndBase))) := by
  refine ⟨?_, by decide, ?_⟩
  · exact not_hasCycle_of_sorted_ne_nil _ _ _ _ (by decide)
  · intro h
    have h1 := (h 0 (by decide)).2 1 (by decide) (by decide)
    revert h1
    decide

/-! ## Lemmas on `traverseFunction` -/

theorem traverseArguments_accepted_length (env : Env) (d : AbstractMetaBuilderPrivate)
    (currentClass : Option ClassId) (className sig : String) :
    ∀ (args : List ArgumentModelItem) (i : Nat) (acc ms : List AbstractMetaArgument),
      (∀ a ∈ args, a.defaultValue = false) →
      traverseArguments env d currentClass className sig i args acc = .accepted ms →
      ms.length = acc.length + args.length := by
  intro args
  induction args with
  | nil =>
    intro i acc ms _ h
    simp only [traverseArguments] at h
    cases h
    simp
  | cons a rest ih =>
    intro i acc ms hdef h
    simp only [traverseArguments] at h
    cases hr : env.types.isArgumentTypeRejected className a.type.toString with
    | some r => rw [hr] at h; cases h
    | none =>
      rw [hr] at h
      dsimp only at h
      cases ht : env.translateType d.heap d.m_metaClasses d.m_templates a.type currentClass with
      | none =>
        rw [ht] at h
        dsimp only at h
        rw [hdef a (List.mem_cons_self _ _)] at h
        simp at h
      | some t =>
        rw [ht] at h
        dsimp only at h
        have := ih _ _ _ (fun b hb => hdef b (List.mem_cons_of_mem _ hb)) h
        rw [this]
        simp
        omega

theorem setDefaultValue_length (env : Env) (d : AbstractMetaBuilderPrivate)
    (currentClass : Option ClassId) (functionMods : List FunctionModification)
    (arguments : List ArgumentModelItem) (f : AbstractMetaFunction) (i : Nat) :
    (setDefaultValue env d currentClass functionMods arguments f i).arguments.length =
      f.arguments.length := by
  unfold setDefaultValue
  split
  · dsimp only
    split
    · simp
    · rfl
  · rfl

theorem foldl_setDefaultValue_length (env : Env) (d : AbstractMetaBuilderPrivate)
    (currentClass : Option ClassId) (functionMods : List FunctionModification)
    (arguments : List ArgumentModelItem) :
    ∀ (l : List Nat) (f : AbstractMetaFunction),
      (l.foldl (setDefaultValue env d currentClass functionMods arguments) f).arguments.length =
        f.arguments.length := by
  intro l
  induction l with
  | nil => intro f; rfl
  | cons i l ih =>
    intro f
    rw [List.foldl_cons, ih, setDefaultValue_length]

theorem renameArgument_length (args : List AbstractMetaArgument) (argMod : ArgumentModification) :
    (renameArgument args argMod).length = args.length := by
  unfold renameArgument
  split
  · split
    · simp
    · rfl
  · rfl

theorem nameUnnamedArguments_length : ∀ (args : List AbstractMetaArgument) (i : Nat),
    (nameUnnamedArguments i args).length = args.length := by
  intro args
  induction args with
  | nil => intro i; rfl
  | cons a rest ih => intro i; simp [nameUnnamedArguments, ih]

theorem foldl_renameArgument_length : ∀ (mods : List ArgumentModification)
    (args : List AbstractMetaArgument),
    (mods.foldl renameArgument args).length = args.length := by
  intro mods
  induction mods with
  | nil => intro args; rfl
  | cons m rest ih => intro args; rw [List.foldl_cons, ih, renameArgument_length]

theorem fixArgumentNames_length (f : AbstractMetaFunction) (mods : List FunctionModification) :
    (fixArgumentNames f mods).arguments.length = f.arguments.length := by
  unfold fixArgumentNames
  dsimp only
  rw [nameUnnamedArguments_length]
  generalize f.arguments = args
  induction mods generalizing args with
  | nil => rfl
  | cons m rest ih => rw [List.foldl_cons, ih, foldl_renameArgument_length]

theorem applyArrayArgumentModification_length (env : Env) (f f1 : AbstractMetaFunction)
    (argMod : ArgumentModification)
    (h : applyArrayArgumentModification env f argMod = some f1) :
    f1.arguments.length = f.arguments.length := by
  unfold applyArrayArgumentModification at h
  split at h
  · dsimp only at h
    split at h
    · cases h
    · split at h
      · cases h
      · split at h
        · cases h
        · cases h
          simp
  · cases h
    rfl

theorem applyArrayArgumentModificationsAux_length (env : Env) :
    ∀ (mods : List ArgumentModification) (f : AbstractMetaFunction),
      (applyArrayArgumentModificationsAux env mods f).1.arguments.length = f.arguments.length := by
  intro mods
  induction mods with
  | nil => intro f; rfl
  | cons m rest ih =>
    intro f
    simp only [applyArrayArgumentModificationsAux]
    cases h : applyArrayArgumentModification env f m with
    | none => rfl
    | some f1 =>
      dsimp only
      rw [ih, applyArrayArgumentModification_length env f f1 m h]

theorem determineSpecialFunction_arguments (d : AbstractMetaBuilderPrivate)
    (currentClass : Option ClassId) (f : AbstractMetaFunction) :
    (determineSpecialFunction d currentClass f).arguments = f.arguments := by
  unfold determineSpecialFunction
  split
  · dsimp only
    split
    · split
      · split
        · rfl
        · split <;> rfl
        · rfl
      · rfl
    · rfl
  · rfl

theorem sameModel_refl (d : AbstractMetaBuilderPrivate) : SameModel d d := ⟨rfl, rfl, rfl, rfl⟩

theorem sameModel_trans {d d1 d2 : AbstractMetaBuilderPrivate} (h1 : SameModel d d1)
    (h2 : SameModel d1 d2) : SameModel d d2 :=
  ⟨h2.1.trans h1.1, h2.2.1.trans h1.2.1, h2.2.2.1.trans h1.2.2.1, h2.2.2.2.trans h1.2.2.2⟩

theorem sameModel_addRejectedFunction (d : AbstractMetaBuilderPrivate) (key : String)
    (r : RejectReason) : SameModel d (addRejectedFunction d key r) := ⟨rfl, rfl, rfl, rfl⟩

theorem traverseArguments_congr (env : Env) {d d' : AbstractMetaBuilderPrivate}
    (h : SameModel d d') (currentClass : Option ClassId) (className sig : String) :
    ∀ (args : List ArgumentModelItem) (i : Nat) (acc : List AbstractMetaArgument),
      traverseArguments env d' currentClass className sig i args acc =
        traverseArguments env d currentClass className sig i args acc := by
  intro args
  induction args with
  | nil => intro i acc; rfl
  | cons a rest ih =>
    intro i acc
    simp only [traverseArguments, h.1, h.2.1, h.2.2.1, ih]

theorem setDefaultValue_congr (env : Env) {d d' : AbstractMetaBuilderPrivate}
    (h : SameModel d d') (currentClass : Option ClassId) (mods : List FunctionModification)
    (args : List ArgumentModelItem) (f : AbstractMetaFunction) (i : Nat) :
    setDefaultValue env d' currentClass mods args f i =
      setDefaultValue env d currentClass mods args f i := by
  simp only [setDefaultValue, h.1]

theorem determineSpecialFunction_congr {d d' : AbstractMetaBuilderPrivate}
    (h : SameModel d d') (currentClass : Option ClassId) (f : AbstractMetaFunction) :
    determineSpecialFunction d' currentClass f = determineSpecialFunction d currentClass f := by
  simp only [determineSpecialFunction, h.1]

theorem traverseFunctionReturnType_congr (env : Env) {d d' : AbstractMetaBuilderPrivate}
    (h : SameModel d d') (item : FunctionModelItem) (currentClass : Option ClassId)
    (className sig : String) (f : AbstractMetaFunction) :
    traverseFunctionReturnType env d' item currentClass className sig f =
      traverseFunctionReturnType env d item currentClass className sig f := by
  simp only [traverseFunctionReturnType, h.1, h.2.1, h.2.2.1]

theorem traverseFunctionArguments_fst_congr (env : Env) {d d' : AbstractMetaBuilderPrivate}
    (h : SameModel d d') (item : FunctionModelItem) (currentClass : Option ClassId)
    (className sig : String) (f : AbstractMetaFunction) :
    (traverseFunctionArguments env d' item currentClass className sig f).1 =
      (traverseFunctionArguments env d item currentClass className sig f).1 := by
  unfold traverseFunctionArguments
  dsimp only
  rw [traverseArguments_congr env h]
  split
  · rfl
  · dsimp only
    have hs : setDefaultValue env d' currentClass = setDefaultValue env d currentClass := by
      funext mods args f i
      exact setDefaultValue_congr env h currentClass mods args f i
    simp only [hs, h.1, determineSpecialFunction_congr h]

theorem traverseFunctionArguments_sameModel (env : Env) (d : AbstractMetaBuilderPrivate)
    (item : FunctionModelItem) (currentClass : Option ClassId)
    (className sig : String) (f : AbstractMetaFunction) :
    SameModel d (traverseFunctionArguments env d item currentClass className sig f).2 := by
  unfold traverseFunctionArguments
  dsimp only
  split
  · exact sameModel_addRejectedFunction _ _ _
  · exact sameModel_refl d

theorem traverseFunction_sameModel (env : Env) (d : AbstractMetaBuilderPrivate)
    (item : FunctionModelItem) (currentClass : Option ClassId) :
    SameModel d (traverseFunction env d item currentClass).2 := by
  unfold traverseFunction
  split
  · exact sameModel_refl d
  · dsimp only
    split
    · exact sameModel_refl d
    · split
      · exact sameModel_addRejectedFunction _ _ _
      · split
        · exact sameModel_refl d
        · split
          · exact sameModel_refl d
          · split
            · exact sameModel_addRejectedFunction _ _ _
            · split
              · exact sameModel_addRejectedFunction _ _ _
              · exact traverseFunctionArguments_sameModel _ _ _ _ _ _ _

theorem traverseFunction_fst_congr (env : Env) {d d' : AbstractMetaBuilderPrivate}
    (h : SameModel d d') (item : FunctionModelItem) (currentClass : Option ClassId) :
    (traverseFunction env d' item currentClass).1 = (traverseFunction env d item currentClass).1 := by
  unfold traverseFunction
  simp only [h.1, h.2.2.2, traverseFunctionReturnType_congr env h]
  split
  · rfl
  · split
    · rfl
    · split
      · rfl
      · split
        · rfl
        · split
          · rfl
          · split
            · rfl
            · split
              · rfl
              · exact traverseFunctionArguments_fst_congr env h _ _ _ _ _

/-! ## The function list of a class -/

theorem classFunctionList_fst (env : Env) (currentClass : Option ClassId) :
    ∀ (fs : List FunctionModelItem) (d : AbstractMetaBuilderPrivate),
      (classFunctionList env d fs currentClass).1 =
        fs.filterMap (fun f => (traverseFunction env d f currentClass).1) := by
  intro fs
  induction fs with
  | nil => intro d; rfl
  | cons f rest ih =>
    intro d
    have hsame := traverseFunction_sameModel env d f currentClass
    have hfun : (fun g => (traverseFunction env (traverseFunction env d f currentClass).2 g
        currentClass).1) = (fun g => (traverseFunction env d g currentClass).1) := by
      funext g
      exact traverseFunction_fst_congr env hsame g currentClass
    simp only [classFunctionList]
    cases hres : traverseFunction env d f currentClass with
    | mk r d1 =>
      rw [hres] at hfun
      cases r with
      | none =>
        dsimp only
        rw [List.filterMap_cons, hres]
        dsimp only
        rw [ih d1, hfun]
      | some mf =>
        dsimp only
        rw [List.filterMap_cons, hres]
        dsimp only
        rw [ih d1, hfun]

/-- C8 (rejection is non-destructive to siblings): the functions that
`classFunctionList` produces for a scope are the results of `traverseFunction`
for the functions of the scope that it accepts, in declaration order; and when
one function of the scope is rejected (`traverseFunction` yields nothing for
it), the list produced is the one produced for the scope without that function,
so every other function yields the same meta function. -/
theorem classFunctionList_rejected_sibling (env : Env) (d : AbstractMetaBuilderPrivate)
    (currentClass : Option ClassId) (before after : List FunctionModelItem)
    (rejected : FunctionModelItem)
    (hrej : (traverseFunction env d rejected currentClass).1 = none) :
    (classFunctionList env d (before ++ rejected :: after) currentClass).1 =
        (before ++ after).filterMap (fun f => (traverseFunction env d f currentClass).1) ∧
    (classFunctionList env d (before ++ rejected :: after) currentClass).1 =
        (classFunctionList env d (before ++ after) currentClass).1 := by
  have h : (classFunctionList env d (before ++ rejected :: after) currentClass).1 =
      (before ++ after).filterMap (fun f => (traverseFunction env d f currentClass).1) := by
    rw [classFunctionList_fst, List.filterMap_append, List.filterMap_cons, hrej,
      List.filterMap_append]
  exact ⟨h, by rw [h, classFunctionList_fst]⟩

/-- Witness of C8: in the class `C` with the functions `void first()`,
`void bad(Unknown)` and `void second()`, the second function is rejected for its
unmatched argument type, and the list produced is the one for `first` and
`second` alone. -/
theorem classFunctionList_rejected_sibling_witness :
    (traverseFunction exampleEnv oneClass unmatchedFunction (some 0)).1 = none ∧
    ((classFunctionList exampleEnv oneClass
        ([plainFunction "first"] ++ unmatchedFunction :: [plainFunction "second"]) (some 0)).1 =
      ([plainFunction "first"] ++ [plainFunction "second"]).filterMap
        (fun f => (traverseFunction exampleEnv oneClass f (some 0)).1) ∧
    (classFunctionList exampleEnv oneClass
        ([plainFunction "first"] ++ unmatchedFunction :: [plainFunction "second"]) (some 0)).1 =
      (classFunctionList exampleEnv oneClass
        ([plainFunction "first"] ++ [plainFunction "second"]) (some 0)).1) ∧
    ((classFunctionList exampleEnv oneClass
        ([plainFunction "first"] ++ unmatchedFunction :: [plainFunction "second"]) (some 0)).1.map
      (fun f => f.name)) = ["first", "second"] :=
  ⟨rfl,
   classFunctionList_rejected_sibling exampleEnv oneClass (some 0) [plainFunction "first"]
     [plainFunction "second"] unmatchedFunction rfl,
   by decide⟩

/-! ## Free operator functions -/

theorem applyExceptionAndThreadMods_arguments (mods : List FunctionModification)
    (f : AbstractMetaFunction) : (applyExceptionAndThreadMods mods f).arguments = f.arguments := by
  unfold applyExceptionAndThreadMods
  induction mods generalizing f with
  | nil => rfl
  | cons m rest ih =>
    rw [List.foldl_cons, ih]
    split
    · rfl
    · split <;> rfl

theorem traverseFunctionArguments_length (env : Env) (d : AbstractMetaBuilderPrivate)
    (item : FunctionModelItem) (currentClass : Option ClassId) (className sig : String)
    (f0 f : AbstractMetaFunction) (s m : ArgumentModelItem)
    (hargs : item.arguments = [s, m]) (hs : s.defaultValue = false) (hm : m.defaultValue = false)
    (h : (traverseFunctionArguments env d item currentClass className sig f0).1 = some f) :
    f.arguments.length = 2 := by
  unfold traverseFunctionArguments at h
  rw [hargs] at h
  dsimp only at h
  cases hres : traverseArguments env d currentClass className sig 0 [s, m] [] with
  | rejected key reason => rw [hres] at h; cases h
  | accepted ms =>
    rw [hres] at h
    dsimp only at h
    have hlen : ms.length = 2 := by
      have := traverseArguments_accepted_length env d currentClass className sig [s, m] 0 [] ms
        (by
          intro a ha
          simp only [List.mem_cons, List.mem_singleton, List.not_mem_nil, or_false] at ha
          rcases ha with ha | ha
          · rw [ha]; exact hs
          · rw [ha]; exact hm) hres
      simpa using this
    have hne : ms.isEmpty = false := by
      cases ms with
      | nil => simp at hlen
      | cons _ _ => rfl
    simp only [hne, Bool.not_false, if_true, Option.some.injEq] at h
    rw [← h, determineSpecialFunction_arguments]
    unfold applyArrayArgumentModifications
    rw [applyArrayArgumentModificationsAux_length, fixArgumentNames_length,
      foldl_setDefaultValue_length, applyExceptionAndThreadMods_arguments]
    exact hlen

theorem traverseFunction_two_arguments (env : Env) (d : AbstractMetaBuilderPrivate)
    (item : FunctionModelItem) (currentClass : Option ClassId) (f : AbstractMetaFunction)
    (s m : ArgumentModelItem)
    (hargs : item.arguments = [s, m]) (hs : s.defaultValue = false) (hm : m.defaultValue = false)
    (h : (traverseFunction env d item currentClass).1 = some f) :
    ∃ a0 a1, f.arguments = [a0, a1] := by
  have hlen : f.arguments.length = 2 := by
    unfold traverseFunction at h
    split at h
    · cases h
    · dsimp only at h
      split at h
      · cases h
      · split at h
        · cases h
        · split at h
          · cases h
          · split at h
            · cases h
            · split at h
              · cases h
              · split at h
                · cases h
                · exact traverseFunctionArguments_length env d item currentClass _ _ _ f s m
                    hargs hs hm h
  match hf : f.arguments, hlen with
  | [a0, a1], _ => exact ⟨a0, a1, rfl⟩

theorem traverseFunction_heap (env : Env) (d : AbstractMetaBuilderPrivate)
    (item : FunctionModelItem) (currentClass : Option ClassId) :
    (traverseFunction env d item currentClass).2.heap = d.heap :=
  (traverseFunction_sameModel env d item currentClass).1

/-- C4 (reverse-operator detection): for a public free binary operator
`op(S, M)` whose first argument is not the argument of a known class with
target-language generation, whose second argument is of the known class `M`, and
which `traverseFunction` accepts for `M` as the function `f` (operator functions
have no default arguments), `traverseOperatorFunction` adds exactly one function
to `M` and changes no other class; the arguments of that function are the first
argument of `f` alone, and its reverse-operator flag is set. -/
theorem traverseOperatorFunction_reverse_operator (env : Env) (d : AbstractMetaBuilderPrivate)
    (item : FunctionModelItem) (currentClass : Option ClassId) (s m : ArgumentModelItem)
    (M : ClassId) (f : AbstractMetaFunction)
    (hpub : item.accessPolicy = .Public)
    (hargs : item.arguments = [s, m])
    (hsdef : s.defaultValue = false) (hmdef : m.defaultValue = false)
    (hS : ∀ c, argumentToClass env d s currentClass = some c →
      generatesTargetLang (d.heap c).typeEntry = false)
    (hM : argumentToClass env d m currentClass = some M)
    (hf : (traverseFunction env d item (some M)).1 = some f) :
    ∃ a0 a1 added,
      f.arguments = [a0, a1] ∧
      ((traverseOperatorFunction env d item currentClass).heap M).functions =
        (d.heap M).functions ++ [added] ∧
      added.arguments = [a0] ∧ added.reverseOperator = true ∧
      (∀ c, c ≠ M → (traverseOperatorFunction env d item currentClass).heap c = d.heap c) := by
  obtain ⟨a0, a1, hfa⟩ := traverseFunction_two_arguments env d item (some M) f s m hargs hsdef
    hmdef hf
  have hhome : operatorHomeClass env d item currentClass s [m] = (some M, false, false) := by
    unfold operatorHomeClass
    dsimp only
    cases hb : argumentToClass env d s currentClass with
    | none => simp [hM]
    | some base => simp [hM, hS base hb]
  have hheap := traverseFunction_heap env d item (some M)
  cases hres : traverseFunction env d item (some M) with
  | mk r d1 =>
    rw [hres] at hf hheap
    dsimp only at hf hheap
    subst hf
    have hstrip : (operatorMemberFunction M f false false).arguments = [a0] ∧
        (operatorMemberFunction M f false false).reverseOperator = true := by
      unfold operatorMemberFunction stripSelfArgument
      simp [hfa]
    have hout : traverseOperatorFunction env d item currentClass =
        setClass d1 M
          { (if (operatorMemberFunction M f false false).name == "operator_equal" then
              { d1.heap M with hasEqualsOperator := true } else d1.heap M) with
            functions :=
              (if (operatorMemberFunction M f false false).name == "operator_equal" then
                { d1.heap M with hasEqualsOperator := true } else d1.heap M).functions ++
                [operatorMemberFunction M f false false] } := by
      unfold traverseOperatorFunction
      simp only [hpub, hargs, hhome, hres]
      simp
    refine ⟨a0, a1, operatorMemberFunction M f false false, hfa, ?_, hstrip.1, hstrip.2, ?_⟩
    · rw [hout]
      simp only [setClass, Function.update_same]
      rw [hheap]
      split <;> rfl
    · intro c hc
      rw [hout]
      simp only [setClass, Function.update_noteq hc]
      rw [hheap]

/-- Witness of C4: `Matrix operator+(int, Matrix)` with the known class `Matrix`
and the primitive type `int`. -/
theorem traverseOperatorFunction_reverse_operator_witness :
    scalarPlusMatrix.accessPolicy = .Public ∧
    argumentToClass typedEnv matrixModel { name := "s", type := intTypeInfo } none = none ∧
    argumentToClass typedEnv matrixModel { name := "m", type := matrixTypeInfo } none = some 0 ∧
    (traverseFunction typedEnv matrixModel scalarPlusMatrix (some 0)).1.isSome = true ∧
    ∃ a0 a1 added,
      ((traverseFunction typedEnv matrixModel scalarPlusMatrix (some 0)).1.getD {}).arguments
        = [a0, a1] ∧
      ((traverseOperatorFunction typedEnv matrixModel scalarPlusMatrix none).heap 0).functions =
        (matrixModel.heap 0).functions ++ [added] ∧
      added.arguments = [a0] ∧ added.reverseOperator = true ∧
      (∀ c, c ≠ 0 →
        (traverseOperatorFunction typedEnv matrixModel scalarPlusMatrix none).heap c =
          matrixModel.heap c) :=
  ⟨rfl, rfl, rfl, rfl,
   traverseOperatorFunction_reverse_operator typedEnv matrixModel scalarPlusMatrix none
     { name := "s", type := intTypeInfo } { name := "m", type := matrixTypeInfo } 0
     ((traverseFunction typedEnv matrixModel scalarPlusMatrix (some 0)).1.getD {})
     rfl rfl rfl rfl
     (by
       intro c h
       have hn : argumentToClass typedEnv matrixModel { name := "s", type := intTypeInfo } none
           = none := rfl
       rw [hn] at h
       cases h)
     rfl rfl⟩

/-! ## Enums -/

theorem anonymousEnumLookup_fst (types : TypeDatabase) (scope : List String) :
    ∀ (es : List EnumeratorModelItem) (tmp : List String) (q : String),
      tmp.dropLast = scope →
      (anonymousEnumLookup types tmp es q).1 =
        es.findSome? (fun e => types.findType (joinColonColon (scope ++ [e.name]))) := by
  intro es
  induction es with
  | nil => intro tmp q _; rfl
  | cons e rest ih =>
    intro tmp q htmp
    simp only [anonymousEnumLookup, List.findSome?_cons, htmp]
    cases hf : types.findType (joinColonColon (scope ++ [e.name])) with
    | some te => rfl
    | none =>
      dsimp only
      exact ih _ _ (by simp)

theorem enumTypeEntry_anonymous (env : Env) (d : AbstractMetaBuilderPrivate)
    (enumItem : EnumModelItem) (hacc : enumItem.accessPolicy ≠ .Private)
    (hkind : enumItem.enumKind = .AnonymousEnum) :
    enumTypeEntry env d enumItem =
      ((anonymousEnumLookup env.types enumItem.qualifiedName enumItem.enumerators
          (joinColonColon enumItem.qualifiedName)).1,
       (anonymousEnumLookup env.types enumItem.qualifiedName enumItem.enumerators
          (joinColonColon enumItem.qualifiedName)).2, d) := by
  unfold enumTypeEntry
  have h1 : (enumItem.accessPolicy == AccessPolicy.Private) = false := by
    simpa using hacc
  simp [h1, hkind]

/-- C10, as amended: for a non-private anonymous enum, `traverseEnum` takes as
type entry the registry entry of the first enumerator, in declaration order,
whose name qualified by the enclosing scope of the enum is registered.  When the
registry does not reject the enum: if that entry is an enum entry, one meta enum
with that entry is produced (in particular with the entry of the second
enumerator when the first one is not registered); if no enumerator is
registered, no meta enum is produced and the enum is recorded as not in the
type system.  When the registry rejects the enum, no meta enum is produced, the
enum is recorded as generation-disabled, and the entry found, if any, is set to
generate nothing. -/
theorem traverseEnum_anonymous_entry (env : Env) (d : AbstractMetaBuilderPrivate)
    (enumItem : EnumModelItem) (enclosing : Option ClassId) (enumsDeclarations : List String)
    (hacc : enumItem.accessPolicy ≠ .Private) (hkind : enumItem.enumKind = .AnonymousEnum) :
    (enumTypeEntry env d enumItem).1 =
      enumItem.enumerators.findSome? (fun e =>
        env.types.findType (joinColonColon (enumItem.qualifiedName.dropLast ++ [e.name]))) ∧
    (env.types.isEnumRejected (enumClassName d enclosing) enumItem.name = none →
      ∀ te, enumItem.enumerators.findSome? (fun e =>
        env.types.findType (joinColonColon (enumItem.qualifiedName.dropLast ++ [e.name])))
          = some te → te.isEnum = true →
      ∃ metaEnum, (traverseEnum env d enumItem enclosing enumsDeclarations).1 = some metaEnum ∧
        metaEnum.typeEntry = te) ∧
    (env.types.isEnumRejected (enumClassName d enclosing) enumItem.name = none →
      ∀ e1 e2 rest te, enumItem.enumerators = e1 :: e2 :: rest →
      env.types.findType (joinColonColon (enumItem.qualifiedName.dropLast ++ [e1.name])) = none →
      env.types.findType (joinColonColon (enumItem.qualifiedName.dropLast ++ [e2.name]))
        = some te → te.isEnum = true →
      ∃ metaEnum, (traverseEnum env d enumItem enclosing enumsDeclarations).1 = some metaEnum ∧
        metaEnum.typeEntry = te) ∧
    (env.types.isEnumRejected (enumClassName d enclosing) enumItem.name = none →
      enumItem.enumerators.findSome? (fun e =>
        env.types.findType (joinColonColon (enumItem.qualifiedName.dropLast ++ [e.name])))
          = none →
      (traverseEnum env d enumItem enclosing enumsDeclarations).1 = none ∧
      ∃ key, (traverseEnum env d enumItem enclosing enumsDeclarations).2.m_rejectedEnums =
        rejectInsert d.m_rejectedEnums key .NotInTypeSystem) ∧
    (∀ rejectReason,
      env.types.isEnumRejected (enumClassName d enclosing) enumItem.name = some rejectReason →
      (traverseEnum env d enumItem enclosing enumsDeclarations).1 = none ∧
      (∃ key, (traverseEnum env d enumItem enclosing enumsDeclarations).2.m_rejectedEnums =
        rejectInsert d.m_rejectedEnums (key ++ rejectReason) .GenerationDisabled) ∧
      (traverseEnum env d enumItem enclosing enumsDeclarations).2.typeDatabaseWrites =
        d.typeDatabaseWrites ++
          (match enumItem.enumerators.findSome? (fun e =>
              env.types.findType (joinColonColon (enumItem.qualifiedName.dropLast ++ [e.name])))
            with
           | some te => [TypeDatabaseWrite.setCodeGeneration te GenerateNothing]
           | none => [])) := by
  have hentry := enumTypeEntry_anonymous env d enumItem hacc hkind
  have hfst := anonymousEnumLookup_fst env.types enumItem.qualifiedName.dropLast
    enumItem.enumerators enumItem.qualifiedName (joinColonColon enumItem.qualifiedName) rfl
  have hpriv : (enumItem.accessPolicy == AccessPolicy.Private) = false := by
    simpa using hacc
  have hsome : env.types.isEnumRejected (enumClassName d enclosing) enumItem.name = none →
      ∀ te, enumItem.enumerators.findSome? (fun e =>
        env.types.findType (joinColonColon (enumItem.qualifiedName.dropLast ++ [e.name])))
          = some te → te.isEnum = true →
      ∃ metaEnum, (traverseEnum env d enumItem enclosing enumsDeclarations).1 = some metaEnum ∧
        metaEnum.typeEntry = te := by
    intro hnotrej te hte henum
    rw [← hfst] at hte
    unfold traverseEnum
    rw [hentry]
    simp only [hnotrej, hte, henum, hpriv]
    exact ⟨_, rfl, rfl⟩
  refine ⟨?_, hsome, ?_, ?_, ?_⟩
  · rw [hentry]
    exact hfst
  · intro hnotrej e1 e2 rest te hes h1 h2 henum
    apply hsome hnotrej te _ henum
    rw [hes]
    simp [List.findSome?_cons, h1, h2]
  · intro hnotrej hnone
    rw [← hfst] at hnone
    unfold traverseEnum
    rw [hentry]
    simp only [hnotrej, hnone]
    exact ⟨trivial, _, rfl⟩
  · intro rejectReason hrej
    rw [← hfst]
    unfold traverseEnum
    rw [hentry]
    simp only [hrej]
    exact ⟨trivial, ⟨_, rfl⟩, trivial⟩

/-- Witness of C10: the anonymous enum `{ RED, GREEN }` of `NS` with only
`NS::GREEN` registered gives one meta enum with the entry of `GREEN`; with a
rejection rule of the registry that matches the enum it gives none. -/
theorem traverseEnum_anonymous_entry_witness :
    colorEnum.accessPolicy ≠ .Private ∧ colorEnum.enumKind = .AnonymousEnum ∧
    greenEnv.types.isEnumRejected (enumClassName {} none) colorEnum.name = none ∧
    (traverseEnum greenEnv {} colorEnum none []).1.map (fun e => e.typeEntry) = some greenEntry ∧
    (enumTypeEntry greenEnv {} colorEnum).1 =
      colorEnum.enumerators.findSome? (fun e =>
        greenEnv.types.findType (joinColonColon (colorEnum.qualifiedName.dropLast ++ [e.name]))) ∧
    (traverseEnum rejectingEnv {} colorEnum none []).1 = none :=
  ⟨by decide, rfl, rfl, by decide,
   (traverseEnum_anonymous_entry greenEnv {} colorEnum none [] (by decide) rfl).1,
   ((traverseEnum_anonymous_entry rejectingEnv {} colorEnum none [] (by decide) rfl).2.2.2.2
      " matches rule" (by decide)).1⟩

/-- Counterexample to C10 as stated: the first enumerator `NS::RED` is not
registered, the second one `NS::GREEN` is registered as an enum entry, and yet
no meta enum is produced, because a rejection rule of the registry matches the
enum; the enum is recorded as generation-disabled. -/
theorem traverseEnum_anonymous_rejected :
    colorEnum.accessPolicy ≠ .Private ∧ colorEnum.enumKind = .AnonymousEnum ∧
    rejectingEnv.types.findType "NS::RED" = none ∧
    rejectingEnv.types.findType "NS::GREEN" = some greenEntry ∧ greenEntry.isEnum = true ∧
    (traverseEnum rejectingEnv {} colorEnum none []).1 = none ∧
    (traverseEnum rejectingEnv {} colorEnum none []).2.m_rejectedEnums =
      [("NS::GREEN matches rule", RejectReason.GenerationDisabled)] := by
  refine ⟨by decide, rfl, rfl, rfl, rfl, by decide, by decide⟩

/-! ## Attribute sets -/

theorem Attributes.has_add (a : Attributes) (f g : Attribute) :
    (Attributes.add a f).has g = (a.has g || f == g) := by
  unfold Attributes.add Attributes.has
  by_cases hf : f ∈ a
  · rw [if_pos hf]
    by_cases hfg : f = g
    · subst hfg
      simp [hf]
    · simp [hfg]
  · rw [if_neg hf]
    by_cases hfg : f = g
    · subst hfg
      simp
    · have hgf : ¬ g = f := fun e => hfg e.symm
      simp [hfg, hgf]

theorem Attributes.has_add_self (a : Attributes) (f : Attribute) :
    (Attributes.add a f).has f = true := by
  simp [Attributes.has_add]

theorem Attributes.has_add_of_has (a : Attributes) (f g : Attribute) (h : a.has g = true) :
    (Attributes.add a f).has g = true := by
  simp [Attributes.has_add, h]

theorem Attributes.has_remove_of_ne (a : Attributes) (f g : Attribute) (hne : g ≠ f)
    (h : a.has g = true) : (Attributes.remove a f).has g = true := by
  unfold Attributes.remove Attributes.has at *
  simp only [List.contains_eq_any_beq, List.any_eq_true, beq_iff_eq] at h ⊢
  obtain ⟨x, hx, hxg⟩ := h
  refine ⟨x, ?_, hxg⟩
  rw [List.mem_filter]
  refine ⟨hx, ?_⟩
  simp only [bne_iff_ne, ne_eq]
  intro hxf
  exact hne (hxg ▸ hxf)

/-! ## Property roles in `traverseFunctions` -/

theorem roleFlag_ne {g : Attribute} (hg : IsRoleFlag g) :
    g ≠ .Public ∧ g ≠ .Protected ∧ g ≠ .Private ∧ g ≠ .Friendly ∧ g ≠ .FinalInTargetLang := by
  rcases hg with h | h | h <;> subst h <;> simp

theorem accessModifiedAttributes_keeps (a : Attributes) (mod : FunctionModification)
    (g : Attribute) (hg : IsRoleFlag g) (h : a.has g = true) :
    (accessModifiedAttributes a mod).has g = true := by
  obtain ⟨h1, h2, h3, h4, _⟩ := roleFlag_ne hg
  have hvis : Attributes.has
      ((((a.remove .Public).remove .Protected).remove .Private).remove .Friendly) g = true :=
    Attributes.has_remove_of_ne _ _ _ h4 (Attributes.has_remove_of_ne _ _ _ h3
      (Attributes.has_remove_of_ne _ _ _ h2 (Attributes.has_remove_of_ne _ _ _ h1 h)))
  unfold accessModifiedAttributes
  dsimp only
  split
  · exact Attributes.has_add_of_has _ _ _ hvis
  · split
    · exact Attributes.has_add_of_has _ _ _ hvis
    · split
      · exact Attributes.has_add_of_has _ _ _ hvis
      · split
        · exact Attributes.has_add_of_has _ _ _ hvis
        · exact hvis

theorem finalModifiedAttributes_keeps (a : Attributes) (mod : FunctionModification)
    (g : Attribute) (hg : IsRoleFlag g) (h : a.has g = true) :
    (finalModifiedAttributes a mod).has g = true := by
  unfold finalModifiedAttributes
  split
  · exact Attributes.has_add_of_has _ _ _ h
  · split
    · exact Attributes.has_remove_of_ne _ _ _ (roleFlag_ne hg).2.2.2.2 h
    · exact h

theorem applyRenameOrAccess_keeps (f : AbstractMetaFunction) (mod : FunctionModification) :
    (applyRenameOrAccess f mod).arguments = f.arguments ∧
    (applyRenameOrAccess f mod).propertySpec = f.propertySpec ∧
    ∀ g, IsRoleFlag g → f.attributes.has g = true →
      (applyRenameOrAccess f mod).attributes.has g = true := by
  unfold applyRenameOrAccess
  split
  · exact ⟨rfl, rfl, fun _ _ h => h⟩
  · split
    · exact ⟨rfl, rfl, fun g hg h => accessModifiedAttributes_keeps _ _ g hg h⟩
    · exact ⟨rfl, rfl, fun _ _ h => h⟩

theorem applyFunctionModification_keeps (f : AbstractMetaFunction) (mod : FunctionModification) :
    (applyFunctionModification f mod).arguments = f.arguments ∧
    (applyFunctionModification f mod).propertySpec = f.propertySpec ∧
    ∀ g, IsRoleFlag g → f.attributes.has g = true →
      (applyFunctionModification f mod).attributes.has g = true := by
  obtain ⟨h1, h2, h3⟩ := applyRenameOrAccess_keeps f mod
  unfold applyFunctionModification
  exact ⟨h1, h2, fun g hg h => finalModifiedAttributes_keeps _ _ g hg (h3 g hg h)⟩

theorem applyFunctionModifications_keeps (env : Env) (heap : ClassId → AbstractMetaClass)
    (f : AbstractMetaFunction) :
    (applyFunctionModifications env heap f).arguments = f.arguments ∧
    (applyFunctionModifications env heap f).propertySpec = f.propertySpec ∧
    ∀ g, IsRoleFlag g → f.attributes.has g = true →
      (applyFunctionModifications env heap f).attributes.has g = true := by
  unfold applyFunctionModifications
  generalize env.modifications f (f.implementingClass.map heap) = mods
  induction mods generalizing f with
  | nil => exact ⟨rfl, rfl, fun _ _ h => h⟩
  | cons m rest ih =>
    rw [List.foldl_cons]
    obtain ⟨h1, h2, h3⟩ := ih (applyFunctionModification f m)
    obtain ⟨k1, k2, k3⟩ := applyFunctionModification_keeps f m
    exact ⟨h1.trans k1, h2.trans k2, fun g hg h => h3 g hg (k3 g hg h)⟩

theorem fixReturnTypeOfConversionOperator_keeps (env : Env) (f : AbstractMetaFunction) :
    (fixReturnTypeOfConversionOperator env f).arguments = f.arguments ∧
    (fixReturnTypeOfConversionOperator env f).propertySpec = f.propertySpec ∧
    (fixReturnTypeOfConversionOperator env f).attributes = f.attributes := by
  unfold fixReturnTypeOfConversionOperator
  split
  · exact ⟨rfl, rfl, rfl⟩
  · dsimp only
    split <;> exact ⟨rfl, rfl, rfl⟩

theorem assignPropertyRole_kind (env : Env) (c : AbstractMetaClass) (f : AbstractMetaFunction) :
    (assignPropertyRole env c f).functionType = f.functionType ∧
    (assignPropertyRole env c f).arguments = f.arguments := by
  unfold assignPropertyRole
  repeat' split
  all_goals exact ⟨rfl, rfl⟩

theorem prepareFunction_kind (env : Env) (c : AbstractMetaClass) (f : AbstractMetaFunction) :
    (prepareFunction env c f).functionType = f.functionType ∧
    (prepareFunction env c f).arguments = f.arguments := by
  unfold prepareFunction
  dsimp only
  have h := assignPropertyRole_kind env c
  split
  · exact ⟨(h _).1, (h _).2⟩
  · exact ⟨(h _).1, (h _).2⟩

theorem classAfterFunctionChecks_keeps (c : AbstractMetaClass) (f : AbstractMetaFunction) :
    (classAfterFunctionChecks c f).functions = c.functions ∧
    (classAfterFunctionChecks c f).propertySpecs = c.propertySpecs := by
  unfold classAfterFunctionChecks
  dsimp only
  repeat' split
  all_goals exact ⟨rfl, rfl⟩

theorem setupFunctionDefaults_class_keeps (f : AbstractMetaFunction) (cls : ClassId)
    (c : AbstractMetaClass) :
    (setupFunctionDefaults f cls c).2.functions = c.functions ∧
    (setupFunctionDefaults f cls c).2.propertySpecs = c.propertySpecs := by
  unfold setupFunctionDefaults
  dsimp only
  split <;> exact ⟨rfl, rfl⟩

theorem memberFunction_keeps (env : Env) (d : AbstractMetaBuilderPrivate) (cls : ClassId)
    (c : AbstractMetaClass) (f : AbstractMetaFunction) :
    (memberFunction env d cls c f).arguments = f.arguments ∧
    (memberFunction env d cls c f).propertySpec = f.propertySpec ∧
    ∀ g, IsRoleFlag g → f.attributes.has g = true →
      (memberFunction env d cls c f).attributes.has g = true := by
  unfold memberFunction setupFunctionDefaults
  dsimp only
  obtain ⟨h1, h2, h3⟩ := applyFunctionModifications_keeps env
    (Function.update d.heap cls
      (addFunction (if f.name == "operator_equal" then { c with hasEqualsOperator := true } else c)
        cls (fixReturnTypeOfConversionOperator env
          { f with declaringClass := some cls, implementingClass := some cls })))
    { fixReturnTypeOfConversionOperator env
        { f with declaringClass := some cls, implementingClass := some cls } with
      ownerClass := some cls }
  obtain ⟨k1, k2, k3⟩ := fixReturnTypeOfConversionOperator_keeps env
    { f with declaringClass := some cls, implementingClass := some cls }
  refine ⟨h1.trans k1, h2.trans k2, ?_⟩
  intro g hg h
  apply h3 g hg
  show (fixReturnTypeOfConversionOperator env
    { f with declaringClass := some cls, implementingClass := some cls }).attributes.has g = true
  rw [k3]
  exact h

theorem traverseFunctionsStep_keeps (env : Env) (cls : ClassId) (d : AbstractMetaBuilderPrivate)
    (f : AbstractMetaFunction) :
    (d.heap cls).functions <+: ((traverseFunctionsStep env cls d f).heap cls).functions ∧
    ((traverseFunctionsStep env cls d f).heap cls).propertySpecs = (d.heap cls).propertySpecs := by
  have hc := classAfterFunctionChecks_keeps (d.heap cls) (prepareFunction env (d.heap cls) f)
  have hs := setupFunctionDefaults_class_keeps (prepareFunction env (d.heap cls) f) cls
    (classAfterFunctionChecks (d.heap cls) (prepareFunction env (d.heap cls) f))
  unfold traverseFunctionsStep
  dsimp only
  split
  · simp only [setClass, Function.update_same]
    rw [hs.1, hs.2, hc.1, hc.2]
    exact ⟨List.prefix_append _ _, rfl⟩
  · split
    · simp only [setClass, Function.update_same]
      rw [hc.1, hc.2]
      exact ⟨List.prefix_refl _, rfl⟩
    · simp only [setClass, Function.update_same]
      rw [hc.1, hc.2]
      exact ⟨List.prefix_refl _, rfl⟩

theorem traverseFunctionsStep_adds (env : Env) (cls : ClassId) (d : AbstractMetaBuilderPrivate)
    (f : AbstractMetaFunction) (hd : f.isDestructor = false)
    (hc : f.functionType ≠ .ConstructorFunction) :
    ((traverseFunctionsStep env cls d f).heap cls).functions =
      (d.heap cls).functions ++
        [memberFunction env d cls
          (classAfterFunctionChecks (d.heap cls) (prepareFunction env (d.heap cls) f))
          (prepareFunction env (d.heap cls) f)] := by
  have hk := prepareFunction_kind env (d.heap cls) f
  have hd' : (prepareFunction env (d.heap cls) f).isDestructor = false := by
    unfold AbstractMetaFunction.isDestructor at *
    rw [hk.1]
    exact hd
  have hc' : ((prepareFunction env (d.heap cls) f).functionType == .ConstructorFunction)
      = false := by
    rw [hk.1]
    simpa using hc
  have hcl := classAfterFunctionChecks_keeps (d.heap cls) (prepareFunction env (d.heap cls) f)
  have hs := setupFunctionDefaults_class_keeps (prepareFunction env (d.heap cls) f) cls
    (classAfterFunctionChecks (d.heap cls) (prepareFunction env (d.heap cls) f))
  unfold traverseFunctionsStep
  dsimp only
  simp only [hd', hc', Bool.and_false, Bool.not_false, Bool.and_self, if_true, setClass,
    Function.update_same]
  rw [hs.1, hcl.1]

theorem foldl_traverseFunctionsStep_keeps (env : Env) (cls : ClassId) :
    ∀ (fs : List AbstractMetaFunction) (d : AbstractMetaBuilderPrivate),
      (d.heap cls).functions <+: ((fs.foldl (traverseFunctionsStep env cls) d).heap cls).functions ∧
      ((fs.foldl (traverseFunctionsStep env cls) d).heap cls).propertySpecs =
        (d.heap cls).propertySpecs := by
  intro fs
  induction fs with
  | nil => intro d; exact ⟨List.prefix_refl _, rfl⟩
  | cons f rest ih =>
    intro d
    rw [List.foldl_cons]
    obtain ⟨h1, h2⟩ := ih (traverseFunctionsStep env cls d f)
    obtain ⟨k1, k2⟩ := traverseFunctionsStep_keeps env cls d f
    exact ⟨k1.trans h1, h2.trans k2⟩

theorem foldl_traverseFunctionsStep_member (env : Env) (cls : ClassId) :
    ∀ (fs : List AbstractMetaFunction) (d : AbstractMetaBuilderPrivate) (f : AbstractMetaFunction),
      f ∈ fs → f.isDestructor = false → f.functionType ≠ .ConstructorFunction →
      ∃ (c0 c : AbstractMetaClass) (d0 : AbstractMetaBuilderPrivate),
        c0.propertySpecs = (d.heap cls).propertySpecs ∧
        memberFunction env d0 cls c (prepareFunction env c0 f) ∈
          ((fs.foldl (traverseFunctionsStep env cls) d).heap cls).functions := by
  intro fs
  induction fs with
  | nil => intro d f hf; cases hf
  | cons x rest ih =>
    intro d f hf hd hc
    rw [List.foldl_cons]
    rcases List.mem_cons.1 hf with hfx | hfr
    · subst hfx
      refine ⟨d.heap cls,
        classAfterFunctionChecks (d.heap cls) (prepareFunction env (d.heap cls) f), d, rfl, ?_⟩
      have hadd := traverseFunctionsStep_adds env cls d f hd hc
      have hpre := (foldl_traverseFunctionsStep_keeps env cls rest
        (traverseFunctionsStep env cls d f)).1
      apply hpre.subset
      rw [hadd]
      simp
    · obtain ⟨c0, c, d0, h0, hmem⟩ := ih (traverseFunctionsStep env cls d x) f hfr hd hc
      exact ⟨c0, c, d0, h0.trans (traverseFunctionsStep_keeps env cls d x).2, hmem⟩

theorem prepareFunction_reader (env : Env) (c : AbstractMetaClass) (f : AbstractMetaFunction)
    (P : QPropertySpec) (tg : AbstractMetaType)
    (hsig : f.isSignal = false) (hread : env.propertySpecForRead c f.name = some P)
    (htype : f.type = some tg) (hT : tg.typeEntry = P.type) (hargs : f.arguments = []) :
    (prepareFunction env c f).attributes.has .PropertyReader = true ∧
    (prepareFunction env c f).propertySpec = some P := by
  have key : ∀ f : AbstractMetaFunction, f.isSignal = false →
      env.propertySpecForRead c f.name = some P → f.type = some tg → f.arguments = [] →
      (assignPropertyRole env c f).attributes.has .PropertyReader = true ∧
      (assignPropertyRole env c f).propertySpec = some P := by
    intro f hsig hread htype hargs
    unfold assignPropertyRole
    simp only [hsig, Bool.not_false, if_true, hread, htype, hargs, hT, beq_self_eq_true,
      List.length_nil, Bool.and_self]
    exact ⟨Attributes.has_add_self _ _, trivial⟩
  unfold prepareFunction
  dsimp only
  split
  · exact key _ hsig hread htype hargs
  · exact key _ hsig hread htype hargs

theorem prepareFunction_writer (env : Env) (c : AbstractMetaClass) (f : AbstractMetaFunction)
    (P : QPropertySpec) (arg : AbstractMetaArgument)
    (hread : env.propertySpecForRead c f.name = none)
    (hwrite : env.propertySpecForWrite c f.name = some P)
    (htype : f.type = none) (hargs : f.arguments = [arg]) (hT : arg.type.typeEntry = P.type) :
    (prepareFunction env c f).attributes.has .PropertyWriter = true ∧
    (prepareFunction env c f).propertySpec = some P := by
  have key : ∀ f : AbstractMetaFunction,
      env.propertySpecForRead c f.name = none → env.propertySpecForWrite c f.name = some P →
      f.type = none → f.arguments = [arg] →
      (assignPropertyRole env c f).attributes.has .PropertyWriter = true ∧
      (assignPropertyRole env c f).propertySpec = some P := by
    intro f hread hwrite htype hargs
    unfold assignPropertyRole
    simp only [hread, ite_self, hwrite, htype, hargs, hT, beq_self_eq_true, if_true]
    exact ⟨Attributes.has_add_self _ _, trivial⟩
  unfold prepareFunction
  dsimp only
  split
  · exact key _ hread hwrite htype hargs
  · exact key _ hread hwrite htype hargs

theorem classFunctionList_sameModel (env : Env) (currentClass : Option ClassId) :
    ∀ (fs : List FunctionModelItem) (d : AbstractMetaBuilderPrivate),
      SameModel d (classFunctionList env d fs currentClass).2.2 := by
  intro fs
  induction fs with
  | nil => intro d; exact sameModel_refl d
  | cons f rest ih =>
    intro d
    have hsame := traverseFunction_sameModel env d f currentClass
    simp only [classFunctionList]
    cases hres : traverseFunction env d f currentClass with
    | mk r d1 =>
      rw [hres] at hsame
      cases r with
      | none => exact sameModel_trans hsame (ih d1)
      | some mf => exact sameModel_trans hsame (ih d1)

theorem traverseAddedFunction_keeps (env : Env) (d d1 : AbstractMetaBuilderPrivate)
    (addedFunc : AddedFunction) (cls : ClassId) (r : Option AbstractMetaFunction)
    (h : traverseAddedFunction env d addedFunc (some cls) = some (r, d1)) :
    (d.heap cls).functions <+: (d1.heap cls).functions := by
  unfold traverseAddedFunction at h
  dsimp only at h
  split at h
  · cases h
  · split at h
    · cases h
    · cases h
      exact List.prefix_refl _
    · simp only [addAddedFunctionToClass, Option.some.injEq, Prod.mk.injEq] at h
      rw [← h.2]
      simp only [setClass, Function.update_same]
      exact List.prefix_append _ _

theorem fillAddedFunctionsAux_keeps (env : Env) (cls : ClassId) :
    ∀ (l : List AddedFunction) (d d1 : AbstractMetaBuilderPrivate),
      fillAddedFunctionsAux env cls l d = some d1 →
      (d.heap cls).functions <+: (d1.heap cls).functions := by
  intro l
  induction l with
  | nil =>
    intro d d1 h
    simp only [fillAddedFunctionsAux, Option.some.injEq] at h
    rw [h]
  | cons a rest ih =>
    intro d d1 h
    simp only [fillAddedFunctionsAux] at h
    cases hres : traverseAddedFunction env d a (some cls) with
    | none => rw [hres] at h; cases h
    | some p =>
      obtain ⟨r, d2⟩ := p
      rw [hres] at h
      cases r with
      | none => cases h
      | some mf =>
        dsimp only at h
        exact (traverseAddedFunction_keeps env d d2 a cls _ hres).trans (ih d2 d1 h)

/-- C9, as amended: let the class have a property spec `P` that its getter name
`g` leads to (`propertySpecForRead`) and its setter name `s` leads to
(`propertySpecForWrite`), `s` not being the getter name of any property.  If
`traverseFunction` accepts a function named `g` that is no signal, constructor
or destructor, has no arguments and returns the type of `P`, and a function
named `s` that is no constructor or destructor, returns nothing and has exactly
one argument of the type of `P`, then after `traverseFunctions` the class holds
the first function with the property-reader role and the second with the
property-writer role, both referring to `P`. -/
theorem traverseFunctions_property_accessors (env : Env) (d d1 : AbstractMetaBuilderPrivate)
    (scopeFunctionList : List FunctionModelItem) (cls : ClassId) (P : QPropertySpec)
    (g s : AbstractMetaFunction) (tg : AbstractMetaType) (arg : AbstractMetaArgument)
    (hg : g ∈ (classFunctionList env d scopeFunctionList (some cls)).1)
    (hs : s ∈ (classFunctionList env d scopeFunctionList (some cls)).1)
    (hgread : ∀ c : AbstractMetaClass, c.propertySpecs = (d.heap cls).propertySpecs →
      env.propertySpecForRead c g.name = some P)
    (hsread : ∀ c : AbstractMetaClass, c.propertySpecs = (d.heap cls).propertySpecs →
      env.propertySpecForRead c s.name = none)
    (hswrite : ∀ c : AbstractMetaClass, c.propertySpecs = (d.heap cls).propertySpecs →
      env.propertySpecForWrite c s.name = some P)
    (hgsig : g.isSignal = false)
    (hgdtor : g.isDestructor = false) (hgctor : g.functionType ≠ .ConstructorFunction)
    (hsdtor : s.isDestructor = false) (hsctor : s.functionType ≠ .ConstructorFunction)
    (hgtype : g.type = some tg) (hgT : tg.typeEntry = P.type) (hgargs : g.arguments = [])
    (hstype : s.type = none) (hsargs : s.arguments = [arg]) (hsT : arg.type.typeEntry = P.type)
    (hd1 : traverseFunctions env d scopeFunctionList cls = some d1) :
    ∃ g1 s1, g1 ∈ (d1.heap cls).functions ∧ s1 ∈ (d1.heap cls).functions ∧
      g1.arguments = [] ∧ s1.arguments = [arg] ∧
      g1.attributes.has .PropertyReader = true ∧ g1.propertySpec = some P ∧
      s1.attributes.has .PropertyWriter = true ∧ s1.propertySpec = some P := by
  unfold traverseFunctions fillAddedFunctions at hd1
  have hfill := fillAddedFunctionsAux_keeps env cls _ _ _ hd1
  have hsame := classFunctionList_sameModel env (some cls) scopeFunctionList d
  unfold traverseFunctionsLoop at hfill
  cases hres : classFunctionList env d scopeFunctionList (some cls) with
  | mk functions rest =>
    obtain ⟨constructorAttributes, d2⟩ := rest
    rw [hres] at hfill hsame hg hs
    dsimp only at hfill hsame hg hs
    have hspecs : ((setClass d2 cls
        { d2.heap cls with
          attributes := Attributes.union (d2.heap cls).attributes constructorAttributes }).heap
            cls).propertySpecs = (d.heap cls).propertySpecs := by
      simp only [setClass, Function.update_same]
      rw [hsame.1]
    obtain ⟨cg, cg1, dg, hcg, hgmem⟩ := foldl_traverseFunctionsStep_member env cls functions
      _ g hg hgdtor hgctor
    obtain ⟨cs, cs1, ds, hcs, hsmem⟩ := foldl_traverseFunctionsStep_member env cls functions
      _ s hs hsdtor hsctor
    have hgrole := prepareFunction_reader env cg g P tg hgsig (hgread cg (hcg.trans hspecs))
      hgtype hgT hgargs
    have hsrole := prepareFunction_writer env cs s P arg (hsread cs (hcs.trans hspecs))
      (hswrite cs (hcs.trans hspecs)) hstype hsargs hsT
    obtain ⟨ga, gp, gr⟩ := memberFunction_keeps env dg cls cg1 (prepareFunction env cg g)
    obtain ⟨sa, sp, sr⟩ := memberFunction_keeps env ds cls cs1 (prepareFunction env cs s)
    refine ⟨_, _, hfill.subset hgmem, hfill.subset hsmem, ?_, ?_, ?_, ?_, ?_, ?_⟩
    · rw [ga, (prepareFunction_kind env cg g).2, hgargs]
    · rw [sa, (prepareFunction_kind env cs s).2, hsargs]
    · exact gr _ (Or.inl rfl) hgrole.1
    · rw [gp, hgrole.2]
    · exact sr _ (Or.inr (Or.inl rfl)) hsrole.1
    · rw [sp, hsrole.2]

theorem eq_some_getD {α : Type} (o : Option α) (x : α) (h : o.isSome = true) :
    o = some (o.getD x) := by
  cases o with
  | none => cases h
  | some v => rfl

/-- Witness of C9: the class `C` with `int value()`, `void setValue(int)` and the
property `int value READ value WRITE setValue`. -/
theorem traverseFunctions_property_accessors_witness :
    (traverseFunctions typedEnv (classWithProperties [valueProperty])
        [intGetter "value", intSetter "setValue"] 0).isSome = true ∧
    (((traverseFunctions typedEnv (classWithProperties [valueProperty])
        [intGetter "value", intSetter "setValue"] 0).getD {}).heap 0).functions.map
      (fun f => (f.name, f.attributes.has .PropertyReader, f.attributes.has .PropertyWriter,
        f.propertySpec.map (fun spec => spec.name))) =
      [("value", true, false, some "value"), ("setValue", false, true, some "value")] ∧
    ∃ g1 s1,
      g1 ∈ (((traverseFunctions typedEnv (classWithProperties [valueProperty])
        [intGetter "value", intSetter "setValue"] 0).getD {}).heap 0).functions ∧
      s1 ∈ (((traverseFunctions typedEnv (classWithProperties [valueProperty])
        [intGetter "value", intSetter "setValue"] 0).getD {}).heap 0).functions ∧
      g1.arguments = [] ∧
      s1.arguments = [{ name := "v", type := { typeEntry := intEntry, instantiations := [], arrayElementType := none } }] ∧
      g1.attributes.has .PropertyReader = true ∧ g1.propertySpec = some valueProperty ∧
      s1.attributes.has .PropertyWriter = true ∧ s1.propertySpec = some valueProperty := by
  have hlist : (classFunctionList typedEnv (classWithProperties [valueProperty])
      [intGetter "value", intSetter "setValue"] (some 0)).1 =
      [(traverseFunction typedEnv (classWithProperties [valueProperty]) (intGetter "value")
          (some 0)).1.getD {},
       (traverseFunction typedEnv (classWithProperties [valueProperty]) (intSetter "setValue")
          (some 0)).1.getD {}] := rfl
  refine ⟨rfl, by decide, ?_⟩
  exact traverseFunctions_property_accessors typedEnv (classWithProperties [valueProperty])
    ((traverseFunctions typedEnv (classWithProperties [valueProperty])
        [intGetter "value", intSetter "setValue"] 0).getD {})
    [intGetter "value", intSetter "setValue"] 0 valueProperty
    ((traverseFunction typedEnv (classWithProperties [valueProperty]) (intGetter "value")
      (some 0)).1.getD {})
    ((traverseFunction typedEnv (classWithProperties [valueProperty]) (intSetter "setValue")
      (some 0)).1.getD {})
    { typeEntry := intEntry, instantiations := [], arrayElementType := none }
    { name := "v", type := { typeEntry := intEntry, instantiations := [], arrayElementType := none } }
    (by rw [hlist]; exact List.mem_cons_self _ _)
    (by rw [hlist]; exact List.mem_cons_of_mem _ (List.mem_cons_self _ _))
    (fun c hc => by
      show c.propertySpecs.find? _ = _
      rw [hc]
      rfl)
    (fun c hc => by
      show c.propertySpecs.find? _ = _
      rw [hc]
      rfl)
    (fun c hc => by
      show c.propertySpecs.find? _ = _
      rw [hc]
      rfl)
    rfl rfl (by decide) rfl (by decide) rfl rfl rfl rfl rfl rfl
    (eq_some_getD _ _ (by decide))

/-- Counterexample to C9 as stated: the class `C` has the property
`int x READ x WRITE x`, the getter `int x()` and the setter `void x(int)`.  After
`traverseFunctions` the getter carries the reader role, but the setter carries
no writer role and refers to no property spec: its name is found as a getter
name first, and the writer test is not reached. -/
theorem traverseFunctions_setter_named_like_getter :
    xProperty.read = "x" ∧ xProperty.write = "x" ∧ xProperty.type = intEntry ∧
    (traverseFunctions typedEnv (classWithProperties [xProperty])
        [intGetter "x", intSetter "x"] 0).isSome = true ∧
    (((traverseFunctions typedEnv (classWithProperties [xProperty])
        [intGetter "x", intSetter "x"] 0).getD {}).heap 0).functions.map
      (fun f => (f.name, f.arguments.map (fun a => a.type.typeEntry.name), f.type.isSome)) =
      [("x", [], true), ("x", ["int"], false)] ∧
    (((traverseFunctions typedEnv (classWithProperties [xProperty])
        [intGetter "x", intSetter "x"] 0).getD {}).heap 0).functions.map
      (fun f => (f.attributes.has .PropertyReader, f.attributes.has .PropertyWriter,
        f.propertySpec.map (fun spec => spec.name))) =
      [(true, false, some "x"), (false, false, none)] := by
  refine ⟨rfl, rfl, rfl, by decide, by decide, by decide⟩

/-! ## Template inheritance -/

theorem inheritTemplateType_boundToVoid (env : Env) (templateTypes : List AbstractMetaType)
    (fuel : Nat) (type : AbstractMetaType) (h : boundToVoid templateTypes type = true) :
    inheritTemplateType env templateTypes (fuel + 1) type = some none := by
  unfold boundToVoid at h
  rw [Bool.and_eq_true] at h
  obtain ⟨h1, h2⟩ := h
  unfold inheritTemplateType
  rw [if_neg (by simp [h1])]
  dsimp only
  rw [if_pos h1]
  cases hx : templateTypes[type.typeEntry.ordinal]? with
  | none => rfl
  | some t =>
    rw [hx] at h2
    dsimp only at h2 ⊢
    rw [if_pos h2]

theorem inheritTemplateType_boundToVoid_ne (env : Env) (templateTypes : List AbstractMetaType)
    (fuel : Nat) (type r : AbstractMetaType) (h : boundToVoid templateTypes type = true) :
    inheritTemplateType env templateTypes fuel type ≠ some (some r) := by
  cases fuel with
  | zero =>
    unfold inheritTemplateType
    intro hc
    cases hc
  | succ k =>
    rw [inheritTemplateType_boundToVoid env templateTypes k type h]
    intro hc
    cases hc

theorem inheritTemplateArguments_length_lt (env : Env) (templateTypes : List AbstractMetaType)
    (fuel : Nat) :
    ∀ (arguments acc res : List AbstractMetaArgument),
      inheritTemplateArguments env templateTypes fuel arguments acc = some res →
      arguments.any (fun a => boundToVoid templateTypes a.type) = true →
      res.length < acc.length + arguments.length := by
  intro arguments
  induction arguments with
  | nil =>
    intro acc res _ hany
    cases hany
  | cons a rest ih =>
    intro acc res h hany
    unfold inheritTemplateArguments at h
    cases hx : inheritTemplateType env templateTypes fuel a.type with
    | none =>
      rw [hx] at h
      cases h
    | some o =>
      cases o with
      | none =>
        rw [hx] at h
        dsimp only at h
        cases h
        simp
      | some argType =>
        rw [hx] at h
        dsimp only at h
        rw [List.any_cons, Bool.or_eq_true] at hany
        rcases hany with ha | hrest
        · exact absurd hx (inheritTemplateType_boundToVoid_ne env templateTypes fuel a.type argType ha)
        · have := ih _ res h hrest
          simp only [List.length_append, List.length_singleton, List.length_cons,
            List.length_nil] at this ⊢
          omega

theorem inheritTemplateFunction_usesVoidParameter (env : Env)
    (templateTypes : List AbstractMetaType) (fuel : Nat) (subclassFuncs : List AbstractMetaFunction)
    (cls : ClassId) (subclass : AbstractMetaClass) (function f : AbstractMetaFunction)
    (h : usesVoidParameter templateTypes function = true) :
    inheritTemplateFunction env templateTypes fuel subclassFuncs cls subclass function
      ≠ .inherited f := by
  intro hc
  unfold inheritTemplateFunction at hc
  split at hc
  · cases hc
  · dsimp only at hc
    unfold usesVoidParameter at h
    rw [Bool.or_eq_true] at h
    cases ht : function.type with
    | some type =>
      rw [ht] at hc h
      dsimp only at hc h
      cases hx : inheritTemplateType env templateTypes fuel type with
      | none =>
        rw [hx] at hc
        cases hc
      | some o =>
        cases o with
        | none =>
          rw [hx] at hc
          cases hc
        | some returnType =>
          rw [hx] at hc
          dsimp only at hc
          rcases h with h | h
          · exact inheritTemplateType_boundToVoid_ne env templateTypes fuel type returnType h hx
          · cases ha : inheritTemplateArguments env templateTypes fuel function.arguments [] with
            | none =>
              rw [ha] at hc
              cases hc
            | some arguments =>
              rw [ha] at hc
              dsimp only at hc
              have hlt := inheritTemplateArguments_length_lt env templateTypes fuel _ _ _ ha h
              rw [if_pos (by simpa using hlt)] at hc
              cases hc
    | none =>
      rw [ht] at hc h
      dsimp only at hc h
      rcases h with h | h
      · cases h
      · cases ha : inheritTemplateArguments env templateTypes fuel function.arguments [] with
        | none =>
          rw [ha] at hc
          cases hc
        | some arguments =>
          rw [ha] at hc
          dsimp only at hc
          have hlt := inheritTemplateArguments_length_lt env templateTypes fuel _ _ _ ha h
          rw [if_pos (by simpa using hlt)] at hc
          cases hc

theorem applyArrayArgumentModification_name (env : Env) (f f1 : AbstractMetaFunction)
    (argMod : ArgumentModification)
    (h : applyArrayArgumentModification env f argMod = some f1) :
    f1.name = f.name ∧ f1.functionType = f.functionType := by
  unfold applyArrayArgumentModification at h
  split at h
  · dsimp only at h
    split at h
    · cases h
    · split at h
      · cases h
      · split at h
        · cases h
        · cases h
          exact ⟨rfl, rfl⟩
  · cases h
    exact ⟨rfl, rfl⟩

theorem applyArrayArgumentModificationsAux_name (env : Env) :
    ∀ (mods : List ArgumentModification) (f : AbstractMetaFunction),
      (applyArrayArgumentModificationsAux env mods f).1.name = f.name ∧
      (applyArrayArgumentModificationsAux env mods f).1.functionType = f.functionType := by
  intro mods
  induction mods with
  | nil => intro f; exact ⟨rfl, rfl⟩
  | cons m rest ih =>
    intro f
    simp only [applyArrayArgumentModificationsAux]
    cases h : applyArrayArgumentModification env f m with
    | none => exact ⟨rfl, rfl⟩
    | some f1 =>
      dsimp only
      have h1 := applyArrayArgumentModification_name env f f1 m h
      have h2 := ih f1
      exact ⟨h2.1.trans h1.1, h2.2.trans h1.2⟩

theorem inheritTemplateFunction_name (env : Env) (templateTypes : List AbstractMetaType)
    (fuel : Nat) (subclassFuncs : List AbstractMetaFunction) (cls : ClassId)
    (subclass : AbstractMetaClass) (function f : AbstractMetaFunction)
    (h : inheritTemplateFunction env templateTypes fuel subclassFuncs cls subclass function
      = .inherited f) :
    f.functionType = function.functionType ∧
    f.name = (if function.isConstructor then subclass.name else function.name) ∧
    (function.isConstructor = true → subclass.isTypeDef = true) := by
  unfold inheritTemplateFunction at h
  split at h
  · cases h
  · dsimp only at h
    split at h
    · cases h
    · cases h
    · rename_i f1 hret
      have hf1 : f1.functionType = function.functionType ∧ f1.name = function.name := by
        split at hret
        · split at hret
          · cases hret
          · cases hret
          · cases hret
            exact ⟨rfl, rfl⟩
        · cases hret
          exact ⟨rfl, rfl⟩
      split at h
      · cases h
      · split at h
        · cases h
        · have hc : function.isConstructor
              = AbstractMetaFunction.isConstructor
                  { f1 with arguments := ‹List AbstractMetaArgument›, implementingClass := some cls,
                            declaringClass := some cls } := by
            unfold AbstractMetaFunction.isConstructor
            rw [hf1.1]
          split at h
          · rename_i hcons
            split at h
            · cases h
            · rename_i htd
              cases h
              rw [hc, hcons]
              refine ⟨hf1.1, rfl, fun _ => ?_⟩
              simpa using htd
          · rename_i hcons
            cases h
            rw [hc]
            refine ⟨hf1.1, ?_, ?_⟩
            · rw [if_neg hcons]
              exact hf1.2
            · intro h1
              exact absurd h1 hcons

theorem addInheritedFunction_spec (env : Env) (templateClass : AbstractMetaClass) (cls : ClassId)
    (subclass : AbstractMetaClass) (function f : AbstractMetaFunction) :
    ∃ f1 : AbstractMetaFunction,
      (addInheritedFunction env templateClass cls subclass function f).functions
        = subclass.functions ++ [f1] ∧
      f1.name = f.name ∧ f1.functionType = f.functionType ∧
      (addInheritedFunction env templateClass cls subclass function f).name = subclass.name ∧
      (addInheritedFunction env templateClass cls subclass function f).isTypeDef
        = subclass.isTypeDef ∧
      (addInheritedFunction env templateClass cls subclass function f).fields = subclass.fields := by
  unfold addInheritedFunction addFunction applyArrayArgumentModifications
  dsimp only
  refine ⟨_, rfl, ?_, ?_, rfl, rfl, rfl⟩
  · exact (applyArrayArgumentModificationsAux_name env _ f).1
  · exact (applyArrayArgumentModificationsAux_name env _ f).2

theorem inheritTemplateFunctions_named (env : Env) (templateTypes : List AbstractMetaType)
    (fuel : Nat) (templateClass : AbstractMetaClass)
    (cls : ClassId) (n : String) :
    ∀ (functions : List AbstractMetaFunction) (subclassFuncs : List AbstractMetaFunction)
      (subclass r : AbstractMetaClass),
      inheritTemplateFunctions env templateTypes fuel subclassFuncs templateClass cls functions
        subclass = some r →
      (∀ g ∈ functions, (g.name = n ∨ (g.isConstructor = true ∧ subclass.name = n)) →
        usesVoidParameter templateTypes g = true) →
      r.functions.filter (fun f => f.name == n) = subclass.functions.filter (fun f => f.name == n)
        ∧ r.name = subclass.name ∧ r.isTypeDef = subclass.isTypeDef
        ∧ r.fields = subclass.fields := by
  intro functions
  induction functions with
  | nil =>
    intro subclassFuncs subclass r h _
    unfold inheritTemplateFunctions at h
    cases h
    exact ⟨rfl, rfl, rfl, rfl⟩
  | cons g rest ih =>
    intro subclassFuncs subclass r h hall
    unfold inheritTemplateFunctions at h
    cases hstep : inheritTemplateFunction env templateTypes fuel subclassFuncs cls subclass g with
    | outOfFuel =>
      rw [hstep] at h
      cases h
    | skipped =>
      rw [hstep] at h
      dsimp only at h
      exact ih _ subclass r h (fun g1 hg1 => hall g1 (List.mem_cons_of_mem _ hg1))
    | inherited f =>
      rw [hstep] at h
      dsimp only at h
      obtain ⟨f1, hfun, hname, _, hcn, htd, hfld⟩ :=
        addInheritedFunction_spec env templateClass cls subclass g f
      have hrec := ih _ _ r h (fun g1 hg1 hor => hall g1 (List.mem_cons_of_mem _ hg1)
        (by rw [hcn] at hor; exact hor))
      obtain ⟨hfname, hfcons⟩ :=
        (inheritTemplateFunction_name env templateTypes fuel subclassFuncs cls subclass g f hstep).2
      have hnot : ¬ (g.name = n ∨ (g.isConstructor = true ∧ subclass.name = n)) := by
        intro hor
        exact inheritTemplateFunction_usesVoidParameter env templateTypes fuel subclassFuncs cls
          subclass g f (hall g (List.mem_cons_self _ _) hor) hstep
      have hne : f1.name ≠ n := by
        rw [hname, hfname]
        intro heq
        by_cases hc : g.isConstructor = true
        · rw [if_pos hc] at heq
          exact hnot (Or.inr ⟨hc, heq⟩)
        · rw [if_neg hc] at heq
          exact hnot (Or.inl heq)
      refine ⟨?_, hrec.2.1.trans hcn, hrec.2.2.1.trans htd, hrec.2.2.2.trans hfld⟩
      rw [hrec.1, hfun, List.filter_append]
      have hb : (f1.name == n) = false := by simpa using hne
      have : List.filter (fun f => f.name == n) [f1] = [] := by
        simp [List.filter, hb]
      rw [this, List.append_nil]

theorem inheritTemplateField_boundToVoid (env : Env) (templateTypes : List AbstractMetaType)
    (fuel : Nat) (subClassFields : List AbstractMetaField) (cls : ClassId)
    (field f : AbstractMetaField) (h : boundToVoid templateTypes field.type = true) :
    inheritTemplateField env templateTypes fuel subClassFields cls field ≠ .inherited f := by
  intro hc
  unfold inheritTemplateField at hc
  split at hc
  · cases hc
  · split at hc
    · cases hc
    · cases hc
    · rename_i fieldType hx
      exact inheritTemplateType_boundToVoid_ne env templateTypes fuel field.type fieldType h hx

theorem inheritTemplateField_name (env : Env) (templateTypes : List AbstractMetaType)
    (fuel : Nat) (subClassFields : List AbstractMetaField) (cls : ClassId)
    (field f : AbstractMetaField)
    (h : inheritTemplateField env templateTypes fuel subClassFields cls field = .inherited f) :
    f.name = field.name := by
  unfold inheritTemplateField at h
  split at h
  · cases h
  · split at h
    · cases h
    · cases h
    · cases h
      rfl

theorem inheritTemplateFields_named (env : Env) (templateTypes : List AbstractMetaType)
    (fuel : Nat) (cls : ClassId) (n : String) :
    ∀ (fields : List AbstractMetaField) (subClassFields : List AbstractMetaField)
      (subclass r : AbstractMetaClass),
      inheritTemplateFields env templateTypes fuel subClassFields cls fields subclass = some r →
      (∀ g ∈ fields, g.name = n → boundToVoid templateTypes g.type = true) →
      r.fields.filter (fun f => f.name == n) = subclass.fields.filter (fun f => f.name == n)
        ∧ r.functions = subclass.functions ∧ r.name = subclass.name
        ∧ r.isTypeDef = subclass.isTypeDef := by
  intro fields
  induction fields with
  | nil =>
    intro subClassFields subclass r h _
    unfold inheritTemplateFields at h
    cases h
    exact ⟨rfl, rfl, rfl, rfl⟩
  | cons g rest ih =>
    intro subClassFields subclass r h hall
    unfold inheritTemplateFields at h
    cases hstep : inheritTemplateField env templateTypes fuel subClassFields cls g with
    | outOfFuel =>
      rw [hstep] at h
      cases h
    | skipped =>
      rw [hstep] at h
      dsimp only at h
      exact ih _ subclass r h (fun g1 hg1 => hall g1 (List.mem_cons_of_mem _ hg1))
    | inherited f =>
      rw [hstep] at h
      dsimp only at h
      have hrec := ih _ _ r h (fun g1 hg1 => hall g1 (List.mem_cons_of_mem _ hg1))
      have hne : f.name ≠ n := by
        rw [inheritTemplateField_name env templateTypes fuel subClassFields cls g f hstep]
        intro heq
        exact inheritTemplateField_boundToVoid env templateTypes fuel subClassFields cls g f
          (hall g (List.mem_cons_self _ _) heq) hstep
      refine ⟨?_, hrec.2.1, hrec.2.2.1, hrec.2.2.2⟩
      rw [hrec.1]
      dsimp only
      rw [List.filter_append]
      have hb : (f.name == n) = false := by simpa using hne
      have : List.filter (fun f => f.name == n) [f] = [] := by
        simp [List.filter, hb]
      rw [this, List.append_nil]

theorem inheritTypedefFlags_keeps (subclass templateClass : AbstractMetaClass) :
    (inheritTypedefFlags subclass templateClass).functions = subclass.functions ∧
    (inheritTypedefFlags subclass templateClass).fields = subclass.fields ∧
    (inheritTypedefFlags subclass templateClass).name = subclass.name ∧
    (inheritTypedefFlags subclass templateClass).isTypeDef = subclass.isTypeDef := by
  unfold inheritTypedefFlags
  split <;> exact ⟨rfl, rfl, rfl, rfl⟩

theorem setClass_heap_self (d : AbstractMetaBuilderPrivate) (cls : ClassId)
    (c : AbstractMetaClass) : (setClass d cls c).heap cls = c := by
  unfold setClass
  simp

/-- What `inheritTemplate` returns, in terms of its two loops. -/
theorem inheritTemplate_some (env : Env) (fuel : Nat) (d r : AbstractMetaBuilderPrivate)
    (cls templ : ClassId) (info : TypeInfo)
    (h : inheritTemplate env fuel d cls templ info = some r) :
    ∃ subclass2 subclass3 : AbstractMetaClass,
      inheritTemplateFunctions env (inheritedTemplateTypes env d cls templ info) fuel
        (inheritTypedefFlags (d.heap cls) (d.heap templ)).functions (d.heap templ) cls
        (d.heap templ).functions (inheritTypedefFlags (d.heap cls) (d.heap templ))
        = some subclass2 ∧
      inheritTemplateFields env (inheritedTemplateTypes env d cls templ info) fuel
        subclass2.fields cls (d.heap templ).fields subclass2 = some subclass3 ∧
      (r.heap cls).functions = subclass3.functions ∧
      (r.heap cls).fields = subclass3.fields ∧
      (r.heap cls).name = subclass3.name ∧
      (r.heap cls).isTypeDef = subclass3.isTypeDef ∧
      (r.heap cls).templateBaseClass = some templ ∧
      (r.heap cls).interfaces = (d.heap templ).interfaces ∧
      (r.heap cls).baseClass = (d.heap templ).baseClass ∧
      (∀ c, c ≠ cls → r.heap c = d.heap c) := by
  unfold inheritTemplate at h
  dsimp only at h
  split at h
  · cases h
  · rename_i subclass2 h2
    split at h
    · cases h
    · rename_i subclass3 h3
      cases h
      refine ⟨subclass2, subclass3, h2, h3, ?_, ?_, ?_, ?_, ?_, ?_, ?_, ?_⟩
      all_goals first
        | (intro c hc; simp [setClass, Function.update, hc])
        | simp [setClass]

theorem inheritTemplateFields_keeps (env : Env) (templateTypes : List AbstractMetaType)
    (fuel : Nat) (cls : ClassId) :
    ∀ (fields : List AbstractMetaField) (subClassFields : List AbstractMetaField)
      (subclass r : AbstractMetaClass),
      inheritTemplateFields env templateTypes fuel subClassFields cls fields subclass = some r →
      r.functions = subclass.functions ∧ r.name = subclass.name
        ∧ r.isTypeDef = subclass.isTypeDef := by
  intro fields
  induction fields with
  | nil =>
    intro subClassFields subclass r h
    unfold inheritTemplateFields at h
    cases h
    exact ⟨rfl, rfl, rfl⟩
  | cons g rest ih =>
    intro subClassFields subclass r h
    unfold inheritTemplateFields at h
    cases hstep : inheritTemplateField env templateTypes fuel subClassFields cls g with
    | outOfFuel =>
      rw [hstep] at h
      cases h
    | skipped =>
      rw [hstep] at h
      exact ih _ subclass r h
    | inherited f =>
      rw [hstep] at h
      dsimp only at h
      have hrec := ih _ _ r h
      exact hrec

theorem inheritTemplateFunctions_keeps (env : Env) (templateTypes : List AbstractMetaType)
    (fuel : Nat) (templateClass : AbstractMetaClass)
    (cls : ClassId) :
    ∀ (functions : List AbstractMetaFunction) (subclassFuncs : List AbstractMetaFunction)
      (subclass r : AbstractMetaClass),
      inheritTemplateFunctions env templateTypes fuel subclassFuncs templateClass cls functions
        subclass = some r →
      r.name = subclass.name ∧ r.isTypeDef = subclass.isTypeDef ∧ r.fields = subclass.fields := by
  intro functions
  induction functions with
  | nil =>
    intro subclassFuncs subclass r h
    unfold inheritTemplateFunctions at h
    cases h
    exact ⟨rfl, rfl, rfl⟩
  | cons g rest ih =>
    intro subclassFuncs subclass r h
    unfold inheritTemplateFunctions at h
    cases hstep : inheritTemplateFunction env templateTypes fuel subclassFuncs cls subclass g with
    | outOfFuel =>
      rw [hstep] at h
      cases h
    | skipped =>
      rw [hstep] at h
      exact ih _ subclass r h
    | inherited f =>
      rw [hstep] at h
      obtain ⟨f1, _, _, _, hcn, htd, hfld⟩ :=
        addInheritedFunction_spec env templateClass cls subclass g f
      have hrec := ih _ _ r h
      exact ⟨hrec.1.trans hcn, hrec.2.1.trans htd, hrec.2.2.trans hfld⟩

/-- C5 (amended): when `inheritTemplate(subclass, templateClass, info)` returns,
(1) `inheritTemplateType` yields no type for a template parameter bound to
`void`, and the loop bodies of `inheritTemplate` specialise no function whose
return type or an argument type is such a parameter, and no field whose type
is such a parameter; (2) the subclass has got no function named `n`, provided
that every function of the template class that would be given the name `n` (a
function named `n`, or a constructor when `n` is the name of the subclass) has
a return type or an argument type that is a template parameter bound to
`void`; (3) the subclass has got no field named `m`, provided that every field
of the template class named `m` has as type a template parameter bound to
`void`. -/
theorem inheritTemplate_drops_void_bound_members (env : Env) (fuel : Nat)
    (d r : AbstractMetaBuilderPrivate) (cls templ : ClassId) (info : TypeInfo) (n m : String)
    (hr : inheritTemplate env fuel d cls templ info = some r) :
    ((∀ (type : AbstractMetaType) (k : Nat),
        boundToVoid (inheritedTemplateTypes env d cls templ info) type = true →
        inheritTemplateType env (inheritedTemplateTypes env d cls templ info) (k + 1) type
          = some none) ∧
      (∀ (subclassFuncs : List AbstractMetaFunction) (subclass : AbstractMetaClass)
          (g f : AbstractMetaFunction),
        usesVoidParameter (inheritedTemplateTypes env d cls templ info) g = true →
        inheritTemplateFunction env (inheritedTemplateTypes env d cls templ info) fuel
          subclassFuncs cls subclass g ≠ .inherited f) ∧
      (∀ (subClassFields : List AbstractMetaField) (g f : AbstractMetaField),
        boundToVoid (inheritedTemplateTypes env d cls templ info) g.type = true →
        inheritTemplateField env (inheritedTemplateTypes env d cls templ info) fuel
          subClassFields cls g ≠ .inherited f)) ∧
    ((∀ g ∈ (d.heap templ).functions,
        (g.name = n ∨ (g.isConstructor = true ∧ (d.heap cls).name = n)) →
        usesVoidParameter (inheritedTemplateTypes env d cls templ info) g = true) →
      (r.heap cls).functions.filter (fun f => f.name == n)
        = (d.heap cls).functions.filter (fun f => f.name == n)) ∧
    ((∀ g ∈ (d.heap templ).fields, g.name = m →
        boundToVoid (inheritedTemplateTypes env d cls templ info) g.type = true) →
      (r.heap cls).fields.filter (fun f => f.name == m)
        = (d.heap cls).fields.filter (fun f => f.name == m)) := by
  obtain ⟨subclass2, subclass3, h2, h3, hfun, hfld, _⟩ :=
    inheritTemplate_some env fuel d r cls templ info hr
  have hflags := inheritTypedefFlags_keeps (d.heap cls) (d.heap templ)
  refine ⟨⟨fun type k h => inheritTemplateType_boundToVoid env _ k type h,
    fun subclassFuncs subclass g f h =>
      inheritTemplateFunction_usesVoidParameter env _ fuel subclassFuncs cls subclass g f h,
    fun subClassFields g f h =>
      inheritTemplateField_boundToVoid env _ fuel subClassFields cls g f h⟩, ?_, ?_⟩
  · intro hall
    have hloop := inheritTemplateFunctions_named env _ fuel (d.heap templ) cls n _ _ _ _ h2
      (by rw [hflags.2.2.1]; exact hall)
    have hkeep := inheritTemplateFields_keeps env _ fuel cls _ _ _ _ h3
    rw [hfun, hkeep.1, hloop.1, hflags.1]
  · intro hall
    have hloop := inheritTemplateFields_named env _ fuel cls m _ _ _ _ h3 hall
    have hkeep := inheritTemplateFunctions_keeps env _ fuel (d.heap templ) cls _ _ _ _ h2
    rw [hfld, hloop.1, hkeep.2.2, hflags.2.1]

/-- Witness of C5: `VoidBox`, a subclass of `Box<void>`, where `Box<T>` has the
members `T foo()`, `int size()`, `void put(int, T)`, `T content` and
`int count`: the call returns, and `VoidBox` gets no function `foo` and no
field `content`. -/
theorem inheritTemplate_drops_void_bound_members_witness :
    (inheritTemplate templateEnv 2
        (boxModel [fooReturningT, sizeFunction, putFunction] [contentField, countField])
        0 1 boxOfVoid).isSome = true ∧
    ((((inheritTemplate templateEnv 2
        (boxModel [fooReturningT, sizeFunction, putFunction] [contentField, countField])
        0 1 boxOfVoid).getD {}).heap 0).functions.filter (fun f => f.name == "foo")) = [] ∧
    ((((inheritTemplate templateEnv 2
        (boxModel [fooReturningT, sizeFunction, putFunction] [contentField, countField])
        0 1 boxOfVoid).getD {}).heap 0).fields.filter (fun f => f.name == "content")) = [] :=
  have h := inheritTemplate_drops_void_bound_members templateEnv 2
    (boxModel [fooReturningT, sizeFunction, putFunction] [contentField, countField]) _ 0 1
    boxOfVoid "foo" "content" (eq_some_getD _ {} (by decide))
  ⟨by decide, h.2.1 (by decide), h.2.2 (by decide)⟩

/-- Counterexample to C5 as stated: `Box<T>` has the members `T foo()` and
`int foo(int)`, and `VoidBox` is a subclass of `Box<void>`.  The return type
of the first `foo` is a template parameter bound to `void`, and `inheritTemplate`
adds a function named `foo` to `VoidBox`: the overload `foo(int)`.  This is so
whether or not `functions()` returns a reference. -/
theorem inheritTemplate_adds_overload_of_void_bound_member :
    usesVoidParameter
        (inheritedTemplateTypes templateEnv (boxModel [fooReturningT, fooOfInt] []) 0 1 boxOfVoid)
        fooReturningT = true ∧
    (((boxModel [fooReturningT, fooOfInt] []).heap 0).functions.map (fun f => f.name)) = [] ∧
    (inheritTemplate templateEnv 2 (boxModel [fooReturningT, fooOfInt] []) 0 1 boxOfVoid).map
        (fun r => (r.heap 0).functions.map
          (fun f => (f.name, f.arguments.map (fun a => a.type.typeEntry.name))))
      = some [("foo", ["int"])] ∧
    (inheritTemplate { templateEnv with listsByReference := true } 2
        (boxModel [fooReturningT, fooOfInt] []) 0 1 boxOfVoid).map
        (fun r => (r.heap 0).functions.map
          (fun f => (f.name, f.arguments.map (fun a => a.type.typeEntry.name))))
      = some [("foo", ["int"])] := by
  refine ⟨by decide, by decide, by decide, by decide⟩

/-! ## Inheritance setup -/

theorem foldl_addInterface_spec (ifaces : List ClassId) :
    ∀ c : AbstractMetaClass,
      (ifaces.foldl addInterface c).baseClass = c.baseClass ∧
      (ifaces.foldl addInterface c).interfaces = c.interfaces ++ ifaces := by
  induction ifaces with
  | nil => intro c; simp
  | cons i rest ih =>
    intro c
    rw [List.foldl_cons]
    obtain ⟨h1, h2⟩ := ih (addInterface c i)
    refine ⟨h1, ?_⟩
    rw [h2]
    simp [addInterface]

theorem setClass_heap_ne (d : AbstractMetaBuilderPrivate) (cls c : ClassId)
    (r : AbstractMetaClass) (h : c ≠ cls) : (setClass d cls r).heap c = d.heap c := by
  unfold setClass
  simp [Function.update, h]

theorem setClass_done (d : AbstractMetaBuilderPrivate) (cls : ClassId) (r : AbstractMetaClass) :
    (setClass d cls r).m_setupInheritanceDone = d.m_setupInheritanceDone := rfl

theorem inheritTemplate_done (env : Env) (fuel : Nat) (d r : AbstractMetaBuilderPrivate)
    (cls templ : ClassId) (info : TypeInfo)
    (h : inheritTemplate env fuel d cls templ info = some r) :
    r.m_setupInheritanceDone = d.m_setupInheritanceDone := by
  unfold inheritTemplate at h
  dsimp only at h
  split at h
  · cases h
  · split at h
    · cases h
    · cases h
      rfl

theorem setupInterfaces_frame (env : Env)
    (setup : AbstractMetaBuilderPrivate → ClassId → Option (Bool × AbstractMetaBuilderPrivate))
    (hsetup : KeepsDone setup) (cls : ClassId) (primary : Option Nat) :
    ∀ (names : List String) (i : Nat) (d r : AbstractMetaBuilderPrivate) (b : Bool),
      setupInterfaces env setup cls primary names i d = some (b, r) →
      (∀ c ∈ d.m_setupInheritanceDone, c ≠ cls → r.heap c = d.heap c) ∧
      (∀ c ∈ d.m_setupInheritanceDone, c ∈ r.m_setupInheritanceDone) := by
  intro names
  induction names with
  | nil =>
    intro i d r b h
    unfold setupInterfaces at h
    cases h
    exact ⟨fun _ _ _ => rfl, fun _ hc => hc⟩
  | cons name rest ih =>
    intro i d r b h
    unfold setupInterfaces at h
    split at h
    · exact ih _ _ _ _ h
    · split at h
      · exact ih _ _ _ _ h
      · split at h
        · cases h
          exact ⟨fun _ _ _ => rfl, fun _ hc => hc⟩
        · rename_i baseClass _
          split at h
          · cases h
          · rename_i b1 d1 hcall
            obtain ⟨hheap, hdone⟩ := hsetup _ _ _ _ hcall
            dsimp only at h
            split at h
            · cases h
              exact ⟨fun c hc _ => hheap c hc, hdone⟩
            · rename_i iface _
              obtain ⟨hheap2, hdone2⟩ := ih _ _ _ _ h
              refine ⟨fun c hc hne => ?_, fun c hc => hdone2 c (hdone c hc)⟩
              rw [hheap2 c (hdone c hc) hne, setClass_heap_ne _ _ _ _ hne,
                setClass_heap_ne _ _ _ _ hne]
              exact hheap c hc

theorem setupInheritance_keepsDone (env : Env) :
    ∀ fuel : Nat, KeepsDone (setupInheritance env fuel) := by
  intro fuel
  induction fuel with
  | zero =>
    intro d r x b h
    unfold setupInheritance at h
    cases h
  | succ fuel ih =>
    intro d r x b h
    unfold setupInheritance at h
    split at h
    · cases h
      exact ⟨fun _ _ => rfl, fun _ hc => hc⟩
    · rename_i hx
      have hne : ∀ c ∈ d.m_setupInheritanceDone, c ≠ x := fun c hc heq => hx (heq ▸ hc)
      dsimp only at h
      split at h
      · split at h
        · rename_i templ info _ _
          split at h
          · cases h
          · rename_i b1 d2 hcall
            obtain ⟨hheap, hdone⟩ := ih _ _ _ _ hcall
            split at h
            · cases h
            · rename_i d3 hinh
              cases h
              obtain ⟨_, _, _, _, _, _, _, _, _, _, _, hother⟩ :=
                inheritTemplate_some env fuel d2 d3 x templ info hinh
              have hd := inheritTemplate_done env fuel d2 d3 x templ info hinh
              refine ⟨fun c hc => ?_, fun c hc => ?_⟩
              · rw [setClass_heap_ne _ _ _ _ (hne c hc), hother c (hne c hc)]
                exact hheap c (List.mem_cons_of_mem _ hc)
              · rw [setClass_done, hd]
                exact hdone c (List.mem_cons_of_mem _ hc)
        · cases h
          exact ⟨fun c hc => setClass_heap_ne _ _ _ _ (hne c hc),
            fun c hc => List.mem_cons_of_mem _ hc⟩
        · cases h
          exact ⟨fun _ _ => rfl, fun c hc => List.mem_cons_of_mem _ hc⟩
      · split at h
        · cases h
          exact ⟨fun _ _ => rfl, fun c hc => List.mem_cons_of_mem _ hc⟩
        · rename_i d2 hbased
          obtain ⟨hheap, hdone⟩ := setupInterfaces_frame env _ ih x _ _ _ _ _ _ h
          have hd2 : (∀ c, c ≠ x → d2.heap c = d.heap c) ∧
              d2.m_setupInheritanceDone = x :: d.m_setupInheritanceDone := by
            split at hbased
            · split at hbased
              · cases hbased
              · cases hbased
                exact ⟨fun c hc => setClass_heap_ne _ _ _ _ hc, rfl⟩
            · cases hbased
              exact ⟨fun _ _ => rfl, rfl⟩
          have hmem : ∀ c ∈ d.m_setupInheritanceDone, c ∈ d2.m_setupInheritanceDone := by
            intro c hc
            rw [hd2.2]
            exact List.mem_cons_of_mem _ hc
          refine ⟨fun c hc => ?_, fun c hc => hdone c (hmem c hc)⟩
          rw [hheap c (hmem c hc) (hne c hc)]
          exact hd2.1 c (hne c hc)

/-- C6 (amended): let the base class names of `D` be the two names `nA` and
`nI`, neither of them rejected by the registry, both registered, the entry of
`nA` without and the entry of `nI` with a designated interface, and let
`setupInheritance` not have been called on `D` before.  Let the model have the
class `A` under `nA` and the class `I` under `nI`, `A` and `I` being two
classes, let the call of `setupInheritance` on `I` return, and let the model
have the class `iface` under the interface name of `I`.  Then
`setupInheritance(D)` returns `true`, the base class of `D` is `A` and not `I`,
and `iface` is in the interface list of `D`. -/
theorem setupInheritance_primary_and_interface (env : Env) (fuel : Nat)
    (d d2 : AbstractMetaBuilderPrivate) (D A I iface : ClassId) (nA nI : String)
    (eA eI : TypeEntry) (b : Bool)
    (hbases : (d.heap D).baseClassNames = [nA, nI])
    (hnew : D ∉ d.m_setupInheritanceDone)
    (hrejA : env.types.isClassRejected nA = false)
    (hrejI : env.types.isClassRejected nI = false)
    (hregA : env.types.findType nA = some eA) (hprimary : eA.designatedInterface = none)
    (hregI : env.types.findType nI = some eI) (hdesignated : eI.designatedInterface.isSome = true)
    (hA : env.findClass d.heap d.m_metaClasses nA = some A)
    (hI : env.findClass (withBaseClass d D A).heap d.m_metaClasses nI = some I)
    (hAI : A ≠ I)
    (hsetup : setupInheritance env fuel (withBaseClass d D A) I = some (b, d2))
    (hiface : env.findClass d2.heap d2.m_metaClasses (interfaceClassName (d2.heap I))
      = some iface) :
    ∃ d3 : AbstractMetaBuilderPrivate,
      setupInheritance env (fuel + 1) d D = some (true, d3) ∧
      (d3.heap D).baseClass = some A ∧ (d3.heap D).baseClass ≠ some I ∧
      iface ∈ (d3.heap D).interfaces := by
  have hnone : eI.designatedInterface.isNone = false := by
    cases hx : eI.designatedInterface with
    | none => rw [hx] at hdesignated; cases hdesignated
    | some v => rfl
  have hprim : primaryBaseIndex env [nA, nI] 0 none = some 0 := by
    simp [primaryBaseIndex, hrejA, hrejI, hregA, hregI, hprimary, hnone]
  have hI1 := hI
  have hsetup1 := hsetup
  dsimp only [withBaseClass] at hI1 hsetup1
  have hkeep := (setupInheritance_keepsDone env fuel _ _ _ _ hsetup).1 D
    (by unfold withBaseClass; rw [setClass_done]; exact List.mem_cons_self _ _)
  have hbase2 : (d2.heap D).baseClass = some A := by
    rw [hkeep]
    unfold withBaseClass
    rw [setClass_heap_self]
  let d3 := setClass d2 D (addInterface (d2.heap D) iface)
  let d4 := setClass d3 D ((d3.heap iface).interfaces.foldl addInterface (d3.heap D))
  have hd3 : d3.heap D = addInterface (d2.heap D) iface := setClass_heap_self _ _ _
  have hd4 : d4.heap D = (d3.heap iface).interfaces.foldl addInterface (d3.heap D) :=
    setClass_heap_self _ _ _
  have hspec := foldl_addInterface_spec (d3.heap iface).interfaces (d3.heap D)
  have hbase4 : (d4.heap D).baseClass = some A := by
    rw [hd4, hspec.1, hd3]
    exact hbase2
  refine ⟨d4, ?_, hbase4, ?_, ?_⟩
  · unfold setupInheritance
    rw [if_neg hnew]
    dsimp only
    rw [hbases]
    have htempl : templateBaseName [nA, nI] = none := rfl
    rw [htempl]
    dsimp only
    rw [hprim]
    dsimp only
    have hget : [nA, nI].getD 0 "" = nA := rfl
    rw [hget, hA]
    dsimp only
    unfold setupInterfaces
    rw [if_neg (by simp [hrejA]), if_pos rfl]
    unfold setupInterfaces
    rw [if_neg (by simp [hrejI]), if_neg (by simp)]
    dsimp only [setClass] at hI1 hsetup1 ⊢
    rw [hbases] at hI1 hsetup1
    rw [hI1]
    dsimp only
    rw [hsetup1]
    dsimp only
    rw [hiface]
    dsimp only
    unfold setupInterfaces
    rfl
  · rw [hbase4]
    intro h
    exact hAI (Option.some.inj h)
  · rw [hd4, hspec.2, hd3]
    simp [addInterface]

/-- Witness of C6: the classes `D : public A, public I`, `A` and `I`, the entry
of `I` having a designated interface. -/
theorem setupInheritance_primary_and_interface_witness :
    ∃ d3 : AbstractMetaBuilderPrivate,
      setupInheritance interfaceEnv 2 primaryAndInterface 0 = some (true, d3) ∧
      (d3.heap 0).baseClass = some 1 ∧ (d3.heap 0).baseClass ≠ some 2 ∧
      2 ∈ (d3.heap 0).interfaces :=
  setupInheritance_primary_and_interface interfaceEnv 1 primaryAndInterface
    ((setupInheritance interfaceEnv 1 (withBaseClass primaryAndInterface 0 1) 2).getD
      (true, {})).2
    0 1 2 2 "A" "I" entryA entryI
    ((setupInheritance interfaceEnv 1 (withBaseClass primaryAndInterface 0 1) 2).getD
      (true, {})).1
    (by decide) (by decide) (by decide) (by decide) (by decide) (by decide) (by decide)
    (by decide) (by decide) (by decide) (by decide)
    (eq_some_getD _ (true, {}) (by decide)) (by decide)

/-- Counterexample to C6 as stated: `D : public A, public I`, where `A` and `I`
are registered and present in the model, the entry of `A` has no designated
interface and the entry of `I` has one, and the registry rejects the class name
`A`.  After `setupInheritance(D)` the class `D` has no base class. -/
theorem setupInheritance_rejected_primary_base :
    (primaryAndInterface.heap 0).baseClassNames = ["A", "I"] ∧
    rejectedBaseEnv.types.findType "A" = some entryA ∧
    rejectedBaseEnv.types.findType "I" = some entryI ∧
    entryA.designatedInterface = none ∧ entryI.designatedInterface.isSome = true ∧
    rejectedBaseEnv.findClass primaryAndInterface.heap primaryAndInterface.m_metaClasses "A"
      = some 1 ∧
    rejectedBaseEnv.findClass primaryAndInterface.heap primaryAndInterface.m_metaClasses "I"
      = some 2 ∧
    rejectedBaseEnv.types.isClassRejected "A" = true ∧
    (setupInheritance rejectedBaseEnv 2 primaryAndInterface 0).map
        (fun r => (r.1, (r.2.heap 0).baseClass, (r.2.heap 0).interfaces))
      = some (true, none, [2]) := by
  refine ⟨by decide, by decide, by decide, by decide, by decide, by decide, by decide,
    by decide, by decide⟩

/-! ## Names of constructors -/

theorem applyExceptionAndThreadMods_name (mods : List FunctionModification)
    (f : AbstractMetaFunction) :
    (applyExceptionAndThreadMods mods f).name = f.name ∧
    (applyExceptionAndThreadMods mods f).functionType = f.functionType := by
  unfold applyExceptionAndThreadMods
  induction mods generalizing f with
  | nil => exact ⟨rfl, rfl⟩
  | cons m rest ih =>
    rw [List.foldl_cons]
    refine ⟨(ih _).1.trans ?_, (ih _).2.trans ?_⟩
    · split
      · rfl
      · split <;> rfl
    · split
      · rfl
      · split <;> rfl

theorem setDefaultValue_name (env : Env) (d : AbstractMetaBuilderPrivate)
    (currentClass : Option ClassId) (functionMods : List FunctionModification)
    (arguments : List ArgumentModelItem) (f : AbstractMetaFunction) (i : Nat) :
    (setDefaultValue env d currentClass functionMods arguments f i).name = f.name ∧
    (setDefaultValue env d currentClass functionMods arguments f i).functionType
      = f.functionType := by
  unfold setDefaultValue
  split
  · dsimp only
    split
    · exact ⟨rfl, rfl⟩
    · exact ⟨rfl, rfl⟩
  · exact ⟨rfl, rfl⟩

theorem foldl_setDefaultValue_name (env : Env) (d : AbstractMetaBuilderPrivate)
    (currentClass : Option ClassId) (functionMods : List FunctionModification)
    (arguments : List ArgumentModelItem) :
    ∀ (l : List Nat) (f : AbstractMetaFunction),
      (l.foldl (setDefaultValue env d currentClass functionMods arguments) f).name = f.name ∧
      (l.foldl (setDefaultValue env d currentClass functionMods arguments) f).functionType
        = f.functionType := by
  intro l
  induction l with
  | nil => intro f; exact ⟨rfl, rfl⟩
  | cons i l ih =>
    intro f
    rw [List.foldl_cons]
    have h1 := ih (setDefaultValue env d currentClass functionMods arguments f i)
    have h2 := setDefaultValue_name env d currentClass functionMods arguments f i
    exact ⟨h1.1.trans h2.1, h1.2.trans h2.2⟩

theorem determineSpecialFunction_name (d : AbstractMetaBuilderPrivate)
    (currentClass : Option ClassId) (f : AbstractMetaFunction) :
    (determineSpecialFunction d currentClass f).name = f.name ∧
    ((determineSpecialFunction d currentClass f).functionType = f.functionType ∨
      (determineSpecialFunction d currentClass f).functionType = .AssignmentOperatorFunction ∨
      (determineSpecialFunction d currentClass f).functionType
        = .MoveAssignmentOperatorFunction) := by
  unfold determineSpecialFunction
  split
  · dsimp only
    split
    · split
      · split
        · exact ⟨rfl, Or.inr (Or.inl rfl)⟩
        · split
          · exact ⟨rfl, Or.inr (Or.inl rfl)⟩
          · exact ⟨rfl, Or.inl rfl⟩
        · exact ⟨rfl, Or.inr (Or.inr rfl)⟩
      · exact ⟨rfl, Or.inl rfl⟩
    · exact ⟨rfl, Or.inl rfl⟩
  · exact ⟨rfl, Or.inl rfl⟩

theorem fixedArguments_name (env : Env) (mods : List FunctionModification)
    (f : AbstractMetaFunction) :
    (applyArrayArgumentModifications env mods (fixArgumentNames f mods)).1.name = f.name ∧
    (applyArrayArgumentModifications env mods (fixArgumentNames f mods)).1.functionType
      = f.functionType := by
  unfold applyArrayArgumentModifications
  exact ⟨(applyArrayArgumentModificationsAux_name env _ _).1,
    (applyArrayArgumentModificationsAux_name env _ _).2⟩

theorem determineSpecialFunction_of (d : AbstractMetaBuilderPrivate)
    (currentClass : Option ClassId) (f f0 : AbstractMetaFunction)
    (h : f.name = f0.name ∧ f.functionType = f0.functionType) :
    (determineSpecialFunction d currentClass f).name = f0.name ∧
    ((determineSpecialFunction d currentClass f).functionType = f0.functionType ∨
      (determineSpecialFunction d currentClass f).functionType = .AssignmentOperatorFunction ∨
      (determineSpecialFunction d currentClass f).functionType
        = .MoveAssignmentOperatorFunction) := by
  obtain ⟨h1, h2⟩ := determineSpecialFunction_name d currentClass f
  refine ⟨h1.trans h.1, ?_⟩
  rcases h2 with h2 | h2 | h2
  · exact Or.inl (h2.trans h.2)
  · exact Or.inr (Or.inl h2)
  · exact Or.inr (Or.inr h2)

theorem traverseFunctionArguments_name (env : Env) (d : AbstractMetaBuilderPrivate)
    (item : FunctionModelItem) (currentClass : Option ClassId) (className sig : String)
    (f0 f : AbstractMetaFunction)
    (h : (traverseFunctionArguments env d item currentClass className sig f0).1 = some f) :
    f.name = f0.name ∧
    (f.functionType = f0.functionType ∨ f.functionType = .AssignmentOperatorFunction ∨
      f.functionType = .MoveAssignmentOperatorFunction) := by
  unfold traverseFunctionArguments at h
  dsimp only at h
  split at h
  · cases h
  · rename_i metaArguments _
    dsimp only at h
    cases h
    apply determineSpecialFunction_of
    have hs := foldl_setDefaultValue_name env d currentClass
    have he := applyExceptionAndThreadMods_name
    split
    · refine ⟨(fixedArguments_name env _ _).1.trans ?_, (fixedArguments_name env _ _).2.trans ?_⟩
      · exact (hs _ _ _ _).1.trans (he _ _).1
      · exact (hs _ _ _ _).2.trans (he _ _).2
    · exact ⟨(hs _ _ _ _).1.trans (he _ _).1, (hs _ _ _ _).2.trans (he _ _).2⟩

theorem traverseFunctionReturnType_name (env : Env) (d : AbstractMetaBuilderPrivate)
    (item : FunctionModelItem) (cls : ClassId) (className sig : String)
    (f0 f1 : AbstractMetaFunction)
    (h : traverseFunctionReturnType env d item (some cls) className sig f0 = .inl f1) :
    f1.functionType = f0.functionType ∧
    (f0.functionType = .ConstructorFunction → f1.name = (d.heap cls).name) ∧
    (f0.functionType ≠ .ConstructorFunction → f1.name = f0.name) := by
  unfold traverseFunctionReturnType at h
  split at h
  · rename_i hd
    cases h
    refine ⟨rfl, fun hc => ?_, fun _ => rfl⟩
    rw [hd] at hc
    cases hc
  · rename_i hc
    cases h
    exact ⟨rfl, fun _ => rfl, fun hne => absurd hc hne⟩
  · rename_i hnd hnc
    dsimp only at h
    split at h
    · cases h
    · split at h
      · split at h
        · cases h
        · cases h
          exact ⟨rfl, fun hc => absurd hc hnc, fun _ => rfl⟩
      · cases h
        exact ⟨rfl, fun hc => absurd hc hnc, fun _ => rfl⟩

/-- The name that `traverseFunction` gives a function of a class: the name of
the class when the function type is `ConstructorFunction`, and the name of
the code model item otherwise, copy and move constructors included. -/
theorem traverseFunction_name (env : Env) (d : AbstractMetaBuilderPrivate)
    (item : FunctionModelItem) (cls : ClassId) (f : AbstractMetaFunction)
    (h : (traverseFunction env d item (some cls)).1 = some f) :
    (f.functionType = .ConstructorFunction → f.name = (d.heap cls).name) ∧
    (f.functionType = .CopyConstructorFunction ∨ f.functionType = .MoveConstructorFunction →
      f.name = item.name) := by
  unfold traverseFunction at h
  split at h
  · cases h
  · dsimp only at h
    split at h
    · cases h
    · split at h
      · cases h
      · split at h
        · cases h
        · split at h
          · cases h
          · split at h
            · cases h
            · split at h
              · cases h
              · rename_i f1 hret
                obtain ⟨ht, hc, hn⟩ := traverseFunctionReturnType_name env d item cls _ _ _ f1 hret
                obtain ⟨hname, htype⟩ := traverseFunctionArguments_name env d item (some cls) _ _ f1 f h
                dsimp only at ht hc hn
                constructor
                · intro hf
                  rw [hname]
                  apply hc
                  rcases htype with h1 | h1 | h1
                  · rw [← ht, ← h1]
                    exact hf
                  · rw [h1] at hf
                    cases hf
                  · rw [h1] at hf
                    cases hf
                · intro hf
                  rw [hname]
                  have hf1 : f1.functionType = .CopyConstructorFunction ∨
                      f1.functionType = .MoveConstructorFunction := by
                    rcases htype with h1 | h1 | h1
                    · rw [← h1]
                      exact hf
                    · rw [h1] at hf
                      rcases hf with hf | hf <;> cases hf
                    · rw [h1] at hf
                      rcases hf with hf | hf <;> cases hf
                  apply hn
                  rw [← ht]
                  rcases hf1 with h2 | h2 <;> rw [h2] <;> intro hx <;> cases hx

theorem addAddedFunctionToClass_name (d : AbstractMetaBuilderPrivate) (cls : ClassId)
    (f : AbstractMetaFunction)
    (h : (addAddedFunctionToClass d cls f).1.isConstructor = true) :
    (addAddedFunctionToClass d cls f).1.name = (d.heap cls).name := by
  unfold addAddedFunctionToClass at h ⊢
  dsimp only at h ⊢
  by_cases hns : (d.heap cls).isNamespace = true
  · simp only [hns, if_true] at h ⊢
    by_cases hname : (f.name == (d.heap cls).name) = true
    · simp only [hname, if_true] at h ⊢
      have hn : f.name = (d.heap cls).name := by simpa using hname
      repeat' split
      all_goals exact hn
    · rw [if_neg hname] at h
      simp [AbstractMetaFunction.isConstructor] at h
  · rw [if_neg hns] at h ⊢
    by_cases hname : (f.name == (d.heap cls).name) = true
    · simp only [hname, if_true] at h ⊢
      have hn : f.name = (d.heap cls).name := by simpa using hname
      repeat' split
      all_goals exact hn
    · rw [if_neg hname] at h
      simp [AbstractMetaFunction.isConstructor] at h

theorem traverseAddedFunction_name (env : Env) (d d1 : AbstractMetaBuilderPrivate)
    (addedFunc : AddedFunction) (cls : ClassId) (f : AbstractMetaFunction)
    (h : traverseAddedFunction env d addedFunc (some cls) = some (some f, d1))
    (hc : f.isConstructor = true) : f.name = (d.heap cls).name := by
  unfold traverseAddedFunction at h
  dsimp only at h
  split at h
  · cases h
  · split at h
    · cases h
    · cases h
    · simp only [Option.some.injEq, Prod.mk.injEq] at h
      obtain ⟨hf, _⟩ := h
      rw [← hf] at hc ⊢
      exact addAddedFunctionToClass_name d cls _ hc

theorem applyRenameOrAccess_name (f : AbstractMetaFunction) (mod : FunctionModification) :
    (applyFunctionModification f mod).functionType = f.functionType ∧
    (mod.isRenameModifier = false → (applyFunctionModification f mod).name = f.name) ∧
    (mod.isRenameModifier = true → (applyFunctionModification f mod).name = mod.renamedTo) := by
  unfold applyFunctionModification applyRenameOrAccess
  dsimp only
  split
  · rename_i hr
    refine ⟨rfl, fun h => ?_, fun _ => rfl⟩
    rw [h] at hr
    cases hr
  · rename_i hr
    split
    · exact ⟨rfl, fun _ => rfl, fun h => absurd h hr⟩
    · exact ⟨rfl, fun _ => rfl, fun h => absurd h hr⟩

theorem foldl_applyFunctionModification_name :
    ∀ (mods : List FunctionModification) (f : AbstractMetaFunction),
      (mods.foldl applyFunctionModification f).functionType = f.functionType ∧
      ((∀ mod ∈ mods, mod.isRenameModifier = false) →
        (mods.foldl applyFunctionModification f).name = f.name) := by
  intro mods
  induction mods with
  | nil => intro f; exact ⟨rfl, fun _ => rfl⟩
  | cons m rest ih =>
    intro f
    rw [List.foldl_cons]
    obtain ⟨h1, h2⟩ := ih (applyFunctionModification f m)
    obtain ⟨h3, h4, _⟩ := applyRenameOrAccess_name f m
    refine ⟨h1.trans h3, fun hall => ?_⟩
    rw [h2 (fun mod hmod => hall mod (List.mem_cons_of_mem _ hmod))]
    exact h4 (hall m (List.mem_cons_self _ _))

theorem inheritTemplateFunctions_constructors (env : Env)
    (templateTypes : List AbstractMetaType) (fuel : Nat) (templateClass : AbstractMetaClass)
    (cls : ClassId) :
    ∀ (functions : List AbstractMetaFunction) (subclassFuncs : List AbstractMetaFunction)
      (subclass r : AbstractMetaClass),
      inheritTemplateFunctions env templateTypes fuel subclassFuncs templateClass cls functions
        subclass = some r →
      ∃ added : List AbstractMetaFunction, r.functions = subclass.functions ++ added ∧
        ∀ f ∈ added, f.isConstructor = true →
          f.name = subclass.name ∧ subclass.isTypeDef = true := by
  intro functions
  induction functions with
  | nil =>
    intro subclassFuncs subclass r h
    unfold inheritTemplateFunctions at h
    cases h
    exact ⟨[], by simp, fun _ hf => by cases hf⟩
  | cons g rest ih =>
    intro subclassFuncs subclass r h
    unfold inheritTemplateFunctions at h
    cases hstep : inheritTemplateFunction env templateTypes fuel subclassFuncs cls subclass g with
    | outOfFuel =>
      rw [hstep] at h
      cases h
    | skipped =>
      rw [hstep] at h
      exact ih _ subclass r h
    | inherited f =>
      rw [hstep] at h
      dsimp only at h
      obtain ⟨f1, hfun, hname, htype, hcn, htd, _⟩ :=
        addInheritedFunction_spec env templateClass cls subclass g f
      obtain ⟨added, hadded, hall⟩ := ih _ _ r h
      obtain ⟨hft, hfname, hfcons⟩ :=
        inheritTemplateFunction_name env templateTypes fuel subclassFuncs cls subclass g f hstep
      refine ⟨f1 :: added, ?_, ?_⟩
      · rw [hadded, hfun]
        simp
      · intro x hx hc
        rcases List.mem_cons.mp hx with hx | hx
        · have hg : g.isConstructor = true := by
            rw [hx] at hc
            unfold AbstractMetaFunction.isConstructor at hc ⊢
            rw [htype, hft] at hc
            exact hc
          rw [hx, hname, hfname, if_pos hg]
          exact ⟨rfl, hfcons hg⟩
        · obtain ⟨h1, h2⟩ := hall x hx hc
          exact ⟨h1.trans hcn, htd.symm.trans h2⟩

/-- C7 (amended): the names that the builder gives to constructors.
(1) A function that `traverseFunction` builds for a class from the AST and whose
function type is `ConstructorFunction` has the name of the class.
(2) A function that `traverseFunction(addedFunc, metaClass)` builds for a class
and whose function type is a constructor kind has the name of the class.
(3) `inheritTemplate` keeps the name of the subclass, and every function of a
constructor kind that it adds to the subclass has the name of the subclass (and
the subclass is a typedef).
(4) `applyFunctionModifications` keeps the function type, and it keeps the name
unless a rename modification applies to the function. -/
theorem constructor_named_after_class (env : Env) :
    (∀ (d : AbstractMetaBuilderPrivate) (item : FunctionModelItem) (cls : ClassId)
        (f : AbstractMetaFunction),
      (traverseFunction env d item (some cls)).1 = some f →
      f.functionType = .ConstructorFunction → f.name = (d.heap cls).name) ∧
    (∀ (d d1 : AbstractMetaBuilderPrivate) (addedFunc : AddedFunction) (cls : ClassId)
        (f : AbstractMetaFunction),
      traverseAddedFunction env d addedFunc (some cls) = some (some f, d1) →
      f.isConstructor = true → f.name = (d.heap cls).name) ∧
    (∀ (fuel : Nat) (d r : AbstractMetaBuilderPrivate) (cls templ : ClassId) (info : TypeInfo),
      inheritTemplate env fuel d cls templ info = some r →
      (r.heap cls).name = (d.heap cls).name ∧
      ∃ added : List AbstractMetaFunction,
        (r.heap cls).functions = (d.heap cls).functions ++ added ∧
        ∀ f ∈ added, f.isConstructor = true →
          f.name = (d.heap cls).name ∧ (d.heap cls).isTypeDef = true) ∧
    (∀ (heap : ClassId → AbstractMetaClass) (f : AbstractMetaFunction),
      (applyFunctionModifications env heap f).functionType = f.functionType ∧
      ((∀ mod ∈ env.modifications f (f.implementingClass.map heap),
          mod.isRenameModifier = false) →
        (applyFunctionModifications env heap f).name = f.name)) := by
  refine ⟨?_, ?_, ?_, ?_⟩
  · intro d item cls f h hc
    exact (traverseFunction_name env d item cls f h).1 hc
  · intro d d1 addedFunc cls f h hc
    exact traverseAddedFunction_name env d d1 addedFunc cls f h hc
  · intro fuel d r cls templ info h
    obtain ⟨subclass2, subclass3, h2, h3, hfun, _, hname, _⟩ :=
      inheritTemplate_some env fuel d r cls templ info h
    obtain ⟨hf1, hf2, hf3, hf4⟩ := inheritTypedefFlags_keeps (d.heap cls) (d.heap templ)
    obtain ⟨hk1, hk2, _⟩ := inheritTemplateFields_keeps env _ fuel cls _ _ _ _ h3
    obtain ⟨hn1, _, _⟩ := inheritTemplateFunctions_keeps env _ fuel (d.heap templ) cls _ _ _ _ h2
    obtain ⟨added, hadded, hall⟩ :=
      inheritTemplateFunctions_constructors env _ fuel (d.heap templ) cls _ _ _ _ h2
    refine ⟨?_, added, ?_, ?_⟩
    · rw [hname, hk2, hn1, hf3]
    · rw [hfun, hk1, hadded, hf1]
    · intro f hf hc
      obtain ⟨h5, h6⟩ := hall f hf hc
      exact ⟨h5.trans hf3, hf4 ▸ h6⟩
  · intro heap f
    unfold applyFunctionModifications
    exact foldl_applyFunctionModification_name _ f

/-- Witness of C7: the constructor `C()` of the class `C`, built from the AST,
has the name `C`. -/
theorem constructor_named_after_class_witness :
    (traverseFunction exampleEnv oneClass constructorOfC (some 0)).1.isSome = true ∧
    ((traverseFunction exampleEnv oneClass constructorOfC (some 0)).1.getD {}).functionType
      = .ConstructorFunction ∧
    ((traverseFunction exampleEnv oneClass constructorOfC (some 0)).1.getD {}).name
      = (oneClass.heap 0).name :=
  ⟨by decide, by decide,
    (constructor_named_after_class exampleEnv).1 oneClass constructorOfC 0 _
      (eq_some_getD _ {} (by decide)) (by decide)⟩

/-- Counterexample to C7 as stated: the class `C` has the constructor `C()`, and
the type system renames it to `create`.  After `traverseFunctions` the class
holds a function of type `ConstructorFunction` whose name is `create`, not
`C`. -/
theorem traverseFunctions_renamed_constructor :
    (oneClass.heap 0).name = "C" ∧
    (traverseFunctions renamingEnv oneClass [constructorOfC] 0).map
        (fun r => ((r.heap 0).name,
          (r.heap 0).functions.map (fun f => (f.name, f.functionType, f.isConstructor))))
      = some ("C", [("create", .ConstructorFunction, true)]) := by
  refine ⟨by decide, by decide⟩

/-- A copy constructor from the AST keeps the name of its code model item:
for the class with `name()` `Bar` and C++ name `Foo`, `traverseFunction` names
the copy constructor `Foo(const Foo &)` `Foo`, and the constructor of the same
signature `Bar`. -/
theorem traverseFunction_copy_constructor_of_renamed_class :
    (renamedClass.heap 0).name = "Bar" ∧
    (traverseFunction fooEnv renamedClass copyConstructorOfFoo (some 0)).1.map
        (fun f => (f.name, f.functionType, f.isConstructor))
      = some ("Foo", .CopyConstructorFunction, true) ∧
    (traverseFunction fooEnv renamedClass
        { copyConstructorOfFoo with functionType := .Constructor } (some 0)).1.map
        (fun f => (f.name, f.functionType, f.isConstructor))
      = some ("Bar", .ConstructorFunction, true) := by
  refine ⟨by decide, by decide, by decide⟩

/-! ## Type translation -/

theorem sameOutcome_cases {r1 r2 : TranslateResult} (h : SameOutcome r1 r2) :
    (r1 = none ∧ r2 = none) ∨
    (∃ m1 m2, r1 = some (none, m1) ∧ r2 = some (none, m2)) ∨
    (∃ a b m1 m2, r1 = some (some a, m1) ∧ r2 = some (some b, m2) ∧ SameDescriptor a b) := by
  match r1, r2, h with
  | none, none, _ => exact Or.inl ⟨rfl, rfl⟩
  | some (none, m1), some (none, m2), _ => exact Or.inr (Or.inl ⟨m1, m2, rfl, rfl⟩)
  | some (some a, m1), some (some b, m2), h => exact Or.inr (Or.inr ⟨a, b, m1, m2, rfl, rfl, h⟩)

theorem wrapArray_same (env : Env) (d : Option AbstractMetaBuilderPrivate)
    (hpat : ∀ a b, SameDescriptor a b →
      SameDescriptor (env.decideUsagePattern a) (env.decideUsagePattern b))
    (arrayElement : String) (a b : AbstractMetaType) (n1 n2 : Nat) (h : SameDescriptor a b) :
    SameDescriptor (wrapArray env d arrayElement a n1).1 (wrapArray env d arrayElement b n2).1 := by
  unfold wrapArray
  dsimp only
  apply hpat
  exact SameDescriptor.mk _ _ rfl rfl rfl rfl rfl List.Forall₂.nil (Option.Rel.some h) rfl

theorem wrapArrays_same (env : Env) (d : Option AbstractMetaBuilderPrivate)
    (hpat : ∀ a b, SameDescriptor a b →
      SameDescriptor (env.decideUsagePattern a) (env.decideUsagePattern b)) :
    ∀ (arrayElements : List String) (a b : AbstractMetaType) (n1 n2 : Nat),
      SameDescriptor a b →
      SameDescriptor (wrapArrays env d arrayElements a n1).1
        (wrapArrays env d arrayElements b n2).1 := by
  intro arrayElements
  induction arrayElements with
  | nil => intro a b n1 n2 h; exact h
  | cons e rest ih =>
    intro a b n1 n2 h
    unfold wrapArrays
    exact ih _ _ _ _ (wrapArray_same env d hpat e a b n1 n2 h)

theorem translateInstantiations_same (translate : TypeInfo → Nat → TranslateResult)
    (htr : ∀ ti n1 n2, SameOutcome (translate ti n1) (translate ti n2)) :
    ∀ (l : List TypeInfo) (acc1 acc2 : List AbstractMetaType) (n1 n2 : Nat),
      List.Forall₂ SameDescriptor acc1 acc2 →
      (translateInstantiations translate l acc1 n1 = none ∧
        translateInstantiations translate l acc2 n2 = none) ∨
      (∃ m1 m2, translateInstantiations translate l acc1 n1 = some (none, m1) ∧
        translateInstantiations translate l acc2 n2 = some (none, m2)) ∨
      (∃ l1 l2 m1 m2, translateInstantiations translate l acc1 n1 = some (some l1, m1) ∧
        translateInstantiations translate l acc2 n2 = some (some l2, m2) ∧
        List.Forall₂ SameDescriptor l1 l2) := by
  intro l
  induction l with
  | nil =>
    intro acc1 acc2 n1 n2 h
    exact Or.inr (Or.inr ⟨acc1, acc2, n1, n2, rfl, rfl, h⟩)
  | cons ti rest ih =>
    intro acc1 acc2 n1 n2 h
    unfold translateInstantiations
    rcases sameOutcome_cases (htr ti n1 n2) with ⟨h1, h2⟩ | ⟨m1, m2, h1, h2⟩ |
      ⟨a, b, m1, m2, h1, h2, hab⟩
    · rw [h1, h2]
      exact Or.inl ⟨rfl, rfl⟩
    · rw [h1, h2]
      exact Or.inr (Or.inl ⟨m1, m2, rfl, rfl⟩)
    · rw [h1, h2]
      dsimp only
      refine ih _ _ m1 m2 ?_
      exact List.rel_append h (List.Forall₂.cons hab List.Forall₂.nil)

theorem translatePlainType_same (env : Env) (d : Option AbstractMetaBuilderPrivate)
    (currentClass : Option AbstractMetaClass)
    (hpat : ∀ a b, SameDescriptor a b →
      SameDescriptor (env.decideUsagePattern a) (env.decideUsagePattern b))
    (translate : TypeInfo → Nat → TranslateResult)
    (htr : ∀ ti n1 n2, SameOutcome (translate ti n1) (translate ti n2))
    (typei typeInfo : TypeInfo) (n1 n2 : Nat) :
    SameOutcome (translatePlainType env d currentClass translate typei typeInfo n1)
      (translatePlainType env d currentClass translate typei typeInfo n2) := by
  unfold translatePlainType
  cases typeInfo.qualifiedName.getLast? with
  | none => exact True.intro
  | some name =>
    dsimp only
    cases findTypeEntry env d currentClass _ name with
    | none => exact True.intro
    | some type =>
      dsimp only
      rcases translateInstantiations_same translate htr _ [] [] n1 n2 List.Forall₂.nil with
        ⟨h1, h2⟩ | ⟨m1, m2, h1, h2⟩ | ⟨l1, l2, m1, m2, h1, h2, hl⟩
      · rw [h1, h2]
        exact True.intro
      · rw [h1, h2]
        exact True.intro
      · rw [h1, h2]
        dsimp only
        apply hpat
        exact SameDescriptor.mk _ _ rfl rfl rfl rfl rfl hl Option.Rel.none rfl

theorem translateArrayOrPlain_same (env : Env) (d : Option AbstractMetaBuilderPrivate)
    (currentClass : Option AbstractMetaClass)
    (hpat : ∀ a b, SameDescriptor a b →
      SameDescriptor (env.decideUsagePattern a) (env.decideUsagePattern b))
    (translate : TypeInfo → Nat → TranslateResult)
    (htr : ∀ ti n1 n2, SameOutcome (translate ti n1) (translate ti n2))
    (typei typeInfo : TypeInfo) (constCharStar : Bool) (n1 n2 : Nat) :
    SameOutcome
      (translateArrayOrPlain env d currentClass translate typei typeInfo constCharStar n1)
      (translateArrayOrPlain env d currentClass translate typei typeInfo constCharStar n2) := by
  unfold translateArrayOrPlain
  by_cases hc : (!typeInfo.arrayElements.isEmpty && !constCharStar) = true
  · rw [if_pos hc, if_pos hc]
    rcases sameOutcome_cases (htr (arrayElementInfo env typeInfo) n1 n2) with
      ⟨h1, h2⟩ | ⟨m1, m2, h1, h2⟩ | ⟨a, b, m1, m2, h1, h2, hab⟩
    · rw [h1, h2]
      exact True.intro
    · rw [h1, h2]
      exact True.intro
    · rw [h1, h2]
      exact wrapArrays_same env d hpat _ a b m1 m2 hab
  · rw [if_neg hc, if_neg hc]
    exact translatePlainType_same env d currentClass hpat translate htr _ _ n1 n2

theorem translateResolved_same (env : Env) (d : Option AbstractMetaBuilderPrivate)
    (currentClass : Option AbstractMetaClass)
    (hpat : ∀ a b, SameDescriptor a b →
      SameDescriptor (env.decideUsagePattern a) (env.decideUsagePattern b))
    (translate : TypeInfo → Nat → TranslateResult)
    (htr : ∀ ti n1 n2, SameOutcome (translate ti n1) (translate ti n2))
    (typei : TypeInfo) (resolveType : Bool) (n1 n2 : Nat) :
    SameOutcome (translateResolved env d currentClass translate typei resolveType n1)
      (translateResolved env d currentClass translate typei resolveType n2) := by
  unfold translateResolved
  dsimp only
  by_cases hf : (resolvedTypeInfo env d typei resolveType).isFunctionPointer = true
  · rw [if_pos hf, if_pos hf]
    exact True.intro
  · rw [if_neg hf, if_neg hf]
    exact translateArrayOrPlain_same env d currentClass hpat translate htr _ _ _ n1 n2

theorem translateTypeStatic_same (env : Env) (d : Option AbstractMetaBuilderPrivate)
    (currentClass : Option AbstractMetaClass)
    (hpat : ∀ a b, SameDescriptor a b →
      SameDescriptor (env.decideUsagePattern a) (env.decideUsagePattern b)) :
    ∀ (fuel : Nat) (typei : TypeInfo) (resolveType : Bool) (n1 n2 : Nat),
      SameOutcome (translateTypeStatic env d currentClass fuel typei resolveType n1)
        (translateTypeStatic env d currentClass fuel typei resolveType n2) := by
  intro fuel
  induction fuel with
  | zero =>
    intro typei resolveType n1 n2
    exact True.intro
  | succ fuel ih =>
    intro typei resolveType n1 n2
    unfold translateTypeStatic
    dsimp only
    cases resolveType with
    | false =>
      exact translateResolved_same env d currentClass hpat _ (fun ti m1 m2 => ih ti true m1 m2)
        typei false n1 n2
    | true =>
      rcases sameOutcome_cases (ih typei false n1 n2) with
        ⟨h1, h2⟩ | ⟨m1, m2, h1, h2⟩ | ⟨a, b, m1, m2, h1, h2, hab⟩
      · simp only [if_true, h1, h2]
        exact True.intro
      · simp only [if_true, h1, h2]
        exact translateResolved_same env d currentClass hpat _
          (fun ti k1 k2 => ih ti true k1 k2) typei true m1 m2
      · simp only [if_true, h1, h2]
        exact hab

/-- C11: two calls of `translateTypeStatic` with the same arguments, whatever
addresses the type entries get that the calls create, both reach the bound on
the call depth, both fail, or both return a type, and then the two descriptors
agree in the kind and qualified name of the type entry, in indirections,
reference kind and constness, in the instantiations and, for an array, in the
element type and count.  `decideUsagePattern`, whose code is not part of the
sources, is taken not to look at the identity of type entry objects. -/
theorem translateTypeStatic_idempotent (env : Env) (d : Option AbstractMetaBuilderPrivate)
    (currentClass : Option AbstractMetaClass)
    (hpat : ∀ a b, SameDescriptor a b →
      SameDescriptor (env.decideUsagePattern a) (env.decideUsagePattern b))
    (fuel : Nat) (typei : TypeInfo) (resolveType : Bool) (n1 n2 : Nat) :
    SameOutcome (translateTypeStatic env d currentClass fuel typei resolveType n1)
      (translateTypeStatic env d currentClass fuel typei resolveType n2) :=
  translateTypeStatic_same env d currentClass hpat fuel typei resolveType n1 n2

/-- Witness of C11: the array type `int[2]` is translated twice; the second call
starts with the address that the first call has left.  Both calls return an
array type of two elements of type `int`, with two different `ArrayTypeEntry`
objects. -/
theorem translateTypeStatic_idempotent_witness :
    ((translateTypeStatic arrayEnv none none 5 intArrayInfo true 0).bind
        (fun r => r.1.map (fun t => (t.typeEntry.addr, t.typeEntry.type, r.2)))
      = some (0, .ArrayType, 1)) ∧
    ((translateTypeStatic arrayEnv none none 5 intArrayInfo true 1).bind
        (fun r => r.1.map (fun t => (t.typeEntry.addr, t.typeEntry.type, r.2)))
      = some (1, .ArrayType, 2)) ∧
    ((translateTypeStatic arrayEnv none none 5 intArrayInfo true 0).bind
        (fun r => r.1.map (fun t =>
          (t.arrayElementCount, t.arrayElementType.map (fun e => e.typeEntry.name))))
      = some (some 2, some "int")) ∧
    SameOutcome (translateTypeStatic arrayEnv none none 5 intArrayInfo true 0)
      (translateTypeStatic arrayEnv none none 5 intArrayInfo true 1) :=
  ⟨by decide, by decide, by decide,
    translateTypeStatic_idempotent arrayEnv none none (fun _ _ h => h) 5 intArrayInfo true 0 1⟩

/-! ## Rejection of classes -/

theorem classRejectReason_cases (env : Env) (fullClassName : String) :
    StatedRejection env fullClassName (classRejectReason env fullClassName) ∨
    (classRejectReason env fullClassName = .NoReason ∧
      ∃ type, env.types.findComplexType fullClassName = some type) := by
  unfold classRejectReason StatedRejection
  by_cases h1 : env.types.isClassRejected fullClassName = true
  · rw [if_pos h1]
    exact Or.inl (Or.inl ⟨h1, rfl⟩)
  · have h1f : env.types.isClassRejected fullClassName = false := by simpa using h1
    rw [if_neg h1]
    cases h2 : env.types.findComplexType fullClassName with
    | none =>
      dsimp only
      cases hf : env.types.findType fullClassName with
      | none =>
        exact Or.inl (Or.inr (Or.inr (Or.inl ⟨h1f, rfl, by simp, rfl⟩)))
      | some te =>
        dsimp only
        by_cases hc : te.isComplex = true
        · rw [if_neg (by simp [hc])]
          refine Or.inl (Or.inr (Or.inr (Or.inl ⟨h1f, rfl, ?_, rfl⟩)))
          rintro ⟨te1, ht1, hc1⟩
          cases ht1
          rw [hc] at hc1
          cases hc1
        · rw [if_pos (by simpa using hc)]
          exact Or.inl (Or.inr (Or.inl ⟨h1f, rfl, ⟨te, rfl, by simpa using hc⟩, rfl⟩))
    | some type =>
      dsimp only
      by_cases h3 : type.codeGeneration = GenerateNothing
      · rw [if_pos (by simp [h3])]
        exact Or.inl (Or.inr (Or.inr (Or.inr ⟨h1f, ⟨type, rfl, h3⟩, rfl⟩)))
      · rw [if_neg (by simpa using h3)]
        exact Or.inr ⟨rfl, type, rfl⟩

theorem setIncludeOfEntry_rejectedClasses (env : Env) (d : AbstractMetaBuilderPrivate)
    (te : TypeEntry) (fileName : String) :
    (setIncludeOfEntry env d te fileName).m_rejectedClasses = d.m_rejectedClasses := by
  unfold setIncludeOfEntry setInclude
  split <;> rename_i heq
  · split at heq
    · cases heq; rfl
    · split at heq
      · cases heq
      · cases heq; rfl
  · split at heq
    · cases heq
    · split at heq
      · cases heq; rfl
      · cases heq

theorem ite_setIncludeOfEntry_rejectedClasses (c : Bool) (env : Env)
    (d : AbstractMetaBuilderPrivate) (te : TypeEntry) (fileName : String) :
    (if c = true then setIncludeOfEntry env d te fileName else d).m_rejectedClasses
      = d.m_rejectedClasses := by
  split
  · exact setIncludeOfEntry_rejectedClasses env d te fileName
  · rfl

theorem enumTypeEntry_rejectedClasses (env : Env) (d : AbstractMetaBuilderPrivate)
    (enumItem : EnumModelItem) :
    (enumTypeEntry env d enumItem).2.2.m_rejectedClasses = d.m_rejectedClasses := by
  unfold enumTypeEntry
  dsimp only
  split
  · rfl
  · split <;> rfl

theorem traverseEnum_rejectedClasses (env : Env) (d : AbstractMetaBuilderPrivate)
    (enumItem : EnumModelItem) (enclosing : Option ClassId) (enumsDeclarations : List String) :
    (traverseEnum env d enumItem enclosing enumsDeclarations).2.m_rejectedClasses
      = d.m_rejectedClasses := by
  have h0 := enumTypeEntry_rejectedClasses env d enumItem
  unfold traverseEnum
  generalize enumTypeEntry env d enumItem = p at h0 ⊢
  obtain ⟨typeEntry, qualifiedName, d1⟩ := p
  dsimp only at h0 ⊢
  cases hrej : env.types.isEnumRejected (enumClassName d1 enclosing) enumItem.name with
  | some rr => exact h0
  | none =>
    dsimp only
    cases typeEntry with
    | none => exact h0
    | some te =>
      dsimp only
      split
      · exact h0
      · exact (ite_setIncludeOfEntry_rejectedClasses _ env _ _ _).trans h0

theorem traverseEnums_rejectedClasses (env : Env) (metaClass : ClassId)
    (enumsDeclarations : List String) :
    ∀ (l : List EnumModelItem) (d : AbstractMetaBuilderPrivate),
      (traverseEnums env metaClass enumsDeclarations l d).m_rejectedClasses
        = d.m_rejectedClasses := by
  intro l
  induction l with
  | nil => intro d; rfl
  | cons enumItem rest ih =>
    intro d
    unfold traverseEnums
    have h := traverseEnum_rejectedClasses env d enumItem (some metaClass) enumsDeclarations
    cases hres : traverseEnum env d enumItem (some metaClass) enumsDeclarations with
    | mk r d1 =>
      rw [hres] at h
      cases r with
      | none => dsimp only; rw [ih]; exact h
      | some metaEnum => dsimp only; rw [ih]; exact h

theorem parseQ_PropertyLoop_rejectedClasses (env : Env) (metaClass : ClassId)
    (scopes : List String) :
    ∀ (l : List String) (i : Nat) (d d1 : AbstractMetaBuilderPrivate),
      parseQ_PropertyLoop env metaClass scopes l i d = some d1 →
      d1.m_rejectedClasses = d.m_rejectedClasses := by
  intro l
  induction l with
  | nil =>
    intro i d d1 h
    simp only [parseQ_PropertyLoop, Option.some.injEq] at h
    rw [← h]
  | cons declaration rest ih =>
    intro i d d1 h
    unfold parseQ_PropertyLoop at h
    dsimp only at h
    split at h
    · exact ih _ _ _ h
    · split at h
      · cases h
      · have h1 := ih _ _ _ h
        exact h1

theorem parseQ_Property_rejectedClasses (env : Env) (d : AbstractMetaBuilderPrivate)
    (metaClass : ClassId) (declarations : List String) (d1 : AbstractMetaBuilderPrivate)
    (h : parseQ_Property env d metaClass declarations = some d1) :
    d1.m_rejectedClasses = d.m_rejectedClasses :=
  parseQ_PropertyLoop_rejectedClasses env _ _ _ _ _ _ h

theorem addAbstractMetaClass_rejectedClasses (env : Env) (next : ClassId)
    (d : AbstractMetaBuilderPrivate) (cls : ClassId) (item : CodeModelItem) :
    (addAbstractMetaClass env next d cls item).2.m_rejectedClasses = d.m_rejectedClasses := by
  unfold addAbstractMetaClass
  dsimp only
  split
  · rfl
  · split
    · rfl
    · split <;> rfl

theorem addAddedFunctionToClass_rejectedClasses (d : AbstractMetaBuilderPrivate) (cls : ClassId)
    (metaFunction : AbstractMetaFunction) :
    (addAddedFunctionToClass d cls metaFunction).2.m_rejectedClasses = d.m_rejectedClasses := by
  unfold addAddedFunctionToClass
  rfl

theorem fillAddedFunctionsAux_rejectedClasses (env : Env) (cls : ClassId) :
    ∀ (l : List AddedFunction) (d d1 : AbstractMetaBuilderPrivate),
      fillAddedFunctionsAux env cls l d = some d1 →
      d1.m_rejectedClasses = d.m_rejectedClasses := by
  intro l
  induction l with
  | nil =>
    intro d d1 h
    simp only [fillAddedFunctionsAux, Option.some.injEq] at h
    rw [← h]
  | cons a rest ih =>
    intro d d1 h
    simp only [fillAddedFunctionsAux] at h
    cases hres : traverseAddedFunction env d a (some cls) with
    | none => rw [hres] at h; cases h
    | some p =>
      obtain ⟨r, d2⟩ := p
      rw [hres] at h
      cases r with
      | none => cases h
      | some f =>
        dsimp only at h
        rw [ih _ _ h]
        unfold traverseAddedFunction at hres
        dsimp only at hres
        split at hres
        · cases hres
        · split at hres
          · cases hres
          · cases hres
          · simp only [Option.some.injEq, Prod.mk.injEq] at hres
            rw [← hres.2]
            exact addAddedFunctionToClass_rejectedClasses _ _ _

theorem traverseTypeDef_rejectedClasses (env : Env) (next : ClassId)
    (d : AbstractMetaBuilderPrivate) (typeDef : TypeDefModelItem) (currentClass : Option ClassId)
    (r : Option ClassId × ClassId × AbstractMetaBuilderPrivate)
    (h : traverseTypeDef env next d typeDef currentClass = some r) :
    r.2.2.m_rejectedClasses = d.m_rejectedClasses := by
  unfold traverseTypeDef at h
  dsimp only at h
  split at h
  · split at h
    · cases h
    · cases h; rfl
  · split at h
    · cases h; rfl
    · split at h
      · cases h
      · rename_i d3 hfill
        cases h
        dsimp only
        unfold fillAddedFunctions at hfill
        rw [fillAddedFunctionsAux_rejectedClasses env _ _ _ _ hfill]
        split
        · rw [setIncludeOfEntry_rejectedClasses]; rfl
        · rfl

theorem traverseClassTypeDefs_rejectedClasses (env : Env) (metaClass : ClassId) :
    ∀ (l : List TypeDefModelItem) (next : ClassId) (d : AbstractMetaBuilderPrivate)
      (r : ClassId × AbstractMetaBuilderPrivate),
      traverseClassTypeDefs env metaClass l next d = some r →
      r.2.m_rejectedClasses = d.m_rejectedClasses := by
  intro l
  induction l with
  | nil =>
    intro next d r h
    simp only [traverseClassTypeDefs, Option.some.injEq] at h
    rw [← h]
  | cons typeDef rest ih =>
    intro next d r h
    unfold traverseClassTypeDefs at h
    cases hres : traverseTypeDef env next d typeDef (some metaClass) with
    | none => rw [hres] at h; cases h
    | some p =>
      have hp := traverseTypeDef_rejectedClasses env next d typeDef _ p hres
      obtain ⟨c, next1, d1⟩ := p
      rw [hres] at h
      cases c with
      | none =>
        dsimp only at h
        rw [ih _ _ _ h]
        exact hp
      | some cls =>
        dsimp only at h
        rw [ih _ _ _ h, addAbstractMetaClass_rejectedClasses]
        exact hp

theorem mem_rejectInsert {m : List (String × RejectReason)} {key : String} {r : RejectReason}
    {e : String × RejectReason} (h : e ∈ rejectInsert m key r) : e ∈ m ∨ e = (key, r) := by
  unfold rejectInsert at h
  split at h
  · rw [List.mem_map] at h
    obtain ⟨a, ha, hae⟩ := h
    split at hae
    · exact Or.inr hae.symm
    · rw [← hae]; exact Or.inl ha
  · rw [List.mem_append, List.mem_singleton] at h
    exact h

mutual
theorem traverseClass_returns (env : Env) :
    ∀ (t : ClassTree) (currentClass : Option ClassId) (next : ClassId)
      (d : AbstractMetaBuilderPrivate), t.all hasPlainMembers = true →
      ∃ r, traverseClass env t currentClass next d = some r
  | .node classItem classes, currentClass, next, d, h => by
    unfold ClassTree.all at h
    rw [Bool.and_eq_true] at h
    obtain ⟨hitem, hrest⟩ := h
    unfold hasPlainMembers at hitem
    rw [Bool.and_eq_true, List.isEmpty_iff, List.isEmpty_iff] at hitem
    unfold traverseClass
    dsimp only
    split
    · exact ⟨_, rfl⟩
    · split
      · exact ⟨_, rfl⟩
      · rw [hitem.1, hitem.2]
        unfold parseQ_Property parseQ_PropertyLoop
        dsimp only
        obtain ⟨⟨next4, d4⟩, hr⟩ := traverseInnerClasses_returns env next classes (next + 1)
          (traverseEnums env next classItem.enumsDeclarations classItem.enums
            (setClass d next (newMetaClass classItem (by assumption)))) hrest
        rw [hr]
        dsimp only
        unfold traverseClassTypeDefs
        exact ⟨_, rfl⟩
theorem traverseInnerClasses_returns (env : Env) (metaClass : ClassId) :
    ∀ (l : List ClassTree) (next : ClassId) (d : AbstractMetaBuilderPrivate),
      ClassTree.allOfList hasPlainMembers l = true →
      ∃ r, traverseInnerClasses env metaClass l next d = some r
  | [], next, d, _ => by
    unfold traverseInnerClasses
    exact ⟨_, rfl⟩
  | ci :: rest, next, d, h => by
    unfold ClassTree.allOfList at h
    rw [Bool.and_eq_true] at h
    obtain ⟨⟨c, next1, d1⟩, hr⟩ := traverseClass_returns env ci (some metaClass) next d h.1
    unfold traverseInnerClasses
    rw [hr]
    cases c with
    | none => exact traverseInnerClasses_returns env metaClass rest _ _ h.2
    | some cl => exact traverseInnerClasses_returns env metaClass rest _ _ h.2
end

mutual
theorem traverseClass_records (env : Env) :
    ∀ (t : ClassTree) (currentClass : Option ClassId) (next : ClassId)
      (d : AbstractMetaBuilderPrivate) (r : Option ClassId × ClassId × AbstractMetaBuilderPrivate),
      traverseClass env t currentClass next d = some r →
      ∀ e ∈ r.2.2.m_rejectedClasses, e ∈ d.m_rejectedClasses ∨ StatedRejection env e.1 e.2
  | .node classItem classes, currentClass, next, d, r, h => by
    unfold traverseClass at h
    dsimp only at h
    split at h
    · rename_i hne
      cases h
      intro e he
      rcases mem_rejectInsert he with h1 | h1
      · exact Or.inl h1
      · right
        rw [h1]
        rcases classRejectReason_cases env (fullClassName d classItem currentClass) with h2 | h2
        · exact h2
        · rw [h2.1] at hne
          simp at hne
    · split at h
      · cases h
        intro e he
        exact Or.inl he
      · split at h
        · cases h
        · rename_i d2 hprop
          split at h
          · cases h
          · rename_i next4 d4 hinner
            split at h
            · cases h
            · rename_i next5 d5 htd
              cases h
              intro e he
              have h5 : d5.m_rejectedClasses = d4.m_rejectedClasses :=
                traverseClassTypeDefs_rejectedClasses env _ _ _ _ _ htd
              have h2 : d2.m_rejectedClasses = d.m_rejectedClasses := by
                have h3 := parseQ_Property_rejectedClasses env _ _ _ _ hprop
                exact h3
              have he4 : e ∈ d4.m_rejectedClasses := by
                rw [← h5]
                dsimp only at he
                split at he
                · rw [setIncludeOfEntry_rejectedClasses] at he
                  exact he
                · exact he
              rcases traverseInnerClasses_records env next classes _ _ _ hinner e he4 with h6 | h6
              · rw [traverseEnums_rejectedClasses, h2] at h6
                exact Or.inl h6
              · exact Or.inr h6
theorem traverseInnerClasses_records (env : Env) (metaClass : ClassId) :
    ∀ (l : List ClassTree) (next : ClassId) (d : AbstractMetaBuilderPrivate)
      (r : ClassId × AbstractMetaBuilderPrivate),
      traverseInnerClasses env metaClass l next d = some r →
      ∀ e ∈ r.2.m_rejectedClasses, e ∈ d.m_rejectedClasses ∨ StatedRejection env e.1 e.2
  | [], next, d, r, h => by
    unfold traverseInnerClasses at h
    cases h
    intro e he
    exact Or.inl he
  | ci :: rest, next, d, r, h => by
    unfold traverseInnerClasses at h
    cases hres : traverseClass env ci (some metaClass) next d with
    | none => rw [hres] at h; cases h
    | some p =>
      have hp := traverseClass_records env ci (some metaClass) next d p hres
      obtain ⟨c, next1, d1⟩ := p
      rw [hres] at h
      intro e he
      cases c with
      | none =>
        dsimp only at h
        rcases traverseInnerClasses_records env metaClass rest _ _ _ h e he with h1 | h1
        · exact hp e h1
        · exact Or.inr h1
      | some cl =>
        dsimp only at h
        rcases traverseInnerClasses_records env metaClass rest _ _ _ h e he with h1 | h1
        · rw [addAbstractMetaClass_rejectedClasses] at h1
          exact hp e h1
        · exact Or.inr h1
end

theorem traverseArguments_unmatched (env : Env) (d : AbstractMetaBuilderPrivate)
    (currentClass : Option ClassId) (className sig : String) (arg : ArgumentModelItem)
    (post : List ArgumentModelItem)
    (hnone : env.translateType d.heap d.m_metaClasses d.m_templates arg.type currentClass = none)
    (hdef : arg.defaultValue = false) :
    ∀ (pre : List ArgumentModelItem) (i : Nat) (acc : List AbstractMetaArgument),
      (∀ a ∈ pre,
        (env.translateType d.heap d.m_metaClasses d.m_templates a.type currentClass).isSome
          = true) →
      ∃ key reason,
        traverseArguments env d currentClass className sig i (pre ++ arg :: post) acc
          = .rejected key reason := by
  intro pre
  induction pre with
  | nil =>
    intro i acc _
    rw [List.nil_append]
    unfold traverseArguments
    cases env.types.isArgumentTypeRejected className arg.type.toString with
    | some r => exact ⟨_, _, rfl⟩
    | none =>
      dsimp only
      rw [hnone]
      dsimp only
      rw [hdef]
      exact ⟨_, _, rfl⟩
  | cons a rest ih =>
    intro i acc hpre
    rw [List.cons_append]
    unfold traverseArguments
    cases env.types.isArgumentTypeRejected className a.type.toString with
    | some r => exact ⟨_, _, rfl⟩
    | none =>
      dsimp only
      have ha := hpre a (List.mem_cons_self _ _)
      cases ht : env.translateType d.heap d.m_metaClasses d.m_templates a.type currentClass with
      | none => rw [ht] at ha; cases ha
      | some t =>
        dsimp only
        exact ih _ _ (fun b hb => hpre b (List.mem_cons_of_mem _ hb))

theorem traverseArguments_stripped (env : Env) (d : AbstractMetaBuilderPrivate)
    (currentClass : Option ClassId) (className sig : String) (arg : ArgumentModelItem)
    (post : List ArgumentModelItem)
    (hrej : env.types.isArgumentTypeRejected className arg.type.toString = none)
    (hnone : env.translateType d.heap d.m_metaClasses d.m_templates arg.type currentClass = none)
    (hdef : arg.defaultValue = true) :
    ∀ (pre : List ArgumentModelItem) (i : Nat) (acc : List AbstractMetaArgument),
      (∀ a ∈ pre, env.types.isArgumentTypeRejected className a.type.toString = none ∧
        (env.translateType d.heap d.m_metaClasses d.m_templates a.type currentClass).isSome
          = true) →
      ∃ ms, traverseArguments env d currentClass className sig i (pre ++ arg :: post) acc
          = .accepted ms ∧ ms.length = acc.length + pre.length := by
  intro pre
  induction pre with
  | nil =>
    intro i acc _
    rw [List.nil_append]
    unfold traverseArguments
    rw [hrej]
    dsimp only
    rw [hnone]
    dsimp only
    rw [hdef]
    exact ⟨acc, rfl, rfl⟩
  | cons a rest ih =>
    intro i acc hpre
    rw [List.cons_append]
    unfold traverseArguments
    obtain ⟨hr, ha⟩ := hpre a (List.mem_cons_self _ _)
    rw [hr]
    dsimp only
    cases ht : env.translateType d.heap d.m_metaClasses d.m_templates a.type currentClass with
    | none => rw [ht] at ha; cases ha
    | some t =>
      dsimp only
      obtain ⟨ms, h1, h2⟩ := ih (i + 1) (acc ++ [{ type := t, name := a.name, argumentIndex := i }])
        (fun b hb => hpre b (List.mem_cons_of_mem _ hb))
      refine ⟨ms, h1, ?_⟩
      rw [h2, List.length_append, List.length_cons, List.length_cons, List.length_nil]
      omega

/-- The variable `arguments` of `traverseFunction`: the argument list of the
item, unless it is the single argument `void`. -/
theorem effectiveArguments_eq (arguments : List ArgumentModelItem) :
    (∀ a, arguments = [a] →
      (a.type.qualifiedName.head? == some "void" && a.type.indirections == 0) = false) →
    (match arguments with
      | [arg] =>
        if arg.type.qualifiedName.head? == some "void" && arg.type.indirections == 0 then []
        else [arg]
      | args => args) = arguments := by
  intro h
  match arguments, h with
  | [], _ => rfl
  | [a], h =>
    dsimp only
    rw [h a rfl]
    rfl
  | _ :: _ :: _, _ => rfl

theorem traverseFunctionArguments_accepted_length (env : Env) (d : AbstractMetaBuilderPrivate)
    (item : FunctionModelItem) (currentClass : Option ClassId) (className sig : String)
    (f0 : AbstractMetaFunction) (ms : List AbstractMetaArgument)
    (hargs : ∀ a, item.arguments = [a] →
      (a.type.qualifiedName.head? == some "void" && a.type.indirections == 0) = false)
    (h : traverseArguments env d currentClass className sig 0 item.arguments [] = .accepted ms) :
    ∃ f, (traverseFunctionArguments env d item currentClass className sig f0).1 = some f ∧
      f.arguments.length = ms.length := by
  unfold traverseFunctionArguments
  rw [effectiveArguments_eq item.arguments hargs]
  dsimp only
  rw [h]
  dsimp only
  refine ⟨_, rfl, ?_⟩
  rw [determineSpecialFunction_arguments]
  split
  · unfold applyArrayArgumentModifications
    rw [applyArrayArgumentModificationsAux_length, fixArgumentNames_length,
      foldl_setDefaultValue_length, applyExceptionAndThreadMods_arguments]
  · rw [foldl_setDefaultValue_length, applyExceptionAndThreadMods_arguments]

theorem traverseFunctionArguments_rejected (env : Env) (d : AbstractMetaBuilderPrivate)
    (item : FunctionModelItem) (currentClass : Option ClassId) (className sig : String)
    (f0 : AbstractMetaFunction) (key : String) (reason : RejectReason)
    (hargs : ∀ a, item.arguments = [a] →
      (a.type.qualifiedName.head? == some "void" && a.type.indirections == 0) = false)
    (h : traverseArguments env d currentClass className sig 0 item.arguments []
      = .rejected key reason) :
    (traverseFunctionArguments env d item currentClass className sig f0).1 = none := by
  unfold traverseFunctionArguments
  rw [effectiveArguments_eq item.arguments hargs]
  dsimp only
  rw [h]

theorem traverseFunction_none_of_arguments (env : Env) (d : AbstractMetaBuilderPrivate)
    (item : FunctionModelItem) (currentClass : Option ClassId)
    (h : ∀ className sig f0,
      (traverseFunctionArguments env d item currentClass className sig f0).1 = none) :
    (traverseFunction env d item currentClass).1 = none := by
  unfold traverseFunction
  split
  · rfl
  · dsimp only
    split
    · rfl
    · split
      · rfl
      · split
        · rfl
        · split
          · rfl
          · split
            · rfl
            · split
              · rfl
              · exact h _ _ _

theorem traverseFunction_none_of_returnType (env : Env) (d : AbstractMetaBuilderPrivate)
    (item : FunctionModelItem) (currentClass : Option ClassId)
    (h : ∀ className sig f0, f0.functionType = functionTypeFromCodeModel item.functionType →
      ∃ e, traverseFunctionReturnType env d item currentClass className sig f0 = .inr e) :
    (traverseFunction env d item currentClass).1 = none := by
  unfold traverseFunction
  split
  · rfl
  · dsimp only
    split
    · rfl
    · split
      · rfl
      · split
        · rfl
        · split
          · rfl
          · split
            · rfl
            · split
              · rfl
              · rename_i f1 hret
                have key : ∀ cn sig f0 r,
                    traverseFunctionReturnType env d item currentClass cn sig f0 = r →
                    f0.functionType = functionTypeFromCodeModel item.functionType →
                    ∃ e, r = .inr e := fun cn sig f0 r hr hf => hr ▸ h cn sig f0 hf
                obtain ⟨e, he⟩ := key _ _ _ _ hret rfl
                cases he

theorem traverseFunctionReturnType_unmatched (env : Env) (d : AbstractMetaBuilderPrivate)
    (item : FunctionModelItem) (currentClass : Option ClassId) (className sig : String)
    (f0 : AbstractMetaFunction)
    (hf : f0.functionType = functionTypeFromCodeModel item.functionType)
    (hc : item.functionType ≠ .Constructor) (hd : item.functionType ≠ .Destructor)
    (hvoid : item.type.isVoid = false)
    (hnone : env.translateType d.heap d.m_metaClasses d.m_templates item.type currentClass
      = none) :
    ∃ e, traverseFunctionReturnType env d item currentClass className sig f0 = .inr e := by
  have hnd : f0.functionType ≠ .DestructorFunction := by
    rw [hf]
    cases hft : item.functionType <;> first | exact absurd hft hd | (intro h; cases h)
  have hnc : f0.functionType ≠ .ConstructorFunction := by
    rw [hf]
    cases hft : item.functionType <;> first | exact absurd hft hc | (intro h; cases h)
  unfold traverseFunctionReturnType
  split
  · rename_i h
    exact absurd h hnd
  · rename_i h
    exact absurd h hnc
  · dsimp only
    cases env.types.isReturnTypeRejected className item.type.toString with
    | some r => exact ⟨_, rfl⟩
    | none =>
      dsimp only
      rw [hvoid, hnone]
      exact ⟨_, rfl⟩

theorem traverseArguments_preceding (env : Env) (d : AbstractMetaBuilderPrivate)
    (currentClass : Option ClassId) (className sig : String) (arg : ArgumentModelItem)
    (post : List ArgumentModelItem)
    (hrej : env.types.isArgumentTypeRejected className arg.type.toString = none)
    (hnone : env.translateType d.heap d.m_metaClasses d.m_templates arg.type currentClass = none)
    (hdef : arg.defaultValue = true) :
    ∀ (pre : List ArgumentModelItem) (i : Nat) (acc : List AbstractMetaArgument),
      (∀ a ∈ pre, env.types.isArgumentTypeRejected className a.type.toString = none ∧
        (env.translateType d.heap d.m_metaClasses d.m_templates a.type currentClass).isSome
          = true) →
      ∃ ms, traverseArguments env d currentClass className sig i (pre ++ arg :: post) acc
          = .accepted (acc ++ ms) ∧
        traverseArguments env d currentClass className sig i pre acc = .accepted (acc ++ ms) ∧
        ms.length = pre.length ∧
        ∀ (k : Nat) (a : ArgumentModelItem), pre[k]? = some a →
          ∃ t, env.translateType d.heap d.m_metaClasses d.m_templates a.type currentClass
              = some t ∧
            ms[k]? = some { type := t, name := a.name, argumentIndex := i + k } := by
  intro pre
  induction pre with
  | nil =>
    intro i acc _
    refine ⟨[], ?_, ?_, rfl, ?_⟩
    · rw [List.nil_append, List.append_nil]
      unfold traverseArguments
      rw [hrej]
      dsimp only
      rw [hnone]
      dsimp only
      rw [hdef]
      rfl
    · rw [List.append_nil]
      unfold traverseArguments
      rfl
    · intro k a hk
      simp at hk
  | cons a rest ih =>
    intro i acc hpre
    obtain ⟨hr, ha⟩ := hpre a (List.mem_cons_self _ _)
    cases ht : env.translateType d.heap d.m_metaClasses d.m_templates a.type currentClass with
    | none => rw [ht] at ha; cases ha
    | some t =>
      obtain ⟨ms, h1, h2, h3, h4⟩ := ih (i + 1)
        (acc ++ [{ type := t, name := a.name, argumentIndex := i }])
        (fun b hb => hpre b (List.mem_cons_of_mem _ hb))
      refine ⟨{ type := t, name := a.name, argumentIndex := i } :: ms, ?_, ?_, ?_, ?_⟩
      · rw [List.cons_append]
        unfold traverseArguments
        rw [hr]
        dsimp only
        rw [ht]
        dsimp only
        rw [h1, List.append_assoc]
        rfl
      · unfold traverseArguments
        rw [hr]
        dsimp only
        rw [ht]
        dsimp only
        rw [h2, List.append_assoc]
        rfl
      · simp [h3]
      · intro k b hk
        cases k with
        | zero =>
          simp only [List.getElem?_cons_zero, Option.some.injEq] at hk
          subst hk
          exact ⟨t, ht, by simp⟩
        | succ k =>
          rw [List.getElem?_cons_succ] at hk
          obtain ⟨t1, ht1, hm⟩ := h4 k b hk
          refine ⟨t1, ht1, ?_⟩
          rw [List.getElem?_cons_succ, hm]
          congr 2
          omega

theorem setDefaultValue_arguments_congr (env : Env) (d : AbstractMetaBuilderPrivate)
    (currentClass : Option ClassId) (functionMods : List FunctionModification)
    (arguments1 arguments2 : List ArgumentModelItem) (f : AbstractMetaFunction) (i : Nat)
    (h : arguments1[i]? = arguments2[i]?) :
    setDefaultValue env d currentClass functionMods arguments1 f i
      = setDefaultValue env d currentClass functionMods arguments2 f i := by
  unfold setDefaultValue
  rw [h]

theorem foldl_setDefaultValue_arguments_congr (env : Env) (d : AbstractMetaBuilderPrivate)
    (currentClass : Option ClassId) (functionMods : List FunctionModification)
    (arguments1 arguments2 : List ArgumentModelItem) :
    ∀ (l : List Nat) (f : AbstractMetaFunction),
      (∀ i ∈ l, arguments1[i]? = arguments2[i]?) →
      l.foldl (setDefaultValue env d currentClass functionMods arguments1) f
        = l.foldl (setDefaultValue env d currentClass functionMods arguments2) f := by
  intro l
  induction l with
  | nil => intro f _; rfl
  | cons i rest ih =>
    intro f h
    rw [List.foldl_cons, List.foldl_cons,
      setDefaultValue_arguments_congr env d currentClass functionMods arguments1 arguments2 f i
        (h i (List.mem_cons_self _ _))]
    exact ih _ (fun j hj => h j (List.mem_cons_of_mem _ hj))

theorem traverseFunctionArguments_preceding (env : Env) (d : AbstractMetaBuilderPrivate)
    (item : FunctionModelItem) (currentClass : Option ClassId) (className sig : String)
    (f0 : AbstractMetaFunction) (pre post : List ArgumentModelItem) (arg : ArgumentModelItem)
    (ms : List AbstractMetaArgument)
    (hargs : ∀ a, item.arguments = [a] →
      (a.type.qualifiedName.head? == some "void" && a.type.indirections == 0) = false)
    (hpre : ∀ a, pre = [a] →
      (a.type.qualifiedName.head? == some "void" && a.type.indirections == 0) = false)
    (hitem : item.arguments = pre ++ arg :: post)
    (hlen : ms.length = pre.length)
    (h1 : traverseArguments env d currentClass className sig 0 item.arguments [] = .accepted ms)
    (h2 : traverseArguments env d currentClass className sig 0 pre [] = .accepted ms) :
    traverseFunctionArguments env d item currentClass className sig f0
      = traverseFunctionArguments env d { item with arguments := pre } currentClass className sig
          f0 := by
  unfold traverseFunctionArguments
  rw [effectiveArguments_eq item.arguments hargs]
  have hp := effectiveArguments_eq pre hpre
  dsimp only at hp ⊢
  rw [hp, h1, h2]
  dsimp only
  rw [foldl_setDefaultValue_arguments_congr env d currentClass _ item.arguments pre
    (List.range ms.length) _ (by
      intro i hi
      rw [List.mem_range, hlen] at hi
      rw [hitem, List.getElem?_append_left hi])]

/-- C13 (amended): `traverseFunction` produces no function when the first
argument whose type cannot be resolved has no default value, and when the
return type of a function that is neither constructor nor destructor is not
void and cannot be resolved.  When the first unresolvable argument has a
default value, the argument stage does not reject: the argument loop yields
exactly the meta arguments of the arguments that precede it, each with its
translated type, its name and its position, and the function goes on as a
function declared with those arguments alone does. -/
theorem traverseFunction_unresolvable_type (env : Env) (d : AbstractMetaBuilderPrivate)
    (item : FunctionModelItem) (currentClass : Option ClassId)
    (hargs : ∀ a, item.arguments = [a] →
      (a.type.qualifiedName.head? == some "void" && a.type.indirections == 0) = false) :
    (∀ pre arg post, item.arguments = pre ++ arg :: post →
      (∀ a ∈ pre,
        (env.translateType d.heap d.m_metaClasses d.m_templates a.type currentClass).isSome
          = true) →
      env.translateType d.heap d.m_metaClasses d.m_templates arg.type currentClass = none →
      arg.defaultValue = false →
      (traverseFunction env d item currentClass).1 = none) ∧
    (item.functionType ≠ .Constructor → item.functionType ≠ .Destructor →
      item.type.isVoid = false →
      env.translateType d.heap d.m_metaClasses d.m_templates item.type currentClass = none →
      (traverseFunction env d item currentClass).1 = none) ∧
    (∀ pre arg post className sig f0, item.arguments = pre ++ arg :: post →
      (∀ a ∈ pre, env.types.isArgumentTypeRejected className a.type.toString = none ∧
        (env.translateType d.heap d.m_metaClasses d.m_templates a.type currentClass).isSome
          = true) →
      env.types.isArgumentTypeRejected className arg.type.toString = none →
      env.translateType d.heap d.m_metaClasses d.m_templates arg.type currentClass = none →
      arg.defaultValue = true →
      ∃ ms f,
        traverseArguments env d currentClass className sig 0 item.arguments [] = .accepted ms ∧
        ms.length = pre.length ∧
        (∀ (k : Nat) (a : ArgumentModelItem), pre[k]? = some a →
          ∃ t, env.translateType d.heap d.m_metaClasses d.m_templates a.type currentClass
              = some t ∧
            ms[k]? = some { type := t, name := a.name, argumentIndex := k }) ∧
        (traverseFunctionArguments env d item currentClass className sig f0).1 = some f ∧
        f.arguments.length = pre.length ∧
        ((∀ a, pre = [a] →
            (a.type.qualifiedName.head? == some "void" && a.type.indirections == 0) = false) →
          traverseFunctionArguments env d item currentClass className sig f0
            = traverseFunctionArguments env d { item with arguments := pre } currentClass
                className sig f0)) := by
  refine ⟨?_, ?_, ?_⟩
  · intro pre arg post hitem hpre hnone hdef
    apply traverseFunction_none_of_arguments
    intro className sig f0
    obtain ⟨key, reason, hrej⟩ := traverseArguments_unmatched env d currentClass className sig
      arg post hnone hdef pre 0 [] hpre
    rw [← hitem] at hrej
    exact traverseFunctionArguments_rejected env d item currentClass className sig f0 key reason
      hargs hrej
  · intro hc hd hvoid hnone
    apply traverseFunction_none_of_returnType
    intro className sig f0 hf
    exact traverseFunctionReturnType_unmatched env d item currentClass className sig f0 hf hc hd
      hvoid hnone
  · intro pre arg post className sig f0 hitem hpre hrej hnone hdef
    obtain ⟨ms, hacc, hacc2, hlen, hms⟩ := traverseArguments_preceding env d currentClass
      className sig arg post hrej hnone hdef pre 0 [] hpre
    rw [← hitem, List.nil_append] at hacc
    rw [List.nil_append] at hacc2
    obtain ⟨f, hf, hfl⟩ := traverseFunctionArguments_accepted_length env d item currentClass
      className sig f0 ms hargs hacc
    refine ⟨ms, f, hacc, hlen, ?_, hf, by rw [hfl, hlen], ?_⟩
    · intro k a hk
      obtain ⟨t, ht, hm⟩ := hms k a hk
      rw [Nat.zero_add] at hm
      exact ⟨t, ht, hm⟩
    · intro hprevoid
      exact traverseFunctionArguments_preceding env d item currentClass className sig f0 pre post
        arg ms hargs hprevoid hitem hlen hacc hacc2

/-- Witness of C13: `void resize(int n, Unknown mode)` gives no function, and
the argument loop for `void resize(int n, Unknown mode = 0)` yields the meta
argument of `n` alone. -/
theorem traverseFunction_unresolvable_type_witness :
    (traverseFunction typedEnv oneClass functionWithUnknown (some 0)).1 = none ∧
    ∃ ms f,
      traverseArguments typedEnv oneClass (some 0) "C" "" 0 functionWithDefault.arguments []
        = .accepted ms ∧
      ms.length = 1 ∧
      (traverseFunctionArguments typedEnv oneClass functionWithDefault (some 0) "C" "" {}).1
        = some f ∧
      f.arguments.length = 1 :=
  ⟨(traverseFunction_unresolvable_type typedEnv oneClass functionWithUnknown (some 0)
    (by intro a h; cases h)).1
    [{ name := "n", type := intTypeInfo }]
    { name := "mode",
      type := { qualifiedName := ["Unknown"], toString := "Unknown", instantiations := [] } }
    [] rfl (by decide) rfl rfl,
   by
    obtain ⟨ms, f, h1, h2, _, h4, h5, _⟩ :=
      (traverseFunction_unresolvable_type typedEnv oneClass functionWithDefault (some 0)
        (by intro a h; cases h)).2.2
        [{ name := "n", type := intTypeInfo }]
        { name := "mode", defaultValue := true, defaultValueExpression := "0",
          type := { qualifiedName := ["Unknown"], toString := "Unknown", instantiations := [] } }
        [] "C" "" {} rfl (by decide) rfl rfl rfl
    exact ⟨ms, f, h1, h2, h4, h5⟩⟩

/-- `void resize(int n, Unknown mode = 0)` is kept as `resize(int)`: the
argument of unknown type and its default value are dropped, the function is
not. -/
theorem traverseFunction_keeps_function_with_fewer_arguments :
    (functionWithDefault.arguments.map (fun a => a.name) = ["n", "mode"] ∧
      (functionWithDefault.arguments.map
        (fun a => (typedEnv.translateType oneClass.heap oneClass.m_metaClasses
          oneClass.m_templates a.type (some 0)).isSome)) = [true, false]) ∧
    ((traverseFunction typedEnv oneClass functionWithDefault (some 0)).1.map
      (fun f => (f.name, f.arguments.map (fun a => a.name)))) = some ("resize", ["n"]) := by
  decide

/-! ## Stream operators -/

theorem traverseStreamOperator_eq (env : Env) (d : AbstractMetaBuilderPrivate)
    (item : FunctionModelItem) (currentClass : Option ClassId) (s c : ArgumentModelItem)
    (S C : ClassId) (f : AbstractMetaFunction)
    (hpub : item.accessPolicy = .Public)
    (hargs : item.arguments = [s, c])
    (hS : argumentToClass env d s currentClass = some S)
    (hC : argumentToClass env d c currentClass = some C)
    (hstream : (d.heap S).stream = true)
    (hf : (traverseFunction env d item (some C)).1 = some f) :
    ∃ d1, d1.heap = d.heap ∧
      traverseStreamOperator env d item currentClass =
        setClass d1 (if !(d.heap S).typeEntry.generateCode then C else S)
          (addFunction
            (setupFunctionDefaults (streamMemberFunction f (d.heap S).typeEntry.generateCode)
              (if !(d.heap S).typeEntry.generateCode then C else S)
              (d.heap (if !(d.heap S).typeEntry.generateCode then C else S))).2
            (if !(d.heap S).typeEntry.generateCode then C else S)
            (setupFunctionDefaults (streamMemberFunction f (d.heap S).typeEntry.generateCode)
              (if !(d.heap S).typeEntry.generateCode then C else S)
              (d.heap (if !(d.heap S).typeEntry.generateCode then C else S))).1) := by
  have hheap := traverseFunction_heap env d item (some C)
  cases hres : traverseFunction env d item (some C) with
  | mk r d1 =>
    rw [hres] at hf hheap
    dsimp only at hf hheap
    subst hf
    refine ⟨d1, hheap, ?_⟩
    unfold traverseStreamOperator
    rw [hargs]
    dsimp only
    rw [hpub, hS, hC]
    dsimp only
    rw [if_pos (by decide), if_pos hstream, hres]
    dsimp only
    rw [hheap]

theorem addFunction_setupFunctionDefaults_functions (f : AbstractMetaFunction) (cls : ClassId)
    (metaClass : AbstractMetaClass) :
    (addFunction (setupFunctionDefaults f cls metaClass).2 cls
      (setupFunctionDefaults f cls metaClass).1).functions =
      metaClass.functions ++
        [{ f with declaringClass := some cls, implementingClass := some cls,
                  ownerClass := some cls }] := by
  unfold addFunction setupFunctionDefaults
  dsimp only
  split <;> rfl

/-- C14 (amended): for a public two-argument stream operator whose first
argument is a known stream class `S` and whose second argument is a known class
`C` for which function traversal succeeds with the function `f`: when `S` is
not code-generated, one function is added to `C`; it is flagged as a reverse
operator and has the arguments of `f` without the last one, reversed.  When `S`
is code-generated, one function is added to `S` instead; it has the arguments
of `f` without the first one and the reverse flag of `f`.  No other class
changes. -/
theorem traverseStreamOperator_home_class (env : Env) (d : AbstractMetaBuilderPrivate)
    (item : FunctionModelItem) (currentClass : Option ClassId) (s c : ArgumentModelItem)
    (S C : ClassId) (f : AbstractMetaFunction)
    (hpub : item.accessPolicy = .Public)
    (hargs : item.arguments = [s, c])
    (hS : argumentToClass env d s currentClass = some S)
    (hC : argumentToClass env d c currentClass = some C)
    (hstream : (d.heap S).stream = true)
    (hf : (traverseFunction env d item (some C)).1 = some f) :
    ((d.heap S).typeEntry.generateCode = false →
      ∃ added,
        ((traverseStreamOperator env d item currentClass).heap C).functions =
          (d.heap C).functions ++ [added] ∧
        added.reverseOperator = true ∧ added.ownerClass = some C ∧
        added.functionType = .GlobalScopeFunction ∧
        added.arguments = reverseList f.arguments.dropLast ∧
        ∀ k, k ≠ C → (traverseStreamOperator env d item currentClass).heap k = d.heap k) ∧
    ((d.heap S).typeEntry.generateCode = true →
      ∃ added,
        ((traverseStreamOperator env d item currentClass).heap S).functions =
          (d.heap S).functions ++ [added] ∧
        added.reverseOperator = f.reverseOperator ∧ added.ownerClass = some S ∧
        added.functionType = .GlobalScopeFunction ∧
        added.arguments = f.arguments.drop 1 ∧
        ∀ k, k ≠ S → (traverseStreamOperator env d item currentClass).heap k = d.heap k) := by
  obtain ⟨d1, hheap, hout⟩ := traverseStreamOperator_eq env d item currentClass s c S C f hpub
    hargs hS hC hstream hf
  constructor
  · intro hgen
    rw [hgen] at hout
    have hsel : (if (!false) = true then C else S) = C := rfl
    rw [hsel] at hout
    rw [hout]
    refine ⟨{ streamMemberFunction f false with
      declaringClass := some C, implementingClass := some C, ownerClass := some C },
      ?_, rfl, rfl, rfl, rfl, ?_⟩
    · simp only [setClass, Function.update_same]
      exact addFunction_setupFunctionDefaults_functions _ _ _
    · intro k hk
      simp only [setClass, Function.update_noteq hk]
      rw [hheap]
  · intro hgen
    rw [hgen] at hout
    have hsel : (if (!true) = true then C else S) = S := rfl
    rw [hsel] at hout
    rw [hout]
    refine ⟨{ streamMemberFunction f true with
      declaringClass := some S, implementingClass := some S, ownerClass := some S },
      ?_, rfl, rfl, rfl, rfl, ?_⟩
    · simp only [setClass, Function.update_same]
      exact addFunction_setupFunctionDefaults_functions _ _ _
    · intro k hk
      simp only [setClass, Function.update_noteq hk]
      rw [hheap]

theorem traverseStreamOperator_home_class_witness :
    writePoint.accessPolicy = .Public ∧
    ((streamModel GenerateForSubclass).heap 0).stream = true ∧
    ((streamModel GenerateForSubclass).heap 0).typeEntry.generateCode = false ∧
    (traverseFunction (streamEnv GenerateForSubclass) (streamModel GenerateForSubclass)
      writePoint (some 1)).1.isSome = true ∧
    ∃ added,
      ((traverseStreamOperator (streamEnv GenerateForSubclass) (streamModel GenerateForSubclass)
          writePoint none).heap 1).functions =
        ((streamModel GenerateForSubclass).heap 1).functions ++ [added] ∧
      added.reverseOperator = true ∧ added.ownerClass = some 1 ∧
      added.functionType = .GlobalScopeFunction ∧
      added.arguments = reverseList
        ((traverseFunction (streamEnv GenerateForSubclass) (streamModel GenerateForSubclass)
          writePoint (some 1)).1.getD {}).arguments.dropLast ∧
      ∀ k, k ≠ 1 →
        (traverseStreamOperator (streamEnv GenerateForSubclass) (streamModel GenerateForSubclass)
          writePoint none).heap k = (streamModel GenerateForSubclass).heap k :=
  ⟨rfl, rfl, by decide, by decide,
   (traverseStreamOperator_home_class (streamEnv GenerateForSubclass)
      (streamModel GenerateForSubclass) writePoint none
      { name := "s",
        type := { qualifiedName := ["Stream"], toString := "Stream&",
                  referenceType := .LValueReference, instantiations := [] } }
      { name := "p",
        type := { qualifiedName := ["Point"], toString := "Point", instantiations := [] } }
      0 1
      ((traverseFunction (streamEnv GenerateForSubclass) (streamModel GenerateForSubclass)
        writePoint (some 1)).1.getD {})
      rfl rfl (by decide) (by decide) rfl
      (eq_some_getD _ {} (by decide))).1 (by decide)⟩

/-- With a code-generated stream class, `Stream &operator<<(Stream &, Point)`
is added to `Stream`, the class of the stream argument, with the argument of
type `Point` and without the reverse flag; `Point` gets no function. -/
theorem traverseStreamOperator_adds_to_stream_class :
    (writePoint.accessPolicy = .Public ∧ writePoint.arguments.map (fun a => a.name) = ["s", "p"] ∧
      writePoint.arguments.map
        (fun a => argumentToClass (streamEnv GenerateAll) (streamModel GenerateAll) a none)
        = [some 0, some 1] ∧
      ((streamModel GenerateAll).heap 0).stream = true ∧
      (traverseFunction (streamEnv GenerateAll) (streamModel GenerateAll) writePoint
        (some 1)).1.isSome = true) ∧
    ((traverseStreamOperator (streamEnv GenerateAll) (streamModel GenerateAll)
        writePoint none).heap 1).functions.map (fun f => f.name) = [] ∧
    ((traverseStreamOperator (streamEnv GenerateAll) (streamModel GenerateAll)
        writePoint none).heap 0).functions.map
      (fun f => (f.name, f.arguments.map (fun a => a.name), f.reverseOperator))
      = [("operator<<", ["p"], false)] := by
  decide

/-! ## Default value expressions -/

/-- The body of the default value loop of `traverseFunction` for the argument
`i`, when the argument has a default value or the replacement expression in
use is not empty: the original expression is the result of `fixDefaultValue`,
and the effective one is empty when the default expression is removed, else
the replacement when it is not empty, else the original.  For a function of a
class the replacement in use is `replacedDefaultExpression(currentClass, i + 1)`;
for a function outside of a class it is the replacement of the first argument
modification of the first function modification, whatever its index. -/
theorem setDefaultValue_expressions (env : Env) (d : AbstractMetaBuilderPrivate)
    (currentClass : Option ClassId) (functionMods : List FunctionModification)
    (arguments : List ArgumentModelItem) (f : AbstractMetaFunction) (i : Nat)
    (arg : ArgumentModelItem) (metaArg : AbstractMetaArgument) (replaced : String)
    (harg : arguments[i]? = some arg) (hmeta : f.arguments[i]? = some metaArg)
    (hrep : replaced =
      match currentClass with
      | some cls => env.replacedDefaultExpression f (d.heap cls) (i + 1)
      | none =>
        match functionMods with
        | [] => ""
        | mod :: _ =>
          match mod.argument_mods with
          | [] => ""
          | argMod :: _ => argMod.replacedDefaultExpression)
    (hcond : (arg.defaultValue || !isEmptyString replaced) = true) :
    (setDefaultValue env d currentClass functionMods arguments f i).arguments[i]? =
      some { metaArg with
        originalDefaultValueExpression :=
          fixDefaultValue env arg (some metaArg.type) f (currentClass.map d.heap) i,
        defaultValueExpression :=
          if env.removedDefaultExpression f (currentClass.map d.heap) (i + 1) then ""
          else if !isEmptyString replaced then replaced
          else fixDefaultValue env arg (some metaArg.type) f (currentClass.map d.heap) i } ∧
    ∀ j, j ≠ i →
      (setDefaultValue env d currentClass functionMods arguments f i).arguments[j]? =
        f.arguments[j]? := by
  have hlt : i < f.arguments.length := by
    rcases Nat.lt_or_ge i f.arguments.length with h | h
    · exact h
    · rw [List.getElem?_eq_none h] at hmeta
      cases hmeta
  unfold setDefaultValue
  rw [harg, hmeta]
  dsimp only
  rw [← hrep, if_pos hcond]
  dsimp only
  constructor
  · rw [List.getElem?_set_self hlt]
  · intro j hj
    rw [List.getElem?_set_ne (Ne.symm hj)]

/-- C15: at the global function `void scale(int a = 0, int b = 1)` with the
rule that replaces the default expression of argument 2 by `B()`,
`traverseFunction` gives argument 1, for which the rules hold no replacement,
the original default expression `0` and the effective default expression
`B()` (not `0`); argument 2 gets the original `1` and the effective `B()`.
The type `int` is primitive, for which `fixDefaultValue` returns the expression
of the code model unchanged. -/
theorem traverseFunction_global_replacement_ignores_index :
    (scaleFunction.arguments.map (fun a => (a.name, a.defaultValue, a.defaultValueExpression))
      = [("a", true, "0"), ("b", true, "1")] ∧
     (scaleModification.argument_mods.map (fun m => (m.index, m.replacedDefaultExpression))
      = [(2, "B()")])) ∧
    (traverseFunction scaleEnv oneClass scaleFunction none).1.map
      (fun f => f.arguments.map
        (fun a => (a.name, a.originalDefaultValueExpression, a.defaultValueExpression)))
      = some [("a", "0", "B()"), ("b", "1", "B()")] := by
  decide

/-! ## Argument names -/

theorem renameArgument_getElem?_ne (args : List AbstractMetaArgument)
    (m : ArgumentModification) (k : Nat)
    (h : isEmptyString m.renamed_to = false → m.index ≠ (k : Int) + 1) :
    (renameArgument args m)[k]? = args[k]? := by
  unfold renameArgument
  cases he : isEmptyString m.renamed_to with
  | true => rfl
  | false =>
    by_cases h1 : 1 ≤ m.index
    · have hk : (m.index - 1).toNat ≠ k := by
        intro hk
        apply h he
        have := Int.toNat_of_nonneg (show 0 ≤ m.index - 1 by omega)
        omega
      rw [if_pos (by rfl), if_pos h1]
      exact List.getElem?_modify_ne _ _ hk
    · rw [if_pos (by rfl), if_neg h1]

theorem renameArgument_getElem?_eq (args : List AbstractMetaArgument)
    (m : ArgumentModification) (k : Nat)
    (hne : isEmptyString m.renamed_to = false) (hidx : m.index = (k : Int) + 1) :
    (renameArgument args m)[k]? =
      args[k]?.map (fun arg => { arg with originalName := arg.name, name := m.renamed_to }) := by
  unfold renameArgument
  have hk : (m.index - 1).toNat = k := by
    rw [hidx]
    simp
  rw [hne, if_pos (by rfl), if_pos (by omega), hk]
  exact List.getElem?_modify_eq _ _ _

theorem foldl_renameArgument_getElem?_ne : ∀ (mods : List ArgumentModification)
    (args : List AbstractMetaArgument) (k : Nat),
    (∀ m ∈ mods, isEmptyString m.renamed_to = false → m.index ≠ (k : Int) + 1) →
    (mods.foldl renameArgument args)[k]? = args[k]? := by
  intro mods
  induction mods with
  | nil => intro args k _; rfl
  | cons m rest ih =>
    intro args k h
    rw [List.foldl_cons, ih _ k (fun m' hm' => h m' (List.mem_cons_of_mem _ hm')),
      renameArgument_getElem?_ne args m k (h m (List.mem_cons_self _ _))]

theorem foldl_renameArgument_last (pre post : List ArgumentModification)
    (m : ArgumentModification) (args : List AbstractMetaArgument) (k : Nat)
    (hne : isEmptyString m.renamed_to = false) (hidx : m.index = (k : Int) + 1)
    (hpost : ∀ m' ∈ post, isEmptyString m'.renamed_to = false → m'.index ≠ m.index) :
    ((pre ++ m :: post).foldl renameArgument args)[k]? =
      ((pre.foldl renameArgument args)[k]?).map
        (fun arg => { arg with originalName := arg.name, name := m.renamed_to }) := by
  rw [List.foldl_append, List.foldl_cons,
    foldl_renameArgument_getElem?_ne post _ k (fun m' hm' he => hidx ▸ hpost m' hm' he),
    renameArgument_getElem?_eq _ m k hne hidx]

theorem nameUnnamedArguments_getElem? : ∀ (args : List AbstractMetaArgument) (s i : Nat),
    (nameUnnamedArguments s args)[i]? =
      args[i]?.map (fun arg =>
        if isEmptyString arg.name then { arg with name := "arg__" ++ toString (s + i + 1) }
        else arg) := by
  intro args
  induction args with
  | nil => intro s i; rfl
  | cons a rest ih =>
    intro s i
    cases i with
    | zero =>
      unfold nameUnnamedArguments
      rw [List.getElem?_cons_zero, List.getElem?_cons_zero]
      rfl
    | succ j =>
      unfold nameUnnamedArguments
      rw [List.getElem?_cons_succ, List.getElem?_cons_succ, ih (s + 1) j]
      have : s + 1 + j + 1 = s + (j + 1) + 1 := by omega
      rw [this]

theorem isEmptyString_arg_name (n : Nat) : isEmptyString ("arg__" ++ toString n) = false := by
  unfold isEmptyString
  rw [String.data_append]
  rfl

theorem nameUnnamedArguments_named : ∀ (args : List AbstractMetaArgument) (s : Nat),
    ∀ arg ∈ nameUnnamedArguments s args, isEmptyString arg.name = false := by
  intro args
  induction args with
  | nil => intro s arg h; cases h
  | cons a rest ih =>
    intro s arg h
    unfold nameUnnamedArguments at h
    rcases List.mem_cons.mp h with h | h
    · rw [h]
      cases he : isEmptyString a.name with
      | true => exact isEmptyString_arg_name _
      | false => exact he
    · exact ih (s + 1) arg h

theorem foldl_argument_mods (mods : List FunctionModification) :
    ∀ (args : List AbstractMetaArgument),
    mods.foldl (fun args mod => mod.argument_mods.foldl renameArgument args) args =
      (mods.flatMap (fun mod => mod.argument_mods)).foldl renameArgument args := by
  induction mods with
  | nil => intro args; rfl
  | cons m rest ih =>
    intro args
    rw [List.foldl_cons, ih, List.flatMap_cons, List.foldl_append]

/-- C16 (amended): after `fixArgumentNames(func, mods)`, for every argument
modification with a non-empty rename target and an index `k + 1` between 1 and
the argument count that no later modification with a non-empty rename target
shares, argument `k + 1` is named with the rename target, and its original
name is the name it had when the modification was applied: the name it had in
`func` when no earlier modification renames the same index.  Every argument
has a non-empty name afterwards, and an argument that was unnamed and is not
renamed is named `arg__` followed by its position, counted from one. -/
theorem fixArgumentNames_names (func : AbstractMetaFunction) (mods : List FunctionModification) :
    (∀ pre m post (k : Nat), mods.flatMap (fun mod => mod.argument_mods) = pre ++ m :: post →
      isEmptyString m.renamed_to = false → m.index = (k : Int) + 1 →
      k < func.arguments.length →
      (∀ m' ∈ post, isEmptyString m'.renamed_to = false → m'.index ≠ m.index) →
      ∃ arg before, (fixArgumentNames func mods).arguments[k]? = some arg ∧
        arg.name = m.renamed_to ∧
        (pre.foldl renameArgument func.arguments)[k]? = some before ∧
        arg.originalName = before.name ∧
        ((∀ m' ∈ pre, isEmptyString m'.renamed_to = false → m'.index ≠ m.index) →
          func.arguments[k]? = some before)) ∧
    (∀ arg ∈ (fixArgumentNames func mods).arguments, isEmptyString arg.name = false) ∧
    (∀ (k : Nat) old, func.arguments[k]? = some old → isEmptyString old.name = true →
      (∀ m ∈ mods.flatMap (fun mod => mod.argument_mods),
        isEmptyString m.renamed_to = false → m.index ≠ (k : Int) + 1) →
      ∃ arg, (fixArgumentNames func mods).arguments[k]? = some arg ∧
        arg.name = "arg__" ++ toString (k + 1)) := by
  have hfix : (fixArgumentNames func mods).arguments =
      nameUnnamedArguments 0
        ((mods.flatMap (fun mod => mod.argument_mods)).foldl renameArgument func.arguments) := by
    unfold fixArgumentNames
    dsimp only
    rw [foldl_argument_mods]
  refine ⟨?_, ?_, ?_⟩
  · intro pre m post k hmods hne hidx hk hpost
    have hlen : k < (pre.foldl renameArgument func.arguments).length := by
      rw [foldl_renameArgument_length]
      exact hk
    refine ⟨{ (pre.foldl renameArgument func.arguments)[k] with
        originalName := (pre.foldl renameArgument func.arguments)[k].name,
        name := m.renamed_to },
      (pre.foldl renameArgument func.arguments)[k], ?_, rfl,
      List.getElem?_eq_getElem hlen, rfl, ?_⟩
    · rw [hfix, nameUnnamedArguments_getElem?, hmods,
        foldl_renameArgument_last pre post m func.arguments k hne hidx hpost,
        List.getElem?_eq_getElem hlen]
      dsimp only [Option.map]
      rw [hne]
      rfl
    · intro hpre
      rw [← foldl_renameArgument_getElem?_ne pre func.arguments k
        (fun m' hm' he => hidx ▸ hpre m' hm' he)]
      exact List.getElem?_eq_getElem hlen
  · intro arg harg
    rw [hfix] at harg
    exact nameUnnamedArguments_named _ 0 arg harg
  · intro k old hold hempty hmods
    refine ⟨{ old with name := "arg__" ++ toString (k + 1) }, ?_, rfl⟩
    rw [hfix, nameUnnamedArguments_getElem?,
      foldl_renameArgument_getElem?_ne _ func.arguments k hmods, hold]
    dsimp only [Option.map]
    rw [hempty, Nat.zero_add]
    rfl

theorem fixArgumentNames_names_witness :
    ∃ arg before, (fixArgumentNames methodFunction renameOnce).arguments[0]? = some arg ∧
      arg.name = "otherArg" ∧
      (([] : List ArgumentModification).foldl renameArgument methodFunction.arguments)[0]?
        = some before ∧
      arg.originalName = before.name ∧
      ((∀ m' ∈ ([] : List ArgumentModification), isEmptyString m'.renamed_to = false →
          m'.index ≠ 1) →
        methodFunction.arguments[0]? = some before) :=
  (fixArgumentNames_names methodFunction renameOnce).1 []
    { index := 1, renamed_to := "otherArg" } [] 0 rfl rfl rfl (by decide)
    (by intro m' h; cases h)

/-- Two rules that rename argument 1 of `method(int)`, to `otherArg` and then
to `value`: the argument is named `value`, not `otherArg`, and its original
name is `otherArg`, not the empty name it had. -/
theorem fixArgumentNames_second_rename_wins :
    ((renameTwice.flatMap (fun mod => mod.argument_mods)).map
        (fun m => (m.index, m.renamed_to)) = [(1, "otherArg"), (1, "value")] ∧
      methodFunction.arguments.map (fun a => a.name) = [""]) ∧
    (fixArgumentNames methodFunction renameTwice).arguments.map
      (fun a => (a.name, a.originalName)) = [("value", "otherArg")] := by
  decide

/-! ## Signatures of function modifications -/

/-- C17 (amended): `setSignature(s)` returns false exactly when `s` starts
with `^` and is not a valid pattern.  For a non-empty `s` that does not start
with `^`, `matches(f)` holds afterwards exactly when `f` equals `s`.  For an
`s` that starts with `^`, on a modification that has no fixed signature, no
fixed signature is set afterwards and `matches(f)` holds exactly when the
pattern `s` matches `f`; so on such a modification the call returns false and
leaves no fixed signature exactly when `s` starts with `^` and is not valid. -/
theorem setSignature_matches (env : Env) (m : FunctionModification) (s f : String) :
    ((m.setSignature env s).2 = false ↔
      (s.data.head? = some '^' ∧ env.regexIsValid s = false)) ∧
    (s.data.head? ≠ some '^' → isEmptyString s = false →
      ((m.setSignature env s).1.matches env f = true ↔ f = s)) ∧
    (s.data.head? = some '^' → isEmptyString m.signature = true →
      isEmptyString (m.setSignature env s).1.signature = true ∧
      ((m.setSignature env s).1.matches env f = true ↔ env.regexHasMatch s f = true)) ∧
    (isEmptyString m.signature = true →
      (((m.setSignature env s).2 = false ∧
          isEmptyString (m.setSignature env s).1.signature = true) ↔
        (s.data.head? = some '^' ∧ env.regexIsValid s = false))) := by
  have hfix : s.data.head? ≠ some '^' →
      m.setSignature env s = ({ m with signature := s }, true) := by
    intro h
    unfold FunctionModification.setSignature
    rw [if_neg (by simpa using h)]
  have hpat : s.data.head? = some '^' →
      m.setSignature env s =
        ({ m with signaturePattern := s }, env.regexIsValid s) := by
    intro h
    unfold FunctionModification.setSignature
    rw [if_pos (by simpa using h)]
    dsimp only
    cases env.regexIsValid s <;> rfl
  have hres : (m.setSignature env s).2 = false ↔
      (s.data.head? = some '^' ∧ env.regexIsValid s = false) := by
    by_cases h : s.data.head? = some '^'
    · rw [hpat h]
      exact ⟨fun hv => ⟨h, hv⟩, fun hv => hv.2⟩
    · rw [hfix h]
      exact ⟨fun hv => Bool.noConfusion hv, fun hv => absurd hv.1 h⟩
  refine ⟨hres, ?_, ?_, ?_⟩
  · intro h hne
    rw [hfix h]
    unfold FunctionModification.matches
    dsimp only
    rw [hne, if_neg (by decide)]
    rw [beq_iff_eq]
    exact eq_comm
  · intro h hm
    rw [hpat h]
    unfold FunctionModification.matches
    dsimp only
    rw [hm, if_pos rfl]
    exact ⟨rfl, Iff.rfl⟩
  · intro hm
    constructor
    · intro h
      exact hres.mp h.1
    · intro h
      refine ⟨hres.mpr h, ?_⟩
      rw [hpat h.1]
      exact hm

theorem setSignature_matches_witness :
    ((({} : FunctionModification).setSignature patternEnv "method(int)").1.matches patternEnv
        "method(int)" = true ↔ "method(int)" = "method(int)") :=
  (setSignature_matches patternEnv {} "method(int)" "method(int)").2.1 (by decide) (by decide)

/-- The empty string is accepted by `setSignature` and does not start with `^`,
yet the modification then matches the signature `method(int)`, which is not the
empty string: without a fixed signature `matches` asks the pattern, and the
empty pattern matches.  And on a modification with the fixed signature
`other()`, the valid pattern `^method.*` is accepted, matches `method(int)`,
and the modification does not match `method(int)`. -/
theorem setSignature_empty_signature_matches_all :
    ((({} : FunctionModification).setSignature patternEnv "").2 = true ∧
      "".data.head? ≠ some '^' ∧
      (({} : FunctionModification).setSignature patternEnv "").1.matches patternEnv
        "method(int)" = true ∧
      "method(int)" ≠ "") ∧
    ((({ signature := "other()" } : FunctionModification).setSignature patternEnv
        "^method.*").2 = true ∧
      patternEnv.regexIsValid "^method.*" = true ∧
      patternEnv.regexHasMatch "^method.*" "method(int)" = true ∧
      (({ signature := "other()" } : FunctionModification).setSignature patternEnv
        "^method.*").1.matches patternEnv "method(int)" = false) := by
  decide

/-! ## Completeness of the class sorter on acyclic graphs -/

namespace Graph

theorem exists_source_of_acyclic (g : Graph) (hc : ¬ g.HasCycle) (rem : List Nat)
    (hne : rem ≠ []) : ∃ v ∈ rem, g.isSource rem v = true := by
  classical
  have hlift : ∀ a b : { x // x ∈ rem },
      Relation.TransGen (fun a b : { x // x ∈ rem } => (a.1, b.1) ∈ g.edges) a b →
      Relation.TransGen (fun a b => (a, b) ∈ g.edges) a.1 b.1 := by
    intro a b h
    induction h with
    | single h => exact Relation.TransGen.single h
    | tail _ h ih => exact Relation.TransGen.tail ih h
  haveI : IsIrrefl { x // x ∈ rem }
      (Relation.TransGen (fun a b : { x // x ∈ rem } => (a.1, b.1) ∈ g.edges)) :=
    ⟨fun a h => hc ⟨a.1, hlift a a h⟩⟩
  haveI : IsTrans { x // x ∈ rem }
      (Relation.TransGen (fun a b : { x // x ∈ rem } => (a.1, b.1) ∈ g.edges)) :=
    ⟨fun _ _ _ => Relation.TransGen.trans⟩
  have hwf : WellFounded
      (Relation.TransGen (fun a b : { x // x ∈ rem } => (a.1, b.1) ∈ g.edges)) :=
    Finite.wellFounded_of_trans_of_irrefl _
  obtain ⟨x, hx⟩ := List.exists_mem_of_ne_nil rem hne
  obtain ⟨m, _, hmin⟩ := hwf.has_min Set.univ ⟨⟨x, hx⟩, trivial⟩
  refine ⟨m.1, m.2, ?_⟩
  unfold isSource
  rw [List.all_eq_true]
  intro u hu
  have hnot := hmin ⟨u, hu⟩ trivial
  by_cases he : (u, m.1) ∈ g.edges
  · exact absurd (Relation.TransGen.single he) hnot
  · simpa using he

theorem sortAux_complete (g : Graph) (hc : ¬ g.HasCycle) :
    ∀ (fuel : Nat) (rem : List Nat), rem.length ≤ fuel → ∃ out, g.sortAux fuel rem = some out := by
  intro fuel
  induction fuel with
  | zero =>
    intro rem hlen
    cases rem with
    | nil => exact ⟨[], rfl⟩
    | cons u rest => simp at hlen
  | succ fuel ih =>
    intro rem hlen
    cases rem with
    | nil => exact ⟨[], rfl⟩
    | cons u rest =>
      obtain ⟨v, hv, hsrc⟩ := g.exists_source_of_acyclic hc (u :: rest) (List.cons_ne_nil _ _)
      unfold sortAux
      cases hf : (u :: rest).find? (g.isSource (u :: rest)) with
      | none =>
        rw [List.find?_eq_none] at hf
        exact absurd hsrc (hf v hv)
      | some w =>
        dsimp only
        have hw : w ∈ u :: rest := List.mem_of_find?_eq_some hf
        have hlen' : ((u :: rest).erase w).length ≤ fuel := by
          rw [List.length_erase_of_mem hw]
          simp only [List.length_cons] at hlen ⊢
          omega
        obtain ⟨out, hout⟩ := ih _ hlen'
        exact ⟨w :: out, by rw [hout]; rfl⟩

theorem topologicalSort_perm_of_acyclic (g : Graph) (hc : ¬ g.HasCycle) :
    g.topologicalSort.Perm (List.range g.nodeCount) := by
  obtain ⟨out, hout⟩ := g.sortAux_complete hc g.nodeCount (List.range g.nodeCount)
    (by rw [List.length_range])
  have hts : g.topologicalSort = out := by
    unfold topologicalSort
    rw [hout]
    rfl
  rw [hts]
  exact (g.sortAux_sound _ _ _ (List.nodup_range _) hout).1

end Graph

theorem classesTopologicalSorted_of_acyclic (env : Env) (d : AbstractMetaBuilderPrivate)
    (classList : List ClassId) (deps : List Dependency)
    (hc : ¬ (dependencyGraph env d classList deps).HasCycle) :
    classesTopologicalSorted env d classList deps =
      (dependencyGraph env d classList deps).topologicalSort.filterMap
        (sortedClassAt d (classIndexMap classList)) := by
  have hperm := Graph.topologicalSort_perm_of_acyclic _ hc
  unfold classesTopologicalSorted
  dsimp only
  split
  · rename_i hcond
    rw [Bool.and_eq_true] at hcond
    have hnil : (dependencyGraph env d classList deps).topologicalSort = [] :=
      List.isEmpty_iff.mp hcond.1
    rw [hnil] at hperm ⊢
    rfl
  · rfl

/-- C18: for every class list whose dependency graph is acyclic, the list
returned by `classesTopologicalSorted` has no duplicates, and a class is in it
exactly when it is in the input and is not an interface; so every
non-interface class of the input occurs exactly once and no interface class
occurs. -/
theorem classesTopologicalSorted_complete (env : Env) (d : AbstractMetaBuilderPrivate)
    (classList : List ClassId) (deps : List Dependency)
    (hc : ¬ (dependencyGraph env d classList deps).HasCycle) :
    (classesTopologicalSorted env d classList deps).Nodup ∧
    (∀ c, c ∈ classesTopologicalSorted env d classList deps ↔
      (c ∈ classList ∧ (d.heap c).isInterface = false)) ∧
    (∀ c ∈ classList, (d.heap c).isInterface = false →
      (classesTopologicalSorted env d classList deps).count c = 1) ∧
    (∀ c, (d.heap c).isInterface = true →
      c ∉ classesTopologicalSorted env d classList deps) := by
  have hnd := classesTopologicalSorted_nodup env d classList deps
  have hmem : ∀ c, c ∈ classesTopologicalSorted env d classList deps ↔
      (c ∈ classList ∧ (d.heap c).isInterface = false) := by
    intro c
    constructor
    · intro h
      obtain ⟨hi, i, _, hmap⟩ := mem_classesTopologicalSorted h
      exact ⟨(mem_classIndexMap classList c).1 (List.getElem?_mem hmap), hi⟩
    · intro h
      have hcm : c ∈ classIndexMap classList := (mem_classIndexMap classList c).2 h.1
      obtain ⟨i, hi, hget⟩ := List.getElem_of_mem hcm
      have hsome : (classIndexMap classList)[i]? = some c := by
        rw [List.getElem?_eq_getElem hi, hget]
      rw [classesTopologicalSorted_of_acyclic env d classList deps hc]
      refine List.mem_filterMap.2 ⟨i, ?_, sortedClassAt_of hsome h.2⟩
      apply (Graph.topologicalSort_perm_of_acyclic _ hc).symm.subset
      rw [List.mem_range, (dependencyGraph_inv env d classList deps).1]
      exact hi
  refine ⟨hnd, hmem, ?_, ?_⟩
  · intro c hcl hi
    exact List.count_eq_one_of_mem hnd ((hmem c).2 ⟨hcl, hi⟩)
  · intro c hi h
    have := ((hmem c).1 h).2
    rw [hi] at this
    cases this

theorem classesTopologicalSorted_complete_witness :
    (1, 0) ∈ (dependencyGraph exampleEnv classWithInterfaceBase [0, 1, 0] []).edges ∧
    (classesTopologicalSorted exampleEnv classWithInterfaceBase [0, 1, 0] []).Nodup ∧
    (∀ c, c ∈ classesTopologicalSorted exampleEnv classWithInterfaceBase [0, 1, 0] [] ↔
      (c ∈ [0, 1, 0] ∧ (classWithInterfaceBase.heap c).isInterface = false)) ∧
    (∀ c ∈ [0, 1, 0], (classWithInterfaceBase.heap c).isInterface = false →
      (classesTopologicalSorted exampleEnv classWithInterfaceBase [0, 1, 0] []).count c = 1) ∧
    (∀ c, (classWithInterfaceBase.heap c).isInterface = true →
      c ∉ classesTopologicalSorted exampleEnv classWithInterfaceBase [0, 1, 0] []) :=
  ⟨by decide,
   classesTopologicalSorted_complete exampleEnv classWithInterfaceBase [0, 1, 0] []
    (fun hcyc =>
      absurd
        (Graph.topologicalSort_eq_nil_of_hasCycle _ hcyc
          (dependencyGraph_inv exampleEnv classWithInterfaceBase [0, 1, 0] []).2)
        (by decide))⟩

/-! ## Unknown base classes -/

theorem sameClassNames_refl (d : AbstractMetaBuilderPrivate) : SameClassNames d d :=
  ⟨rfl, rfl, fun _ => rfl⟩

theorem sameClassNames_trans {d1 d2 d3 : AbstractMetaBuilderPrivate}
    (h12 : SameClassNames d1 d2) (h23 : SameClassNames d2 d3) : SameClassNames d1 d3 :=
  ⟨h23.1.trans h12.1, h23.2.1.trans h12.2.1, fun c => (h23.2.2 c).trans (h12.2.2 c)⟩

theorem sameClassNames_setClass (d : AbstractMetaBuilderPrivate) (cls : ClassId)
    (r : AbstractMetaClass) (h : classNames r = classNames (d.heap cls)) :
    SameClassNames d (setClass d cls r) := by
  refine ⟨rfl, rfl, fun c => ?_⟩
  by_cases hc : c = cls
  · subst hc
    rw [setClass_heap_self]
    exact h
  · rw [setClass_heap_ne _ _ _ _ hc]

theorem foldl_addInterface_classNames (ifaces : List ClassId) :
    ∀ c : AbstractMetaClass, classNames (ifaces.foldl addInterface c) = classNames c := by
  induction ifaces with
  | nil => intro c; rfl
  | cons i rest ih =>
    intro c
    rw [List.foldl_cons, ih]
    rfl

theorem inheritTypedefFlags_classNames (subclass templateClass : AbstractMetaClass) :
    classNames (inheritTypedefFlags subclass templateClass) = classNames subclass := by
  unfold inheritTypedefFlags
  split <;> rfl

theorem addInheritedFunction_classNames (env : Env) (templateClass : AbstractMetaClass)
    (cls : ClassId) (subclass : AbstractMetaClass) (function f : AbstractMetaFunction) :
    classNames (addInheritedFunction env templateClass cls subclass function f)
      = classNames subclass := rfl

theorem inheritTemplateFunctions_classNames (env : Env) (templateTypes : List AbstractMetaType)
    (fuel : Nat) (templateClass : AbstractMetaClass) (cls : ClassId) :
    ∀ (functions : List AbstractMetaFunction) (subclassFuncs : List AbstractMetaFunction)
      (subclass r : AbstractMetaClass),
      inheritTemplateFunctions env templateTypes fuel subclassFuncs templateClass cls functions
        subclass = some r →
      classNames r = classNames subclass := by
  intro functions
  induction functions with
  | nil =>
    intro subclassFuncs subclass r h
    unfold inheritTemplateFunctions at h
    cases h
    rfl
  | cons function rest ih =>
    intro subclassFuncs subclass r h
    unfold inheritTemplateFunctions at h
    split at h
    · cases h
    · exact ih _ _ _ h
    · dsimp only at h
      rw [ih _ _ _ h]
      rfl

theorem inheritTemplateFields_classNames (env : Env) (templateTypes : List AbstractMetaType)
    (fuel : Nat) (cls : ClassId) :
    ∀ (fields : List AbstractMetaField) (subClassFields : List AbstractMetaField)
      (subclass r : AbstractMetaClass),
      inheritTemplateFields env templateTypes fuel subClassFields cls fields subclass = some r →
      classNames r = classNames subclass := by
  intro fields
  induction fields with
  | nil =>
    intro subClassFields subclass r h
    unfold inheritTemplateFields at h
    cases h
    rfl
  | cons field rest ih =>
    intro subClassFields subclass r h
    unfold inheritTemplateFields at h
    split at h
    · cases h
    · exact ih _ _ _ h
    · dsimp only at h
      rw [ih _ _ _ h]
      rfl

theorem inheritTemplate_sameClassNames (env : Env) (fuel : Nat)
    (d r : AbstractMetaBuilderPrivate) (cls templ : ClassId) (info : TypeInfo)
    (h : inheritTemplate env fuel d cls templ info = some r) : SameClassNames d r := by
  unfold inheritTemplate at h
  dsimp only at h
  split at h
  · cases h
  · rename_i subclass2 h2
    split at h
    · cases h
    · rename_i subclass3 h3
      cases h
      have hn2 := inheritTemplateFunctions_classNames _ _ _ _ _ _ _ _ _ h2
      have hn3 := inheritTemplateFields_classNames _ _ _ _ _ _ _ _ h3
      refine ⟨rfl, rfl, fun c => ?_⟩
      by_cases hc : c = cls
      · subst hc
        dsimp only
        rw [setClass_heap_self]
        have : classNames subclass3 = classNames (d.heap c) := by
          rw [hn3, hn2, inheritTypedefFlags_classNames]
        rw [← this]
        rfl
      · dsimp only
        rw [setClass_heap_ne _ _ _ _ hc]

theorem setupInterfaces_sameClassNames (env : Env)
    (setup : AbstractMetaBuilderPrivate → ClassId → Option (Bool × AbstractMetaBuilderPrivate))
    (hsetup : ∀ d r x b, setup d x = some (b, r) → SameClassNames d r)
    (cls : ClassId) (primary : Option Nat) :
    ∀ (names : List String) (i : Nat) (d r : AbstractMetaBuilderPrivate) (b : Bool),
      setupInterfaces env setup cls primary names i d = some (b, r) → SameClassNames d r := by
  intro names
  induction names with
  | nil =>
    intro i d r b h
    unfold setupInterfaces at h
    cases h
    exact sameClassNames_refl d
  | cons name rest ih =>
    intro i d r b h
    unfold setupInterfaces at h
    split at h
    · exact ih _ _ _ _ h
    · split at h
      · exact ih _ _ _ _ h
      · split at h
        · cases h
          exact sameClassNames_refl d
        · rename_i baseClass _
          split at h
          · cases h
          · rename_i b1 d1 hcall
            have h1 := hsetup _ _ _ _ hcall
            dsimp only at h
            split at h
            · cases h
              exact h1
            · rename_i iface _
              have h2 := ih _ _ _ _ h
              refine sameClassNames_trans h1 (sameClassNames_trans ?_ h2)
              refine sameClassNames_trans
                (sameClassNames_setClass d1 cls (addInterface (d1.heap cls) iface) rfl)
                (sameClassNames_setClass _ cls _ ?_)
              rw [foldl_addInterface_classNames]

theorem setupInheritance_sameClassNames (env : Env) :
    ∀ (fuel : Nat) (d r : AbstractMetaBuilderPrivate) (x : ClassId) (b : Bool),
      setupInheritance env fuel d x = some (b, r) → SameClassNames d r := by
  intro fuel
  induction fuel with
  | zero =>
    intro d r x b h
    unfold setupInheritance at h
    cases h
  | succ fuel ih =>
    intro d r x b h
    unfold setupInheritance at h
    split at h
    · cases h
      exact sameClassNames_refl d
    · dsimp only at h
      have hmark : SameClassNames d
          { d with m_setupInheritanceDone := x :: d.m_setupInheritanceDone } :=
        ⟨rfl, rfl, fun _ => rfl⟩
      split at h
      · split at h
        · rename_i templ info _ _
          split at h
          · cases h
          · rename_i b1 d2 hcall
            have h1 := ih _ _ _ _ hcall
            split at h
            · cases h
            · rename_i d3 hinh
              cases h
              have h2 := inheritTemplate_sameClassNames env fuel d2 d3 x templ info hinh
              exact sameClassNames_trans hmark (sameClassNames_trans h1
                (sameClassNames_trans h2 (sameClassNames_setClass d3 x _ rfl)))
        · cases h
          exact sameClassNames_trans hmark (sameClassNames_setClass _ x _ rfl)
        · cases h
          exact hmark
      · split at h
        · cases h
          exact hmark
        · rename_i d2 hbased
          have h2 := setupInterfaces_sameClassNames env _ ih x _ _ _ _ _ _ h
          have hd2 : SameClassNames
              { d with m_setupInheritanceDone := x :: d.m_setupInheritanceDone } d2 := by
            split at hbased
            · split at hbased
              · cases hbased
              · cases hbased
                exact sameClassNames_setClass _ x _ rfl
            · cases hbased
              exact sameClassNames_refl _
          exact sameClassNames_trans hmark (sameClassNames_trans hd2 h2)

theorem matchHeader_iff (env : Env) (headerPath fileName : String) :
    matchHeader env headerPath fileName = true ↔
      ∃ rest, QualifiesWithRest env headerPath fileName rest := by
  unfold QualifiesWithRest matchHeader IsHeaderPath startsWith
  dsimp only
  rw [Bool.and_eq_true, Bool.and_eq_true, decide_eq_true_iff]
  constructor
  · rintro ⟨⟨hlen, hslash⟩, hstart⟩
    have hget : fileName.data[headerPath.data.length]? =
        some (fileName.data[headerPath.data.length]) := List.getElem?_eq_getElem hlen
    rw [hget] at hslash
    refine ⟨fileName.data.drop (headerPath.data.length + 1),
      fileName.data.take headerPath.data.length, fileName.data[headerPath.data.length],
      ?_, hslash, ?_⟩
    · rw [List.getElem_cons_drop _ _ hlen, List.take_append_drop]
    · by_cases hci : env.caseInsensitiveFileNames = true
      · rw [if_pos hci] at hstart ⊢
        rw [List.isPrefixOf_iff_prefix] at hstart
        have := List.prefix_iff_eq_take.1 hstart
        rw [List.length_map] at this
        rw [this, List.map_take]
      · rw [if_neg hci] at hstart ⊢
        rw [List.isPrefixOf_iff_prefix] at hstart
        exact (List.prefix_iff_eq_take.1 hstart).symm
  · rintro ⟨rest, start, c, hfile, hslash, hstart⟩
    have hlen : start.length = headerPath.data.length := by
      by_cases hci : env.caseInsensitiveFileNames = true
      · rw [if_pos hci] at hstart
        have := congrArg List.length hstart
        rw [List.length_map, List.length_map] at this
        exact this
      · rw [if_neg hci] at hstart
        rw [hstart]
    refine ⟨⟨?_, ?_⟩, ?_⟩
    · rw [hfile, List.length_append, List.length_cons, hlen]
      omega
    · rw [hfile, ← hlen, List.getElem?_append_right (Nat.le_refl _), Nat.sub_self,
        List.getElem?_cons_zero]
      exact hslash
    · by_cases hci : env.caseInsensitiveFileNames = true
      · rw [if_pos hci] at hstart ⊢
        rw [List.isPrefixOf_iff_prefix, hfile, List.map_append, ← hstart]
        exact List.prefix_append _ _
      · rw [if_neg hci] at hstart ⊢
        rw [List.isPrefixOf_iff_prefix, hfile, hstart]
        exact List.prefix_append _ _

theorem bestMatchLength_spec (env : Env) (fileName : String) :
    ∀ (paths : List String) (best : Nat),
      best ≤ bestMatchLength env fileName paths best ∧
      (bestMatchLength env fileName paths best = best ∨
        ∃ p ∈ paths, matchHeader env p fileName = true ∧
          p.data.length = bestMatchLength env fileName paths best) ∧
      (∀ p ∈ paths, matchHeader env p fileName = true →
        p.data.length ≤ bestMatchLength env fileName paths best) := by
  intro paths
  induction paths with
  | nil =>
    intro best
    unfold bestMatchLength
    exact ⟨Nat.le_refl _, Or.inl rfl, fun p hp => by cases hp⟩
  | cons headerPath rest ih =>
    intro best
    unfold bestMatchLength
    by_cases hc : (decide (headerPath.data.length > best)
        && matchHeader env headerPath fileName) = true
    · rw [if_pos hc]
      rw [Bool.and_eq_true, decide_eq_true_iff] at hc
      obtain ⟨h1, h2, h3⟩ := ih headerPath.data.length
      refine ⟨by omega, Or.inr ?_, ?_⟩
      · rcases h2 with h2 | ⟨p, hp, hm, hl⟩
        · exact ⟨headerPath, List.mem_cons_self _ _, hc.2, h2.symm⟩
        · exact ⟨p, List.mem_cons_of_mem _ hp, hm, hl⟩
      · intro p hp hm
        rcases List.mem_cons.1 hp with hp | hp
        · rw [hp]
          exact h1
        · exact h3 p hp hm
    · rw [if_neg hc]
      obtain ⟨h1, h2, h3⟩ := ih best
      refine ⟨h1, ?_, ?_⟩
      · rcases h2 with h2 | ⟨p, hp, hm, hl⟩
        · exact Or.inl h2
        · exact Or.inr ⟨p, List.mem_cons_of_mem _ hp, hm, hl⟩
      · intro p hp hm
        rcases List.mem_cons.1 hp with hp | hp
        · subst hp
          have : ¬ (p.data.length > best) := by
            intro hgt
            apply hc
            rw [Bool.and_eq_true, decide_eq_true_iff]
            exact ⟨hgt, hm⟩
          omega
        · exact h3 p hp hm

theorem isHeaderPath_length (env : Env) (start : List Char) (headerPath : String)
    (h : IsHeaderPath env start headerPath) : start.length = headerPath.data.length := by
  unfold IsHeaderPath at h
  by_cases hci : env.caseInsensitiveFileNames = true
  · rw [if_pos hci] at h
    have := congrArg List.length h
    rw [List.length_map, List.length_map] at this
    exact this
  · rw [if_neg hci] at h
    rw [h]

/-- C20 (amended): for a file name that is not yet in the cache and whose file
name without path differs from that of the global header, `setInclude` assigns
an include of the kind include path.  When `P` is a non-empty header path that
stands at the start of the file name (compared after case folding on Windows
and macOS) and is followed there by a slash or backslash, and no header path
that does so is longer, the include is what follows that separator.  When no
non-empty header path does so, the include is the file name without path.  A
second call with the same file name assigns the same include. -/
theorem setInclude_longest_header_path (env : Env) (d : AbstractMetaBuilderPrivate)
    (fileName : String)
    (hcache : d.m_resolveIncludeHash.lookup fileName = none)
    (hglobal : env.fileName d.m_globalHeader ≠ env.fileName fileName) :
    ∃ value, (setInclude env d fileName).1 = some value ∧ value.type = .IncludePath ∧
      (∀ P ∈ d.m_headerPaths, P.data ≠ [] → ∀ rest, QualifiesWithRest env P fileName rest →
        (∀ Q ∈ d.m_headerPaths, (∃ rest', QualifiesWithRest env Q fileName rest') →
          Q.data.length ≤ P.data.length) →
        value.name = String.mk rest) ∧
      ((∀ P ∈ d.m_headerPaths, P.data ≠ [] → ¬ ∃ rest, QualifiesWithRest env P fileName rest) →
        value.name = env.fileName fileName) ∧
      (setInclude env (setInclude env d fileName).2 fileName).1 = some value := by
  obtain ⟨h1, h2, h3⟩ := bestMatchLength_spec env fileName d.m_headerPaths 0
  have hset : setInclude env d fileName =
      (some { type := .IncludePath,
              name := if bestMatchLength env fileName d.m_headerPaths 0 > 0 then
                  String.mk (fileName.data.drop (bestMatchLength env fileName d.m_headerPaths 0 + 1))
                else env.fileName fileName },
       { d with m_resolveIncludeHash :=
          (fileName,
            { type := .IncludePath,
              name := if bestMatchLength env fileName d.m_headerPaths 0 > 0 then
                  String.mk (fileName.data.drop (bestMatchLength env fileName d.m_headerPaths 0 + 1))
                else env.fileName fileName }) :: d.m_resolveIncludeHash }) := by
    unfold setInclude
    rw [hcache]
    dsimp only
    rw [if_neg (by simpa using hglobal)]
  refine ⟨_, by rw [hset], rfl, ?_, ?_, ?_⟩
  · intro P hP hne rest hq hlongest
    have hm : matchHeader env P fileName = true := (matchHeader_iff env P fileName).2 ⟨rest, hq⟩
    have hle := h3 P hP hm
    have hpos : 0 < P.data.length := List.length_pos.2 hne
    have hbest : bestMatchLength env fileName d.m_headerPaths 0 = P.data.length := by
      rcases h2 with h2 | ⟨p, hp, hpm, hpl⟩
      · omega
      · have := hlongest p hp ((matchHeader_iff env p fileName).1 hpm)
        omega
    obtain ⟨start, c, hfile, _, hstart⟩ := hq
    have hlen := isHeaderPath_length env start P hstart
    have hdrop : fileName.data.drop (P.data.length + 1) = rest := by
      rw [hfile, ← hlen, List.drop_append]
      rfl
    dsimp only
    rw [hbest, if_pos hpos, hdrop]
  · intro hnone
    have hbest : bestMatchLength env fileName d.m_headerPaths 0 = 0 := by
      rcases h2 with h2 | ⟨p, hp, hpm, hpl⟩
      · exact h2
      · by_contra hne
        have hpne : p.data ≠ [] := by
          intro hnil
          rw [hnil] at hpl
          exact hne hpl.symm
        exact hnone p hp hpne ((matchHeader_iff env p fileName).1 hpm)
    dsimp only
    rw [hbest]
    rfl
  · rw [hset]
    unfold setInclude
    dsimp only
    rw [List.lookup_cons]
    simp

theorem setInclude_longest_header_path_witness :
    ∃ value, (setInclude {} includeBuilder "/usr/include/qt/QtCore/qstring.h").1 = some value ∧
      value.type = .IncludePath ∧
      (∀ P ∈ includeBuilder.m_headerPaths, P.data ≠ [] →
        ∀ rest, QualifiesWithRest {} P "/usr/include/qt/QtCore/qstring.h" rest →
        (∀ Q ∈ includeBuilder.m_headerPaths,
          (∃ rest', QualifiesWithRest {} Q "/usr/include/qt/QtCore/qstring.h" rest') →
          Q.data.length ≤ P.data.length) →
        value.name = String.mk rest) ∧
      ((∀ P ∈ includeBuilder.m_headerPaths, P.data ≠ [] →
          ¬ ∃ rest, QualifiesWithRest {} P "/usr/include/qt/QtCore/qstring.h" rest) →
        value.name = ({} : Env).fileName "/usr/include/qt/QtCore/qstring.h") ∧
      (setInclude {} (setInclude {} includeBuilder "/usr/include/qt/QtCore/qstring.h").2
        "/usr/include/qt/QtCore/qstring.h").1 = some value :=
  setInclude_longest_header_path {} includeBuilder "/usr/include/qt/QtCore/qstring.h" rfl
    (by decide)

/-- The header path that is the empty string stands at the start of
`/opt/x/y.h` and is followed by a slash, and it is the only header path, yet
the include is `y.h` and not `opt/x/y.h`.  And in a build for Windows or macOS,
the header path `/Library/Qt` is not a prefix of `/library/qt/QtCore/qstring.h`,
so that no header path is, yet the include is `QtCore/qstring.h` and not the
file name without path, `qstring.h`. -/
theorem setInclude_empty_path_and_case_folding :
    (emptyPathBuilder.m_resolveIncludeHash.lookup "/opt/x/y.h" = none ∧
      ({} : Env).fileName emptyPathBuilder.m_globalHeader ≠ ({} : Env).fileName "/opt/x/y.h" ∧
      emptyPathBuilder.m_headerPaths = [""] ∧
      "/opt/x/y.h".data = "".data ++ '/' :: "opt/x/y.h".data ∧
      (setInclude {} emptyPathBuilder "/opt/x/y.h").1 =
        some { type := .IncludePath, name := "y.h" }) ∧
    (libraryBuilder.m_resolveIncludeHash.lookup "/library/qt/QtCore/qstring.h" = none ∧
      darwinEnv.fileName libraryBuilder.m_globalHeader ≠
        darwinEnv.fileName "/library/qt/QtCore/qstring.h" ∧
      libraryBuilder.m_headerPaths = ["/Library/Qt"] ∧
      "/Library/Qt".data.isPrefixOf "/library/qt/QtCore/qstring.h".data = false ∧
      darwinEnv.fileName "/library/qt/QtCore/qstring.h" = "qstring.h" ∧
      (setInclude darwinEnv libraryBuilder "/library/qt/QtCore/qstring.h").1 =
        some { type := .IncludePath, name := "QtCore/qstring.h" }) := by
  decide

/-! ## Constness of an added function (C21) -/

/-- C21: for the signature with an empty parameter list followed by const the
constructor of `AddedFunction` takes the qualifier for an argument and leaves
`isConstant()` false, whereas with a parameter between the parentheses the
qualifier is recognised and is no argument, and without the qualifier the
function is not constant. -/
theorem newAddedFunction_const_after_empty_parameters :
    (newAddedFunction "func() const" "void").isConstant = false
    ∧ (newAddedFunction "func() const" "void").arguments.map (fun a => a.name) = ["const"]
    ∧ (newAddedFunction "func() const" "void").name = "func"
    ∧ (newAddedFunction "func(int) const" "void").isConstant = true
    ∧ (newAddedFunction "func(int) const" "void").arguments.map (fun a => a.name) = ["int"]
    ∧ (newAddedFunction "func()" "void").isConstant = false
    ∧ (newAddedFunction "func()" "void").arguments = [] := by
  decide

/-! ## Shadowing in template inheritance (C22) -/

theorem findFunction_none_of_subset (own funcs : List AbstractMetaFunction) (n : String)
    (hsub : ∀ x ∈ own, x ∈ funcs) (h : (findFunction funcs n).isSome = false) :
    findFunction own n = none := by
  unfold findFunction at h ⊢
  rw [List.find?_eq_none]
  intro x hx
  have h1 : List.find? (fun f => f.name == n) funcs = none := by
    cases hf : List.find? (fun f => f.name == n) funcs with
    | none => rfl
    | some y => rw [hf] at h; cases h
  exact (List.find?_eq_none.mp h1) x (hsub x hx)

theorem findField_none_of_subset (own fields : List AbstractMetaField) (n : String)
    (hsub : ∀ x ∈ own, x ∈ fields) (h : (findField fields n).isSome = false) :
    findField own n = none := by
  unfold findField at h ⊢
  rw [List.find?_eq_none]
  intro x hx
  have h1 : List.find? (fun f => f.name == n) fields = none := by
    cases hf : List.find? (fun f => f.name == n) fields with
    | none => rfl
    | some y => rw [hf] at h; cases h
  exact (List.find?_eq_none.mp h1) x (hsub x hx)

theorem inheritTemplateFunction_not_shadowed (env : Env) (templateTypes : List AbstractMetaType)
    (fuel : Nat) (subclassFuncs : List AbstractMetaFunction) (cls : ClassId)
    (subclass : AbstractMetaClass) (function f : AbstractMetaFunction)
    (h : inheritTemplateFunction env templateTypes fuel subclassFuncs cls subclass function
      = .inherited f) :
    (findFunction subclassFuncs function.name).isSome = false := by
  unfold inheritTemplateFunction at h
  split at h
  · cases h
  · rename_i hc
    simp only [Bool.or_eq_true, not_or] at hc
    simpa using hc.2

theorem inheritTemplateField_not_shadowed (env : Env) (templateTypes : List AbstractMetaType)
    (fuel : Nat) (subClassFields : List AbstractMetaField) (cls : ClassId)
    (field f : AbstractMetaField)
    (h : inheritTemplateField env templateTypes fuel subClassFields cls field = .inherited f) :
    (findField subClassFields field.name).isSome = false ∧ field.attributes.has .Static = false := by
  unfold inheritTemplateField at h
  split at h
  · cases h
  · rename_i hc
    simp only [Bool.or_eq_true, not_or] at hc
    exact ⟨by simpa using hc.2, by simpa using hc.1.2⟩

/-- The function loop of `inheritTemplate` appends to the functions of the
subclass; each function appended stems from a function of the template class
that has not the name of a function in `own`, a list of functions that the
subclass has before the loop. -/
theorem inheritTemplateFunctions_shadowing (env : Env) (templateTypes : List AbstractMetaType)
    (fuel : Nat) (templateClass : AbstractMetaClass) (cls : ClassId)
    (own : List AbstractMetaFunction) :
    ∀ (functions : List AbstractMetaFunction) (subclassFuncs : List AbstractMetaFunction)
      (subclass r : AbstractMetaClass),
      inheritTemplateFunctions env templateTypes fuel subclassFuncs templateClass cls functions
        subclass = some r →
      (∀ x ∈ own, x ∈ subclassFuncs) → (∀ x ∈ own, x ∈ subclass.functions) →
      ∃ copies : List (AbstractMetaFunction × AbstractMetaFunction),
        r.functions = subclass.functions ++ copies.map Prod.snd ∧
        (copies.map Prod.fst).Sublist functions ∧
        ∀ p ∈ copies, findFunction own p.1.name = none ∧
          p.2.functionType = p.1.functionType ∧
          p.2.name = (if p.1.isConstructor then subclass.name else p.1.name) := by
  intro functions
  induction functions with
  | nil =>
    intro subclassFuncs subclass r h _ _
    unfold inheritTemplateFunctions at h
    cases h
    exact ⟨[], by simp, by simp, by simp⟩
  | cons g rest ih =>
    intro subclassFuncs subclass r h hs1 hs2
    unfold inheritTemplateFunctions at h
    cases hstep : inheritTemplateFunction env templateTypes fuel subclassFuncs cls subclass g with
    | outOfFuel =>
      rw [hstep] at h
      cases h
    | skipped =>
      rw [hstep] at h
      dsimp only at h
      obtain ⟨copies, h1, h2, h3⟩ := ih _ subclass r h hs1 hs2
      exact ⟨copies, h1, h2.trans (List.sublist_cons_self _ _), h3⟩
    | inherited f =>
      rw [hstep] at h
      dsimp only at h
      obtain ⟨f1, hfun, hname, htype, hcn, _, _⟩ :=
        addInheritedFunction_spec env templateClass cls subclass g f
      have hs2n : ∀ x ∈ own, x ∈ (addInheritedFunction env templateClass cls subclass g f).functions := by
        intro x hx
        rw [hfun]
        exact List.mem_append_left _ (hs2 x hx)
      have hs1n : ∀ x ∈ own,
          x ∈ (if env.listsByReference
                then (addInheritedFunction env templateClass cls subclass g f).functions
                else subclassFuncs) := by
        intro x hx
        by_cases hl : env.listsByReference = true
        · rw [if_pos hl]; exact hs2n x hx
        · rw [if_neg hl]; exact hs1 x hx
      obtain ⟨copies, h1, h2, h3⟩ := ih _ _ r h hs1n hs2n
      have hg := inheritTemplateFunction_name env templateTypes fuel subclassFuncs cls subclass g f
        hstep
      have hns := inheritTemplateFunction_not_shadowed env templateTypes fuel subclassFuncs cls
        subclass g f hstep
      refine ⟨(g, f1) :: copies, ?_, ?_, ?_⟩
      · rw [h1, hfun]
        simp
      · simpa using h2
      · intro p hp
        rcases List.mem_cons.mp hp with hp | hp
        · subst hp
          exact ⟨findFunction_none_of_subset own subclassFuncs g.name hs1 hns,
            htype.trans hg.1, hname.trans hg.2.1⟩
        · have := h3 p hp
          rw [hcn] at this
          exact this

/-- The field loop of `inheritTemplate` appends to the fields of the subclass;
each field appended stems from a non-static field of the template class that
has not the name of a field in `own`, a list of fields that the subclass has
before the loop. -/
theorem inheritTemplateFields_shadowing (env : Env) (templateTypes : List AbstractMetaType)
    (fuel : Nat) (cls : ClassId) (own : List AbstractMetaField) :
    ∀ (fields : List AbstractMetaField) (subClassFields : List AbstractMetaField)
      (subclass r : AbstractMetaClass),
      inheritTemplateFields env templateTypes fuel subClassFields cls fields subclass = some r →
      (∀ x ∈ own, x ∈ subClassFields) → (∀ x ∈ own, x ∈ subclass.fields) →
      ∃ copies : List (AbstractMetaField × AbstractMetaField),
        r.fields = subclass.fields ++ copies.map Prod.snd ∧
        (copies.map Prod.fst).Sublist fields ∧
        ∀ p ∈ copies, findField own p.1.name = none ∧
          p.1.attributes.has .Static = false ∧ p.2.name = p.1.name := by
  intro fields
  induction fields with
  | nil =>
    intro subClassFields subclass r h _ _
    unfold inheritTemplateFields at h
    cases h
    exact ⟨[], by simp, by simp, by simp⟩
  | cons g rest ih =>
    intro subClassFields subclass r h hs1 hs2
    unfold inheritTemplateFields at h
    cases hstep : inheritTemplateField env templateTypes fuel subClassFields cls g with
    | outOfFuel =>
      rw [hstep] at h
      cases h
    | skipped =>
      rw [hstep] at h
      dsimp only at h
      obtain ⟨copies, h1, h2, h3⟩ := ih _ subclass r h hs1 hs2
      exact ⟨copies, h1, h2.trans (List.sublist_cons_self _ _), h3⟩
    | inherited f =>
      rw [hstep] at h
      dsimp only at h
      have hs2n : ∀ x ∈ own, x ∈ subclass.fields ++ [f] :=
        fun x hx => List.mem_append_left _ (hs2 x hx)
      have hs1n : ∀ x ∈ own,
          x ∈ (if env.listsByReference then subclass.fields ++ [f] else subClassFields) := by
        intro x hx
        by_cases hl : env.listsByReference = true
        · rw [if_pos hl]; exact hs2n x hx
        · rw [if_neg hl]; exact hs1 x hx
      obtain ⟨copies, h1, h2, h3⟩ := ih _ _ r h hs1n hs2n
      have hg := inheritTemplateField_name env templateTypes fuel subClassFields cls g f hstep
      have hns := inheritTemplateField_not_shadowed env templateTypes fuel subClassFields cls g f
        hstep
      refine ⟨(g, f) :: copies, ?_, ?_, ?_⟩
      · rw [h1]
        simp
      · simpa using h2
      · intro p hp
        rcases List.mem_cons.mp hp with hp | hp
        · subst hp
          exact ⟨findField_none_of_subset own subClassFields g.name hs1 hns.1, hns.2, hg⟩
        · exact h3 p hp

/-- C22: when `inheritTemplate(subclass, templateClass, info)` returns, the
functions of the subclass are the functions it had before, unchanged and in the
same order, followed by copies, and likewise the fields.  The copies stem, one
by one and in order, from members of the template class, and none of these
members has the name of a function (respectively field) that the subclass had
before the call: a template function whose name is that of a function of the
subclass, and a template field whose name is that of a field of the subclass,
is not copied.  (A copied field is never static; the copy of a function has the
name of the function, or that of the subclass for a constructor.) -/
theorem inheritTemplate_shadowing (env : Env) (fuel : Nat) (d r : AbstractMetaBuilderPrivate)
    (cls templ : ClassId) (info : TypeInfo)
    (hr : inheritTemplate env fuel d cls templ info = some r) :
    ∃ (functionCopies : List (AbstractMetaFunction × AbstractMetaFunction))
      (fieldCopies : List (AbstractMetaField × AbstractMetaField)),
      (r.heap cls).functions = (d.heap cls).functions ++ functionCopies.map Prod.snd ∧
      (functionCopies.map Prod.fst).Sublist (d.heap templ).functions ∧
      (∀ p ∈ functionCopies, findFunction (d.heap cls).functions p.1.name = none ∧
        p.2.functionType = p.1.functionType ∧
        p.2.name = (if p.1.isConstructor then (d.heap cls).name else p.1.name)) ∧
      (r.heap cls).fields = (d.heap cls).fields ++ fieldCopies.map Prod.snd ∧
      (fieldCopies.map Prod.fst).Sublist (d.heap templ).fields ∧
      (∀ p ∈ fieldCopies, findField (d.heap cls).fields p.1.name = none ∧
        p.1.attributes.has .Static = false ∧ p.2.name = p.1.name) := by
  obtain ⟨subclass2, subclass3, h2, h3, hfun, hfld, _, _, _, _, _, _⟩ :=
    inheritTemplate_some env fuel d r cls templ info hr
  have hflags := inheritTypedefFlags_keeps (d.heap cls) (d.heap templ)
  obtain ⟨fc, hf1, hf2, hf3⟩ := inheritTemplateFunctions_shadowing env _ fuel (d.heap templ) cls
    (d.heap cls).functions _ _ _ _ h2 (by rw [hflags.1]; exact fun x hx => hx)
    (by rw [hflags.1]; exact fun x hx => hx)
  have hk2 := inheritTemplateFunctions_keeps env _ fuel (d.heap templ) cls _ _ _ _ h2
  have hown : subclass2.fields = (d.heap cls).fields := hk2.2.2.trans hflags.2.1
  obtain ⟨gc, hg1, hg2, hg3⟩ := inheritTemplateFields_shadowing env _ fuel cls
    (d.heap cls).fields _ _ _ _ h3 (by rw [hown]; exact fun x hx => hx)
    (by rw [hown]; exact fun x hx => hx)
  have hk3 := inheritTemplateFields_keeps env _ fuel cls _ _ _ _ h3
  refine ⟨fc, gc, ?_, hf2, ?_, ?_, hg2, hg3⟩
  · rw [hfun, hk3.1, hf1, hflags.1]
  · intro p hp
    have := hf3 p hp
    rw [hflags.2.2.1] at this
    exact this
  · rw [hfld, hg1, hown]

/-- Witness of C22: `IntBox`, a subclass of `Box<int>`, declares `int size()`
and `int count`, and `Box<T>` has `T foo()`, `int size()`, `T content` and
`int count`: the call returns, and `IntBox` has its own `size` and `count`
followed by the copies of `foo` and `content` only. -/
theorem inheritTemplate_shadowing_witness :
    (inheritTemplate templateEnv 2 shadowingModel 0 1 boxOfInt).isSome = true ∧
    (((inheritTemplate templateEnv 2 shadowingModel 0 1 boxOfInt).getD {}).heap 0).functions.map
        (fun f => (f.name, f.ownerClass, f.declaringClass))
      = [("size", some 0, some 0), ("foo", some 0, some 0)] ∧
    (((inheritTemplate templateEnv 2 shadowingModel 0 1 boxOfInt).getD {}).heap 0).fields.map
        (fun f => (f.name, f.enclosingClass)) = [("count", some 0), ("content", some 0)] ∧
    ∃ (functionCopies : List (AbstractMetaFunction × AbstractMetaFunction))
      (fieldCopies : List (AbstractMetaField × AbstractMetaField)),
      (((inheritTemplate templateEnv 2 shadowingModel 0 1 boxOfInt).getD {}).heap 0).functions
        = (shadowingModel.heap 0).functions ++ functionCopies.map Prod.snd ∧
      (functionCopies.map Prod.fst).Sublist (shadowingModel.heap 1).functions ∧
      (∀ p ∈ functionCopies, findFunction (shadowingModel.heap 0).functions p.1.name = none ∧
        p.2.functionType = p.1.functionType ∧
        p.2.name = (if p.1.isConstructor then (shadowingModel.heap 0).name else p.1.name)) ∧
      (((inheritTemplate templateEnv 2 shadowingModel 0 1 boxOfInt).getD {}).heap 0).fields
        = (shadowingModel.heap 0).fields ++ fieldCopies.map Prod.snd ∧
      (fieldCopies.map Prod.fst).Sublist (shadowingModel.heap 1).fields ∧
      (∀ p ∈ fieldCopies, findField (shadowingModel.heap 0).fields p.1.name = none ∧
        p.1.attributes.has .Static = false ∧ p.2.name = p.1.name) :=
  ⟨by decide, by decide, by decide,
   inheritTemplate_shadowing templateEnv 2 shadowingModel _ 0 1 boxOfInt
     (eq_some_getD _ {} (by decide))⟩

/-! ## The rejection checks of a function (C23, C24) -/

/-- The checks of `traverseFunction` in their order, for a function that is not
dropped before the type system is asked. -/
theorem traverseFunction_checks (env : Env) (d : AbstractMetaBuilderPrivate)
    (item : FunctionModelItem) (currentClass : Option ClassId)
    (hskip : isSkippedFunction d item currentClass = false) :
    (∀ reason, env.types.isFunctionRejected (functionClassName d currentClass) item.name
        = some reason →
      traverseFunction env d item currentClass
        = (none, addRejectedFunction d
            (qualifiedFunctionSignatureWithType item (functionClassName d currentClass) ++ reason)
            .GenerationDisabled)) ∧
    (env.types.isFunctionRejected (functionClassName d currentClass) item.name = none →
      ((env.types.isFunctionRejected (functionClassName d currentClass)
          (functionSignature item)).isSome = true →
        traverseFunction env d item currentClass = (none, d)) ∧
      ((env.types.isFunctionRejected (functionClassName d currentClass)
          (functionSignature item)).isSome = false →
        (item.isFriend = true → traverseFunction env d item currentClass = (none, d)) ∧
        (item.isFriend = false →
          ((item.isDeprecated && d.m_skipDeprecated) = true →
            traverseFunction env d item currentClass
              = (none, addRejectedFunction d
                  (qualifiedFunctionSignatureWithType item (functionClassName d currentClass)
                    ++ " is deprecated.") .GenerationDisabled)) ∧
          ((item.isDeprecated && d.m_skipDeprecated) = false →
            ∃ f0 : AbstractMetaFunction,
              f0.functionType = functionTypeFromCodeModel item.functionType ∧
              (∀ key reason,
                traverseFunctionReturnType env d item currentClass
                    (functionClassName d currentClass)
                    (qualifiedFunctionSignatureWithType item (functionClassName d currentClass))
                    f0 = .inr (key, reason) →
                traverseFunction env d item currentClass
                  = (none, addRejectedFunction d key reason)) ∧
              (∀ f1,
                traverseFunctionReturnType env d item currentClass
                    (functionClassName d currentClass)
                    (qualifiedFunctionSignatureWithType item (functionClassName d currentClass))
                    f0 = .inl f1 →
                traverseFunction env d item currentClass
                  = traverseFunctionArguments env d item currentClass
                      (functionClassName d currentClass)
                      (qualifiedFunctionSignatureWithType item
                        (functionClassName d currentClass)) f1))))) := by
  unfold isSkippedFunction at hskip
  simp only [Bool.or_eq_false_iff] at hskip
  obtain ⟨⟨h1, h2⟩, h3⟩ := hskip
  have h12 : (item.isDeleted || !item.templateParameters.isEmpty) = false := by
    rw [h1, h2]; rfl
  cases currentClass with
  | none =>
    unfold traverseFunction functionClassName
    rw [h12]
    dsimp only
    refine ⟨?_, ?_⟩
    · intro reason hr
      rw [hr]
      simp
    · intro hn
      rw [hn]
      dsimp only
      refine ⟨?_, ?_⟩
      · intro hs
        rw [hs]
        simp
      · intro hs
        rw [hs]
        refine ⟨?_, ?_⟩
        · intro hf
          rw [hf]
          simp
        · intro hf
          rw [hf]
          refine ⟨?_, ?_⟩
          · intro hd
            rw [hd]
            simp
          · intro hd
            rw [hd]
            refine ⟨{ functionType := functionTypeFromCodeModel item.functionType,
                      constant := item.isConstant,
                      exceptionSpecification := item.exceptionSpecification,
                      name := item.name, originalName := item.name,
                      attributes := initialAttributes item }, rfl, ?_, ?_⟩
            · intro key reason hret
              simp only [Bool.false_eq_true, if_false]
              rw [hret]
            · intro f1 hret
              simp only [Bool.false_eq_true, if_false]
              rw [hret]
  | some cls =>
    dsimp only at h3
    unfold traverseFunction functionClassName
    rw [h12]
    dsimp only
    rw [h3]
    simp only [Bool.false_eq_true, if_false]
    refine ⟨?_, ?_⟩
    · intro reason hr
      rw [hr]
      try simp
    · intro hn
      rw [hn]
      try dsimp only
      refine ⟨?_, ?_⟩
      · intro hs
        rw [hs]
        try simp
      · intro hs
        rw [hs]
        refine ⟨?_, ?_⟩
        · intro hf
          rw [hf]
          try simp
        · intro hf
          rw [hf]
          refine ⟨?_, ?_⟩
          · intro hd
            rw [hd]
            try simp
          · intro hd
            rw [hd]
            refine ⟨{ functionType := functionTypeFromCodeModel item.functionType,
                      constant := item.isConstant,
                      exceptionSpecification := item.exceptionSpecification,
                      name := item.name, originalName := item.name,
                      attributes := initialAttributes item }, rfl, ?_, ?_⟩
            · intro key reason hret
              try simp only [Bool.false_eq_true, if_false]
              rw [hret]
            · intro f1 hret
              try simp only [Bool.false_eq_true, if_false]
              rw [hret]

theorem traverseFunctionReturnType_rejected (env : Env) (d : AbstractMetaBuilderPrivate)
    (item : FunctionModelItem) (currentClass : Option ClassId) (className sig reason : String)
    (f0 : AbstractMetaFunction)
    (hf : f0.functionType = functionTypeFromCodeModel item.functionType)
    (hc : item.functionType ≠ .Constructor) (hd : item.functionType ≠ .Destructor)
    (hrej : env.types.isReturnTypeRejected className item.type.toString = some reason) :
    traverseFunctionReturnType env d item currentClass className sig f0
      = .inr (sig ++ reason, .GenerationDisabled) := by
  have hnd : f0.functionType ≠ .DestructorFunction := by
    rw [hf]
    cases hft : item.functionType <;> first | exact absurd hft hd | (intro h; cases h)
  have hnc : f0.functionType ≠ .ConstructorFunction := by
    rw [hf]
    cases hft : item.functionType <;> first | exact absurd hft hc | (intro h; cases h)
  unfold traverseFunctionReturnType
  split
  · rename_i h
    exact absurd h hnd
  · rename_i h
    exact absurd h hnc
  · dsimp only
    rw [hrej]

theorem traverseFunctionReturnType_passes (env : Env) (d : AbstractMetaBuilderPrivate)
    (item : FunctionModelItem) (currentClass : Option ClassId) (className sig : String)
    (f0 : AbstractMetaFunction)
    (h : f0.functionType = .ConstructorFunction ∨ f0.functionType = .DestructorFunction ∨
      (env.types.isReturnTypeRejected className item.type.toString = none ∧
        (item.type.isVoid = true ∨
          (env.translateType d.heap d.m_metaClasses d.m_templates item.type currentClass).isSome
            = true))) :
    ∃ f1, traverseFunctionReturnType env d item currentClass className sig f0 = .inl f1 := by
  unfold traverseFunctionReturnType
  split
  · exact ⟨_, rfl⟩
  · exact ⟨_, rfl⟩
  · rename_i hnd hnc
    rcases h with h | h | ⟨hr, hv⟩
    · exact absurd h hnc
    · exact absurd h hnd
    · dsimp only
      rw [hr]
      dsimp only
      rcases hv with hv | hv
      · rw [hv]
        exact ⟨_, rfl⟩
      · cases ht : env.translateType d.heap d.m_metaClasses d.m_templates item.type currentClass with
        | none => rw [ht] at hv; cases hv
        | some t =>
          by_cases hvoid : item.type.isVoid = true
          · rw [hvoid]
            exact ⟨_, rfl⟩
          · have : item.type.isVoid = false := by simpa using hvoid
            rw [this]
            exact ⟨_, rfl⟩

theorem traverseArguments_rejected_at (env : Env) (d : AbstractMetaBuilderPrivate)
    (currentClass : Option ClassId) (className sig reason : String) (arg : ArgumentModelItem)
    (post : List ArgumentModelItem)
    (hrej : env.types.isArgumentTypeRejected className arg.type.toString = some reason) :
    ∀ (pre : List ArgumentModelItem) (i : Nat) (acc : List AbstractMetaArgument),
      (∀ a ∈ pre, env.types.isArgumentTypeRejected className a.type.toString = none ∧
        (env.translateType d.heap d.m_metaClasses d.m_templates a.type currentClass).isSome
          = true) →
      traverseArguments env d currentClass className sig i (pre ++ arg :: post) acc
        = .rejected (sig ++ reason) .GenerationDisabled := by
  intro pre
  induction pre with
  | nil =>
    intro i acc _
    rw [List.nil_append]
    unfold traverseArguments
    rw [hrej]
  | cons a rest ih =>
    intro i acc hpre
    rw [List.cons_append]
    unfold traverseArguments
    obtain ⟨hr, ha⟩ := hpre a (List.mem_cons_self _ _)
    rw [hr]
    dsimp only
    cases ht : env.translateType d.heap d.m_metaClasses d.m_templates a.type currentClass with
    | none => rw [ht] at ha; cases ha
    | some t =>
      dsimp only
      exact ih _ _ (fun b hb => hpre b (List.mem_cons_of_mem _ hb))

theorem traverseFunctionArguments_rejected_eq (env : Env) (d : AbstractMetaBuilderPrivate)
    (item : FunctionModelItem) (currentClass : Option ClassId) (className sig : String)
    (f0 : AbstractMetaFunction) (key : String) (reason : RejectReason)
    (hargs : ∀ a, item.arguments = [a] →
      (a.type.qualifiedName.head? == some "void" && a.type.indirections == 0) = false)
    (h : traverseArguments env d currentClass className sig 0 item.arguments []
      = .rejected key reason) :
    traverseFunctionArguments env d item currentClass className sig f0
      = (none, addRejectedFunction d key reason) := by
  unfold traverseFunctionArguments
  rw [effectiveArguments_eq item.arguments hargs]
  dsimp only
  rw [h]

/-- C23 (amended): for a function that `traverseFunction` does not drop before
it asks the type system (not deleted, no template, no Qt meta function), the
rejection recorded is that of the first check that hits, in the order:
rejection by name; deprecation with skip policy; rejection of the return type;
rejection of the type of an argument.  (1) A function rejected by name is
recorded with the reason of the name rule, whatever else holds.  (2) A function
neither rejected by name or signature nor a friend that is deprecated, in a
build that skips deprecated functions, is recorded as deprecated, whatever the
return type and the arguments are.  (3) If it is not skipped as deprecated, and
is no constructor or destructor, a rejected return type is recorded with the
reason of the return type rule, whatever the arguments are.  (4) If the return
type passes, the first argument with a rejected type is recorded with the
reason of the argument rule, provided that the arguments before it have a type
that is not rejected and can be translated.  In each case no function is
produced and the key of the record is the qualified signature followed by the
reason. -/
theorem traverseFunction_first_rejection (env : Env) (d : AbstractMetaBuilderPrivate)
    (item : FunctionModelItem) (currentClass : Option ClassId) (className sig : String)
    (hcn : className = functionClassName d currentClass)
    (hsig : sig = qualifiedFunctionSignatureWithType item className)
    (hskip : isSkippedFunction d item currentClass = false) :
    (∀ reason, env.types.isFunctionRejected className item.name = some reason →
      traverseFunction env d item currentClass
        = (none, addRejectedFunction d (sig ++ reason) .GenerationDisabled)) ∧
    (env.types.isFunctionRejected className item.name = none →
      env.types.isFunctionRejected className (functionSignature item) = none →
      item.isFriend = false →
      (item.isDeprecated = true → d.m_skipDeprecated = true →
        traverseFunction env d item currentClass
          = (none, addRejectedFunction d (sig ++ " is deprecated.") .GenerationDisabled)) ∧
      ((item.isDeprecated && d.m_skipDeprecated) = false →
        (∀ reason, item.functionType ≠ .Constructor → item.functionType ≠ .Destructor →
          env.types.isReturnTypeRejected className item.type.toString = some reason →
          traverseFunction env d item currentClass
            = (none, addRejectedFunction d (sig ++ reason) .GenerationDisabled)) ∧
        (∀ pre arg post reason,
          (item.functionType = .Constructor ∨ item.functionType = .Destructor ∨
            (env.types.isReturnTypeRejected className item.type.toString = none ∧
              (item.type.isVoid = true ∨
                (env.translateType d.heap d.m_metaClasses d.m_templates item.type
                  currentClass).isSome = true))) →
          (∀ a, item.arguments = [a] →
            (a.type.qualifiedName.head? == some "void" && a.type.indirections == 0) = false) →
          item.arguments = pre ++ arg :: post →
          (∀ a ∈ pre, env.types.isArgumentTypeRejected className a.type.toString = none ∧
            (env.translateType d.heap d.m_metaClasses d.m_templates a.type currentClass).isSome
              = true) →
          env.types.isArgumentTypeRejected className arg.type.toString = some reason →
          traverseFunction env d item currentClass
            = (none, addRejectedFunction d (sig ++ reason) .GenerationDisabled)))) := by
  subst hcn
  subst hsig
  obtain ⟨hname, hrest⟩ := traverseFunction_checks env d item currentClass hskip
  refine ⟨hname, ?_⟩
  intro hn hs hfriend
  obtain ⟨hdep, hnodep⟩ := ((hrest hn).2 (by rw [hs]; rfl)).2 hfriend
  refine ⟨?_, ?_⟩
  · intro h1 h2
    exact hdep (by rw [h1, h2]; rfl)
  · intro hnd
    obtain ⟨f0, hf0, hinr, hinl⟩ := hnodep hnd
    refine ⟨?_, ?_⟩
    · intro reason hc hd hrej
      exact hinr _ _ (traverseFunctionReturnType_rejected env d item currentClass _ _ reason f0
        hf0 hc hd hrej)
    · intro pre arg post reason hret hargs hitem hpre hrej
      have hpass : f0.functionType = .ConstructorFunction ∨ f0.functionType = .DestructorFunction ∨
          (env.types.isReturnTypeRejected (functionClassName d currentClass) item.type.toString
              = none ∧
            (item.type.isVoid = true ∨
              (env.translateType d.heap d.m_metaClasses d.m_templates item.type
                currentClass).isSome = true)) := by
        rcases hret with h | h | h
        · left; rw [hf0, h]; rfl
        · right; left; rw [hf0, h]; rfl
        · right; right; exact h
      obtain ⟨f1, hf1⟩ := traverseFunctionReturnType_passes env d item currentClass _ _ f0 hpass
      rw [hinl f1 hf1]
      apply traverseFunctionArguments_rejected_eq env d item currentClass _ _ f1 _ _ hargs
      have := traverseArguments_rejected_at env d currentClass _
        (qualifiedFunctionSignatureWithType item (functionClassName d currentClass)) reason arg
        post hrej pre 0 [] hpre
      rw [← hitem] at this
      exact this

/-- Witness of C23: the deprecated function `Bad old(Bad b)` of the class `C`,
whose return type and argument type the type system rejects, in a build that
keeps deprecated functions: the record is that of the return type. -/
theorem traverseFunction_first_rejection_witness :
    functionRejectingEnv.types.isReturnTypeRejected "C" deprecatedFunction.type.toString
      = some " matches return type rejection" ∧
    functionRejectingEnv.types.isArgumentTypeRejected "C" "Bad"
      = some " matches argument type rejection" ∧
    traverseFunction functionRejectingEnv oneClass deprecatedFunction (some 0)
      = (none, addRejectedFunction oneClass ("Bad C::old(Bad)" ++ " matches return type rejection")
          .GenerationDisabled) :=
  ⟨by decide, by decide,
   ((((traverseFunction_first_rejection functionRejectingEnv oneClass deprecatedFunction (some 0)
      "C" "Bad C::old(Bad)" (by decide) (by decide) (by decide)).2 (by decide) (by decide)
      (by decide)).2 (by decide)).1 " matches return type rejection" (by decide) (by decide)
      (by decide))⟩

/-- Counterexample to C23 as stated: the deprecated function `Bad old(Bad b)`
of the class `C`, whose return type the type system rejects, in a build that
skips deprecated functions.  The one rejection recorded is the deprecation,
not the rejection of the return type. -/
theorem traverseFunction_records_deprecation_before_return_type :
    deprecatedFunction.isDeprecated = true ∧ skippingModel.m_skipDeprecated = true ∧
    functionRejectingEnv.types.isReturnTypeRejected (functionClassName skippingModel (some 0))
        deprecatedFunction.type.toString = some " matches return type rejection" ∧
    (traverseFunction functionRejectingEnv skippingModel deprecatedFunction (some 0)).1 = none ∧
    (traverseFunction functionRejectingEnv skippingModel deprecatedFunction
        (some 0)).2.m_rejectedFunctions
      = [("Bad C::old(Bad) is deprecated.", .GenerationDisabled)] := by
  refine ⟨by decide, by decide, by decide, rfl, by decide⟩

/-- C24: the member function `void draw(int n)` of the class `C`, whose
signature `draw(int)` the type system rejects, is dropped by `traverseFunction`
and leaves no entry in the rejected functions, whereas the function
`void hidden(int n)`, which is rejected by its name, is dropped and
recorded. -/
theorem traverseFunction_signature_rejection_not_recorded :
    (functionRejectingEnv.types.isFunctionRejected (functionClassName oneClass (some 0))
        (functionSignature drawFunction)).isSome = true ∧
    oneClass.m_rejectedFunctions = [] ∧
    (traverseFunction functionRejectingEnv oneClass drawFunction (some 0)).1 = none ∧
    (traverseFunction functionRejectingEnv oneClass drawFunction (some 0)).2.m_rejectedFunctions
      = [] ∧
    (traverseFunction functionRejectingEnv oneClass hiddenFunction (some 0)).1 = none ∧
    (traverseFunction functionRejectingEnv oneClass hiddenFunction (some 0)).2.m_rejectedFunctions
      = [("void C::hidden(int) matches function name rejection", .GenerationDisabled)] := by
  refine ⟨by decide, by decide, rfl, by decide, rfl, by decide⟩

/-! ## The home class of a free binary operator (C25) -/

theorem stripSelfArgument_spec (f : AbstractMetaFunction) :
    (stripSelfArgument f false false).arguments = f.arguments.dropLast ∧
    (stripSelfArgument f false false).reverseOperator = true ∧
    (stripSelfArgument f true false).arguments = f.arguments.tail ∧
    (stripSelfArgument f true false).reverseOperator = f.reverseOperator := by
  unfold stripSelfArgument
  refine ⟨?_, ?_, ?_, ?_⟩
  · cases h : f.arguments.getLast? with
    | none =>
      have : f.arguments = [] := by simpa using h
      simp [this]
    | some last => simp [h]
  · cases h : f.arguments.getLast? <;> simp [h]
  · cases h : f.arguments <;> simp [h]
  · cases h : f.arguments <;> simp [h]

theorem operatorMemberFunction_spec (cls : ClassId) (f : AbstractMetaFunction) :
    (operatorMemberFunction cls f false false).arguments = f.arguments.dropLast ∧
    (operatorMemberFunction cls f false false).reverseOperator = true ∧
    (operatorMemberFunction cls f true false).arguments = f.arguments.tail ∧
    (operatorMemberFunction cls f true false).reverseOperator = f.reverseOperator := by
  obtain ⟨h1, h2, h3, h4⟩ := stripSelfArgument_spec f
  unfold operatorMemberFunction
  exact ⟨h1, h2, h3, h4⟩

/-- What `traverseOperatorFunction` does once the home class of the operator is
chosen and `traverseFunction` accepts the function for it. -/
theorem traverseOperatorFunction_of_home (env : Env) (d : AbstractMetaBuilderPrivate)
    (item : FunctionModelItem) (currentClass : Option ClassId) (first : ArgumentModelItem)
    (rest : List ArgumentModelItem) (cls : ClassId) (self unary : Bool)
    (f : AbstractMetaFunction)
    (hpub : item.accessPolicy = .Public)
    (hargs : item.arguments = first :: rest)
    (hhome : operatorHomeClass env d item currentClass first rest = (some cls, self, unary))
    (hf : (traverseFunction env d item (some cls)).1 = some f) :
    ((traverseOperatorFunction env d item currentClass).heap cls).functions
      = (d.heap cls).functions ++ [operatorMemberFunction cls f self unary] ∧
    (∀ c, c ≠ cls → (traverseOperatorFunction env d item currentClass).heap c = d.heap c) := by
  have hheap := traverseFunction_heap env d item (some cls)
  cases hres : traverseFunction env d item (some cls) with
  | mk r d1 =>
    rw [hres] at hf hheap
    dsimp only at hf hheap
    subst hf
    have hout : traverseOperatorFunction env d item currentClass =
        setClass d1 cls
          { (if (operatorMemberFunction cls f self unary).name == "operator_equal" then
              { d1.heap cls with hasEqualsOperator := true } else d1.heap cls) with
            functions :=
              (if (operatorMemberFunction cls f self unary).name == "operator_equal" then
                { d1.heap cls with hasEqualsOperator := true } else d1.heap cls).functions ++
                [operatorMemberFunction cls f self unary] } := by
      unfold traverseOperatorFunction
      simp only [hpub, hargs, hhome, hres]
      simp
    refine ⟨?_, ?_⟩
    · rw [hout]
      simp only [setClass, Function.update_same]
      rw [hheap]
      split <;> rfl
    · intro c hc
      rw [hout]
      simp only [setClass, Function.update_noteq hc]
      rw [hheap]

/-- C25 (amended): for a public free binary operator `op(a, b)` whose first
argument is of the known class `A` with target-language generation:
(1) when the second argument is of a known class `B`, and the return type
resolves to a value or object type entry that is the entry of `B` and not the
entry of `A`, the function is attached to the class `R` found for the return
type entry, provided that `traverseFunction` accepts it for `R`: `R` gets
exactly one function more, without the last argument and flagged as reverse
operator (the first argument is not treated as self), and no other class
changes; (2) when the second argument is of no known class, or the return type
does not resolve, or its entry is not a value or object entry that is the entry
of the second argument's class and differs from that of `A`, the function is
attached to `A` with the first argument as self, provided that
`traverseFunction` accepts it for `A`. -/
theorem traverseOperatorFunction_return_type_home (env : Env) (d : AbstractMetaBuilderPrivate)
    (item : FunctionModelItem) (currentClass : Option ClassId) (a b : ArgumentModelItem)
    (A : ClassId)
    (hpub : item.accessPolicy = .Public)
    (hargs : item.arguments = [a, b])
    (hA : argumentToClass env d a currentClass = some A)
    (hgen : generatesTargetLang (d.heap A).typeEntry = true) :
    (∀ (B R : ClassId) (t : AbstractMetaType) (f : AbstractMetaFunction),
      argumentToClass env d b currentClass = some B →
      env.translateType d.heap d.m_metaClasses d.m_templates item.type currentClass = some t →
      (t.typeEntry.isValue || t.typeEntry.isObject) = true →
      t.typeEntry ≠ (d.heap A).typeEntry →
      t.typeEntry = (d.heap B).typeEntry →
      env.findClassByEntry d.heap d.m_metaClasses t.typeEntry = some R →
      (traverseFunction env d item (some R)).1 = some f →
      ((traverseOperatorFunction env d item currentClass).heap R).functions
        = (d.heap R).functions ++ [operatorMemberFunction R f false false] ∧
      (operatorMemberFunction R f false false).arguments = f.arguments.dropLast ∧
      (operatorMemberFunction R f false false).reverseOperator = true ∧
      (∀ c, c ≠ R → (traverseOperatorFunction env d item currentClass).heap c = d.heap c)) ∧
    (∀ f : AbstractMetaFunction,
      (∀ B t, argumentToClass env d b currentClass = some B →
        env.translateType d.heap d.m_metaClasses d.m_templates item.type currentClass = some t →
        ((t.typeEntry.isValue || t.typeEntry.isObject) && t.typeEntry != (d.heap A).typeEntry
          && t.typeEntry == (d.heap B).typeEntry) = false) →
      (traverseFunction env d item (some A)).1 = some f →
      ((traverseOperatorFunction env d item currentClass).heap A).functions
        = (d.heap A).functions ++ [operatorMemberFunction A f true false] ∧
      (operatorMemberFunction A f true false).arguments = f.arguments.tail ∧
      (operatorMemberFunction A f true false).reverseOperator = f.reverseOperator ∧
      (∀ c, c ≠ A → (traverseOperatorFunction env d item currentClass).heap c = d.heap c)) := by
  refine ⟨?_, ?_⟩
  · intro B R t f hB ht hval hne heq hR hf
    have hhome : operatorHomeClass env d item currentClass a [b] = (some R, false, false) := by
      unfold operatorHomeClass
      simp only [hA, hB, hgen, ht]
      have h1 : (t.typeEntry != (d.heap A).typeEntry) = true := by simpa using hne
      have h2 : (t.typeEntry == (d.heap B).typeEntry) = true := by simpa using heq
      simp [hval, h1, h2, hR]
    obtain ⟨h1, h2⟩ := traverseOperatorFunction_of_home env d item currentClass a [b] R false
      false f hpub hargs hhome hf
    obtain ⟨s1, s2, _, _⟩ := operatorMemberFunction_spec R f
    exact ⟨h1, s1, s2, h2⟩
  · intro f hother hf
    have hhome : operatorHomeClass env d item currentClass a [b] = (some A, true, false) := by
      unfold operatorHomeClass
      simp only [hA, hgen]
      cases hB : argumentToClass env d b currentClass with
      | none => simp
      | some B =>
        cases ht : env.translateType d.heap d.m_metaClasses d.m_templates item.type
            currentClass with
        | none => simp
        | some t =>
          have := hother B t hB ht
          simp [this]
    obtain ⟨h1, h2⟩ := traverseOperatorFunction_of_home env d item currentClass a [b] A true
      false f hpub hargs hhome hf
    obtain ⟨_, _, s3, s4⟩ := operatorMemberFunction_spec A f
    exact ⟨h1, s3, s4, h2⟩

/-- Witness of C25: `Matrix operator*(Vector v, Matrix m)` with the known
classes `Vector` (class 0) and `Matrix` (class 1): the operator is attached to
`Matrix` as reverse operator with the argument `v`. -/
theorem traverseOperatorFunction_return_type_home_witness :
    argumentToClass operatorEnv vectorMatrixModel { name := "v", type := vectorTypeInfo } none
      = some 0 ∧
    argumentToClass operatorEnv vectorMatrixModel { name := "m", type := matrixTypeInfo } none
      = some 1 ∧
    (traverseFunction operatorEnv vectorMatrixModel vectorTimesMatrix (some 1)).1.isSome = true ∧
    ((traverseOperatorFunction operatorEnv vectorMatrixModel vectorTimesMatrix none).heap 1).functions
      = (vectorMatrixModel.heap 1).functions ++
        [operatorMemberFunction 1
          ((traverseFunction operatorEnv vectorMatrixModel vectorTimesMatrix (some 1)).1.getD {})
          false false] ∧
    (operatorMemberFunction 1
        ((traverseFunction operatorEnv vectorMatrixModel vectorTimesMatrix (some 1)).1.getD {})
        false false).arguments
      = ((traverseFunction operatorEnv vectorMatrixModel vectorTimesMatrix
          (some 1)).1.getD {}).arguments.dropLast ∧
    (operatorMemberFunction 1
        ((traverseFunction operatorEnv vectorMatrixModel vectorTimesMatrix (some 1)).1.getD {})
        false false).reverseOperator = true ∧
    (∀ c, c ≠ 1 →
      (traverseOperatorFunction operatorEnv vectorMatrixModel vectorTimesMatrix none).heap c
        = vectorMatrixModel.heap c) :=
  ⟨rfl, rfl, rfl,
   (traverseOperatorFunction_return_type_home operatorEnv vectorMatrixModel vectorTimesMatrix none
     { name := "v", type := vectorTypeInfo } { name := "m", type := matrixTypeInfo } 0
     rfl rfl rfl (by decide)).1 1 1
     { typeEntry := matrixEntry, isValue := true, instantiations := [], arrayElementType := none }
     ((traverseFunction operatorEnv vectorMatrixModel vectorTimesMatrix (some 1)).1.getD {})
     rfl rfl (by decide) (by decide) (by decide) rfl rfl⟩

/-- Counterexample to C25 as stated: `Matrix operator*(Vector v, int n)` with
the known classes `Vector` (class 0) and `Matrix` (class 1).  The class of the
first argument is known and generated, and the return type resolves to the
value type entry of the known class `Matrix`, which differs from `Vector`; but
the second argument is of no class, and the operator is attached to `Vector`
with the first argument as self, not to `Matrix`. -/
theorem traverseOperatorFunction_keeps_first_argument_class :
    vectorTimesInt.accessPolicy = .Public ∧
    argumentToClass operatorEnv vectorMatrixModel { name := "v", type := vectorTypeInfo } none
      = some 0 ∧
    generatesTargetLang (vectorMatrixModel.heap 0).typeEntry = true ∧
    (operatorEnv.translateType vectorMatrixModel.heap vectorMatrixModel.m_metaClasses
        vectorMatrixModel.m_templates vectorTimesInt.type none).map
      (fun t => (t.typeEntry, t.typeEntry.isValue)) = some (matrixEntry, true) ∧
    operatorEnv.findClassByEntry vectorMatrixModel.heap vectorMatrixModel.m_metaClasses
      matrixEntry = some 1 ∧
    ((traverseOperatorFunction operatorEnv vectorMatrixModel vectorTimesInt none).heap 1).functions.map
      (fun f => f.name) = [] ∧
    ((traverseOperatorFunction operatorEnv vectorMatrixModel vectorTimesInt none).heap 0).functions.map
      (fun f => (f.name, f.arguments.map (fun x => x.name), f.reverseOperator))
      = [("operator*", ["n"], false)] := by
  refine ⟨rfl, rfl, by decide, by decide, by decide, by decide, by decide⟩

/-! ## Last modification wins (C26) -/

theorem Attributes.has_remove (a : Attributes) (f g : Attribute) :
    (Attributes.remove a f).has g = (a.has g && g != f) := by
  unfold Attributes.remove Attributes.has
  by_cases hgf : g = f
  · subst hgf
    simp
  · have h1 : (g != f) = true := by simpa using hgf
    rw [h1, Bool.and_true]
    by_cases hg : g ∈ a
    · have : g ∈ List.filter (fun x => x != f) a := by
        rw [List.mem_filter]
        exact ⟨hg, h1⟩
      simp [hg, this]
    · have : g ∉ List.filter (fun x => x != f) a := by
        rw [List.mem_filter]
        exact fun h => hg h.1
      simp [hg, this]

theorem accessModifiedAttributes_eq (a : Attributes) (mod : FunctionModification)
    (hacc : mod.isAccessModifier = true) :
    ∃ v, accessFlag mod.accessModifier = some v ∧ isVisibilityFlag v = true ∧
      accessModifiedAttributes a mod
        = ((((a.remove .Public).remove .Protected).remove .Private).remove .Friendly).add v := by
  unfold accessModifiedAttributes FunctionModification.isPublic FunctionModification.isProtected
    FunctionModification.isPrivate FunctionModification.isFriendly
  unfold FunctionModification.isAccessModifier at hacc
  cases hm : mod.accessModifier <;> rw [hm] at hacc
  · exact absurd hacc (by decide)
  · exact ⟨.Private, rfl, rfl, rfl⟩
  · exact ⟨.Protected, rfl, rfl, rfl⟩
  · exact ⟨.Public, rfl, rfl, rfl⟩
  · exact ⟨.Friendly, rfl, rfl, rfl⟩

theorem accessModifiedAttributes_has (a : Attributes) (mod : FunctionModification)
    (g : Attribute) (hacc : mod.isAccessModifier = true) :
    (accessModifiedAttributes a mod).has g
      = if isVisibilityFlag g then accessFlag mod.accessModifier == some g else a.has g := by
  obtain ⟨v, hv, hvis, heq⟩ := accessModifiedAttributes_eq a mod hacc
  rw [heq, hv, Attributes.has_add, Attributes.has_remove, Attributes.has_remove,
    Attributes.has_remove, Attributes.has_remove]
  generalize Attributes.has a g = b
  cases v <;> first
    | (exfalso; revert hvis; decide)
    | (cases g <;> cases b <;> decide)

theorem finalModifiedAttributes_has (a : Attributes) (mod : FunctionModification)
    (g : Attribute) :
    (finalModifiedAttributes a mod).has g
      = if g = .FinalInTargetLang ∧ (mod.isFinal || mod.isNonFinal) = true then mod.isFinal
        else a.has g := by
  unfold finalModifiedAttributes
  by_cases hf : mod.isFinal = true
  · rw [if_pos hf, Attributes.has_add]
    by_cases hg : g = .FinalInTargetLang
    · subst hg
      simp [hf]
    · have : (Attribute.FinalInTargetLang == g) = false := by
        simpa using fun e => hg e.symm
      simp [hg, this]
  · rw [if_neg hf]
    have hf0 : mod.isFinal = false := by simpa using hf
    by_cases hn : mod.isNonFinal = true
    · rw [if_pos hn, Attributes.has_remove]
      by_cases hg : g = .FinalInTargetLang
      · subst hg
        simp [hf0, hn]
      · have : (g != Attribute.FinalInTargetLang) = true := by simpa using hg
        simp [hg, this]
    · rw [if_neg hn]
      have hn0 : mod.isNonFinal = false := by simpa using hn
      simp [hf0, hn0]

/-- The loop body of `applyFunctionModifications` for one modification,
attribute by attribute. -/
theorem applyFunctionModification_spec (f : AbstractMetaFunction) (mod : FunctionModification) :
    (applyFunctionModification f mod).name
      = (if mod.isRenameModifier then mod.renamedTo else f.name) ∧
    (applyFunctionModification f mod).originalName
      = (if mod.isRenameModifier then f.name else f.originalName) ∧
    (∀ g, isVisibilityFlag g = true →
      (applyFunctionModification f mod).attributes.has g
        = if (!mod.isRenameModifier && mod.isAccessModifier) = true then
            accessFlag mod.accessModifier == some g
          else f.attributes.has g) ∧
    ((applyFunctionModification f mod).attributes.has .FinalInTargetLang
      = if (mod.isFinal || mod.isNonFinal) = true then mod.isFinal
        else f.attributes.has .FinalInTargetLang) ∧
    (∀ g, isVisibilityFlag g = false → g ≠ .FinalInTargetLang →
      (applyFunctionModification f mod).attributes.has g = f.attributes.has g) ∧
    (applyFunctionModification f mod).arguments = f.arguments ∧
    (applyFunctionModification f mod).type = f.type ∧
    (applyFunctionModification f mod).functionType = f.functionType := by
  have hvf : ∀ g, isVisibilityFlag g = true → g ≠ .FinalInTargetLang := by
    intro g hg e
    subst e
    revert hg
    decide
  unfold applyFunctionModification applyRenameOrAccess
  dsimp only
  by_cases hr : mod.isRenameModifier = true
  · refine ⟨by simp [hr], by simp [hr], ?_, ?_, ?_, by simp [hr], by simp [hr], by simp [hr]⟩
    · intro g hg
      simp only [hr, if_true]
      rw [finalModifiedAttributes_has]
      simp [hvf g hg]
    · simp only [hr, if_true]
      rw [finalModifiedAttributes_has]
      simp
    · intro g _ hne
      simp only [hr, if_true]
      rw [finalModifiedAttributes_has]
      simp [hne]
  · have hr0 : mod.isRenameModifier = false := by simpa using hr
    by_cases ha : mod.isAccessModifier = true
    · refine ⟨by simp [hr0, ha], by simp [hr0, ha], ?_, ?_, ?_, by simp [hr0, ha], by simp [hr0, ha],
        by simp [hr0, ha]⟩
      · intro g hg
        simp only [hr0, ha, Bool.false_eq_true, if_false, if_true]
        rw [finalModifiedAttributes_has, accessModifiedAttributes_has _ _ _ ha]
        simp [hvf g hg, hg]
      · simp only [hr0, ha, Bool.false_eq_true, if_false, if_true]
        rw [finalModifiedAttributes_has, accessModifiedAttributes_has _ _ _ ha]
        simp [isVisibilityFlag]
      · intro g hg hne
        simp only [hr0, ha, Bool.false_eq_true, if_false, if_true]
        rw [finalModifiedAttributes_has, accessModifiedAttributes_has _ _ _ ha]
        simp [hne, hg]
    · have ha0 : mod.isAccessModifier = false := by simpa using ha
      refine ⟨by simp [hr0, ha0], by simp [hr0, ha0], ?_, ?_, ?_, by simp [hr0, ha0], by simp [hr0, ha0],
        by simp [hr0, ha0]⟩
      · intro g hg
        simp only [hr0, ha0, Bool.false_eq_true, if_false]
        rw [finalModifiedAttributes_has]
        simp [hvf g hg]
      · simp only [hr0, ha0, Bool.false_eq_true, if_false]
        rw [finalModifiedAttributes_has]
        simp
      · intro g _ hne
        simp only [hr0, ha0, Bool.false_eq_true, if_false]
        rw [finalModifiedAttributes_has]
        simp [hne]

/-- A run of modifications leaves an attribute as it is when none of them
specifies it. -/
theorem foldl_applyFunctionModification_frame :
    ∀ (mods : List FunctionModification) (f : AbstractMetaFunction),
      ((∀ x ∈ mods, x.isRenameModifier = false) →
        (mods.foldl applyFunctionModification f).name = f.name ∧
        (mods.foldl applyFunctionModification f).originalName = f.originalName) ∧
      ((∀ x ∈ mods, (!x.isRenameModifier && x.isAccessModifier) = false) →
        ∀ g, isVisibilityFlag g = true →
          (mods.foldl applyFunctionModification f).attributes.has g = f.attributes.has g) ∧
      ((∀ x ∈ mods, (x.isFinal || x.isNonFinal) = false) →
        (mods.foldl applyFunctionModification f).attributes.has .FinalInTargetLang
          = f.attributes.has .FinalInTargetLang) ∧
      (∀ g, isVisibilityFlag g = false → g ≠ .FinalInTargetLang →
        (mods.foldl applyFunctionModification f).attributes.has g = f.attributes.has g) ∧
      (mods.foldl applyFunctionModification f).arguments = f.arguments ∧
      (mods.foldl applyFunctionModification f).type = f.type ∧
      (mods.foldl applyFunctionModification f).functionType = f.functionType := by
  intro mods
  induction mods with
  | nil =>
    intro f
    exact ⟨fun _ => ⟨rfl, rfl⟩, fun _ _ _ => rfl, fun _ => rfl, fun _ _ _ => rfl, rfl, rfl, rfl⟩
  | cons m rest ih =>
    intro f
    rw [List.foldl_cons]
    obtain ⟨i1, i2, i3, i4, i5, i6, i7⟩ := ih (applyFunctionModification f m)
    obtain ⟨s1, s2, s3, s4, s5, s6, s7, s8⟩ := applyFunctionModification_spec f m
    refine ⟨?_, ?_, ?_, ?_, i5.trans s6, i6.trans s7, i7.trans s8⟩
    · intro h
      have hm := h m (List.mem_cons_self _ _)
      obtain ⟨j1, j2⟩ := i1 (fun x hx => h x (List.mem_cons_of_mem _ hx))
      rw [j1, j2, s1, s2, hm]
      exact ⟨rfl, rfl⟩
    · intro h g hg
      have hm := h m (List.mem_cons_self _ _)
      rw [i2 (fun x hx => h x (List.mem_cons_of_mem _ hx)) g hg, s3 g hg, hm]
      rfl
    · intro h
      have hm := h m (List.mem_cons_self _ _)
      rw [i3 (fun x hx => h x (List.mem_cons_of_mem _ hx)), s4, hm]
      rfl
    · intro g hg hne
      rw [i4 g hg hne, s5 g hg hne]

/-- C26 (amended): after `applyFunctionModifications(func)` with the matching
modifications `mods` applied in list order, each attribute has the value given
by the last modification that specifies it, where a modification specifies the
name when it is a rename modifier, the visibility when it carries an access
modifier and is not a rename modifier, and the final flag when it is final or
non-final: (1) the name is the rename target of the last rename modifier, and
name and original name are unchanged without one; (2) the visibility flags are
exactly the access level of the last modification that carries an access
modifier and no rename, and are unchanged without one; (3) the flag
`FinalInTargetLang` is on or off as the last modification that is final or
non-final is final or not, and unchanged without one; (4) every other flag, the
arguments, the type and the function type are unchanged. -/
theorem applyFunctionModifications_last_wins (env : Env) (heap : ClassId → AbstractMetaClass)
    (func : AbstractMetaFunction) (mods : List FunctionModification)
    (hmods : env.modifications func (func.implementingClass.map heap) = mods) :
    ((∀ pre m post, mods = pre ++ m :: post → m.isRenameModifier = true →
        (∀ x ∈ post, x.isRenameModifier = false) →
        (applyFunctionModifications env heap func).name = m.renamedTo) ∧
      ((∀ x ∈ mods, x.isRenameModifier = false) →
        (applyFunctionModifications env heap func).name = func.name ∧
        (applyFunctionModifications env heap func).originalName = func.originalName)) ∧
    ((∀ pre m post, mods = pre ++ m :: post →
        m.isRenameModifier = false → m.isAccessModifier = true →
        (∀ x ∈ post, (!x.isRenameModifier && x.isAccessModifier) = false) →
        ∀ g, isVisibilityFlag g = true →
          (applyFunctionModifications env heap func).attributes.has g
            = (accessFlag m.accessModifier == some g)) ∧
      ((∀ x ∈ mods, (!x.isRenameModifier && x.isAccessModifier) = false) →
        ∀ g, isVisibilityFlag g = true →
          (applyFunctionModifications env heap func).attributes.has g
            = func.attributes.has g)) ∧
    ((∀ pre m post, mods = pre ++ m :: post → (m.isFinal || m.isNonFinal) = true →
        (∀ x ∈ post, (x.isFinal || x.isNonFinal) = false) →
        (applyFunctionModifications env heap func).attributes.has .FinalInTargetLang
          = m.isFinal) ∧
      ((∀ x ∈ mods, (x.isFinal || x.isNonFinal) = false) →
        (applyFunctionModifications env heap func).attributes.has .FinalInTargetLang
          = func.attributes.has .FinalInTargetLang)) ∧
    ((∀ g, isVisibilityFlag g = false → g ≠ .FinalInTargetLang →
        (applyFunctionModifications env heap func).attributes.has g = func.attributes.has g) ∧
      (applyFunctionModifications env heap func).arguments = func.arguments ∧
      (applyFunctionModifications env heap func).type = func.type ∧
      (applyFunctionModifications env heap func).functionType = func.functionType) := by
  unfold applyFunctionModifications
  rw [hmods]
  obtain ⟨w1, w2, w3, w4, w5, w6, w7⟩ := foldl_applyFunctionModification_frame mods func
  refine ⟨⟨?_, w1⟩, ⟨?_, w2⟩, ⟨?_, w3⟩, w4, w5, w6, w7⟩
  · intro pre m post hsplit hm hpost
    rw [hsplit, List.foldl_append, List.foldl_cons]
    rw [((foldl_applyFunctionModification_frame post _).1 hpost).1,
      (applyFunctionModification_spec _ m).1, hm]
    rfl
  · intro pre m post hsplit hr ha hpost g hg
    rw [hsplit, List.foldl_append, List.foldl_cons]
    rw [(foldl_applyFunctionModification_frame post _).2.1 hpost g hg,
      (applyFunctionModification_spec _ m).2.2.1 g hg, hr, ha]
    rfl
  · intro pre m post hsplit hm hpost
    rw [hsplit, List.foldl_append, List.foldl_cons]
    rw [(foldl_applyFunctionModification_frame post _).2.2.1 hpost,
      (applyFunctionModification_spec _ m).2.2.2.1, hm]
    rfl

/-- Witness of C26: the public function `foo` with the modifications
"rename to bar, private" and "protected, final": the name is `bar`, the
visibility is protected, and the final flag is on. -/
theorem applyFunctionModifications_last_wins_witness :
    (modifyingEnv [renameAndPrivate, protectedAndFinal]).modifications fooFunction
        (fooFunction.implementingClass.map oneClass.heap)
      = [renameAndPrivate, protectedAndFinal] ∧
    (applyFunctionModifications (modifyingEnv [renameAndPrivate, protectedAndFinal])
        oneClass.heap fooFunction).name = "bar" ∧
    (applyFunctionModifications (modifyingEnv [renameAndPrivate, protectedAndFinal])
        oneClass.heap fooFunction).attributes.has .Protected = true ∧
    (applyFunctionModifications (modifyingEnv [renameAndPrivate, protectedAndFinal])
        oneClass.heap fooFunction).attributes.has .FinalInTargetLang = true :=
  ⟨rfl,
   (applyFunctionModifications_last_wins (modifyingEnv [renameAndPrivate, protectedAndFinal])
      oneClass.heap fooFunction [renameAndPrivate, protectedAndFinal] rfl).1.1
      [] renameAndPrivate [protectedAndFinal] rfl rfl (by decide),
   (applyFunctionModifications_last_wins (modifyingEnv [renameAndPrivate, protectedAndFinal])
      oneClass.heap fooFunction [renameAndPrivate, protectedAndFinal] rfl).2.1.1
      [renameAndPrivate] protectedAndFinal [] rfl rfl rfl (by decide) .Protected rfl,
   (applyFunctionModifications_last_wins (modifyingEnv [renameAndPrivate, protectedAndFinal])
      oneClass.heap fooFunction [renameAndPrivate, protectedAndFinal] rfl).2.2.1.1
      [renameAndPrivate] protectedAndFinal [] rfl rfl (by decide)⟩

/-- Counterexample to C26 as stated: the public function `foo` with the one
modification "rename to bar, private".  The modification carries an access
modifier, and it is the last one that does; the function is renamed, but it
stays public. -/
theorem applyFunctionModifications_rename_drops_access :
    renameAndPrivate.isRenameModifier = true ∧ renameAndPrivate.isAccessModifier = true ∧
    renameAndPrivate.isPrivate = true ∧
    (modifyingEnv [renameAndPrivate]).modifications fooFunction
        (fooFunction.implementingClass.map oneClass.heap) = [renameAndPrivate] ∧
    fooFunction.attributes = [.Public] ∧
    (applyFunctionModifications (modifyingEnv [renameAndPrivate]) oneClass.heap fooFunction).name
      = "bar" ∧
    (applyFunctionModifications (modifyingEnv [renameAndPrivate]) oneClass.heap
      fooFunction).attributes = [.Public] := by
  refine ⟨by decide, by decide, by decide, by decide, by decide, by decide, by decide⟩

/-! ## Array dimensions that are no numbers (C27) -/

theorem resolvedTypeInfo_false (env : Env) (d : Option AbstractMetaBuilderPrivate)
    (typei : TypeInfo) : resolvedTypeInfo env d typei false = typei := by
  unfold resolvedTypeInfo
  cases d <;> rfl

theorem isConstCharStarCase_of_dimension (typeInfo : TypeInfo) (s : String)
    (hdims : typeInfo.arrayElements = [s]) (hs : isEmptyString s = false) :
    isConstCharStarCase typeInfo = false := by
  unfold isConstCharStarCase
  rw [hdims]
  simp [hs]

/-- The array branch of `translateTypeStatic` for a type with one dimension
that is not empty: the call returns an array type whenever the element type is
translated, whatever the dimension is. -/
theorem translateTypeStatic_one_dimension (env : Env) (d : Option AbstractMetaBuilderPrivate)
    (currentClass : Option AbstractMetaClass) (fuel : Nat) (typei : TypeInfo) (s : String)
    (e : AbstractMetaType) (next n1 : Nat)
    (hfp : typei.isFunctionPointer = false)
    (hdims : typei.arrayElements = [s])
    (hs : isEmptyString s = false)
    (helem : translateTypeStatic env d currentClass fuel (arrayElementInfo env typei) true next
      = some (some e, n1)) :
    translateTypeStatic env d currentClass (fuel + 1) typei false next
      = some (some (wrapArray env d s e n1).1, n1 + 1) ∧
    translateTypeStatic env d currentClass (fuel + 2) typei true next
      = some (some (wrapArray env d s e n1).1, n1 + 1) := by
  have hcc := isConstCharStarCase_of_dimension typei s hdims hs
  have h1 : translateTypeStatic env d currentClass (fuel + 1) typei false next
      = some (some (wrapArray env d s e n1).1, n1 + 1) := by
    rw [translateTypeStatic]
    simp only [Bool.false_eq_true, if_false]
    unfold translateResolved
    simp only [resolvedTypeInfo_false, hfp, Bool.false_eq_true, if_false]
    unfold constCharStarAdjusted
    rw [hcc]
    simp only [Bool.false_eq_true, if_false]
    unfold translateArrayOrPlain
    simp only [hdims, helem]
    simp [wrapArrays, wrapArray]
  refine ⟨h1, ?_⟩
  rw [translateTypeStatic]
  simp only [if_true, h1]

theorem arrayElementCountOf_cases (env : Env) (s : String) (hs : isEmptyString s = false) :
    (∀ b : AbstractMetaBuilderPrivate, env.toLongLong s 10 = none → s ≠ "true" → s ≠ "false" →
      isVariableName s = false → arrayElementCountOf env (some b) s = some 0) ∧
    (∀ b : AbstractMetaBuilderPrivate, env.toLongLong s 10 = none → s ≠ "true" → s ≠ "false" →
      isVariableName s = true →
      env.findEnumValue b.heap b.m_metaClasses s = none →
      b.m_globalEnums.findSome? (fun metaEnum => env.enumFindEnumValue metaEnum s) = none →
      arrayElementCountOf env (some b) s = none) ∧
    (env.toLongLong s 0 = none → arrayElementCountOf env none s = none) := by
  refine ⟨?_, ?_, ?_⟩
  · intro b hnum ht hf hvar
    unfold arrayElementCountOf findOutValueFromString
    simp [hs, hnum, ht, hf, hvar, toInt32]
  · intro b hnum ht hf hvar he hg
    unfold arrayElementCountOf findOutValueFromString
    simp [hs, hnum, ht, hf, hvar, he, hg]
  · intro hnum
    unfold arrayElementCountOf
    simp [hs, hnum]

theorem wrapArrays_arrayOf (env : Env) (d : Option AbstractMetaBuilderPrivate)
    (hpat : ∀ t, (env.decideUsagePattern t).arrayElementCount = t.arrayElementCount ∧
      (env.decideUsagePattern t).arrayElementType = t.arrayElementType ∧
      (env.decideUsagePattern t).typeEntry = t.typeEntry)
    (e : AbstractMetaType) :
    ∀ (dims : List String) (counts : List (Option Int)) (t : AbstractMetaType) (next : Nat),
      ArrayOf counts t e →
      ArrayOf (dims.reverse.map (arrayElementCountOf env d) ++ counts)
        (wrapArrays env d dims t next).1 e ∧
      (wrapArrays env d dims t next).2 = next + dims.length := by
  intro dims
  induction dims with
  | nil =>
    intro counts t next h
    exact ⟨h, rfl⟩
  | cons s rest ih =>
    intro counts t next h
    unfold wrapArrays
    have hw : ArrayOf (arrayElementCountOf env d s :: counts) (wrapArray env d s t next).1 e := by
      obtain ⟨p1, p2, p3⟩ := hpat
        { typeEntry := { addr := next, name := "Array", qualifiedCppName := "Array",
                         type := .ArrayType, nestedType := some t.typeEntry.addr },
          instantiations := [], arrayElementType := some t,
          arrayElementCount := arrayElementCountOf env d s }
      exact ArrayOf.dimension _ counts _ t e (by unfold wrapArray; dsimp only; rw [p3])
        (by unfold wrapArray; dsimp only; rw [p2]) (by unfold wrapArray; dsimp only; rw [p1]) h
    obtain ⟨h1, h2⟩ := ih (arrayElementCountOf env d s :: counts) (wrapArray env d s t next).1
      (wrapArray env d s t next).2 hw
    have hn : (wrapArray env d s t next).2 = next + 1 := rfl
    refine ⟨?_, ?_⟩
    · rw [List.reverse_cons, List.map_append, List.append_assoc]
      exact h1
    · rw [h2, hn, List.length_cons]
      omega

/-- The array branch of `translateTypeStatic`: for a type with array
dimensions that is not the case `const char[]`, the call returns the array
type that the array loop builds around the translated element type. -/
theorem translateTypeStatic_dimensions (env : Env) (d : Option AbstractMetaBuilderPrivate)
    (currentClass : Option AbstractMetaClass) (fuel : Nat) (typei : TypeInfo)
    (e : AbstractMetaType) (next n1 : Nat)
    (hfp : typei.isFunctionPointer = false)
    (hdims : typei.arrayElements ≠ [])
    (hcc : isConstCharStarCase typei = false)
    (helem : translateTypeStatic env d currentClass fuel (arrayElementInfo env typei) true next
      = some (some e, n1)) :
    translateTypeStatic env d currentClass (fuel + 1) typei false next
      = some (some (wrapArrays env d typei.arrayElements.reverse e n1).1,
          (wrapArrays env d typei.arrayElements.reverse e n1).2) ∧
    translateTypeStatic env d currentClass (fuel + 2) typei true next
      = some (some (wrapArrays env d typei.arrayElements.reverse e n1).1,
          (wrapArrays env d typei.arrayElements.reverse e n1).2) := by
  have hne : typei.arrayElements.isEmpty = false := by
    cases h : typei.arrayElements with
    | nil => exact absurd h hdims
    | cons a as => rfl
  have h1 : translateTypeStatic env d currentClass (fuel + 1) typei false next
      = some (some (wrapArrays env d typei.arrayElements.reverse e n1).1,
          (wrapArrays env d typei.arrayElements.reverse e n1).2) := by
    rw [translateTypeStatic]
    simp only [Bool.false_eq_true, if_false]
    unfold translateResolved
    simp only [resolvedTypeInfo_false, hfp, Bool.false_eq_true, if_false]
    unfold constCharStarAdjusted
    rw [hcc]
    simp only [Bool.false_eq_true, if_false]
    unfold translateArrayOrPlain
    simp only [hne, helem, Bool.not_false, Bool.and_self, if_true]
  refine ⟨h1, ?_⟩
  rw [translateTypeStatic]
  simp only [if_true, h1]

theorem arrayElementCountOf_spec (env : Env) (s : String) :
    (isEmptyString s = true → ∀ d, arrayElementCountOf env d s = none) ∧
    (isEmptyString s = false →
      (∀ b : AbstractMetaBuilderPrivate, ∀ v, env.toLongLong s 10 = some v →
        arrayElementCountOf env (some b) s = some (toInt32 v)) ∧
      (∀ b : AbstractMetaBuilderPrivate, env.toLongLong s 10 = none → s ≠ "true" →
        s ≠ "false" → isVariableName s = false → arrayElementCountOf env (some b) s = some 0) ∧
      (∀ b : AbstractMetaBuilderPrivate, env.toLongLong s 10 = none → s ≠ "true" →
        s ≠ "false" → isVariableName s = true →
        env.findEnumValue b.heap b.m_metaClasses s = none →
        b.m_globalEnums.findSome? (fun metaEnum => env.enumFindEnumValue metaEnum s) = none →
        arrayElementCountOf env (some b) s = none) ∧
      arrayElementCountOf env none s = (env.toLongLong s 0).map toInt32) := by
  refine ⟨?_, ?_⟩
  · intro hs d
    unfold arrayElementCountOf
    rw [if_pos hs]
  · intro hs
    refine ⟨?_, ?_, ?_, ?_⟩
    · intro b v hv
      unfold arrayElementCountOf findOutValueFromString
      simp [hs, hv]
    · intro b hnum ht hf hvar
      unfold arrayElementCountOf findOutValueFromString
      simp [hs, hnum, ht, hf, hvar, toInt32]
    · intro b hnum ht hf hvar he hg
      unfold arrayElementCountOf findOutValueFromString
      simp [hs, hnum, ht, hf, hvar, he, hg]
    · unfold arrayElementCountOf
      simp [hs]

/-- C27 (amended): for an array type with any number of dimensions (the case
`const char[]` aside) whose element type is translated, `translateTypeStatic`
returns the array type, with or without typedef resolution, whatever the
dimension expressions are: no dimension makes the translation fail.  The type
returned is an array over the element type with one level for each dimension,
and the element count of the level of the dimension `s` is
`arrayElementCountOf`, which is: (1) no count for an empty `s`; with a builder,
(2) the number when `QString::toLongLong` reads `s` in base 10, (3) the count 0
when it does not, and `s` is not `true` or `false` and not a plain identifier
(such as `N+1`), (4) no count when `s` is a plain identifier other than `true`
and `false` that names no enum value of a class or of a global enum; (5)
without a builder, the number that `QString::toLongLong` reads in base 0 (so
that `0x10` counts 16), and no count exactly when it reads none.
`decideUsagePattern`, whose code is not part of the sources, is taken to keep
the type entry, the element type and the element count. -/
theorem translateTypeStatic_array_dimension (env : Env) (d : Option AbstractMetaBuilderPrivate)
    (currentClass : Option AbstractMetaClass) (fuel : Nat) (typei : TypeInfo)
    (e : AbstractMetaType) (next n1 : Nat)
    (hpat : ∀ t, (env.decideUsagePattern t).arrayElementCount = t.arrayElementCount ∧
      (env.decideUsagePattern t).arrayElementType = t.arrayElementType ∧
      (env.decideUsagePattern t).typeEntry = t.typeEntry)
    (hfp : typei.isFunctionPointer = false)
    (hdims : typei.arrayElements ≠ [])
    (hcc : isConstCharStarCase typei = false)
    (helem : translateTypeStatic env d currentClass fuel (arrayElementInfo env typei) true next
      = some (some e, n1)) :
    (∃ arrayType : AbstractMetaType,
      translateTypeStatic env d currentClass (fuel + 1) typei false next
        = some (some arrayType, n1 + typei.arrayElements.length) ∧
      translateTypeStatic env d currentClass (fuel + 2) typei true next
        = some (some arrayType, n1 + typei.arrayElements.length) ∧
      ArrayOf (typei.arrayElements.map (arrayElementCountOf env d)) arrayType e ∧
      (∀ s, typei.arrayElements = [s] →
        arrayType.arrayElementCount = arrayElementCountOf env d s)) ∧
    (∀ s, (isEmptyString s = true → ∀ d1, arrayElementCountOf env d1 s = none) ∧
      (isEmptyString s = false →
        (∀ b : AbstractMetaBuilderPrivate, ∀ v, env.toLongLong s 10 = some v →
          arrayElementCountOf env (some b) s = some (toInt32 v)) ∧
        (∀ b : AbstractMetaBuilderPrivate, env.toLongLong s 10 = none → s ≠ "true" →
          s ≠ "false" → isVariableName s = false →
          arrayElementCountOf env (some b) s = some 0) ∧
        (∀ b : AbstractMetaBuilderPrivate, env.toLongLong s 10 = none → s ≠ "true" →
          s ≠ "false" → isVariableName s = true →
          env.findEnumValue b.heap b.m_metaClasses s = none →
          b.m_globalEnums.findSome? (fun metaEnum => env.enumFindEnumValue metaEnum s) = none →
          arrayElementCountOf env (some b) s = none) ∧
        arrayElementCountOf env none s = (env.toLongLong s 0).map toInt32)) := by
  obtain ⟨h1, h2⟩ := translateTypeStatic_dimensions env d currentClass fuel typei e next n1
    hfp hdims hcc helem
  obtain ⟨ha, hn⟩ := wrapArrays_arrayOf env d hpat e typei.arrayElements.reverse [] e n1
    (ArrayOf.element e)
  rw [List.reverse_reverse, List.append_nil] at ha
  rw [List.length_reverse] at hn
  refine ⟨⟨_, ?_, ?_, ha, ?_⟩, fun s => arrayElementCountOf_spec env s⟩
  · rw [h1, hn]
  · rw [h2, hn]
  · intro s hs
    rw [hs] at ha ⊢
    cases ha with
    | dimension count counts t inner e0 _ _ hc _ => exact hc

/-- Witness of C27: the array type `int[N]`, where `N` names no enum value,
translated with a builder: the array type is returned and has no element
count.  The array type `int[0x10][N]` translated without a builder has the
element count 16 for its first dimension and none for its second. -/
theorem translateTypeStatic_array_dimension_witness :
    (translateTypeStatic arrayEnv (some {}) none 3 (arrayElementInfo arrayEnv intArrayOfName)
        true 0).isSome = true ∧
    (∃ arrayType : AbstractMetaType,
      translateTypeStatic arrayEnv (some {}) none 5 intArrayOfName true 0
        = some (some arrayType, 1) ∧
      arrayType.arrayElementCount = none) ∧
    (intArrayOfHex.arrayElements.map (arrayElementCountOf hexEnv none)) = [some 16, none] :=
  have h := (translateTypeStatic_array_dimension arrayEnv (some {}) none 3 intArrayOfName
    (((translateTypeStatic arrayEnv (some {}) none 3 (arrayElementInfo arrayEnv intArrayOfName)
        true 0).getD (none, 0)).1.getD { instantiations := [], arrayElementType := none })
    0 0 (fun _ => ⟨rfl, rfl, rfl⟩) rfl (by decide) rfl rfl).1
  ⟨rfl, ⟨h.choose, h.choose_spec.2.1,
    (h.choose_spec.2.2.2 "N" rfl).trans (by decide)⟩, by decide⟩

/-- Counterexample to C27 as stated: the array type `int[N+1]` translated with a
builder.  The dimension is no number, not `true` or `false` and not the name of
an enum value; the array type returned has the element count 0, not an unknown
size.  Without a builder the same type has no element count. -/
theorem translateTypeStatic_expression_dimension_counts_zero :
    arrayEnv.toLongLong "N+1" 10 = none ∧ isVariableName "N+1" = false ∧
    (translateTypeStatic arrayEnv (some {}) none 5 intArrayOfExpression true 0).bind
        (fun r => r.1.map (fun t =>
          (t.typeEntry.type, t.arrayElementCount,
            t.arrayElementType.map (fun x => x.typeEntry.name))))
      = some (.ArrayType, some 0, some "int") ∧
    (translateTypeStatic arrayEnv none none 5 intArrayOfExpression true 0).bind
        (fun r => r.1.map (fun t =>
          (t.typeEntry.type, t.arrayElementCount,
            t.arrayElementType.map (fun x => x.typeEntry.name))))
      = some (.ArrayType, none, some "int") := by
  refine ⟨by decide, by decide, by decide, by decide⟩

/-! ## Resolution without typedef expansion comes first (C28) -/

/-- C28: a call of `translateTypeStatic` with typedef resolution first makes
the call without typedef resolution.  (1) When that call returns a type, the
call with typedef resolution returns this very result.  (2) Only when that
call returns no type does the call go on to the loop over the scope stack:
its result is then that of the steps after step 1, run on the type info that
the typedef loop leaves.  (3) The call without typedef resolution does not
enter the typedef loop: its variable `typeInfo` is the type info passed in. -/
theorem translateTypeStatic_unexpanded_first (env : Env) (d : Option AbstractMetaBuilderPrivate)
    (currentClass : Option AbstractMetaClass) (fuel : Nat) (typei : TypeInfo) (next : Nat) :
    (∀ t n, translateTypeStatic env d currentClass fuel typei false next = some (some t, n) →
      translateTypeStatic env d currentClass (fuel + 1) typei true next = some (some t, n)) ∧
    (∀ n, translateTypeStatic env d currentClass fuel typei false next = some (none, n) →
      translateTypeStatic env d currentClass (fuel + 1) typei true next
        = translateResolved env d currentClass
            (fun ti k => translateTypeStatic env d currentClass fuel ti true k) typei true n) ∧
    (translateTypeStatic env d currentClass (fuel + 1) typei false next
        = translateResolved env d currentClass
            (fun ti k => translateTypeStatic env d currentClass fuel ti true k) typei false next
      ∧ resolvedTypeInfo env d typei false = typei) := by
  refine ⟨?_, ?_, ?_, resolvedTypeInfo_false env d typei⟩
  · intro t n h
    rw [translateTypeStatic]
    simp only [if_true, h]
  · intro n h
    rw [translateTypeStatic]
    simp only [if_true, h]
  · rw [translateTypeStatic]
    simp only [Bool.false_eq_true, if_false]

/-- Witness of C28: the array type `int[2]` is translated without typedef
resolution; the call with typedef resolution returns the same array type. -/
theorem translateTypeStatic_unexpanded_first_witness :
    (translateTypeStatic arrayEnv none none 4 intArrayInfo false 0).isSome = true ∧
    translateTypeStatic arrayEnv none none 5 intArrayInfo true 0
      = some (some (((translateTypeStatic arrayEnv none none 4 intArrayInfo false 0).getD
          (none, 0)).1.getD { instantiations := [], arrayElementType := none }), 1) :=
  ⟨rfl,
   (translateTypeStatic_unexpanded_first arrayEnv none none 4 intArrayInfo 0).1 _ 1 rfl⟩

/-! ## The lookup order of a type name (C29) -/

theorem findSome_id_append (l1 l2 : List (Option TypeEntry)) :
    (l1 ++ l2).findSome? id = match l1.findSome? id with
      | some e => some e
      | none => l2.findSome? id := by
  induction l1 with
  | nil => rfl
  | cons a rest ih =>
    rw [List.cons_append, List.findSome?_cons, List.findSome?_cons]
    cases a with
    | some e => rfl
    | none => exact ih

theorem findSome_id_flatMap (cs : List ClassId) (g : ClassId → List (Option TypeEntry)) :
    (cs.flatMap g).findSome? id = cs.findSome? (fun c => (g c).findSome? id) := by
  induction cs with
  | nil => rfl
  | cons c rest ih =>
    rw [List.flatMap_cons, findSome_id_append, List.findSome?_cons, ih]
    cases (g c).findSome? id <;> rfl

theorem findTypeEntryUsingContextLoop_eq (env : Env) (context : List String)
    (qualifiedName : String) :
    ∀ n, findTypeEntryUsingContextLoop env context qualifiedName n
      = ((List.range n).reverse.map (fun k =>
          env.types.findType (joinColonColon (context.take (k + 1)) ++ "::" ++ qualifiedName))
        ).findSome? id := by
  intro n
  induction n with
  | zero => rfl
  | succ n ih =>
    rw [findTypeEntryUsingContextLoop, List.range_succ, List.reverse_append, List.reverse_singleton,
      List.singleton_append, List.map_cons, List.findSome?_cons, ih]
    cases env.types.findType (joinColonColon (context.take (n + 1)) ++ "::" ++ qualifiedName)
      <;> rfl

theorem findTypeEntryUsingContext_eq (env : Env) (metaClass : AbstractMetaClass)
    (qualifiedName : String) :
    findTypeEntryUsingContext env metaClass qualifiedName
      = (scopeChainLookups env metaClass qualifiedName).findSome? id := by
  unfold findTypeEntryUsingContext scopeChainLookups
  exact findTypeEntryUsingContextLoop_eq env _ qualifiedName _

theorem filter_getLast_eq (p : TypeEntry → Bool) :
    ∀ r : List TypeEntry,
      (r.reverse.filter p).getLast?
        = (r.map (fun te => if p te then some te else none)).findSome? id := by
  intro r
  induction r with
  | nil => rfl
  | cons a rest ih =>
    rw [List.reverse_cons, List.filter_append, List.map_cons, List.findSome?_cons]
    by_cases h : p a = true
    · rw [List.filter_cons_of_pos h, List.filter_nil, List.getLast?_concat, if_pos h]
      rfl
    · rw [List.filter_cons_of_neg h, List.filter_nil, List.append_nil, if_neg h]
      exact ih

theorem findTemplateArgument_eq (cls : AbstractMetaClass) (qualifiedName : String) :
    findTemplateArgument cls qualifiedName
      = (cls.templateArguments.reverse.map
          (fun te => if te.name == qualifiedName then some te else none)).findSome? id := by
  unfold findTemplateArgument
  have h := filter_getLast_eq (fun te => te.name == qualifiedName) cls.templateArguments.reverse
  rw [List.reverse_reverse] at h
  exact h

theorem findSome_id_flatMap_classes (cs : List AbstractMetaClass)
    (g : AbstractMetaClass → List (Option TypeEntry)) :
    (cs.flatMap g).findSome? id = cs.findSome? (fun c => (g c).findSome? id) := by
  induction cs with
  | nil => rfl
  | cons c rest ih =>
    rw [List.flatMap_cons, findSome_id_append, List.findSome?_cons, ih]
    cases (g c).findSome? id <;> rfl

theorem getBaseClasses_lookups (env : Env) (b : AbstractMetaBuilderPrivate)
    (cls : AbstractMetaClass) (qualifiedName : String) :
    (getBaseClasses env b cls).findSome?
        (fun c => findTypeEntryUsingContext env (b.heap c) qualifiedName)
      = ((resolvedBaseClasses env (some b) cls).flatMap
          (fun c => scopeChainLookups env c qualifiedName)).findSome? id := by
  rw [findSome_id_flatMap_classes]
  unfold getBaseClasses resolvedBaseClasses
  dsimp only
  induction cls.baseClassNames with
  | nil => rfl
  | cons parent rest ih =>
    rw [List.filterMap_cons, List.filterMap_cons]
    cases hres : (if containsChar parent '<' then (findTemplateClass env b parent cls).1
        else env.findClass b.heap b.m_metaClasses parent) with
    | none =>
      simp only [Option.map_none']
      exact ih
    | some c =>
      simp only [Option.map_some']
      rw [List.findSome?_cons, List.findSome?_cons, findTypeEntryUsingContext_eq, ih]

theorem findTypeEntryInScopes_eq (env : Env) (d : Option AbstractMetaBuilderPrivate)
    (cls : AbstractMetaClass) (qualifiedName : String) :
    findTypeEntryInScopes env d cls qualifiedName
      = (scopeChainLookups env cls qualifiedName
          ++ (resolvedBaseClasses env d cls).flatMap
              (fun c => scopeChainLookups env c qualifiedName)).findSome? id := by
  unfold findTypeEntryInScopes
  rw [findTypeEntryUsingContext_eq, findSome_id_append]
  cases (scopeChainLookups env cls qualifiedName).findSome? id with
  | some e => rfl
  | none =>
    dsimp only
    cases d with
    | none => rfl
    | some b =>
      dsimp only
      by_cases hb : (!cls.baseClassNames.isEmpty) = true
      · rw [if_pos hb]
        exact getBaseClasses_lookups env b cls qualifiedName
      · rw [if_neg hb]
        have hnil : cls.baseClassNames = [] := by
          cases h : cls.baseClassNames with
          | nil => rfl
          | cons a as => rw [h] at hb; exact absurd rfl hb
        unfold resolvedBaseClasses
        rw [hnil]
        rfl

/-- Steps 5 to 8 of `translateTypeStatic` take the first hit in the lookup
order of the specification. -/
theorem findTypeEntry_first_hit (env : Env) (d : Option AbstractMetaBuilderPrivate)
    (currentClass : Option AbstractMetaClass) (qualifiedName name : String) :
    findTypeEntry env d currentClass qualifiedName name
      = (typeEntryLookups env currentClass (lookupBaseClasses env d currentClass)
          qualifiedName name).findSome? id := by
  unfold findTypeEntry typeEntryLookups lookupBaseClasses
  cases currentClass with
  | none =>
    simp only [List.nil_append, List.append_nil, List.findSome?_cons, List.findSome?_nil, id]
    cases env.types.findType qualifiedName with
    | some e => rfl
    | none =>
      cases env.types.findFlagsType qualifiedName with
      | some e => rfl
      | none =>
        cases env.types.findContainerType name <;> rfl
  | some cls =>
    dsimp only
    rw [List.append_assoc, findSome_id_append,
      ← findTypeEntryInScopes_eq env d cls qualifiedName, findTemplateArgument_eq]
    cases findTypeEntryInScopes env d cls qualifiedName with
    | some e => rfl
    | none =>
      dsimp only
      simp only [List.cons_append, List.nil_append, List.findSome?_cons, id]
      cases env.types.findType qualifiedName with
      | some e => rfl
      | none =>
        cases env.types.findFlagsType qualifiedName with
        | some e => rfl
        | none =>
          cases env.types.findContainerType name with
          | some e => rfl
          | none => rfl

theorem findTypeEntryUsingContextLoop_hit (env : Env) (context : List String)
    (qualifiedName : String) (k : Nat) (e : TypeEntry)
    (hk : env.types.findType (joinColonColon (context.take (k + 1)) ++ "::" ++ qualifiedName)
      = some e) :
    ∀ n, k < n →
      (∀ j, k < j → j < n →
        env.types.findType (joinColonColon (context.take (j + 1)) ++ "::" ++ qualifiedName)
          = none) →
      findTypeEntryUsingContextLoop env context qualifiedName n = some e := by
  intro n
  induction n with
  | zero => intro h; omega
  | succ n ih =>
    intro hkn hnone
    rw [findTypeEntryUsingContextLoop]
    by_cases hkeq : k = n
    · subst hkeq
      rw [hk]
    · have hlt : k < n := by omega
      rw [hnone n hlt (by omega)]
      exact ih hlt (fun j h1 h2 => hnone j h1 (by omega))

theorem translateTypeStatic_plain (env : Env) (d : Option AbstractMetaBuilderPrivate)
    (currentClass : Option AbstractMetaClass) (fuel : Nat) (typei : TypeInfo) (next : Nat)
    (hfp : typei.isFunctionPointer = false) (harr : typei.arrayElements = []) :
    translateTypeStatic env d currentClass (fuel + 1) typei false next
      = translatePlainType env d currentClass
          (fun ti k => translateTypeStatic env d currentClass fuel ti true k) typei typei next := by
  have hcc : isConstCharStarCase typei = false := by
    unfold isConstCharStarCase
    rw [harr]
    rfl
  rw [translateTypeStatic]
  simp only [Bool.false_eq_true, if_false]
  unfold translateResolved
  simp only [resolvedTypeInfo_false, hfp, Bool.false_eq_true, if_false]
  unfold constCharStarAdjusted
  rw [hcc]
  simp only [Bool.false_eq_true, if_false]
  unfold translateArrayOrPlain
  simp [harr]

theorem translatePlainType_entry (env : Env) (d : Option AbstractMetaBuilderPrivate)
    (currentClass : Option AbstractMetaClass) (translate : TypeInfo → Nat → TranslateResult)
    (typei typeInfo : TypeInfo) (next : Nat) (name : String)
    (hpat : ∀ t, (env.decideUsagePattern t).typeEntry = t.typeEntry)
    (hname : typeInfo.qualifiedName.getLast? = some name) :
    (findTypeEntry env d currentClass (lookupName typeInfo) name = none →
      translatePlainType env d currentClass translate typei typeInfo next = some (none, next)) ∧
    (∀ t n, translatePlainType env d currentClass translate typei typeInfo next
        = some (some t, n) →
      findTypeEntry env d currentClass (lookupName typeInfo) name = some t.typeEntry) ∧
    (∀ e, findTypeEntry env d currentClass (lookupName typeInfo) name = some e →
      typeInfo.instantiations = [] →
      ∃ t, translatePlainType env d currentClass translate typei typeInfo next
          = some (some t, next) ∧ t.typeEntry = e) := by
  unfold translatePlainType lookupName
  rw [hname]
  dsimp only
  refine ⟨?_, ?_, ?_⟩
  · intro h
    rw [h]
  · intro t n h
    cases hf : findTypeEntry env d currentClass
        (if (joinColonColon typeInfo.qualifiedName == "QFlags") = true then typeInfo.toString
          else joinColonColon typeInfo.qualifiedName) name with
    | none =>
      rw [hf] at h
      cases h
    | some e =>
      rw [hf] at h
      dsimp only at h
      split at h
      · cases h
      · cases h
      · simp only [Option.some.injEq, Prod.mk.injEq] at h
        rw [← h.1, hpat]
  · intro e h hinst
    rw [h]
    dsimp only
    have : (if (joinColonColon typeInfo.qualifiedName == "QFlags") = true then []
        else typeInfo.instantiations) = [] := by
      split
      · rfl
      · exact hinst
    rw [this]
    refine ⟨_, rfl, ?_⟩
    rw [hpat]

theorem findTemplateArgument_last (cls : AbstractMetaClass) (qualifiedName : String)
    (pre post : List TypeEntry) (te : TypeEntry)
    (hargs : cls.templateArguments = pre ++ te :: post)
    (hname : te.name = qualifiedName)
    (hpost : ∀ x ∈ post, x.name ≠ qualifiedName) :
    findTemplateArgument cls qualifiedName = some te := by
  unfold findTemplateArgument
  have hp : post.filter (fun x => x.name == qualifiedName) = [] := by
    rw [List.filter_eq_nil_iff]
    intro x hx
    simpa using hpost x hx
  rw [hargs, List.filter_append, List.filter_cons_of_pos (by simpa using hname), hp,
    List.getLast?_concat]

/-- C29: for a type info that is no function pointer and no array, the type
entry that `translateTypeStatic` takes is the first hit in the lookup order of
the specification: the name qualified by the scopes of the current class from
the innermost to the outermost; the same for each base class that the builder
resolves, in declaration order; the global lookup; the flags lookup; the
container lookup by the local name; a template parameter of the current class
of that name.  (1) Steps 5 to 8 return the first hit of these lookups.  (2)
Without a hit the call returns no type; a type returned has the first hit as
its type entry; and with a hit, a type without template arguments is returned
with that entry.  (3) An entry registered as `scope::name` for a scope of the
current class, with no entry for a scope further in, is taken whatever is
registered for scopes further out and globally.  (4) When the scopes of the
current class have no entry, the entry found through the scopes of the first
resolved base class that has one is taken.  (5) When the scopes, the global
lookup, the flags lookup and the container lookup have no entry, the last
template parameter of the current class that has the name is taken.
`decideUsagePattern`, whose code is not part of the sources, is taken to keep
the type entry. -/
theorem translateTypeStatic_lookup_order (env : Env) (d : Option AbstractMetaBuilderPrivate)
    (currentClass : Option AbstractMetaClass) (fuel : Nat) (typei : TypeInfo) (next : Nat)
    (name : String)
    (hpat : ∀ t, (env.decideUsagePattern t).typeEntry = t.typeEntry)
    (hfp : typei.isFunctionPointer = false) (harr : typei.arrayElements = [])
    (hname : typei.qualifiedName.getLast? = some name) :
    findTypeEntry env d currentClass (lookupName typei) name
      = (typeEntryLookups env currentClass (lookupBaseClasses env d currentClass)
          (lookupName typei) name).findSome? id ∧
    ((typeEntryLookups env currentClass (lookupBaseClasses env d currentClass)
        (lookupName typei) name).findSome? id = none →
      translateTypeStatic env d currentClass (fuel + 1) typei false next = some (none, next)) ∧
    (∀ t n, translateTypeStatic env d currentClass (fuel + 1) typei false next
        = some (some t, n) →
      (typeEntryLookups env currentClass (lookupBaseClasses env d currentClass)
        (lookupName typei) name).findSome? id = some t.typeEntry) ∧
    (∀ e, (typeEntryLookups env currentClass (lookupBaseClasses env d currentClass)
        (lookupName typei) name).findSome? id = some e →
      typei.instantiations = [] →
      ∃ t, translateTypeStatic env d currentClass (fuel + 1) typei false next
          = some (some t, next) ∧ t.typeEntry = e) ∧
    (∀ cls k e, currentClass = some cls →
      k < (splitColonColon cls.qualifiedCppName).length →
      env.types.findType
          (joinColonColon ((splitColonColon cls.qualifiedCppName).take (k + 1)) ++ "::"
            ++ lookupName typei) = some e →
      (∀ j, k < j → j < (splitColonColon cls.qualifiedCppName).length →
        env.types.findType
            (joinColonColon ((splitColonColon cls.qualifiedCppName).take (j + 1)) ++ "::"
              ++ lookupName typei) = none) →
      findTypeEntry env d currentClass (lookupName typei) name = some e) ∧
    (∀ cls pre base post e, currentClass = some cls →
      (scopeChainLookups env cls (lookupName typei)).findSome? id = none →
      resolvedBaseClasses env d cls = pre ++ base :: post →
      (∀ c ∈ pre, (scopeChainLookups env c (lookupName typei)).findSome? id = none) →
      (scopeChainLookups env base (lookupName typei)).findSome? id = some e →
      findTypeEntry env d currentClass (lookupName typei) name = some e) ∧
    (∀ cls pre te post, currentClass = some cls →
      (scopeChainLookups env cls (lookupName typei)).findSome? id = none →
      (∀ c ∈ resolvedBaseClasses env d cls,
        (scopeChainLookups env c (lookupName typei)).findSome? id = none) →
      env.types.findType (lookupName typei) = none →
      env.types.findFlagsType (lookupName typei) = none →
      env.types.findContainerType name = none →
      cls.templateArguments = pre ++ te :: post →
      te.name = lookupName typei →
      (∀ x ∈ post, x.name ≠ lookupName typei) →
      findTypeEntry env d currentClass (lookupName typei) name = some te) := by
  have hfirst := findTypeEntry_first_hit env d currentClass (lookupName typei) name
  have hplain := translateTypeStatic_plain env d currentClass fuel typei next hfp harr
  obtain ⟨p1, p2, p3⟩ := translatePlainType_entry env d currentClass
    (fun ti k => translateTypeStatic env d currentClass fuel ti true k) typei typei next name
    hpat hname
  refine ⟨hfirst, ?_, ?_, ?_, ?_, ?_, ?_⟩
  · intro h
    rw [hplain]
    exact p1 (hfirst.trans h)
  · intro t n h
    rw [hplain] at h
    rw [← hfirst]
    exact p2 t n h
  · intro e h hinst
    rw [hplain]
    exact p3 e (hfirst.trans h) hinst
  · intro cls k e hcls hk hhit hnone
    subst hcls
    have hctx : findTypeEntryUsingContext env cls (lookupName typei) = some e := by
      unfold findTypeEntryUsingContext
      exact findTypeEntryUsingContextLoop_hit env _ _ k e hhit _ hk hnone
    unfold findTypeEntry findTypeEntryInScopes
    dsimp only
    rw [hctx]
  · intro cls pre base post e hcls hchain hbases hpre hbase
    subst hcls
    have hscopes : findTypeEntryInScopes env d cls (lookupName typei) = some e := by
      rw [findTypeEntryInScopes_eq, findSome_id_append, hchain]
      dsimp only
      rw [findSome_id_flatMap_classes, hbases, List.findSome?_append]
      have hp : pre.findSome? (fun c => (scopeChainLookups env c (lookupName typei)).findSome? id)
          = none := by
        rw [List.findSome?_eq_none_iff]
        exact hpre
      rw [hp, List.findSome?_cons, hbase]
      rfl
    unfold findTypeEntry
    dsimp only
    rw [hscopes]
  · intro cls pre te post hcls hchain hbases hglobal hflags hcontainer hargs hte hpost
    subst hcls
    have hscopes : findTypeEntryInScopes env d cls (lookupName typei) = none := by
      rw [findTypeEntryInScopes_eq, findSome_id_append, hchain]
      dsimp only
      rw [findSome_id_flatMap_classes, List.findSome?_eq_none_iff]
      exact hbases
    unfold findTypeEntry
    dsimp only
    rw [hscopes, hglobal, hflags, hcontainer]
    exact findTemplateArgument_last cls _ pre post te hargs hte hpost

/-- Witness of C29, with a builder: the class `NS::Derived<T>` has the base
class `Other::Base`, and the type database has the one entry `Other::Size`.
The lookups for `Size` are `NS::Derived::Size`, `NS::Size`, then through the
base class `Other::Base::Size` and `Other::Size`, which is the first hit; the
type `T` has no entry at all and is translated to the template parameter.
Without a builder: the type `Color` in the class `NS::Widget`, with the
entries `Color`, `NS::Color` and `NS::Widget::Color` in the type database, is
translated to the entry `NS::Widget::Color`; in the class `NS::Button` to
`NS::Color`; without a current class to `Color`. -/
theorem translateTypeStatic_lookup_order_witness :
    typeEntryLookups baseScopeEnv (some (baseScopeModel.heap 0))
        (lookupBaseClasses baseScopeEnv (some baseScopeModel) (some (baseScopeModel.heap 0)))
        (lookupName sizeTypeInfo) "Size"
      = [none, none, none, some sizeEntry, none, none, none, none] ∧
    (∃ t, translateTypeStatic baseScopeEnv (some baseScopeModel) (some (baseScopeModel.heap 0)) 1
        sizeTypeInfo false 0 = some (some t, 0) ∧ t.typeEntry = sizeEntry) ∧
    findTypeEntry baseScopeEnv (some baseScopeModel) (some (baseScopeModel.heap 0))
        (lookupName sizeTypeInfo) "Size" = some sizeEntry ∧
    findTypeEntry baseScopeEnv (some baseScopeModel) (some (baseScopeModel.heap 0))
        (lookupName parameterTypeInfo) "T" = some parameterEntry ∧
    (∃ t, translateTypeStatic scopedEnv none (some scopedWidget) 1 colorTypeInfo false 0
        = some (some t, 0) ∧ t.typeEntry = innerColorEntry) ∧
    findTypeEntry scopedEnv none (some scopedButton) (lookupName colorTypeInfo) "Color"
      = some outerColorEntry ∧
    findTypeEntry scopedEnv none none (lookupName colorTypeInfo) "Color"
      = some globalColorEntry :=
  ⟨by decide,
   (translateTypeStatic_lookup_order baseScopeEnv (some baseScopeModel)
      (some (baseScopeModel.heap 0)) 0 sizeTypeInfo 0 "Size"
      (fun _ => rfl) rfl rfl rfl).2.2.2.1 sizeEntry (by decide) rfl,
   (translateTypeStatic_lookup_order baseScopeEnv (some baseScopeModel)
      (some (baseScopeModel.heap 0)) 0 sizeTypeInfo 0 "Size"
      (fun _ => rfl) rfl rfl rfl).2.2.2.2.2.1 (baseScopeModel.heap 0) [] (baseScopeModel.heap 1)
      [] sizeEntry rfl (by decide) rfl (by intro c hc; cases hc) (by decide),
   (translateTypeStatic_lookup_order baseScopeEnv (some baseScopeModel)
      (some (baseScopeModel.heap 0)) 0 parameterTypeInfo 0 "T"
      (fun _ => rfl) rfl rfl rfl).2.2.2.2.2.2 (baseScopeModel.heap 0) [] parameterEntry []
      rfl (by decide) (by decide) (by decide) (by decide) (by decide) (by decide) (by decide)
      (by decide),
   (translateTypeStatic_lookup_order scopedEnv none (some scopedWidget) 0 colorTypeInfo 0 "Color"
      (fun _ => rfl) rfl rfl rfl).2.2.2.1 innerColorEntry (by decide) rfl,
   (translateTypeStatic_lookup_order scopedEnv none (some scopedButton) 0 colorTypeInfo 0 "Color"
      (fun _ => rfl) rfl rfl rfl).2.2.2.2.1 scopedButton 0 outerColorEntry rfl (by decide)
      (by decide) (by
        intro j h1 h2
        have h3 : (splitColonColon scopedButton.qualifiedCppName).length = 2 := by decide
        have hj : j = 1 := by omega
        subst hj
        decide),
   by decide⟩

/-! ## Each class is set up once (C30) -/

theorem setupInheritance_step (env : Env) (fuel : Nat) (d : AbstractMetaBuilderPrivate)
    (cls : ClassId) :
    setupInheritance env (fuel + 1) d cls
      = setupInheritanceStep env fuel (setupInheritance env fuel) d cls := by
  rw [setupInheritance]
  rfl

theorem setupInterfaces_onlyWhenDone (env : Env)
    (setup : AbstractMetaBuilderPrivate → ClassId → Option (Bool × AbstractMetaBuilderPrivate))
    (hsetup : KeepsDone setup) (cls x : ClassId) (primary : Option Nat) :
    ∀ (names : List String) (i : Nat) (d : AbstractMetaBuilderPrivate),
      x ∈ d.m_setupInheritanceDone →
      setupInterfaces env (onlyWhenDone x setup) cls primary names i d
        = setupInterfaces env setup cls primary names i d := by
  intro names
  induction names with
  | nil =>
    intro i d _
    unfold setupInterfaces
    rfl
  | cons name rest ih =>
    intro i d hx
    rw [setupInterfaces, setupInterfaces]
    by_cases h1 : env.types.isClassRejected name = true
    · rw [if_pos h1, if_pos h1]
      exact ih _ _ hx
    · rw [if_neg h1, if_neg h1]
      by_cases h2 : primary = some i
      · rw [if_pos h2, if_pos h2]
        exact ih _ _ hx
      · rw [if_neg h2, if_neg h2]
        cases hf : env.findClass d.heap d.m_metaClasses name with
        | none => rfl
        | some baseClass =>
          dsimp only
          have hg : onlyWhenDone x setup d baseClass = setup d baseClass := by
            unfold onlyWhenDone
            rw [if_pos hx]
          rw [hg]
          cases hcall : setup d baseClass with
          | none => rfl
          | some res =>
            obtain ⟨b1, d1⟩ := res
            dsimp only
            have hx1 : x ∈ d1.m_setupInheritanceDone := (hsetup _ _ _ _ hcall).2 x hx
            cases hi : env.findClass d1.heap d1.m_metaClasses
                (interfaceClassName (d1.heap baseClass)) with
            | none => rfl
            | some iface =>
              dsimp only
              exact ih _ _ hx1

theorem setupInheritance_marks (env : Env) (fuel : Nat) (d r : AbstractMetaBuilderPrivate)
    (x : ClassId) (b : Bool) (h : setupInheritance env fuel d x = some (b, r)) :
    x ∈ r.m_setupInheritanceDone := by
  cases fuel with
  | zero =>
    unfold setupInheritance at h
    cases h
  | succ fuel =>
    have ih := setupInheritance_keepsDone env fuel
    unfold setupInheritance at h
    split at h
    · rename_i hx
      cases h
      exact hx
    · dsimp only at h
      split at h
      · split at h
        · rename_i templ info _ _
          split at h
          · cases h
          · rename_i b1 d2 hcall
            obtain ⟨_, hdone⟩ := ih _ _ _ _ hcall
            split at h
            · cases h
            · rename_i d3 hinh
              cases h
              have hd := inheritTemplate_done env fuel d2 d3 x templ info hinh
              rw [setClass_done, hd]
              exact hdone x (List.mem_cons_self _ _)
        · cases h
          exact List.mem_cons_self _ _
        · cases h
          exact List.mem_cons_self _ _
      · split at h
        · cases h
          exact List.mem_cons_self _ _
        · rename_i d2 hbased
          obtain ⟨_, hdone⟩ := setupInterfaces_frame env _ ih x _ _ _ _ _ _ h
          have hd2 : d2.m_setupInheritanceDone = x :: d.m_setupInheritanceDone := by
            split at hbased
            · split at hbased
              · cases hbased
              · cases hbased
                rfl
            · cases hbased
              rfl
          exact hdone x (by rw [hd2]; exact List.mem_cons_self _ _)

theorem setupInheritanceStep_onlyWhenDone (env : Env) (fuel : Nat)
    (setup : AbstractMetaBuilderPrivate → ClassId → Option (Bool × AbstractMetaBuilderPrivate))
    (hsetup : KeepsDone setup) (d : AbstractMetaBuilderPrivate) (cls : ClassId) :
    setupInheritanceStep env fuel (onlyWhenDone cls setup) d cls
      = setupInheritanceStep env fuel setup d cls := by
  unfold setupInheritanceStep
  by_cases hc : cls ∈ d.m_setupInheritanceDone
  · rw [if_pos hc, if_pos hc]
  · rw [if_neg hc, if_neg hc]
    dsimp only
    cases ht : templateBaseName (d.heap cls).baseClassNames with
    | some first =>
      dsimp only
      have hg : ∀ templ, onlyWhenDone cls setup
          { d with m_setupInheritanceDone := cls :: d.m_setupInheritanceDone } templ
          = setup { d with m_setupInheritanceDone := cls :: d.m_setupInheritanceDone } templ := by
        intro templ
        unfold onlyWhenDone
        rw [if_pos (List.mem_cons_self _ _)]
      split
      · rw [hg]
      · rfl
      · rfl
    | none =>
      dsimp only
      split
      · rfl
      · rename_i d2 hbased
        have hd2 : d2.m_setupInheritanceDone = cls :: d.m_setupInheritanceDone := by
          split at hbased
          · split at hbased
            · cases hbased
            · cases hbased
              rfl
          · cases hbased
            rfl
        exact setupInterfaces_onlyWhenDone env setup hsetup cls cls _ _ _ _
          (by rw [hd2]; exact List.mem_cons_self _ _)

/-- C30: `setupInheritance` processes each class at most once.  (1) A call on a
class that is in `m_setupInheritanceDone` returns `true` at once and leaves the
builder, and with it every class, as it is.  (2) A call that returns, be it
`true` or `false`, leaves its class in `m_setupInheritanceDone` and takes no
class out of it, so that a further call on the class returns `true` at once
and changes nothing.  (3) While a call on a class is in progress, the class is
in `m_setupInheritanceDone`: the call is the body of the function with every
call of `setupInheritance` that it makes cut off in a state in which the class
is not marked; a call that it makes on the class itself therefore returns
`true` at once by (1). -/
theorem setupInheritance_once (env : Env) (d : AbstractMetaBuilderPrivate) (cls : ClassId) :
    (cls ∈ d.m_setupInheritanceDone →
      ∀ fuel, setupInheritance env (fuel + 1) d cls = some (true, d)) ∧
    (∀ fuel b r, setupInheritance env fuel d cls = some (b, r) →
      cls ∈ r.m_setupInheritanceDone ∧
      (∀ c ∈ d.m_setupInheritanceDone, c ∈ r.m_setupInheritanceDone) ∧
      ∀ fuel1, setupInheritance env (fuel1 + 1) r cls = some (true, r)) ∧
    (∀ fuel, setupInheritance env (fuel + 1) d cls
      = setupInheritanceStep env fuel (onlyWhenDone cls (setupInheritance env fuel)) d cls) := by
  have hmemo : ∀ (s : AbstractMetaBuilderPrivate), cls ∈ s.m_setupInheritanceDone →
      ∀ fuel, setupInheritance env (fuel + 1) s cls = some (true, s) := by
    intro s hs fuel
    rw [setupInheritance, if_pos hs]
  refine ⟨hmemo d, ?_, ?_⟩
  · intro fuel b r h
    have hm := setupInheritance_marks env fuel d r cls b h
    exact ⟨hm, (setupInheritance_keepsDone env fuel d r cls b h).2, hmemo r hm⟩
  · intro fuel
    rw [setupInheritance_step,
      setupInheritanceStep_onlyWhenDone env fuel _ (setupInheritance_keepsDone env fuel)]

/-- Witness of C30: the classes `A : public B` and `B : public A`.  The call on
`A` calls `setupInheritance` on `B`, which calls it on `A` again while the
first call is in progress; the calls return, each class has the other one as
interface, and a further call on `A` returns `true` and changes nothing. -/
theorem setupInheritance_once_witness :
    (setupInheritance exampleEnv 5 cyclicModel 0).map
        (fun r => (r.1, r.2.m_setupInheritanceDone, (r.2.heap 0).interfaces,
          (r.2.heap 1).interfaces))
      = some (true, [1, 0], [1, 0], [0]) ∧
    0 ∈ ((setupInheritance exampleEnv 5 cyclicModel 0).getD
      (false, {})).2.m_setupInheritanceDone ∧
    setupInheritance exampleEnv 1
        ((setupInheritance exampleEnv 5 cyclicModel 0).getD (false, {})).2 0
      = some (true, ((setupInheritance exampleEnv 5 cyclicModel 0).getD (false, {})).2) :=
  have h := (setupInheritance_once exampleEnv cyclicModel 0).2.1 5 true
    ((setupInheritance exampleEnv 5 cyclicModel 0).getD (false, {})).2 rfl
  ⟨by decide, h.1, h.2.2 0⟩

/-! ## Exception handling and allow-thread modifications (C38) -/

theorem applyExceptionAndThreadMods_append (l1 l2 : List FunctionModification)
    (f : AbstractMetaFunction) :
    applyExceptionAndThreadMods (l1 ++ l2) f
      = applyExceptionAndThreadMods l2 (applyExceptionAndThreadMods l1 f) := by
  unfold applyExceptionAndThreadMods
  rw [List.foldl_append]

/-- One round of the loop of `traverseFunction` over the function
modifications. -/
theorem applyExceptionAndThreadMods_cons (m : FunctionModification)
    (rest : List FunctionModification) (f : AbstractMetaFunction) :
    ∃ g : AbstractMetaFunction,
      applyExceptionAndThreadMods (m :: rest) f = applyExceptionAndThreadMods rest g ∧
      g.exceptionHandlingModification
        = (if m.exceptionHandling = .Unspecified then f.exceptionHandlingModification
           else m.exceptionHandling) ∧
      g.allowThreadModification
        = (if m.exceptionHandling = .Unspecified ∧ m.allowThread ≠ .Unspecified then m.allowThread
           else f.allowThreadModification) := by
  unfold applyExceptionAndThreadMods
  rw [List.foldl_cons]
  refine ⟨_, rfl, ?_, ?_⟩
  · by_cases he : m.exceptionHandling = .Unspecified
    · by_cases ha : m.allowThread = .Unspecified
      · simp [he, ha]
      · simp [he, ha]
    · simp [he]
  · by_cases he : m.exceptionHandling = .Unspecified
    · by_cases ha : m.allowThread = .Unspecified
      · simp [he, ha]
      · simp [he, ha]
    · simp [he]

theorem applyExceptionAndThreadMods_frame :
    ∀ (mods : List FunctionModification) (f : AbstractMetaFunction),
      ((∀ x ∈ mods, x.exceptionHandling = .Unspecified) →
        (applyExceptionAndThreadMods mods f).exceptionHandlingModification
          = f.exceptionHandlingModification) ∧
      ((∀ x ∈ mods, x.exceptionHandling ≠ .Unspecified ∨ x.allowThread = .Unspecified) →
        (applyExceptionAndThreadMods mods f).allowThreadModification
          = f.allowThreadModification) := by
  intro mods
  induction mods with
  | nil => intro f; exact ⟨fun _ => rfl, fun _ => rfl⟩
  | cons m rest ih =>
    intro f
    obtain ⟨g, hg, he, ha⟩ := applyExceptionAndThreadMods_cons m rest f
    rw [hg]
    refine ⟨?_, ?_⟩
    · intro h
      rw [(ih g).1 (fun x hx => h x (List.mem_cons_of_mem _ hx)), he,
        if_pos (h m (List.mem_cons_self _ _))]
    · intro h
      rw [(ih g).2 (fun x hx => h x (List.mem_cons_of_mem _ hx)), ha]
      rcases h m (List.mem_cons_self _ _) with h1 | h1
      · rw [if_neg (fun hc => h1 hc.1)]
      · rw [if_neg (fun hc => hc.2 h1)]

theorem setDefaultValue_settings (env : Env) (d : AbstractMetaBuilderPrivate)
    (currentClass : Option ClassId) (functionMods : List FunctionModification)
    (arguments : List ArgumentModelItem) (f : AbstractMetaFunction) (i : Nat) :
    (setDefaultValue env d currentClass functionMods arguments f i).exceptionHandlingModification
      = f.exceptionHandlingModification ∧
    (setDefaultValue env d currentClass functionMods arguments f i).allowThreadModification
      = f.allowThreadModification := by
  unfold setDefaultValue
  split
  · dsimp only
    split
    · exact ⟨rfl, rfl⟩
    · exact ⟨rfl, rfl⟩
  · exact ⟨rfl, rfl⟩

theorem foldl_setDefaultValue_settings (env : Env) (d : AbstractMetaBuilderPrivate)
    (currentClass : Option ClassId) (functionMods : List FunctionModification)
    (arguments : List ArgumentModelItem) :
    ∀ (l : List Nat) (f : AbstractMetaFunction),
      (l.foldl (setDefaultValue env d currentClass functionMods arguments)
          f).exceptionHandlingModification = f.exceptionHandlingModification ∧
      (l.foldl (setDefaultValue env d currentClass functionMods arguments)
          f).allowThreadModification = f.allowThreadModification := by
  intro l
  induction l with
  | nil => intro f; exact ⟨rfl, rfl⟩
  | cons i l ih =>
    intro f
    rw [List.foldl_cons]
    have h1 := ih (setDefaultValue env d currentClass functionMods arguments f i)
    have h2 := setDefaultValue_settings env d currentClass functionMods arguments f i
    exact ⟨h1.1.trans h2.1, h1.2.trans h2.2⟩

theorem determineSpecialFunction_settings (d : AbstractMetaBuilderPrivate)
    (currentClass : Option ClassId) (f : AbstractMetaFunction) :
    (determineSpecialFunction d currentClass f).exceptionHandlingModification
      = f.exceptionHandlingModification ∧
    (determineSpecialFunction d currentClass f).allowThreadModification
      = f.allowThreadModification := by
  unfold determineSpecialFunction
  split
  · dsimp only
    split
    · split
      · split
        · exact ⟨rfl, rfl⟩
        · split <;> exact ⟨rfl, rfl⟩
        · exact ⟨rfl, rfl⟩
      · exact ⟨rfl, rfl⟩
    · exact ⟨rfl, rfl⟩
  · exact ⟨rfl, rfl⟩

theorem applyArrayArgumentModification_settings (env : Env) (f f1 : AbstractMetaFunction)
    (argMod : ArgumentModification)
    (h : applyArrayArgumentModification env f argMod = some f1) :
    f1.exceptionHandlingModification = f.exceptionHandlingModification ∧
    f1.allowThreadModification = f.allowThreadModification := by
  unfold applyArrayArgumentModification at h
  split at h
  · dsimp only at h
    split at h
    · cases h
    · split at h
      · cases h
      · split at h
        · cases h
        · cases h
          exact ⟨rfl, rfl⟩
  · cases h
    exact ⟨rfl, rfl⟩

theorem applyArrayArgumentModificationsAux_settings (env : Env) :
    ∀ (mods : List ArgumentModification) (f : AbstractMetaFunction),
      (applyArrayArgumentModificationsAux env mods f).1.exceptionHandlingModification
        = f.exceptionHandlingModification ∧
      (applyArrayArgumentModificationsAux env mods f).1.allowThreadModification
        = f.allowThreadModification := by
  intro mods
  induction mods with
  | nil => intro f; exact ⟨rfl, rfl⟩
  | cons m rest ih =>
    intro f
    simp only [applyArrayArgumentModificationsAux]
    cases h : applyArrayArgumentModification env f m with
    | none => exact ⟨rfl, rfl⟩
    | some f1 =>
      dsimp only
      have h1 := applyArrayArgumentModification_settings env f f1 m h
      have h2 := ih f1
      exact ⟨h2.1.trans h1.1, h2.2.trans h1.2⟩

/-- The function that `traverseFunction` returns has the exception handling and
allow-thread modifications that the loop over the function modifications has
set; the later steps leave them alone. -/
theorem traverseFunctionArguments_settings (env : Env) (d : AbstractMetaBuilderPrivate)
    (item : FunctionModelItem) (currentClass : Option ClassId) (className sig : String)
    (f0 f : AbstractMetaFunction)
    (h : (traverseFunctionArguments env d item currentClass className sig f0).1 = some f) :
    ∃ metaArguments : List AbstractMetaArgument,
      f.exceptionHandlingModification
        = (applyExceptionAndThreadMods
            (env.modifications { f0 with arguments := metaArguments } (currentClass.map d.heap))
            { f0 with arguments := metaArguments }).exceptionHandlingModification ∧
      f.allowThreadModification
        = (applyExceptionAndThreadMods
            (env.modifications { f0 with arguments := metaArguments } (currentClass.map d.heap))
            { f0 with arguments := metaArguments }).allowThreadModification := by
  unfold traverseFunctionArguments at h
  dsimp only at h
  split at h
  · cases h
  · rename_i metaArguments _
    dsimp only at h
    cases h
    refine ⟨metaArguments, ?_, ?_⟩
    · rw [(determineSpecialFunction_settings d currentClass _).1]
      split
      · unfold applyArrayArgumentModifications fixArgumentNames
        rw [(applyArrayArgumentModificationsAux_settings env _ _).1]
        exact (foldl_setDefaultValue_settings env d currentClass _ _ _ _).1
      · exact (foldl_setDefaultValue_settings env d currentClass _ _ _ _).1
    · rw [(determineSpecialFunction_settings d currentClass _).2]
      split
      · unfold applyArrayArgumentModifications fixArgumentNames
        rw [(applyArrayArgumentModificationsAux_settings env _ _).2]
        exact (foldl_setDefaultValue_settings env d currentClass _ _ _ _).2
      · exact (foldl_setDefaultValue_settings env d currentClass _ _ _ _).2

/-- C38: the loop of `traverseFunction` over the matching function
modifications `mods`, taken in list order, overwrites the exception handling
modification of the function when a modification specifies exception handling,
and the allow-thread modification only when a modification specifies no
exception handling and specifies allow-thread.  (1) The exception handling
modification is that of the last modification that specifies one, and unchanged
without such a modification.  (2) The allow-thread modification is that of the
last modification that specifies allow-thread and no exception handling, and
unchanged without such a modification.  (3) A single modification that
specifies exception handling leaves the allow-thread modification untouched,
whether or not it specifies allow-thread.  (4) The function that
`traverseFunction` builds from the arguments on carries the two values that
this loop has set. -/
theorem applyExceptionAndThreadMods_last_wins (mods : List FunctionModification)
    (f : AbstractMetaFunction) :
    ((∀ pre m post, mods = pre ++ m :: post → m.exceptionHandling ≠ .Unspecified →
        (∀ x ∈ post, x.exceptionHandling = .Unspecified) →
        (applyExceptionAndThreadMods mods f).exceptionHandlingModification
          = m.exceptionHandling) ∧
      ((∀ x ∈ mods, x.exceptionHandling = .Unspecified) →
        (applyExceptionAndThreadMods mods f).exceptionHandlingModification
          = f.exceptionHandlingModification)) ∧
    ((∀ pre m post, mods = pre ++ m :: post →
        m.exceptionHandling = .Unspecified → m.allowThread ≠ .Unspecified →
        (∀ x ∈ post, x.exceptionHandling ≠ .Unspecified ∨ x.allowThread = .Unspecified) →
        (applyExceptionAndThreadMods mods f).allowThreadModification = m.allowThread) ∧
      ((∀ x ∈ mods, x.exceptionHandling ≠ .Unspecified ∨ x.allowThread = .Unspecified) →
        (applyExceptionAndThreadMods mods f).allowThreadModification
          = f.allowThreadModification)) ∧
    (∀ m : FunctionModification, m.exceptionHandling ≠ .Unspecified →
      (applyExceptionAndThreadMods [m] f).exceptionHandlingModification = m.exceptionHandling ∧
      (applyExceptionAndThreadMods [m] f).allowThreadModification
        = f.allowThreadModification) ∧
    (∀ (env : Env) (d : AbstractMetaBuilderPrivate) (item : FunctionModelItem)
        (currentClass : Option ClassId) (className sig : String) (f0 r : AbstractMetaFunction),
      (traverseFunctionArguments env d item currentClass className sig f0).1 = some r →
      ∃ metaArguments : List AbstractMetaArgument,
        r.exceptionHandlingModification
          = (applyExceptionAndThreadMods
              (env.modifications { f0 with arguments := metaArguments }
                (currentClass.map d.heap))
              { f0 with arguments := metaArguments }).exceptionHandlingModification ∧
        r.allowThreadModification
          = (applyExceptionAndThreadMods
              (env.modifications { f0 with arguments := metaArguments }
                (currentClass.map d.heap))
              { f0 with arguments := metaArguments }).allowThreadModification) := by
  have hsplit : ∀ pre m post (g0 : AbstractMetaFunction),
      ∃ g1 g : AbstractMetaFunction,
        applyExceptionAndThreadMods (pre ++ m :: post) g0 = applyExceptionAndThreadMods post g ∧
        g.exceptionHandlingModification
          = (if m.exceptionHandling = .Unspecified then g1.exceptionHandlingModification
             else m.exceptionHandling) ∧
        g.allowThreadModification
          = (if m.exceptionHandling = .Unspecified ∧ m.allowThread ≠ .Unspecified then
               m.allowThread
             else g1.allowThreadModification) := by
    intro pre m post g0
    obtain ⟨g, hg, he, ha⟩ := applyExceptionAndThreadMods_cons m post
      (applyExceptionAndThreadMods pre g0)
    exact ⟨_, g, by rw [applyExceptionAndThreadMods_append, hg], he, ha⟩
  refine ⟨⟨?_, (applyExceptionAndThreadMods_frame mods f).1⟩,
    ⟨?_, (applyExceptionAndThreadMods_frame mods f).2⟩, ?_, ?_⟩
  · intro pre m post hm hne hpost
    obtain ⟨g1, g, hg, he, _⟩ := hsplit pre m post f
    rw [hm, hg, (applyExceptionAndThreadMods_frame post g).1 hpost, he, if_neg hne]
  · intro pre m post hm he0 hne hpost
    obtain ⟨g1, g, hg, _, ha⟩ := hsplit pre m post f
    rw [hm, hg, (applyExceptionAndThreadMods_frame post g).2 hpost, ha, if_pos ⟨he0, hne⟩]
  · intro m hne
    obtain ⟨g, hg, he, ha⟩ := applyExceptionAndThreadMods_cons m [] f
    have hnil : applyExceptionAndThreadMods [] g = g := rfl
    rw [hg, hnil, he, ha, if_neg hne, if_neg (fun hc => hne hc.1)]
    exact ⟨rfl, rfl⟩
  · intro env d item currentClass className sig f0 r hr
    exact traverseFunctionArguments_settings env d item currentClass className sig f0 r hr

/-- Witness of C38: the modifications "exception handling 1, allow-thread 2"
and "allow-thread 3" in this order give the exception handling of the first
and the allow-thread of the second; the first alone leaves allow-thread
unspecified. -/
theorem applyExceptionAndThreadMods_last_wins_witness :
    (applyExceptionAndThreadMods [exceptionAndThread, threadOnly]
        fooFunction).exceptionHandlingModification = .Specified 1 ∧
    (applyExceptionAndThreadMods [exceptionAndThread, threadOnly]
        fooFunction).allowThreadModification = .Specified 3 ∧
    (applyExceptionAndThreadMods [exceptionAndThread] fooFunction).allowThreadModification
      = .Unspecified :=
  ⟨(applyExceptionAndThreadMods_last_wins [exceptionAndThread, threadOnly] fooFunction).1.1
      [] exceptionAndThread [threadOnly] rfl (by decide) (by decide),
   (applyExceptionAndThreadMods_last_wins [exceptionAndThread, threadOnly] fooFunction).2.1.1
      [exceptionAndThread] threadOnly [] rfl (by decide) (by decide) (by decide),
   ((applyExceptionAndThreadMods_last_wins [exceptionAndThread] fooFunction).2.2.1
      exceptionAndThread (by decide)).2⟩

/-! ## Indirections of a substituted template parameter (C33) -/

/-- C33: when `inheritTemplateType` replaces a type whose entry is a template
parameter by the type bound to the parameter (which is not void), the type
that it goes on with has the type entry of the bound type and the indirection
count 1 if the indirections of the bound type and those of the use add up to
more than zero, and 0 otherwise, so never more than 1.  (1) The call is the
call on that substituted type, after `decideUsagePattern`.  (2) When the entry
of the bound type is no template parameter, the use has no instantiations, and
`decideUsagePattern`, whose code is not part of the sources, keeps type entry,
instantiations and indirections, the call returns a type with that indirection
count, which is at most 1. -/
theorem inheritTemplateType_indirections (env : Env) (templateTypes : List AbstractMetaType)
    (fuel : Nat) (metaType templateType : AbstractMetaType)
    (hparam : metaType.typeEntry.isTemplateArgument = true)
    (hbound : templateTypes[metaType.typeEntry.ordinal]? = some templateType)
    (hvoid : templateType.typeEntry.isVoid = false) :
    inheritTemplateType env templateTypes (fuel + 1) metaType
      = inheritTemplateType env templateTypes fuel
          (env.decideUsagePattern
            { metaType with
              hasOriginalTemplateType := true,
              typeEntry := templateType.typeEntry,
              indirections :=
                if templateType.indirections + metaType.indirections != 0 then 1 else 0 }) ∧
    ((∀ t, (env.decideUsagePattern t).typeEntry = t.typeEntry ∧
        (env.decideUsagePattern t).instantiations = t.instantiations ∧
        (env.decideUsagePattern t).indirections = t.indirections) →
      templateType.typeEntry.isTemplateArgument = false →
      metaType.instantiations = [] →
      ∃ r, inheritTemplateType env templateTypes (fuel + 2) metaType = some (some r) ∧
        r.typeEntry = templateType.typeEntry ∧
        r.indirections
          = (if templateType.indirections + metaType.indirections = 0 then 0 else 1) ∧
        r.indirections ≤ 1) := by
  have hstep : ∀ k, inheritTemplateType env templateTypes (k + 1) metaType
      = inheritTemplateType env templateTypes k
          (env.decideUsagePattern
            { metaType with
              hasOriginalTemplateType := true,
              typeEntry := templateType.typeEntry,
              indirections :=
                if templateType.indirections + metaType.indirections != 0 then 1 else 0 }) := by
    intro k
    rw [inheritTemplateType]
    rw [if_neg (by simp [hparam])]
    dsimp only
    rw [if_pos hparam, hbound]
    dsimp only
    rw [if_neg (by simp [hvoid])]
  refine ⟨hstep fuel, ?_⟩
  intro hpat hnot hinst
  rw [hstep (fuel + 1)]
  obtain ⟨p1, p2, p3⟩ := hpat
    { metaType with
      hasOriginalTemplateType := true,
      typeEntry := templateType.typeEntry,
      indirections := if templateType.indirections + metaType.indirections != 0 then 1 else 0 }
  refine ⟨_, ?_, p1, ?_, ?_⟩
  · rw [inheritTemplateType]
    rw [if_pos]
    unfold AbstractMetaType.hasInstantiations
    rw [p1, p2]
    simp [hnot, hinst]
  · rw [p3]
    by_cases h0 : templateType.indirections + metaType.indirections = 0
    · simp [h0]
    · simp [h0]
  · rw [p3]
    dsimp only
    split <;> omega

/-- Witness of C33: the use `T *` with `T` bound to `Item *` gives `Item` with
one level of indirection. -/
theorem inheritTemplateType_indirections_witness :
    parameterPointerType.indirections = 1 ∧ itemPointerType.indirections = 1 ∧
    ∃ r, inheritTemplateType templateEnv [itemPointerType] 2 parameterPointerType
        = some (some r) ∧
      r.typeEntry = itemEntry ∧ r.indirections = 1 ∧ r.indirections ≤ 1 :=
  ⟨rfl, rfl,
   (inheritTemplateType_indirections templateEnv [itemPointerType] 0 parameterPointerType
      itemPointerType rfl rfl rfl).2 (fun _ => ⟨rfl, rfl, rfl⟩) rfl rfl⟩

/-! ## The replacement default expression of a global function (C34) -/

/-- C34: for a function traversed without a class whose first function
modification `mod` has the argument modifications `argMod :: argMods`, the
replacement expression that the default value loop of `traverseFunction` uses
is the replaced default expression of `argMod` for every argument position `i`,
whatever the index of `argMod` is.  (1) When it is not empty, the round for the
argument `i` sets the original expression to the result of `fixDefaultValue`
and the effective expression to the replacement, or to the empty string when
the default expression is removed.  (2) After the rounds for the first `n`
arguments each of them has the replacement as effective default expression,
unless its default expression is removed. -/
theorem setDefaultValue_global_replacement (env : Env) (d : AbstractMetaBuilderPrivate)
    (mod : FunctionModification) (mods : List FunctionModification)
    (argMod : ArgumentModification) (argMods : List ArgumentModification)
    (arguments : List ArgumentModelItem)
    (hmods : mod.argument_mods = argMod :: argMods)
    (hrep : isEmptyString argMod.replacedDefaultExpression = false) :
    (∀ (f : AbstractMetaFunction) (i : Nat) (arg : ArgumentModelItem)
        (metaArg : AbstractMetaArgument),
      arguments[i]? = some arg → f.arguments[i]? = some metaArg →
      (setDefaultValue env d none (mod :: mods) arguments f i).arguments[i]? =
        some { metaArg with
          originalDefaultValueExpression := fixDefaultValue env arg (some metaArg.type) f none i,
          defaultValueExpression :=
            if env.removedDefaultExpression f none (i + 1) then ""
            else argMod.replacedDefaultExpression }) ∧
    (∀ (f : AbstractMetaFunction) (n : Nat),
      n ≤ f.arguments.length → n ≤ arguments.length →
      ∀ j, j < n →
        ∃ (a : AbstractMetaArgument) (g : AbstractMetaFunction),
          ((List.range n).foldl (setDefaultValue env d none (mod :: mods) arguments)
            f).arguments[j]? = some a ∧
          a.defaultValueExpression
            = (if env.removedDefaultExpression g none (j + 1) then ""
               else argMod.replacedDefaultExpression)) := by
  have hstep : ∀ (f : AbstractMetaFunction) (i : Nat) (arg : ArgumentModelItem)
      (metaArg : AbstractMetaArgument),
      arguments[i]? = some arg → f.arguments[i]? = some metaArg →
      (setDefaultValue env d none (mod :: mods) arguments f i).arguments[i]? =
        some { metaArg with
          originalDefaultValueExpression := fixDefaultValue env arg (some metaArg.type) f none i,
          defaultValueExpression :=
            if env.removedDefaultExpression f none (i + 1) then ""
            else argMod.replacedDefaultExpression } ∧
      ∀ j, j ≠ i →
        (setDefaultValue env d none (mod :: mods) arguments f i).arguments[j]? =
          f.arguments[j]? := by
    intro f i arg metaArg harg hmeta
    have h := setDefaultValue_expressions env d none (mod :: mods) arguments f i arg metaArg
      argMod.replacedDefaultExpression harg hmeta (by dsimp only; rw [hmods])
      (by rw [hrep]; simp)
    refine ⟨?_, h.2⟩
    rw [h.1, hrep]
    rfl
  refine ⟨fun f i arg metaArg harg hmeta => (hstep f i arg metaArg harg hmeta).1, ?_⟩
  intro f n
  induction n with
  | zero =>
    intro _ _ j hj
    omega
  | succ n ih =>
    intro hn1 hn2 j hj
    rw [List.range_succ, List.foldl_append, List.foldl_cons, List.foldl_nil]
    have hlen := foldl_setDefaultValue_length env d none (mod :: mods) arguments (List.range n) f
    obtain ⟨arg, harg⟩ : ∃ arg, arguments[n]? = some arg :=
      ⟨arguments[n], List.getElem?_eq_getElem (by omega)⟩
    obtain ⟨metaArg, hmeta⟩ : ∃ metaArg,
        ((List.range n).foldl (setDefaultValue env d none (mod :: mods) arguments)
          f).arguments[n]? = some metaArg :=
      ⟨_, List.getElem?_eq_getElem (by rw [hlen]; omega)⟩
    obtain ⟨h1, h2⟩ := hstep _ n arg metaArg harg hmeta
    by_cases hjn : j = n
    · subst hjn
      exact ⟨_, _, h1, rfl⟩
    · rw [h2 j hjn]
      exact ih (by omega) (by omega) j (by omega)

/-- Witness of C34: the global function `void scale(int a, int b)` with the
rule that replaces the default expression of argument 2 by `B()`: after the
loop both arguments have the effective default expression `B()`. -/
theorem setDefaultValue_global_replacement_witness :
    scaleModification.argument_mods.map (fun m => (m.index, m.replacedDefaultExpression))
      = [(2, "B()")] ∧
    ((List.range 2).foldl
        (setDefaultValue scaleEnv oneClass none [scaleModification] scaleFunction.arguments)
        scaleMetaFunction).arguments.map (fun a => (a.name, a.defaultValueExpression))
      = [("a", "B()"), ("b", "B()")] ∧
    ∀ j, j < 2 →
      ∃ (a : AbstractMetaArgument) (g : AbstractMetaFunction),
        ((List.range 2).foldl
          (setDefaultValue scaleEnv oneClass none [scaleModification] scaleFunction.arguments)
          scaleMetaFunction).arguments[j]? = some a ∧
        a.defaultValueExpression
          = (if scaleEnv.removedDefaultExpression g none (j + 1) then "" else "B()") :=
  ⟨by decide, by decide,
   (setDefaultValue_global_replacement scaleEnv oneClass scaleModification []
      { index := 2, replacedDefaultExpression := "B()" } [] scaleFunction.arguments rfl
      (by decide)).2 scaleMetaFunction 2 (by decide) (by decide)⟩

/-! ## Default values of boolean arguments (C31) -/

/-- C31: for an argument whose type is primitive and named `boolean`,
`fixDefaultValue` returns `true` when the default expression is `true` or is
converted by `toInt` to a number other than zero, and `false` otherwise; the
result is one of the two literals.  (`QString::toInt` is not part of the
sources; it is taken not to convert the string `false`.) -/
theorem fixDefaultValue_boolean (env : Env) (item : ArgumentModelItem) (type : AbstractMetaType)
    (fnc : AbstractMetaFunction) (implementingClass : Option AbstractMetaClass)
    (argumentIndex : Nat)
    (hprim : env.typeIsPrimitive type = true) (hname : env.typeName type = "boolean")
    (hfalse : env.toInt "false" = none) :
    (item.defaultValueExpression = "true" →
      fixDefaultValue env item (some type) fnc implementingClass argumentIndex = "true") ∧
    (∀ n, env.toInt item.defaultValueExpression = some n → n ≠ 0 →
      fixDefaultValue env item (some type) fnc implementingClass argumentIndex = "true") ∧
    (item.defaultValueExpression ≠ "true" →
      (∀ n, env.toInt item.defaultValueExpression = some n → n = 0) →
      fixDefaultValue env item (some type) fnc implementingClass argumentIndex = "false") ∧
    (fixDefaultValue env item (some type) fnc implementingClass argumentIndex = "true" ∨
      fixDefaultValue env item (some type) fnc implementingClass argumentIndex = "false") := by
  have hstart : fixDefaultValue env item (some type) fnc implementingClass argumentIndex
      = (if (item.defaultValueExpression != "false" && item.defaultValueExpression != "true")
            = true then
          (env.toInt item.defaultValueExpression).elim "false"
            (fun number => if (number != 0) = true then "true" else "false")
        else item.defaultValueExpression) := by
    unfold fixDefaultValue
    simp only [hprim, hname, if_true, beq_self_eq_true]
    cases env.toInt item.defaultValueExpression <;> rfl
  rw [hstart]
  by_cases ht : item.defaultValueExpression = "true"
  · have hcond : ¬ ((item.defaultValueExpression != "false"
        && item.defaultValueExpression != "true") = true) := by
      simp [ht]
    rw [if_neg hcond]
    exact ⟨fun h => h, fun _ _ _ => ht, fun h => absurd ht h, Or.inl ht⟩
  · by_cases hf : item.defaultValueExpression = "false"
    · have hcond : ¬ ((item.defaultValueExpression != "false"
          && item.defaultValueExpression != "true") = true) := by
        simp [hf]
      rw [if_neg hcond]
      refine ⟨fun h => absurd h ht, ?_, fun _ _ => hf, Or.inr hf⟩
      intro n hn _
      rw [hf, hfalse] at hn
      cases hn
    · have hcond : (item.defaultValueExpression != "false"
          && item.defaultValueExpression != "true") = true := by
        simp [ht, hf]
      rw [if_pos hcond]
      refine ⟨fun h => absurd h ht, ?_, ?_, ?_⟩
      · intro n hn hne
        rw [hn]
        simp [Option.elim, hne]
      · intro _ hzero
        cases hn : env.toInt item.defaultValueExpression with
        | none => rfl
        | some n =>
          have := hzero n hn
          subst this
          rfl
      · cases hn : env.toInt item.defaultValueExpression with
        | none => exact Or.inr rfl
        | some n =>
          by_cases h0 : n = 0
          · subst h0
            exact Or.inr rfl
          · left
            simp [Option.elim, h0]

/-- Witness of C31: the default expressions `2`, `0`, `true`, `false` and
`Qt::Checked` of an argument of type `bool`. -/
theorem fixDefaultValue_boolean_witness :
    fixDefaultValue booleanEnv (flagArgument "2") (some booleanType) fooFunction none 0
      = "true" ∧
    fixDefaultValue booleanEnv (flagArgument "0") (some booleanType) fooFunction none 0
      = "false" ∧
    fixDefaultValue booleanEnv (flagArgument "true") (some booleanType) fooFunction none 0
      = "true" ∧
    fixDefaultValue booleanEnv (flagArgument "Qt::Checked") (some booleanType) fooFunction none 0
      = "false" :=
  ⟨(fixDefaultValue_boolean booleanEnv (flagArgument "2") booleanType fooFunction none 0
      (by decide) (by decide) (by decide)).2.1 2 (by decide) (by decide),
   (fixDefaultValue_boolean booleanEnv (flagArgument "0") booleanType fooFunction none 0
      (by decide) (by decide) (by decide)).2.2.1 (by decide)
      (by intro n h; have h0 : booleanEnv.toInt "0" = some 0 := by decide
          have h1 : (flagArgument "0").defaultValueExpression = "0" := rfl
          rw [h1, h0] at h; exact (Option.some.inj h).symm),
   (fixDefaultValue_boolean booleanEnv (flagArgument "true") booleanType fooFunction none 0
      (by decide) (by decide) (by decide)).1 rfl,
   (fixDefaultValue_boolean booleanEnv (flagArgument "Qt::Checked") booleanType fooFunction none 0
      (by decide) (by decide) (by decide)).2.2.1 (by decide)
      (by intro n h; have h0 : booleanEnv.toInt "Qt::Checked" = none := by decide
          have h1 : (flagArgument "Qt::Checked").defaultValueExpression = "Qt::Checked" := rfl
          rw [h1, h0] at h; cases h)⟩

/-! ## Parsing of template type names (C32, C39) -/

theorem indexOfFrom_none (p : Char → Bool) :
    ∀ (cs : List Char) (i : Nat), (∀ x ∈ cs, p x = false) → indexOfFrom p cs 0 i = none := by
  intro cs
  induction cs with
  | nil => intro i _; rfl
  | cons c rest ih =>
    intro i h
    rw [indexOfFrom, h c (List.mem_cons_self _ _)]
    simp only [Bool.and_false, Bool.false_eq_true, if_false]
    exact ih _ (fun x hx => h x (List.mem_cons_of_mem _ hx))

theorem indexOfFrom_first (p : Char → Bool) (c : Char) (rest : List Char) (hc : p c = true) :
    ∀ (pre : List Char) (i : Nat), (∀ x ∈ pre, p x = false) →
      indexOfFrom p (pre ++ c :: rest) 0 i = some (i + pre.length) := by
  intro pre
  induction pre with
  | nil =>
    intro i _
    rw [List.nil_append, indexOfFrom, hc]
    simp
  | cons a pre ih =>
    intro i h
    rw [List.cons_append, indexOfFrom, h a (List.mem_cons_self _ _)]
    simp only [Bool.and_false, Bool.false_eq_true, if_false]
    rw [ih _ (fun x hx => h x (List.mem_cons_of_mem _ hx))]
    simp only [List.length_cons]
    congr 1
    omega

/-- The loop of `parseTemplateType` runs through the text of one template
argument without adding to the result and without leaving. -/
theorem parseTemplateArguments_argument (name : List Char) :
    ∀ (a : List Char) (k : Nat), isTemplateArgumentText a k = true →
      ∀ (rest : List Char) (i n : Nat) (result : List String),
        parseTemplateArguments name (a ++ rest) i n ((k : Int) + 1) result
          = parseTemplateArguments name rest (i + a.length) n 1 result := by
  intro a
  induction a with
  | nil =>
    intro k h rest i n result
    have hk : k = 0 := by simpa [isTemplateArgumentText] using h
    subst hk
    simp
  | cons c a ih =>
    intro k h rest i n result
    rw [List.cons_append, parseTemplateArguments]
    rw [isTemplateArgumentText] at h
    have hlen : i + (c :: a).length = i + 1 + a.length := by
      simp only [List.length_cons]
      omega
    rw [hlen]
    by_cases h1 : c = '<'
    · subst h1
      simp only [beq_self_eq_true, if_true] at h ⊢
      have := ih (k + 1) h rest (i + 1) n result
      rw [← this]
      push_cast
      rfl
    · have h1b : (c == '<') = false := by simpa using h1
      rw [h1b] at h ⊢
      simp only [Bool.false_eq_true, if_false] at h ⊢
      by_cases h2 : c = '>'
      · subst h2
        simp only [beq_self_eq_true, if_true, Bool.and_eq_true, decide_eq_true_eq] at h ⊢
        obtain ⟨hk, hrest⟩ := h
        have hne : ((k : Int) + 1 - 1 == 0) = false := by
          simp
          omega
        rw [hne]
        simp only [Bool.false_eq_true, if_false]
        have := ih (k - 1) hrest rest (i + 1) n result
        rw [← this]
        congr 1
        omega
      · have h2b : (c == '>') = false := by simpa using h2
        rw [h2b] at h ⊢
        simp only [Bool.false_eq_true, if_false] at h ⊢
        by_cases h3 : c = ','
        · subst h3
          simp only [beq_self_eq_true, if_true, Bool.and_eq_true, decide_eq_true_eq] at h
          obtain ⟨hk, hrest⟩ := h
          have hne : ((',' : Char) == ',' && ((k : Int) + 1 == 1)) = false := by
            simp
            omega
          rw [hne]
          simp only [Bool.false_eq_true, if_false]
          exact ih k hrest rest (i + 1) n result
        · have h3b : (c == ',') = false := by simpa using h3
          rw [h3b] at h ⊢
          simp only [Bool.false_eq_true, if_false, Bool.false_and] at h ⊢
          exact ih k h rest (i + 1) n result

theorem midChars_append (pre a rest : List Char) (sep : Char) :
    midChars (pre ++ sep :: (a ++ rest)) (pre.length + 1) a.length = a := by
  unfold midChars
  have : pre ++ sep :: (a ++ rest) = (pre ++ [sep]) ++ (a ++ rest) := by simp
  rw [this]
  have hl : pre.length + 1 = (pre ++ [sep]).length := by simp
  rw [hl, List.drop_left, List.take_left]

/-- The loop of `parseTemplateType` on a well-formed argument list: it leaves
at the closing bracket, which is the last character, with the arguments but
the last one added to the result and the last one between `n` and `i`. -/
theorem parseTemplateArguments_list (name : List Char) :
    ∀ (as : List (List Char)) (a : List Char) (pre : List Char) (sep : Char)
      (result : List String),
      (∀ x ∈ a :: as, isTemplateArgumentText x 0 = true) →
      name = pre ++ sep :: (joinWithCommas (a :: as) ++ ['>']) →
      ∃ n1 : Nat,
        parseTemplateArguments name (joinWithCommas (a :: as) ++ ['>']) (pre.length + 1)
            pre.length 1 result
          = (name.length - 1, n1,
              result ++ ((a :: as).dropLast.map (fun x => String.mk (trimmedChars x)))) ∧
        midChars name (n1 + 1) (name.length - 1 - n1 - 1)
          = (a :: as).getLast (List.cons_ne_nil _ _) := by
  intro as
  induction as with
  | nil =>
    intro a pre sep result hall hname
    have ha := hall a (List.mem_cons_self _ _)
    have hlen : name.length - 1 = pre.length + 1 + a.length := by
      rw [hname]
      simp only [joinWithCommas, List.length_append, List.length_cons, List.length_nil]
      omega
    refine ⟨pre.length, ?_, ?_⟩
    · have hstep := parseTemplateArguments_argument name a 0 ha ['>'] (pre.length + 1) pre.length
        result
      simp only [joinWithCommas]
      simp only [Nat.cast_zero, zero_add] at hstep
      rw [hstep, parseTemplateArguments, hlen]
      simp
    · rw [hlen]
      have h2 : pre.length + 1 + a.length - pre.length - 1 = a.length := by omega
      rw [h2, hname]
      simp only [joinWithCommas, List.getLast_singleton]
      exact midChars_append pre a ['>'] sep
  | cons b bs ih =>
    intro a pre sep result hall hname
    have ha := hall a (List.mem_cons_self _ _)
    have hjoin : joinWithCommas (a :: b :: bs) = a ++ ',' :: joinWithCommas (b :: bs) := rfl
    have hname2 : name = (pre ++ sep :: a) ++ ',' :: (joinWithCommas (b :: bs) ++ ['>']) := by
      rw [hname, hjoin]
      simp
    obtain ⟨n1, h1, h2⟩ := ih b (pre ++ sep :: a) ','
      (result ++ [String.mk (trimmedChars a)])
      (fun x hx => hall x (List.mem_cons_of_mem _ hx)) hname2
    refine ⟨n1, ?_, ?_⟩
    · have hstep := parseTemplateArguments_argument name a 0 ha
        (',' :: (joinWithCommas (b :: bs) ++ ['>'])) (pre.length + 1) pre.length result
      simp only [Nat.cast_zero, zero_add] at hstep
      rw [hjoin, List.append_assoc, List.cons_append, hstep, parseTemplateArguments]
      have hmid : midChars name (pre.length + 1) (pre.length + 1 + a.length - pre.length - 1)
          = a := by
        have h3 : pre.length + 1 + a.length - pre.length - 1 = a.length := by omega
        rw [h3, hname, hjoin, List.append_assoc]
        exact midChars_append pre a _ sep
      have hl : (pre ++ sep :: a).length = pre.length + 1 + a.length := by
        simp only [List.length_append, List.length_cons]
        omega
      rw [hl] at h1
      simp only [hmid]
      have hc1 : ((',' : Char) == '<') = false := by decide
      have hc2 : ((',' : Char) == '>') = false := by decide
      simp only [hc1, hc2, Bool.false_eq_true, if_false, beq_self_eq_true, Bool.and_self, if_true]
      rw [h1]
      simp
    · rw [h2]
      simp [List.getLast_cons]

theorem dropLast_map_append_getLast (f : List Char → String) (l : List (List Char))
    (h : l ≠ []) : l.dropLast.map f ++ [f (l.getLast h)] = l.map f := by
  have := List.dropLast_append_getLast h
  conv_rhs => rw [← this]
  rw [List.map_append]
  rfl

theorem parseTemplateType_bracket (name : String) (n : Nat) (hn : n ≠ 0)
    (h : indexOfFrom (fun c => c == '<') name.data 0 0 = some n) :
    parseTemplateType name =
      (let r := parseTemplateArguments name.data (name.data.drop (n + 1)) (n + 1) n 1
          [String.mk (trimmedChars (name.data.take n))]
       if r.1 ≥ name.data.length then []
       else if r.1 + 1 < name.data.length then []
       else r.2.2 ++ [String.mk (trimmedChars (midChars name.data (r.2.1 + 1) (r.1 - r.2.1 - 1)))]) := by
  unfold parseTemplateType
  dsimp only
  rw [h]
  cases n with
  | zero => exact absurd rfl hn
  | succ m => rfl

/-- C32: for a name of the form `T<a1,...,an>` with `n >= 1`, where `T` is not
empty and holds no `<`, each `ai` has balanced angle brackets and no comma
outside of them, and the closing `>` is the last character,
`parseTemplateType` returns `T`, `a1`, ..., `an`, each with the surrounding
white space trimmed. -/
theorem parseTemplateType_arguments (templateName : List Char) (a : List Char)
    (as : List (List Char))
    (hT : templateName ≠ []) (hlt : ∀ x ∈ templateName, x ≠ '<')
    (hargs : ∀ x ∈ a :: as, isTemplateArgumentText x 0 = true) :
    parseTemplateType (String.mk (templateName ++ '<' :: (joinWithCommas (a :: as) ++ ['>'])))
      = (templateName :: a :: as).map (fun x => String.mk (trimmedChars x)) := by
  obtain ⟨t, ts, rfl⟩ : ∃ t ts, templateName = t :: ts := by
    cases templateName with
    | nil => exact absurd rfl hT
    | cons t ts => exact ⟨t, ts, rfl⟩
  have hidx : indexOfFrom (fun c => c == '<')
      ((t :: ts) ++ '<' :: (joinWithCommas (a :: as) ++ ['>'])) 0 0 = some (ts.length + 1) := by
    rw [indexOfFrom_first (fun c => c == '<') '<' _ (by decide) (t :: ts) 0
      (fun x hx => by simpa using hlt x hx)]
    simp
  obtain ⟨n1, h1, h2⟩ := parseTemplateArguments_list
    ((t :: ts) ++ '<' :: (joinWithCommas (a :: as) ++ ['>'])) as a (t :: ts) '<'
    [String.mk (trimmedChars (t :: ts))] hargs rfl
  have hlen : ((t :: ts) ++ '<' :: (joinWithCommas (a :: as) ++ ['>'])).length
      = (t :: ts).length + 1 + (joinWithCommas (a :: as)).length + 1 := by
    simp only [List.length_append, List.length_cons, List.length_nil]
    omega
  rw [parseTemplateType_bracket _ (ts.length + 1) (by omega) hidx]
  dsimp only
  have hdrop : ((t :: ts) ++ '<' :: (joinWithCommas (a :: as) ++ ['>'])).drop (ts.length + 1 + 1)
      = joinWithCommas (a :: as) ++ ['>'] := by
    have : (t :: ts) ++ '<' :: (joinWithCommas (a :: as) ++ ['>'])
        = ((t :: ts) ++ ['<']) ++ (joinWithCommas (a :: as) ++ ['>']) := by simp
    rw [this]
    have hl : ts.length + 1 + 1 = ((t :: ts) ++ ['<']).length := by simp
    rw [hl, List.drop_left]
  have htake : ((t :: ts) ++ '<' :: (joinWithCommas (a :: as) ++ ['>'])).take (ts.length + 1)
      = t :: ts := by
    have hl : ts.length + 1 = (t :: ts).length := rfl
    rw [hl, List.take_left]
  rw [hdrop, htake]
  have hl2 : (t :: ts).length = ts.length + 1 := rfl
  rw [hl2] at h1
  rw [h1]
  dsimp only
  rw [if_neg (by rw [hlen]; simp only [List.length_cons]; omega),
    if_neg (by rw [hlen]; simp only [List.length_cons]; omega), h2]
  rw [List.append_assoc, dropLast_map_append_getLast]
  rfl

/-- Witness of C32: the name `foo<A, bar<B, C>, D>` of the comment in the
source, and the same by evaluation. -/
theorem parseTemplateType_arguments_witness :
    parseTemplateType (String.mk ("foo".data ++ '<' ::
        (joinWithCommas ["A".data, " bar<B, C>".data, " D".data] ++ ['>'])))
      = ["foo", "A", "bar<B, C>", "D"] ∧
    parseTemplateType "foo<A, bar<B, C>, D>" = ["foo", "A", "bar<B, C>", "D"] :=
  ⟨parseTemplateType_arguments "foo".data "A".data [" bar<B, C>".data, " D".data]
      (by decide) (by decide) (by decide),
   by decide⟩

theorem parseTemplateArguments_closingBracket (name : List Char) :
    ∀ (rest : List Char) (i n d : Nat) (result : List String), 1 ≤ d →
      (parseTemplateArguments name rest i n (d : Int) result).1
        = i + (closingBracket rest d).getD rest.length := by
  intro rest
  induction rest with
  | nil => intro i n d result _; simp [parseTemplateArguments, closingBracket]
  | cons c rest ih =>
    intro i n d result hd
    unfold parseTemplateArguments closingBracket
    by_cases h1 : (c == '<') = true
    · rw [if_pos h1, if_pos h1]
      have := ih (i + 1) n (d + 1) result (by omega)
      rw [Nat.cast_add, Nat.cast_one] at this
      rw [this]
      cases closingBracket rest (d + 1) <;> simp <;> omega
    · rw [if_neg h1, if_neg h1]
      by_cases h2 : (c == '>') = true
      · rw [if_pos h2, if_pos h2]
        by_cases h3 : d ≤ 1
        · have hd1 : d = 1 := by omega
          subst hd1
          simp
        · have hne : (((d : Int) - 1 == 0) = true) ↔ False := by
            simp only [beq_iff_eq, iff_false]
            omega
          rw [if_neg (by rw [hne]; exact id), if_neg h3]
          have := ih (i + 1) n (d - 1) result (by omega)
          have hc : ((d - 1 : Nat) : Int) = (d : Int) - 1 := by omega
          rw [hc] at this
          rw [this]
          cases closingBracket rest (d - 1) <;> simp <;> omega
      · rw [if_neg h2, if_neg h2]
        by_cases h4 : (c == ',' && ((d : Int) == 1)) = true
        · rw [if_pos h4]
          rw [ih (i + 1) i d _ hd]
          cases closingBracket rest d <;> simp <;> omega
        · rw [if_neg h4]
          rw [ih (i + 1) n d _ hd]
          cases closingBracket rest d <;> simp <;> omega

theorem length_bracket (templateName rest : List Char) :
    (templateName ++ '<' :: rest).length = templateName.length + 1 + rest.length := by
  simp only [List.length_append, List.length_cons]
  omega

theorem drop_bracket (templateName rest : List Char) :
    (templateName ++ '<' :: rest).drop (templateName.length + 1) = rest := by
  have : templateName ++ '<' :: rest = (templateName ++ ['<']) ++ rest := by simp
  rw [this]
  have hl : templateName.length + 1 = (templateName ++ ['<']).length := by simp
  rw [hl, List.drop_left]

/-- C39: `parseTemplateType` returns the empty list for a name that begins
with `<`, for a name that holds a `>` and no `<`, for a name whose first `<`
has no closing `>`, and for a name with a character after the `>` that closes
the first `<`; it returns the list of the name alone for a name that holds
neither `<` nor `>`. -/
theorem parseTemplateType_rejections (name : String) :
    (∀ rest, name.data = '<' :: rest → parseTemplateType name = []) ∧
    ((∀ x ∈ name.data, x ≠ '<') → '>' ∈ name.data → parseTemplateType name = []) ∧
    ((∀ x ∈ name.data, x ≠ '<') → '>' ∉ name.data → parseTemplateType name = [name]) ∧
    (∀ templateName rest, name.data = templateName ++ '<' :: rest →
      (∀ x ∈ templateName, x ≠ '<') →
      (closingBracket rest 1 = none → parseTemplateType name = []) ∧
      (∀ k, closingBracket rest 1 = some k → k + 1 < rest.length →
        parseTemplateType name = [])) := by
  refine ⟨?_, ?_, ?_, ?_⟩
  · intro rest h
    unfold parseTemplateType
    dsimp only
    rw [h]
    rfl
  · intro hno hgt
    unfold parseTemplateType
    dsimp only
    rw [indexOfFrom_none (fun c => c == '<') name.data 0 (fun x hx => by simpa using hno x hx)]
    have : List.count '>' name.data ≠ 0 := by
      rw [Ne, List.count_eq_zero]
      exact fun h => h hgt
    simp [this]
  · intro hno hgt
    unfold parseTemplateType
    dsimp only
    rw [indexOfFrom_none (fun c => c == '<') name.data 0 (fun x hx => by simpa using hno x hx)]
    have : List.count '>' name.data = 0 := List.count_eq_zero.mpr hgt
    simp [this]
  · intro templateName rest h hno
    cases templateName with
    | nil =>
      have h0 : parseTemplateType name = [] := by
        unfold parseTemplateType
        dsimp only
        rw [h]
        rfl
      exact ⟨fun _ => h0, fun _ _ _ => h0⟩
    | cons t ts =>
      have hidx : indexOfFrom (fun c => c == '<') name.data 0 0 = some (ts.length + 1) := by
        rw [h, indexOfFrom_first (fun c => c == '<') '<' _ (by decide) (t :: ts) 0
          (fun x hx => by simpa using hno x hx)]
        simp
      have hbr := parseTemplateType_bracket name (ts.length + 1) (by omega) hidx
      have hd : name.data.drop (ts.length + 1 + 1) = rest := by
        rw [h]; exact drop_bracket (t :: ts) rest
      have hl : name.data.length = ts.length + 1 + 1 + rest.length := by
        rw [h]; exact length_bracket (t :: ts) rest
      rw [hd] at hbr
      dsimp only at hbr
      have hfst := parseTemplateArguments_closingBracket name.data rest (ts.length + 1 + 1)
        (ts.length + 1) 1 [String.mk (trimmedChars (name.data.take (ts.length + 1)))]
        (le_refl 1)
      rw [Nat.cast_one] at hfst
      refine ⟨fun hnone => ?_, fun k hk hlt => ?_⟩
      · rw [hnone] at hfst
        rw [hbr, if_pos (by rw [hfst, hl]; simp)]
      · rw [hk] at hfst
        rw [hbr, if_neg (by rw [hfst, hl]; simp; omega), if_pos (by rw [hfst, hl]; simp; omega)]

/-- Witness of C39: the names `<foo`, `foo>`, `foo<A`, `foo<A>x` and `foo`. -/
theorem parseTemplateType_rejections_witness :
    parseTemplateType "<foo" = [] ∧ parseTemplateType "foo>" = [] ∧
    parseTemplateType "foo" = ["foo"] ∧ parseTemplateType "foo<A" = [] ∧
    parseTemplateType "foo<A>x" = [] :=
  ⟨(parseTemplateType_rejections "<foo").1 "foo".data rfl,
   (parseTemplateType_rejections "foo>").2.1 (by decide) (by decide),
   (parseTemplateType_rejections "foo").2.2.1 (by decide) (by decide),
   ((parseTemplateType_rejections "foo<A").2.2.2 "foo".data "A".data rfl (by decide)).1 rfl,
   ((parseTemplateType_rejections "foo<A>x").2.2.2 "foo".data "A>x".data rfl (by decide)).2
     1 rfl (by decide)⟩

/-! ## Free operators of the global scope (C37) -/

theorem foldl_appendIf (p : FunctionModelItem → Bool) :
    ∀ (l acc : List FunctionModelItem),
      l.foldl (fun acc item => if p item then acc ++ [item] else acc) acc = acc ++ l.filter p := by
  intro l
  induction l with
  | nil => intro acc; simp
  | cons x l ih =>
    intro acc
    rw [List.foldl_cons, ih]
    by_cases h : p x = true
    · simp [h, List.filter_cons]
    · simp [h, List.filter_cons]

theorem binaryOperators_eq (findFunctions : String → List FunctionModelItem) :
    binaryOperators findFunctions =
      findFunctions "operator==" ++ findFunctions "operator!=" ++ findFunctions "operator<="
        ++ findFunctions "operator>=" ++ findFunctions "operator<" ++ findFunctions "operator+"
        ++ findFunctions "operator/"
        ++ (findFunctions "operator*").filter (fun item => !item.arguments.isEmpty)
        ++ (findFunctions "operator&").filter (fun item => !item.arguments.isEmpty)
        ++ findFunctions "operator-" ++ findFunctions "operator&" ++ findFunctions "operator|"
        ++ findFunctions "operator^" ++ findFunctions "operator~" ++ findFunctions "operator>" := by
  unfold binaryOperators
  dsimp only
  rw [foldl_appendIf (fun item => !item.arguments.isEmpty), List.filter_append]
  simp only [List.append_assoc]

open Classical in
theorem occursTimes_of_count :
    ∀ (k : Nat) (x : FunctionModelItem) (l : List FunctionModelItem),
      l.count x = k → occursTimes k x l := by
  intro k
  induction k with
  | zero =>
    intro x l h
    exact List.count_eq_zero.mp h
  | succ k ih =>
    intro x l h
    have hmem : x ∈ l := by
      by_contra hn
      rw [List.count_eq_zero.mpr hn] at h
      omega
    obtain ⟨l1, l2, rfl, hnot⟩ := List.eq_append_cons_of_mem hmem
    refine ⟨l1, l2, rfl, hnot, ih x l2 ?_⟩
    rw [List.count_append, List.count_cons_self, List.count_eq_zero.mpr hnot] at h
    omega

theorem not_mem_findFunctions (findFunctions : String → List FunctionModelItem)
    (hname : ∀ name, ∀ x ∈ findFunctions name, x.name = name)
    (x : FunctionModelItem) (name other : String) (hx : x ∈ findFunctions name)
    (hne : name ≠ other) : x ∉ findFunctions other := by
  intro h
  exact hne ((hname name x hx).symm.trans (hname other x h))

open Classical in
theorem count_binaryOperators (findFunctions : String → List FunctionModelItem)
    (hname : ∀ name, ∀ x ∈ findFunctions name, x.name = name)
    (hnodup : ∀ name, (findFunctions name).Nodup)
    (x : FunctionModelItem) (name : String) (hx : x ∈ findFunctions name) :
    (binaryOperators findFunctions).count x =
      if name = "operator&" then (if x.arguments = [] then 1 else 2)
      else if name = "operator*" then (if x.arguments = [] then 0 else 1)
      else if name ∈ plainOperatorNames then 1 else 0 := by
  have hother : ∀ other, name ≠ other → (findFunctions other).count x = 0 := fun other hne =>
    List.count_eq_zero.mpr (not_mem_findFunctions findFunctions hname x name other hx hne)
  have hself : (findFunctions name).count x = 1 := List.count_eq_one_of_mem (hnodup name) hx
  have hfilter : ∀ other, ((findFunctions other).filter (fun item => !item.arguments.isEmpty)).count x
      = if x.arguments = [] then 0 else (findFunctions other).count x := by
    intro other
    by_cases ha : x.arguments = []
    · rw [if_pos ha]
      apply List.count_eq_zero.mpr
      intro hm
      have := (List.mem_filter.mp hm).2
      simp [ha] at this
    · rw [if_neg ha]
      apply List.count_filter
      cases hxa : x.arguments with
      | nil => exact absurd hxa ha
      | cons a as => rfl
  rw [binaryOperators_eq]
  simp only [List.count_append, hfilter]
  by_cases h1 : name = "operator&"
  · subst h1
    rw [if_pos rfl, hself]
    repeat rw [hother _ (by decide)]
    by_cases ha : x.arguments = [] <;> simp [ha]
  · rw [if_neg h1, hother "operator&" h1]
    by_cases h2 : name = "operator*"
    · subst h2
      rw [if_pos rfl, hself]
      repeat rw [hother _ (by decide)]
      by_cases ha : x.arguments = [] <;> simp [ha]
    · rw [if_neg h2, hother "operator*" h2]
      by_cases h3 : name ∈ plainOperatorNames
      · rw [if_pos h3]
        simp only [plainOperatorNames, List.mem_cons, List.mem_singleton, List.not_mem_nil,
          or_false] at h3
        rcases h3 with h | h | h | h | h | h | h | h | h | h | h | h <;> subst h <;>
          rw [hself] <;> (repeat rw [hother _ (by decide)]) <;> simp
      · rw [if_neg h3]
        simp only [plainOperatorNames, List.mem_cons, List.mem_singleton, List.not_mem_nil,
          or_false, not_or] at h3
        obtain ⟨a1, a2, a3, a4, a5, a6, a7, a8, a9, a10, a11, a12⟩ := h3
        rw [hother _ a1, hother _ a2, hother _ a3, hother _ a4, hother _ a5, hother _ a6,
          hother _ a7, hother _ a8, hother _ a9, hother _ a10, hother _ a11, hother _ a12]
        simp

theorem traverseOperatorFunctions_append (env : Env) (d : AbstractMetaBuilderPrivate)
    (l1 l2 : List FunctionModelItem) :
    traverseOperatorFunctions env d (l1 ++ l2)
      = traverseOperatorFunctions env (traverseOperatorFunctions env d l1) l2 := by
  unfold traverseOperatorFunctions
  rw [List.foldl_append]

theorem traverseOperatorFunctions_cons (env : Env) (d : AbstractMetaBuilderPrivate)
    (x : FunctionModelItem) (l : List FunctionModelItem) :
    traverseOperatorFunctions env d (x :: l)
      = traverseOperatorFunctions env (traverseOperatorFunction env d x none) l := rfl

/-- C37, amended: let `findFunctions` give for each name the functions of that
name, each one once.  In the list of free operators that `traverseDom` passes
to `traverseOperatorFunction`, a function named `operator&` with at least one
argument occurs exactly twice, and `traverseOperatorFunction` is called for it
twice; a function named `operator&` without arguments occurs once; a function
named `operator*` occurs once when it has an argument and not at all when it
has none; a function of each of the other twelve operator names occurs once. -/
theorem binaryOperators_occurrences (env : Env) (d : AbstractMetaBuilderPrivate)
    (findFunctions : String → List FunctionModelItem)
    (hname : ∀ name, ∀ x ∈ findFunctions name, x.name = name)
    (hnodup : ∀ name, (findFunctions name).Nodup) :
    (∀ x ∈ findFunctions "operator&", x.arguments ≠ [] →
      occursTimes 2 x (binaryOperators findFunctions) ∧
      ∃ l1 l2 l3, binaryOperators findFunctions = l1 ++ x :: (l2 ++ x :: l3) ∧
        x ∉ l1 ∧ x ∉ l2 ∧ x ∉ l3 ∧
        traverseDomOperators env d findFunctions =
          traverseOperatorFunctions env
            (traverseOperatorFunction env
              (traverseOperatorFunctions env
                (traverseOperatorFunction env (traverseOperatorFunctions env d l1) x none) l2)
              x none) l3) ∧
    (∀ x ∈ findFunctions "operator&", x.arguments = [] →
      occursTimes 1 x (binaryOperators findFunctions)) ∧
    (∀ x ∈ findFunctions "operator*", x.arguments ≠ [] →
      occursTimes 1 x (binaryOperators findFunctions)) ∧
    (∀ x ∈ findFunctions "operator*", x.arguments = [] →
      occursTimes 0 x (binaryOperators findFunctions)) ∧
    (∀ name ∈ plainOperatorNames, ∀ x ∈ findFunctions name,
      occursTimes 1 x (binaryOperators findFunctions)) := by
  classical
  refine ⟨?_, ?_, ?_, ?_, ?_⟩
  · intro x hx ha
    have hc := count_binaryOperators findFunctions hname hnodup x "operator&" hx
    rw [if_pos rfl, if_neg ha] at hc
    have h2 := occursTimes_of_count 2 x _ hc
    refine ⟨h2, ?_⟩
    obtain ⟨l1, r, hr, hn1, m, l3, hm, hn2, hn3⟩ := h2
    refine ⟨l1, m, l3, by rw [hr, hm], hn1, hn2, hn3, ?_⟩
    unfold traverseDomOperators
    rw [hr, hm, traverseOperatorFunctions_append, traverseOperatorFunctions_cons,
      traverseOperatorFunctions_append, traverseOperatorFunctions_cons]
  · intro x hx ha
    have hc := count_binaryOperators findFunctions hname hnodup x "operator&" hx
    rw [if_pos rfl, if_pos ha] at hc
    exact occursTimes_of_count 1 x _ hc
  · intro x hx ha
    have hc := count_binaryOperators findFunctions hname hnodup x "operator*" hx
    rw [if_neg (by decide), if_pos rfl, if_neg ha] at hc
    exact occursTimes_of_count 1 x _ hc
  · intro x hx ha
    have hc := count_binaryOperators findFunctions hname hnodup x "operator*" hx
    rw [if_neg (by decide), if_pos rfl, if_pos ha] at hc
    exact occursTimes_of_count 0 x _ hc
  · intro name hn x hx
    have hc := count_binaryOperators findFunctions hname hnodup x name hx
    have h1 : name ≠ "operator&" := by
      intro h; subst h; revert hn; decide
    have h2 : name ≠ "operator*" := by
      intro h; subst h; revert hn; decide
    rw [if_neg h1, if_neg h2, if_pos hn] at hc
    exact occursTimes_of_count 1 x _ hc

/-- Witness of C37: the global scope with the one function `andOperator`,
which is listed twice. -/
theorem binaryOperators_occurrences_witness :
    andOperator ∈ andFunctions "operator&" ∧ andOperator.arguments ≠ [] ∧
    occursTimes 2 andOperator (binaryOperators andFunctions) ∧
    binaryOperators andFunctions = [andOperator, andOperator] := by
  have hname : ∀ name, ∀ x ∈ andFunctions name, x.name = name := by
    intro name x hx
    unfold andFunctions at hx
    by_cases h : name = "operator&"
    · subst h
      simp at hx
      subst hx
      rfl
    · simp [h] at hx
  have hnodup : ∀ name, (andFunctions name).Nodup := by
    intro name
    unfold andFunctions
    by_cases h : name = "operator&" <;> simp [h]
  have hmem : andOperator ∈ andFunctions "operator&" := by
    simp [andFunctions]
  have hargs : andOperator.arguments ≠ [] := by
    simp [andOperator]
  exact ⟨hmem, hargs,
    ((binaryOperators_occurrences {} {} andFunctions hname hnodup).1 andOperator hmem hargs).1,
    rfl⟩

/-- Counterexample to C37 as stated: the function `derefOperator` of the
listed name `operator*` has no arguments; it is in the global scope, and the
list of free operators is empty, so it does not occur once. -/
theorem binaryOperators_operatorStar_counterexample :
    derefFunctions "operator*" = [derefOperator] ∧ derefOperator.arguments = [] ∧
    binaryOperators derefFunctions = [] :=
  ⟨rfl, rfl, rfl⟩

/-! ## Template arguments without a type entry (C35) -/

theorem templateTypeList_filterMap (env : Env) (d : AbstractMetaBuilderPrivate)
    (subclass templateClass : AbstractMetaClass) :
    ∀ l : List TypeInfo,
      (templateTypeList env d subclass templateClass l).1
        = l.filterMap (fun i =>
            (templateArgumentEntry env d subclass templateClass i).1.map
              (fun e => templateArgumentType env e i)) := by
  intro l
  induction l with
  | nil => rfl
  | cons i rest ih =>
    unfold templateTypeList
    dsimp only
    cases he : (templateArgumentEntry env d subclass templateClass i).1 with
    | none =>
      rw [List.filterMap_cons, he, ← ih]
      rfl
    | some t =>
      rw [List.filterMap_cons, he, ← ih]
      rfl

theorem filterMap_all_some {α β : Type} (f : α → Option β) :
    ∀ l : List α, (∀ i ∈ l, (f i).isSome = true) →
      (l.filterMap f).length = l.length ∧ ∀ k : Nat, (l.filterMap f)[k]? = (l[k]?).bind f := by
  intro l
  induction l with
  | nil => intro _; exact ⟨rfl, fun k => by simp⟩
  | cons a rest ih =>
    intro h
    obtain ⟨b, hb⟩ := Option.isSome_iff_exists.mp (h a (List.mem_cons_self _ _))
    obtain ⟨h1, h2⟩ := ih (fun i hi => h i (List.mem_cons_of_mem _ hi))
    rw [List.filterMap_cons, hb]
    dsimp only
    refine ⟨by simp [h1], fun k => ?_⟩
    cases k with
    | zero => simp [hb]
    | succ k => simpa using h2 k

theorem inheritTemplateType_unboundParameter (env : Env) (templateTypes : List AbstractMetaType)
    (fuel : Nat) (type : AbstractMetaType) (h : unboundParameter templateTypes type = true) :
    inheritTemplateType env templateTypes (fuel + 1) type = some none := by
  unfold unboundParameter at h
  rw [Bool.and_eq_true, decide_eq_true_eq] at h
  obtain ⟨h1, h2⟩ := h
  unfold inheritTemplateType
  rw [if_neg (by simp [h1])]
  dsimp only
  rw [if_pos h1, List.getElem?_eq_none h2]

theorem inheritTemplateType_unboundParameter_ne (env : Env)
    (templateTypes : List AbstractMetaType) (fuel : Nat) (type r : AbstractMetaType)
    (h : unboundParameter templateTypes type = true) :
    inheritTemplateType env templateTypes fuel type ≠ some (some r) := by
  cases fuel with
  | zero =>
    unfold inheritTemplateType
    intro hc
    cases hc
  | succ k =>
    rw [inheritTemplateType_unboundParameter env templateTypes k type h]
    intro hc
    cases hc

theorem inheritTemplateArguments_length_lt_of (env : Env) (templateTypes : List AbstractMetaType)
    (fuel : Nat) (p : AbstractMetaType → Bool)
    (hp : ∀ type r, p type = true → inheritTemplateType env templateTypes fuel type ≠ some (some r)) :
    ∀ (arguments acc res : List AbstractMetaArgument),
      inheritTemplateArguments env templateTypes fuel arguments acc = some res →
      arguments.any (fun a => p a.type) = true →
      res.length < acc.length + arguments.length := by
  intro arguments
  induction arguments with
  | nil =>
    intro acc res _ hany
    cases hany
  | cons a rest ih =>
    intro acc res h hany
    unfold inheritTemplateArguments at h
    cases hx : inheritTemplateType env templateTypes fuel a.type with
    | none =>
      rw [hx] at h
      cases h
    | some o =>
      cases o with
      | none =>
        rw [hx] at h
        dsimp only at h
        cases h
        simp
      | some argType =>
        rw [hx] at h
        dsimp only at h
        rw [List.any_cons, Bool.or_eq_true] at hany
        rcases hany with ha | hrest
        · exact absurd hx (hp a.type argType ha)
        · have := ih _ res h hrest
          simp only [List.length_append, List.length_singleton, List.length_cons,
            List.length_nil] at this ⊢
          omega

theorem inheritTemplateFunction_usesUnboundParameter (env : Env)
    (templateTypes : List AbstractMetaType) (fuel : Nat) (subclassFuncs : List AbstractMetaFunction)
    (cls : ClassId) (subclass : AbstractMetaClass) (function f : AbstractMetaFunction)
    (h : usesUnboundParameter templateTypes function = true) :
    inheritTemplateFunction env templateTypes fuel subclassFuncs cls subclass function
      ≠ .inherited f := by
  have hp := fun type r => inheritTemplateType_unboundParameter_ne env templateTypes fuel type r
  intro hc
  unfold inheritTemplateFunction at hc
  split at hc
  · cases hc
  · dsimp only at hc
    unfold usesUnboundParameter at h
    rw [Bool.or_eq_true] at h
    cases ht : function.type with
    | some type =>
      rw [ht] at hc h
      dsimp only at hc h
      cases hx : inheritTemplateType env templateTypes fuel type with
      | none =>
        rw [hx] at hc
        cases hc
      | some o =>
        cases o with
        | none =>
          rw [hx] at hc
          cases hc
        | some returnType =>
          rw [hx] at hc
          dsimp only at hc
          rcases h with h | h
          · exact hp type returnType h hx
          · cases ha : inheritTemplateArguments env templateTypes fuel function.arguments [] with
            | none =>
              rw [ha] at hc
              cases hc
            | some arguments =>
              rw [ha] at hc
              dsimp only at hc
              have hlt := inheritTemplateArguments_length_lt_of env templateTypes fuel _ hp
                _ _ _ ha h
              rw [if_pos (by simpa using hlt)] at hc
              cases hc
    | none =>
      rw [ht] at hc h
      dsimp only at hc h
      rcases h with h | h
      · cases h
      · cases ha : inheritTemplateArguments env templateTypes fuel function.arguments [] with
        | none =>
          rw [ha] at hc
          cases hc
        | some arguments =>
          rw [ha] at hc
          dsimp only at hc
          have hlt := inheritTemplateArguments_length_lt_of env templateTypes fuel _ hp
            _ _ _ ha h
          rw [if_pos (by simpa using hlt)] at hc
          cases hc

theorem inheritTemplateField_unboundParameter (env : Env) (templateTypes : List AbstractMetaType)
    (fuel : Nat) (subClassFields : List AbstractMetaField) (cls : ClassId)
    (field f : AbstractMetaField) (h : unboundParameter templateTypes field.type = true) :
    inheritTemplateField env templateTypes fuel subClassFields cls field ≠ .inherited f := by
  intro hc
  unfold inheritTemplateField at hc
  split at hc
  · cases hc
  · split at hc
    · cases hc
    · cases hc
    · rename_i fieldType hx
      exact inheritTemplateType_unboundParameter_ne env templateTypes fuel field.type fieldType
        h hx

theorem inheritTemplateFunctions_named_of (env : Env) (templateTypes : List AbstractMetaType)
    (fuel : Nat) (templateClass : AbstractMetaClass)
    (cls : ClassId) (n : String) (uses : AbstractMetaFunction → Bool)
    (huses : ∀ subclassFuncs subclass g f, uses g = true →
      inheritTemplateFunction env templateTypes fuel subclassFuncs cls subclass g
        ≠ .inherited f) :
    ∀ (functions : List AbstractMetaFunction) (subclassFuncs : List AbstractMetaFunction)
      (subclass r : AbstractMetaClass),
      inheritTemplateFunctions env templateTypes fuel subclassFuncs templateClass cls functions
        subclass = some r →
      (∀ g ∈ functions, (g.name = n ∨ (g.isConstructor = true ∧ subclass.name = n)) →
        uses g = true) →
      r.functions.filter (fun f => f.name == n) = subclass.functions.filter (fun f => f.name == n)
        ∧ r.name = subclass.name ∧ r.isTypeDef = subclass.isTypeDef
        ∧ r.fields = subclass.fields := by
  intro functions
  induction functions with
  | nil =>
    intro subclassFuncs subclass r h _
    unfold inheritTemplateFunctions at h
    cases h
    exact ⟨rfl, rfl, rfl, rfl⟩
  | cons g rest ih =>
    intro subclassFuncs subclass r h hall
    unfold inheritTemplateFunctions at h
    cases hstep : inheritTemplateFunction env templateTypes fuel subclassFuncs cls subclass g with
    | outOfFuel =>
      rw [hstep] at h
      cases h
    | skipped =>
      rw [hstep] at h
      dsimp only at h
      exact ih _ subclass r h (fun g1 hg1 => hall g1 (List.mem_cons_of_mem _ hg1))
    | inherited f =>
      rw [hstep] at h
      dsimp only at h
      obtain ⟨f1, hfun, hname, _, hcn, htd, hfld⟩ :=
        addInheritedFunction_spec env templateClass cls subclass g f
      have hrec := ih _ _ r h (fun g1 hg1 hor => hall g1 (List.mem_cons_of_mem _ hg1)
        (by rw [hcn] at hor; exact hor))
      obtain ⟨hfname, hfcons⟩ :=
        (inheritTemplateFunction_name env templateTypes fuel subclassFuncs cls subclass g f hstep).2
      have hnot : ¬ (g.name = n ∨ (g.isConstructor = true ∧ subclass.name = n)) := by
        intro hor
        exact huses subclassFuncs subclass g f (hall g (List.mem_cons_self _ _) hor) hstep
      have hne : f1.name ≠ n := by
        rw [hname, hfname]
        intro heq
        by_cases hc : g.isConstructor = true
        · rw [if_pos hc] at heq
          exact hnot (Or.inr ⟨hc, heq⟩)
        · rw [if_neg hc] at heq
          exact hnot (Or.inl heq)
      refine ⟨?_, hrec.2.1.trans hcn, hrec.2.2.1.trans htd, hrec.2.2.2.trans hfld⟩
      rw [hrec.1, hfun, List.filter_append]
      have hb : (f1.name == n) = false := by simpa using hne
      have : List.filter (fun f => f.name == n) [f1] = [] := by
        simp [List.filter, hb]
      rw [this, List.append_nil]

theorem inheritTemplateFields_named_of (env : Env) (templateTypes : List AbstractMetaType)
    (fuel : Nat) (cls : ClassId) (n : String) (uses : AbstractMetaField → Bool)
    (huses : ∀ subClassFields g f, uses g = true →
      inheritTemplateField env templateTypes fuel subClassFields cls g ≠ .inherited f) :
    ∀ (fields : List AbstractMetaField) (subClassFields : List AbstractMetaField)
      (subclass r : AbstractMetaClass),
      inheritTemplateFields env templateTypes fuel subClassFields cls fields subclass = some r →
      (∀ g ∈ fields, g.name = n → uses g = true) →
      r.fields.filter (fun f => f.name == n) = subclass.fields.filter (fun f => f.name == n)
        ∧ r.functions = subclass.functions ∧ r.name = subclass.name
        ∧ r.isTypeDef = subclass.isTypeDef := by
  intro fields
  induction fields with
  | nil =>
    intro subClassFields subclass r h _
    unfold inheritTemplateFields at h
    cases h
    exact ⟨rfl, rfl, rfl, rfl⟩
  | cons g rest ih =>
    intro subClassFields subclass r h hall
    unfold inheritTemplateFields at h
    cases hstep : inheritTemplateField env templateTypes fuel subClassFields cls g with
    | outOfFuel =>
      rw [hstep] at h
      cases h
    | skipped =>
      rw [hstep] at h
      dsimp only at h
      exact ih _ subclass r h (fun g1 hg1 => hall g1 (List.mem_cons_of_mem _ hg1))
    | inherited f =>
      rw [hstep] at h
      dsimp only at h
      have hrec := ih _ _ r h (fun g1 hg1 => hall g1 (List.mem_cons_of_mem _ hg1))
      have hne : f.name ≠ n := by
        rw [inheritTemplateField_name env templateTypes fuel subClassFields cls g f hstep]
        intro heq
        exact huses subClassFields g f (hall g (List.mem_cons_self _ _) heq) hstep
      refine ⟨?_, hrec.2.1, hrec.2.2.1, hrec.2.2.2⟩
      rw [hrec.1]
      dsimp only
      rw [List.filter_append]
      have hb : (f.name == n) = false := by simpa using hne
      have : List.filter (fun f => f.name == n) [f] = [] := by
        simp [List.filter, hb]
      rw [this, List.append_nil]

theorem inheritedTemplateTypes_skipped (env : Env) (d : AbstractMetaBuilderPrivate)
    (cls templ : ClassId) (info : TypeInfo) (pre post : List TypeInfo) (x : TypeInfo)
    (hinfo : info.instantiations = pre ++ x :: post)
    (hpre : ∀ i ∈ pre, (templateArgumentEntry env d
      (inheritTypedefFlags (d.heap cls) (d.heap templ)) (d.heap templ) i).1.isSome = true)
    (hx : (templateArgumentEntry env d
      (inheritTypedefFlags (d.heap cls) (d.heap templ)) (d.heap templ) x).1 = none)
    (hpost : ∀ i ∈ post, (templateArgumentEntry env d
      (inheritTypedefFlags (d.heap cls) (d.heap templ)) (d.heap templ) i).1.isSome = true) :
    (inheritedTemplateTypes env d cls templ info).length = pre.length + post.length ∧
    ∀ j i, pre.length ≤ j → info.instantiations[j + 1]? = some i →
      ∃ e, (templateArgumentEntry env d
          (inheritTypedefFlags (d.heap cls) (d.heap templ)) (d.heap templ) i).1 = some e ∧
        (inheritedTemplateTypes env d cls templ info)[j]? = some (templateArgumentType env e i) := by
  unfold inheritedTemplateTypes
  rw [templateTypeList_filterMap, hinfo, List.filterMap_append,
    List.filterMap_cons_none (by show Option.map _ _ = none; rw [hx]; rfl)]
  have hsome : ∀ i, (templateArgumentEntry env d (inheritTypedefFlags (d.heap cls) (d.heap templ))
      (d.heap templ) i).1.isSome = true →
      ((fun i => (templateArgumentEntry env d (inheritTypedefFlags (d.heap cls) (d.heap templ))
        (d.heap templ) i).1.map (fun e => templateArgumentType env e i)) i).isSome = true := by
    intro i h
    obtain ⟨e, he⟩ := Option.isSome_iff_exists.mp h
    show (Option.map _ _).isSome = true
    rw [he]
    rfl
  obtain ⟨hl1, _⟩ := filterMap_all_some (fun i =>
      (templateArgumentEntry env d (inheritTypedefFlags (d.heap cls) (d.heap templ))
        (d.heap templ) i).1.map (fun e => templateArgumentType env e i)) pre
    (fun i hi => hsome i (hpre i hi))
  obtain ⟨hl2, hg2⟩ := filterMap_all_some (fun i =>
      (templateArgumentEntry env d (inheritTypedefFlags (d.heap cls) (d.heap templ))
        (d.heap templ) i).1.map (fun e => templateArgumentType env e i)) post
    (fun i hi => hsome i (hpost i hi))
  refine ⟨by rw [List.length_append, hl1, hl2], ?_⟩
  intro j i hj hi
  have hidx : (pre ++ x :: post)[j + 1]? = post[j - pre.length]? := by
    rw [List.getElem?_append_right (by omega)]
    have : j + 1 - pre.length = (j - pre.length) + 1 := by omega
    rw [this, List.getElem?_cons_succ]
  rw [hidx] at hi
  rw [List.getElem?_append_right (by omega), hl1, hg2, hi]
  dsimp only [Option.bind]
  have hmem : i ∈ post := List.getElem?_mem hi
  obtain ⟨e, he⟩ := Option.isSome_iff_exists.mp (hpost i hmem)
  exact ⟨e, he, by rw [he]; rfl⟩
/-- C35: let the template arguments of `info` be `pre`, `x`, `post`, where `x`
has no type entry and all the others have one.  (1) The list of instantiation
types of `inheritTemplate` is one shorter than the argument list.  (2) For
`j` at or after the position of `x`, the element `j` of the list is the type
built from the argument written at position `j + 1`, and `inheritTemplateType`
substitutes a template parameter of ordinal `j` by it.  (3) For a template
parameter whose ordinal is at or beyond the length of the shortened list
`inheritTemplateType` returns no type, (4) the loop bodies specialise no
function whose return type or an argument type is such a parameter and no
field whose type is such a parameter, and (5) when `inheritTemplate` returns,
the subclass has got no function named `n` and no field named `m`, provided
that every member of the template class that would be given that name uses
such a parameter. -/
theorem inheritTemplate_skipped_argument (env : Env) (d : AbstractMetaBuilderPrivate)
    (cls templ : ClassId) (info : TypeInfo) (pre post : List TypeInfo) (x : TypeInfo)
    (hinfo : info.instantiations = pre ++ x :: post)
    (hpre : ∀ i ∈ pre, (templateArgumentEntry env d
      (inheritTypedefFlags (d.heap cls) (d.heap templ)) (d.heap templ) i).1.isSome = true)
    (hx : (templateArgumentEntry env d
      (inheritTypedefFlags (d.heap cls) (d.heap templ)) (d.heap templ) x).1 = none)
    (hpost : ∀ i ∈ post, (templateArgumentEntry env d
      (inheritTypedefFlags (d.heap cls) (d.heap templ)) (d.heap templ) i).1.isSome = true) :
    (inheritedTemplateTypes env d cls templ info).length + 1 = info.instantiations.length ∧
    (∀ j i, pre.length ≤ j → info.instantiations[j + 1]? = some i →
      ∃ e, (templateArgumentEntry env d
          (inheritTypedefFlags (d.heap cls) (d.heap templ)) (d.heap templ) i).1 = some e ∧
        (inheritedTemplateTypes env d cls templ info)[j]? = some (templateArgumentType env e i) ∧
        ∀ (metaType : AbstractMetaType) (k : Nat),
          metaType.typeEntry.isTemplateArgument = true → metaType.typeEntry.ordinal = j →
          (templateArgumentType env e i).typeEntry.isVoid = false →
          inheritTemplateType env (inheritedTemplateTypes env d cls templ info) (k + 1) metaType
            = inheritTemplateType env (inheritedTemplateTypes env d cls templ info) k
                (env.decideUsagePattern
                  { metaType with
                    hasOriginalTemplateType := true,
                    typeEntry := (templateArgumentType env e i).typeEntry,
                    indirections :=
                      if (templateArgumentType env e i).indirections + metaType.indirections != 0
                      then 1 else 0 })) ∧
    (∀ (type : AbstractMetaType) (k : Nat), type.typeEntry.isTemplateArgument = true →
      pre.length + post.length ≤ type.typeEntry.ordinal →
      unboundParameter (inheritedTemplateTypes env d cls templ info) type = true ∧
      inheritTemplateType env (inheritedTemplateTypes env d cls templ info) (k + 1) type
        = some none) ∧
    ((∀ (fuel : Nat) (subclassFuncs : List AbstractMetaFunction) (subclass : AbstractMetaClass)
        (g f : AbstractMetaFunction),
        usesUnboundParameter (inheritedTemplateTypes env d cls templ info) g = true →
        inheritTemplateFunction env (inheritedTemplateTypes env d cls templ info) fuel
          subclassFuncs cls subclass g ≠ .inherited f) ∧
      (∀ (fuel : Nat) (subClassFields : List AbstractMetaField) (g f : AbstractMetaField),
        unboundParameter (inheritedTemplateTypes env d cls templ info) g.type = true →
        inheritTemplateField env (inheritedTemplateTypes env d cls templ info) fuel
          subClassFields cls g ≠ .inherited f)) ∧
    (∀ (fuel : Nat) (r : AbstractMetaBuilderPrivate) (n m : String),
      inheritTemplate env fuel d cls templ info = some r →
      ((∀ g ∈ (d.heap templ).functions,
          (g.name = n ∨ (g.isConstructor = true ∧ (d.heap cls).name = n)) →
          usesUnboundParameter (inheritedTemplateTypes env d cls templ info) g = true) →
        (r.heap cls).functions.filter (fun f => f.name == n)
          = (d.heap cls).functions.filter (fun f => f.name == n)) ∧
      ((∀ g ∈ (d.heap templ).fields, g.name = m →
          unboundParameter (inheritedTemplateTypes env d cls templ info) g.type = true) →
        (r.heap cls).fields.filter (fun f => f.name == m)
          = (d.heap cls).fields.filter (fun f => f.name == m))) := by
  obtain ⟨hlen, hget⟩ := inheritedTemplateTypes_skipped env d cls templ info pre post x hinfo
    hpre hx hpost
  refine ⟨?_, ?_, ?_, ⟨?_, ?_⟩, ?_⟩
  · rw [hlen, hinfo, List.length_append, List.length_cons]
    omega
  · intro j i hj hi
    obtain ⟨e, he, hje⟩ := hget j i hj hi
    refine ⟨e, he, hje, ?_⟩
    intro metaType k hparam hord hvoid
    rw [inheritTemplateType]
    rw [if_neg (by simp [hparam])]
    dsimp only
    rw [if_pos hparam, hord, hje]
    dsimp only
    rw [if_neg (by simp [hvoid])]
  · intro type k hparam hord
    have hu : unboundParameter (inheritedTemplateTypes env d cls templ info) type = true := by
      unfold unboundParameter
      rw [hparam, hlen]
      simpa using hord
    exact ⟨hu, inheritTemplateType_unboundParameter env _ k type hu⟩
  · intro fuel subclassFuncs subclass g f h
    exact inheritTemplateFunction_usesUnboundParameter env _ fuel subclassFuncs cls subclass g f h
  · intro fuel subClassFields g f h
    exact inheritTemplateField_unboundParameter env _ fuel subClassFields cls g f h
  · intro fuel r n m hr
    obtain ⟨subclass2, subclass3, h2, h3, hfun, hfld, _⟩ :=
      inheritTemplate_some env fuel d r cls templ info hr
    have hflags := inheritTypedefFlags_keeps (d.heap cls) (d.heap templ)
    refine ⟨?_, ?_⟩
    · intro hall
      have hloop := inheritTemplateFunctions_named_of env _ fuel (d.heap templ) cls n
        (usesUnboundParameter (inheritedTemplateTypes env d cls templ info))
        (fun subclassFuncs subclass g f h =>
          inheritTemplateFunction_usesUnboundParameter env _ fuel subclassFuncs cls subclass g f h)
        _ _ _ _ h2 (by rw [hflags.2.2.1]; exact hall)
      have hkeep := inheritTemplateFields_keeps env _ fuel cls _ _ _ _ h3
      rw [hfun, hkeep.1, hloop.1, hflags.1]
    · intro hall
      have hloop := inheritTemplateFields_named_of env _ fuel cls m
        (fun g => unboundParameter (inheritedTemplateTypes env d cls templ info) g.type)
        (fun subClassFields g f h =>
          inheritTemplateField_unboundParameter env _ fuel subClassFields cls g f h)
        _ _ _ _ h3 hall
      have hkeep := inheritTemplateFunctions_keeps env _ fuel (d.heap templ) cls _ _ _ _ h2
      rw [hfld, hloop.1, hkeep.2.2, hflags.2.1]

/-- Witness of C35: `Entry`, a subclass of `Pair<Unknown, int>`, where
`Pair<T, V>` has the members `T first()`, `V second()` and `V value`, and
`Unknown` has no type entry: the list of instantiation types is `int` alone,
`first` is specialised to return `int`, the argument written at position 1,
and `Entry` gets no function `second` and no field `value`. -/
theorem inheritTemplate_skipped_argument_witness :
    (inheritedTemplateTypes templateEnv (pairModel [firstFunction, secondFunction] [valueField])
        0 1 pairOfUnknownInt).map (fun t => t.typeEntry.name) = ["int"] ∧
    (inheritTemplate templateEnv 2 (pairModel [firstFunction, secondFunction] [valueField])
        0 1 pairOfUnknownInt).isSome = true ∧
    ((((inheritTemplate templateEnv 2 (pairModel [firstFunction, secondFunction] [valueField])
        0 1 pairOfUnknownInt).getD {}).heap 0).functions.map
          (fun f => (f.name, f.type.map (fun t => t.typeEntry.name)))) = [("first", some "int")] ∧
    ((((inheritTemplate templateEnv 2 (pairModel [firstFunction, secondFunction] [valueField])
        0 1 pairOfUnknownInt).getD {}).heap 0).functions.filter (fun f => f.name == "second"))
      = [] ∧
    ((((inheritTemplate templateEnv 2 (pairModel [firstFunction, secondFunction] [valueField])
        0 1 pairOfUnknownInt).getD {}).heap 0).fields.filter (fun f => f.name == "value")) = [] :=
  have h := (inheritTemplate_skipped_argument templateEnv
    (pairModel [firstFunction, secondFunction] [valueField]) 0 1 pairOfUnknownInt
    [] [intTypeInfo] unknownTypeInfo rfl (by decide) (by decide) (by decide)).2.2.2.2 2 _
    "second" "value" (eq_some_getD _ {} (by decide))
  ⟨by decide, by decide, by decide, h.1 (by decide), h.2 (by decide)⟩

/-! ## The last primary candidate becomes the base class (C36) -/

theorem primaryBaseIndex_cons (env : Env) (name : String) (rest : List String) (i : Nat)
    (primary : Option Nat) :
    primaryBaseIndex env (name :: rest) i primary
      = primaryBaseIndex env rest (i + 1)
          (if isPrimaryCandidate env name = true then some i else primary) := by
  unfold isPrimaryCandidate
  rw [primaryBaseIndex]
  by_cases hr : env.types.isClassRejected name = true
  · simp [hr]
  · cases hf : env.types.findType name with
    | none => simp [hr]
    | some e =>
      by_cases hd : e.designatedInterface.isNone = true
      · simp [hr, hd]
      · simp [hr, hd]

theorem primaryBaseIndex_none (env : Env) :
    ∀ (names : List String) (i : Nat) (primary : Option Nat),
      (∀ m ∈ names, isPrimaryCandidate env m = false) →
      primaryBaseIndex env names i primary = primary := by
  intro names
  induction names with
  | nil => intro i primary _; rfl
  | cons name rest ih =>
    intro i primary h
    rw [primaryBaseIndex_cons, h name (List.mem_cons_self _ _)]
    simp only [Bool.false_eq_true, if_false]
    exact ih _ _ (fun m hm => h m (List.mem_cons_of_mem _ hm))

theorem primaryBaseIndex_last (env : Env) (n : String) (post : List String)
    (hn : isPrimaryCandidate env n = true)
    (hpost : ∀ m ∈ post, isPrimaryCandidate env m = false) :
    ∀ (pre : List String) (i : Nat) (primary : Option Nat),
      primaryBaseIndex env (pre ++ n :: post) i primary = some (i + pre.length) := by
  intro pre
  induction pre with
  | nil =>
    intro i primary
    rw [List.nil_append, primaryBaseIndex_cons, if_pos hn, primaryBaseIndex_none env post _ _ hpost]
    rfl
  | cons name rest ih =>
    intro i primary
    rw [List.cons_append, primaryBaseIndex_cons, ih]
    simp only [List.length_cons]
    congr 1
    omega

theorem setupInterfaces_adds (env : Env)
    (setup : AbstractMetaBuilderPrivate → ClassId → Option (Bool × AbstractMetaBuilderPrivate))
    (hkeep : KeepsDone setup)
    (hsame : ∀ d r x b, setup d x = some (b, r) → SameClassNames d r)
    (cls : ClassId) (primary : Option Nat) :
    ∀ (names : List String) (i : Nat) (d r : AbstractMetaBuilderPrivate),
      cls ∈ d.m_setupInheritanceDone →
      setupInterfaces env setup cls primary names i d = some (true, r) →
      (r.heap cls).baseClass = (d.heap cls).baseClass ∧
      (∀ x ∈ (d.heap cls).interfaces, x ∈ (r.heap cls).interfaces) ∧
      ∀ (k : Nat) (name : String), names[k]? = some name →
        env.types.isClassRejected name = false → primary ≠ some (i + k) →
        ∃ (d1 d2 : AbstractMetaBuilderPrivate) (baseClass : ClassId) (b : Bool) (iface : ClassId),
          SameClassNames d d1 ∧
          env.findClass d1.heap d1.m_metaClasses name = some baseClass ∧
          setup d1 baseClass = some (b, d2) ∧
          env.findClass d2.heap d2.m_metaClasses (interfaceClassName (d2.heap baseClass))
            = some iface ∧
          iface ∈ (r.heap cls).interfaces ∧
          ∀ j ∈ ((setClass d2 cls (addInterface (d2.heap cls) iface)).heap iface).interfaces,
            j ∈ (r.heap cls).interfaces := by
  intro names
  induction names with
  | nil =>
    intro i d r _ h
    unfold setupInterfaces at h
    cases h
    refine ⟨rfl, fun _ hx => hx, ?_⟩
    intro k name hk
    simp at hk
  | cons name rest ih =>
    intro i d r hcls h
    unfold setupInterfaces at h
    split at h
    · rename_i hrej
      obtain ⟨h1, h2, h3⟩ := ih _ _ _ hcls h
      refine ⟨h1, h2, ?_⟩
      intro k nm hk hr hp
      cases k with
      | zero =>
        simp only [List.getElem?_cons_zero, Option.some.injEq] at hk
        subst hk
        rw [hrej] at hr
        cases hr
      | succ k =>
        rw [List.getElem?_cons_succ] at hk
        exact h3 k nm hk hr (by rw [Nat.add_assoc, Nat.add_comm 1 k]; exact hp)
    · split at h
      · rename_i hprim
        obtain ⟨h1, h2, h3⟩ := ih _ _ _ hcls h
        refine ⟨h1, h2, ?_⟩
        intro k nm hk hr hp
        cases k with
        | zero => exact absurd hprim hp
        | succ k =>
          rw [List.getElem?_cons_succ] at hk
          exact h3 k nm hk hr (by rw [Nat.add_assoc, Nat.add_comm 1 k]; exact hp)
      · split at h
        · cases h
        · rename_i baseClass hfind
          split at h
          · cases h
          · rename_i b1 d1 hcall
            obtain ⟨hheap, hdone⟩ := hkeep _ _ _ _ hcall
            have hs1 := hsame _ _ _ _ hcall
            dsimp only at h
            split at h
            · cases h
            · rename_i iface hiface
              have hcls3 : cls ∈ (setClass (setClass d1 cls (addInterface (d1.heap cls) iface)) cls
                  (((setClass d1 cls (addInterface (d1.heap cls) iface)).heap iface).interfaces.foldl
                    addInterface ((setClass d1 cls (addInterface (d1.heap cls) iface)).heap cls))
                  ).m_setupInheritanceDone := by
                rw [setClass_done, setClass_done]
                exact hdone cls hcls
              obtain ⟨h1, h2, h3⟩ := ih _ _ _ hcls3 h
              have hspec := foldl_addInterface_spec
                ((setClass d1 cls (addInterface (d1.heap cls) iface)).heap iface).interfaces
                ((setClass d1 cls (addInterface (d1.heap cls) iface)).heap cls)
              rw [setClass_heap_self] at h1 h2
              rw [hspec.1, setClass_heap_self] at h1
              rw [hspec.2, setClass_heap_self] at h2
              have hd1 : d1.heap cls = d.heap cls := hheap cls hcls
              have hs3 : SameClassNames d
                  (setClass (setClass d1 cls (addInterface (d1.heap cls) iface)) cls
                    (((setClass d1 cls (addInterface (d1.heap cls) iface)).heap iface).interfaces.foldl
                      addInterface ((setClass d1 cls (addInterface (d1.heap cls) iface)).heap cls))) := by
                refine sameClassNames_trans hs1 ?_
                refine sameClassNames_trans
                  (sameClassNames_setClass d1 cls (addInterface (d1.heap cls) iface) rfl)
                  (sameClassNames_setClass _ cls _ ?_)
                rw [foldl_addInterface_classNames]
              refine ⟨?_, ?_, ?_⟩
              · rw [h1]
                show (d1.heap cls).baseClass = _
                rw [hd1]
              · intro x hx
                apply h2
                rw [← hd1] at hx
                simp [addInterface, hx]
              · intro k nm hk hr hp
                cases k with
                | zero =>
                  simp only [List.getElem?_cons_zero, Option.some.injEq] at hk
                  subst hk
                  refine ⟨d, d1, baseClass, b1, iface, sameClassNames_refl d, hfind, hcall,
                    hiface, ?_, ?_⟩
                  · apply h2
                    simp [addInterface]
                  · intro j hj
                    apply h2
                    simp [hj]
                | succ k =>
                  rw [List.getElem?_cons_succ] at hk
                  obtain ⟨e1, e2, bc, b, ifc, hsn, r1, r2, r3, r4, r5⟩ :=
                    h3 k nm hk hr (by rw [Nat.add_assoc, Nat.add_comm 1 k]; exact hp)
                  exact ⟨e1, e2, bc, b, ifc, sameClassNames_trans hs3 hsn, r1, r2, r3, r4, r5⟩
/-- C36, amended: let `setupInheritance` not have been called on the class
before, let its base class names `pre`, `n`, `post` not be the single
template-syntax case, `n` being the last name that the registry does not
reject and has an entry without designated interface for, and let the call
return `true`.  (1) The first loop takes the index of `n` as primary, whatever
candidates `pre` holds.  (2) The base class of the class is the class found
under `n`.  (3) For every other base class name that the registry does not
reject, the model has a class under the name, the call of `setupInheritance`
on it has returned, the model has a class `iface` under the interface name of
that class, and `iface` and the interfaces of `iface` are in the interface list
of the class.  The states in which the classes are looked up have the class
lists and the class names of the state at the start. -/
theorem setupInheritance_last_primary_base (env : Env) (fuel : Nat)
    (d r : AbstractMetaBuilderPrivate) (cls : ClassId) (pre post : List String) (n : String)
    (hnew : cls ∉ d.m_setupInheritanceDone)
    (hbases : (d.heap cls).baseClassNames = pre ++ n :: post)
    (hmulti : templateBaseName (pre ++ n :: post) = none)
    (hn : isPrimaryCandidate env n = true)
    (hpost : ∀ m ∈ post, isPrimaryCandidate env m = false)
    (hr : setupInheritance env (fuel + 1) d cls = some (true, r)) :
    primaryBaseIndex env (d.heap cls).baseClassNames 0 none = some pre.length ∧
    (∃ b, env.findClass d.heap d.m_metaClasses n = some b ∧ (r.heap cls).baseClass = some b) ∧
    (∀ (k : Nat) (name : String), k ≠ pre.length →
      (d.heap cls).baseClassNames[k]? = some name → env.types.isClassRejected name = false →
      ∃ (d1 d2 : AbstractMetaBuilderPrivate) (baseClass : ClassId) (b : Bool) (iface : ClassId),
        SameClassNames d d1 ∧
        env.findClass d1.heap d1.m_metaClasses name = some baseClass ∧
        setupInheritance env fuel d1 baseClass = some (b, d2) ∧
        env.findClass d2.heap d2.m_metaClasses (interfaceClassName (d2.heap baseClass))
          = some iface ∧
        iface ∈ (r.heap cls).interfaces ∧
        ∀ j ∈ ((setClass d2 cls (addInterface (d2.heap cls) iface)).heap iface).interfaces,
          j ∈ (r.heap cls).interfaces) := by
  have hprim : primaryBaseIndex env (d.heap cls).baseClassNames 0 none = some pre.length := by
    rw [hbases, primaryBaseIndex_last env n post hn hpost pre 0 none, Nat.zero_add]
  have hget : (d.heap cls).baseClassNames.getD pre.length "" = n := by
    rw [hbases, List.getD_eq_getElem?_getD, List.getElem?_append_right (le_refl _), Nat.sub_self]
    simp
  have hmulti1 : templateBaseName (d.heap cls).baseClassNames = none := by
    rw [hbases]
    exact hmulti
  unfold setupInheritance at hr
  rw [if_neg hnew] at hr
  dsimp only at hr
  rw [hmulti1] at hr
  dsimp only at hr
  rw [hprim] at hr
  dsimp only at hr
  rw [hget] at hr
  refine ⟨hprim, ?_⟩
  cases hb : env.findClass d.heap d.m_metaClasses n with
  | none =>
    rw [hb] at hr
    cases hr
  | some b =>
    rw [hb] at hr
    dsimp only at hr
    obtain ⟨h1, _, h3⟩ := setupInterfaces_adds env (setupInheritance env fuel)
      (setupInheritance_keepsDone env fuel) (setupInheritance_sameClassNames env fuel)
      cls (some pre.length) _ 0 _ r
      (by rw [setClass_done]; exact List.mem_cons_self _ _) hr
    rw [setClass_heap_self] at h1
    refine ⟨⟨b, rfl, h1⟩, ?_⟩
    intro k name hk hname hrej
    obtain ⟨d1, d2, baseClass, b1, iface, hsn, r1, r2, r3, r4, r5⟩ :=
      h3 k name hname hrej (by
        rw [Nat.zero_add]
        intro h
        exact hk (Option.some.inj h).symm)
    have hs2 : SameClassNames d
        (setClass { d with m_setupInheritanceDone := cls :: d.m_setupInheritanceDone } cls
          { d.heap cls with baseClass := some b }) :=
      @sameClassNames_trans d
        { d with m_setupInheritanceDone := cls :: d.m_setupInheritanceDone } _
        ⟨rfl, rfl, fun _ => rfl⟩ (sameClassNames_setClass _ cls _ rfl)
    exact ⟨d1, d2, baseClass, b1, iface, sameClassNames_trans hs2 hsn, r1, r2, r3, r4, r5⟩

/-- Witness of C36: `D : public B, public A`, both `B` and `A` registered
without designated interface: the last one, `A` (class 1), is the base class,
and `B` (class 2) is in the interface list. -/
theorem setupInheritance_last_primary_base_witness :
    ∃ r, setupInheritance twoPrimariesEnv 2 (basesModel ["B", "A"]) 0 = some (true, r) ∧
      primaryBaseIndex twoPrimariesEnv ((basesModel ["B", "A"]).heap 0).baseClassNames 0 none
        = some 1 ∧
      (r.heap 0).baseClass = some 1 ∧ (r.heap 0).interfaces = [2] := by
  have h := eq_some_getD (setupInheritance twoPrimariesEnv 2 (basesModel ["B", "A"]) 0)
    (true, {}) (by decide)
  have hfst : ((setupInheritance twoPrimariesEnv 2 (basesModel ["B", "A"]) 0).getD
      (true, {})).1 = true := by decide
  have hr : setupInheritance twoPrimariesEnv 2 (basesModel ["B", "A"]) 0
      = some (true, ((setupInheritance twoPrimariesEnv 2 (basesModel ["B", "A"]) 0).getD
          (true, {})).2) :=
    h.trans (congrArg some (Prod.ext hfst rfl))
  obtain ⟨hp, ⟨b, hb, hbase⟩, _⟩ := setupInheritance_last_primary_base twoPrimariesEnv 1
    (basesModel ["B", "A"]) _ 0 ["B"] [] "A" (by decide) rfl rfl (by decide) (by decide) hr
  have hb1 : twoPrimariesEnv.findClass (basesModel ["B", "A"]).heap
      (basesModel ["B", "A"]).m_metaClasses "A" = some 1 := by decide
  rw [hb1] at hb
  refine ⟨_, hr, hp, ?_, by decide⟩
  rw [hbase, ← hb]

/-- Counterexample to C36 as stated: `D : public Missing, public B, public A`,
where `B` and `A` are registered without designated interface and are classes
of the model, no name is rejected, and `Missing` is no class of the model.  The
second loop of `setupInheritance(D)` ends at `Missing` with `false`: `A` is the
base class, and `B` is not in the interface list. -/
theorem setupInheritance_missing_base_stops_interfaces :
    ((basesModel ["Missing", "B", "A"]).heap 0).baseClassNames = ["Missing", "B", "A"] ∧
    isPrimaryCandidate twoPrimariesEnv "B" = true ∧
    isPrimaryCandidate twoPrimariesEnv "A" = true ∧
    twoPrimariesEnv.types.isClassRejected "Missing" = false ∧
    twoPrimariesEnv.findClass (basesModel ["Missing", "B", "A"]).heap
      (basesModel ["Missing", "B", "A"]).m_metaClasses "B" = some 2 ∧
    twoPrimariesEnv.findClass (basesModel ["Missing", "B", "A"]).heap
      (basesModel ["Missing", "B", "A"]).m_metaClasses "Missing" = none ∧
    (setupInheritance twoPrimariesEnv 2 (basesModel ["Missing", "B", "A"]) 0).map
        (fun r => (r.1, (r.2.heap 0).baseClass, (r.2.heap 0).interfaces))
      = some (false, some 1, []) := by
  refine ⟨by decide, by decide, by decide, by decide, by decide, by decide, by decide⟩

end ApiExtractor
